import Mathlib

/-!
# FHIRPath expression engine (`cc/google/fhir/fhir_path/fhir_path.cc`)

A shallow embedding of the expression tree of the FHIRPath engine and the
properties its specification states about it.

* A *collection* (`std::vector<const Message*>`) is a `List Message`.
* `Status` / `StatusOr<T>` is `Except Status T`; `Status::OK()` is `Except.ok`.
* `ExpressionNode::Evaluate(work_space, results)` appends to the vector
  `*results` it is handed.  A node is therefore a function from the work space
  and the contents of `*results` before the call to the status and the contents
  of `*results` after the call.
-/

namespace fhir_path

/-! ## Status -/

/-- Modelled from the spec: the non-OK statuses of status/status.h, with their
message (`InvalidArgument` for the evaluation errors, `FailedPrecondition` for
a constraint violation). -/
inductive Status where
  | InvalidArgument (error_message : String)
  | FailedPrecondition (error_message : String)
deriving DecidableEq, Repr

/-- Embeds `StatusOr<T>`: a value, or a non-OK status. -/
abbrev StatusOr (T : Type) : Type := Except Status T

/-! ## Schema adapter: descriptors and messages -/

/-- Modelled from the spec: FieldDescriptor, the "immutable field metadata" of
the schema adapter, of which the expression tree reads the wire name and the
JSON name. -/
structure FieldDescriptor where
  name : String
  json_name : String
deriving DecidableEq, Repr

/-- Modelled from the spec: Descriptor, the "immutable schema of a composite
type: full name, ordered fields" (`field_count()`, `field(i)`), with the
"primitive-kind predicate": whether its `structure_definition_kind` option is
`KIND_PRIMITIVE_TYPE`. -/
structure Descriptor where
  full_name : String
  is_primitive : Bool
  fields : List FieldDescriptor
deriving DecidableEq, Repr

/-- Modelled from the spec: the precision of a date-time (`DateTime::Precision`
of `proto/r4/core/datatypes.proto`): "year, month, day, second, sub-second". -/
inductive DateTime.Precision where
  | PRECISION_UNSPECIFIED
  | YEAR
  | MONTH
  | DAY
  | SECOND
  | MILLISECOND
  | MICROSECOND
deriving DecidableEq, Repr

/-- Modelled from the spec: the content of a DateTime message: the instant in
microseconds since the Unix epoch (`value_us()`), the time zone as text
(`timezone()`) and the precision (`precision()`). -/
structure DateTime where
  value_us : Int
  timezone : String
  precision : DateTime.Precision
deriving DecidableEq, Repr

/-- Modelled from the spec: Message, "a live node in the data tree", which "has
a Descriptor".

The FHIR primitive wrappers that the expression tree reads through
`dynamic_cast` have a constructor each, holding the wrapper's `value()`;
`primitive` is a primitive of any other type (a code, a date, ...), given by
its descriptor and the JSON form of its value; `composite` is a message of a
non-primitive type with the values of its set fields, keyed by the wire name
of the field, in field order. -/
inductive Message where
  | Boolean (value : Bool)
  | Integer (value : Int)
  | UnsignedInt (value : Nat)
  | Decimal (value : String)
  | String (value : String)
  | DateTime (value : DateTime)
  | primitive (descriptor : Descriptor) (json : String)
  | composite (descriptor : Descriptor) (fields : List (String × List Message))

/-- Descriptor of a primitive wrapper type of `proto/r4/core/datatypes.proto`. -/
def PrimitiveDescriptor (name : String) : Descriptor :=
  { full_name := "google.fhir.r4.core." ++ name, is_primitive := true,
    fields := [{ name := "value", json_name := "value" }] }

/-- Descriptor of a message: `message.GetDescriptor()`. -/
def GetDescriptor : Message → Descriptor
  | .Boolean _ => PrimitiveDescriptor "Boolean"
  | .Integer _ => PrimitiveDescriptor "Integer"
  | .UnsignedInt _ => PrimitiveDescriptor "UnsignedInt"
  | .Decimal _ => PrimitiveDescriptor "Decimal"
  | .String _ => PrimitiveDescriptor "String"
  | .DateTime _ => PrimitiveDescriptor "DateTime"
  | .primitive descriptor _ => descriptor
  | .composite descriptor _ => descriptor

/-- Modelled from the spec: IsPrimitive (annotations.h), the "primitive-kind
predicate on a descriptor": its `structure_definition_kind` is
`KIND_PRIMITIVE_TYPE`, the test that `HasValueFunction::Evaluate` spells out. -/
def IsPrimitive (descriptor : Descriptor) : Bool :=
  descriptor.is_primitive

/-- Modelled from the spec: AreSameMessageType (util.h), "both operands have the
same Descriptor". -/
def AreSameMessageType (left right : Message) : Bool :=
  decide (GetDescriptor left = GetDescriptor right)

mutual
/-- Modelled from the spec: `MessageDifferencer::Equals`, the "deep structural
equality" of two messages. -/
def MessageDifferencer.Equals : Message → Message → Bool
  | .Boolean a, .Boolean b => a == b
  | .Integer a, .Integer b => a == b
  | .UnsignedInt a, .UnsignedInt b => a == b
  | .Decimal a, .Decimal b => a == b
  | .String a, .String b => a == b
  | .DateTime a, .DateTime b => a == b
  | .primitive d a, .primitive e b => d == e && a == b
  | .composite d fs, .composite e gs => d == e && MessageDifferencer.EqualsFields fs gs
  | _, _ => false
/-- Field by field comparison of two messages' contents. -/
def MessageDifferencer.EqualsFields :
    List (String × List Message) → List (String × List Message) → Bool
  | [], [] => true
  | (n, vs) :: fs, (m, ws) :: gs =>
      n == m && MessageDifferencer.EqualsRepeated vs ws && MessageDifferencer.EqualsFields fs gs
  | _, _ => false
/-- Element by element comparison of the values of one field. -/
def MessageDifferencer.EqualsRepeated : List Message → List Message → Bool
  | [], [] => true
  | a :: as, b :: bs => MessageDifferencer.Equals a b && MessageDifferencer.EqualsRepeated as bs
  | _, _ => false
end

/-! ## Primitive handler -/

/-- Modelled from the spec: JsonPrimitive (primitive_wrapper.h), the "canonical
JSON string form" of a primitive value. -/
structure JsonPrimitive where
  value : String
deriving DecidableEq, Repr

/-- Modelled from the spec: PrimitiveHandler (primitive_handler.h), the
"schema-version-specific service converting a primitive Message to a canonical
JSON string form".  The messages of this model are of a FHIR version that
`GetPrimitiveHandler` accepts (STU3, R4), and `WrapPrimitiveProto m` is the
result of `GetPrimitiveHandler(m)->WrapPrimitiveProto(m)`: the JSON form, or a
non-OK status.  The functions below take the handler as an argument. -/
structure PrimitiveHandler where
  WrapPrimitiveProto : Message → StatusOr JsonPrimitive

/-- Modelled from the spec: the body of a JSON string, that is the text with
the quotation mark, the backslash and the control characters that have a short
form escaped. -/
def JsonEscape : List Char → List Char
  | [] => []
  | c :: cs =>
      (if c = '"' then ['\\', '"']
       else if c = '\\' then ['\\', '\\']
       else if c = '\n' then ['\\', 'n']
       else if c = '\r' then ['\\', 'r']
       else if c = '\t' then ['\\', 't']
       else [c]) ++ JsonEscape cs

/-- Modelled from the spec: the canonical JSON form of a string, between double
quotation marks (the marks that `MessageToString` and `ToStringFunction` trim). -/
def ToJsonStringValue (raw_value : String) : String :=
  "\"" ++ String.mk (JsonEscape raw_value.data) ++ "\""

/-! ## Civil time -/

/-- A time zone of the time library (`absl::TimeZone`): the offset from UTC, in
seconds, that it gives to each instant (in seconds since the Unix epoch). -/
structure TimeZone where
  utc_offset : Int → Int

/-- The zone `absl::UTCTimeZone()`. -/
def UTCTimeZone : TimeZone :=
  { utc_offset := fun _ => 0 }

/-- The zone `absl::FixedTimeZone(seconds)`. -/
def FixedTimeZone (seconds : Int) : TimeZone :=
  { utc_offset := fun _ => seconds }

/-- The civil second of an instant in a zone,
`absl::ToCivilSecond(absl::FromUnixMicros(value_us), zone)`, as the number of
civil seconds since 1970-01-01T00:00:00: the instant is rounded down to a
second and the offset of the zone is added. -/
def ToCivilSecond (value_us : Int) (zone : TimeZone) : Int :=
  let unix_seconds := value_us / 1000000
  unix_seconds + zone.utc_offset unix_seconds

/-- The civil day of an instant in a zone (`absl::ToCivilDay`), as the number of
civil days since 1970-01-01. -/
def ToCivilDay (value_us : Int) (zone : TimeZone) : Int :=
  ToCivilSecond value_us zone / 86400

/-- Year, month (1 to 12) and day of the month (1 to 31) of a civil day of the
proleptic Gregorian calendar, given as the number of days since 1970-01-01. -/
def CivilFromDays (days : Int) : Int × Int × Int :=
  let z := days + 719468
  let era := z / 146097
  let doe := z - era * 146097
  let yoe := (doe - doe / 1460 + doe / 36524 - doe / 146096) / 365
  let doy := doe - (365 * yoe + yoe / 4 - yoe / 100)
  let mp := (5 * doy + 2) / 153
  let day := doy - (153 * mp + 2) / 5 + 1
  let month := if mp < 10 then mp + 3 else mp - 9
  let year := yoe + era * 400 + (if month ≤ 2 then 1 else 0)
  (year, month, day)

/-- The civil month of an instant in a zone (`absl::ToCivilMonth`), as the
number of civil months since the start of year 0. -/
def ToCivilMonth (value_us : Int) (zone : TimeZone) : Int :=
  let date := CivilFromDays (ToCivilDay value_us zone)
  date.1 * 12 + (date.2.1 - 1)

/-- The civil year of an instant in a zone (`absl::ToCivilYear`). -/
def ToCivilYear (value_us : Int) (zone : TimeZone) : Int :=
  (CivilFromDays (ToCivilDay value_us zone)).1

/-- The value of two decimal digits. -/
def TwoDigits (tens units : Char) : Option Int :=
  if tens.isDigit && units.isDigit then
    some (((tens.toNat - 48) * 10 + (units.toNat - 48) : Nat) : Int)
  else
    none

/-- Modelled from the spec: BuildTimeZoneFromString (util.h), by which the
comparison is "honoring each operand's time zone", on a system that has no
time zone database: `Z` and `UTC` are UTC, a text of the form `+hh:mm` or
`-hh:mm` is the zone at that fixed offset, and any other text (the name of a
zone of the database) is not resolved. -/
def BuildTimeZoneFromString (time_zone_string : String) : StatusOr TimeZone :=
  if time_zone_string = "UTC" || time_zone_string = "Z" then
    .ok UTCTimeZone
  else
    match time_zone_string.data with
    | [sign, h1, h2, ':', m1, m2] =>
        match TwoDigits h1 h2, TwoDigits m1 m2 with
        | some hours, some minutes =>
            if sign = '+' then .ok (FixedTimeZone ((hours * 60 + minutes) * 60))
            else if sign = '-' then .ok (FixedTimeZone (-((hours * 60 + minutes) * 60)))
            else .error (.InvalidArgument ("Unable to parse timezone: " ++ time_zone_string))
        | _, _ => .error (.InvalidArgument ("Unable to parse timezone: " ++ time_zone_string))
    | _ => .error (.InvalidArgument ("Unable to parse timezone: " ++ time_zone_string))

/-- A natural number in decimal digits, with leading zeros up to the width. -/
def ZeroPadded (width : Nat) (n : Int) : String :=
  let digits := toString n.toNat
  String.mk (List.replicate (width - digits.length) '0') ++ digits

/-- Modelled from the spec: the text of a date-time in a zone at a precision,
the body of its "canonical JSON string form": year, month and day as far as
the precision goes, and from the second on the time of day with the offset of
the zone (`Z` when the zone text is `Z`); there is none for an unspecified
precision. -/
def FormatDateTime (message : DateTime) (zone : TimeZone) : Option String :=
  let civil_second := ToCivilSecond message.value_us zone
  let date := CivilFromDays (civil_second / 86400)
  let second_of_day := civil_second % 86400
  let micros := message.value_us % 1000000
  let offset := zone.utc_offset (message.value_us / 1000000)
  let year := toString date.1
  let month := ZeroPadded 2 date.2.1
  let day := ZeroPadded 2 date.2.2
  let time := ZeroPadded 2 (second_of_day / 3600) ++ ":"
    ++ ZeroPadded 2 (second_of_day % 3600 / 60) ++ ":" ++ ZeroPadded 2 (second_of_day % 60)
  let zone_text :=
    if message.timezone = "Z" && offset = 0 then "Z"
    else (if offset < 0 then "-" else "+") ++ ZeroPadded 2 (offset.natAbs / 3600) ++ ":"
      ++ ZeroPadded 2 (offset.natAbs % 3600 / 60)
  match message.precision with
  | .PRECISION_UNSPECIFIED => none
  | .YEAR => some year
  | .MONTH => some (year ++ "-" ++ month)
  | .DAY => some (year ++ "-" ++ month ++ "-" ++ day)
  | .SECOND => some (year ++ "-" ++ month ++ "-" ++ day ++ "T" ++ time ++ zone_text)
  | .MILLISECOND =>
      some (year ++ "-" ++ month ++ "-" ++ day ++ "T" ++ time ++ "."
        ++ ZeroPadded 3 (micros / 1000) ++ zone_text)
  | .MICROSECOND =>
      some (year ++ "-" ++ month ++ "-" ++ day ++ "T" ++ time ++ "."
        ++ ZeroPadded 6 micros ++ zone_text)

/-- Modelled from the spec: the primitive handler of FHIR R4
(r4/primitive_handler.h), which is not among the sources.  The canonical JSON
form of a Boolean is `true` or `false`, of an Integer or UnsignedInt its
decimal digits, of a Decimal its text, of a String the quoted text, of a
DateTime the quoted text of the date-time at its precision in its zone; a
message whose type is not primitive has no JSON form and gets a non-OK status,
and so does a DateTime whose zone is not resolved or whose precision is
unspecified. -/
def R4PrimitiveHandler : PrimitiveHandler where
  WrapPrimitiveProto := fun message =>
    if IsPrimitive (GetDescriptor message) then
      match message with
      | .Boolean value => .ok { value := if value then "true" else "false" }
      | .Integer value => .ok { value := toString value }
      | .UnsignedInt value => .ok { value := toString value }
      | .Decimal value => .ok { value := value }
      | .String value => .ok { value := ToJsonStringValue value }
      | .DateTime value =>
          match BuildTimeZoneFromString value.timezone with
          | .error status => .error status
          | .ok zone =>
              match FormatDateTime value zone with
              | none => .error (.InvalidArgument "Invalid precision on Time")
              | some text => .ok { value := "\"" ++ text ++ "\"" }
      | .primitive _ json => .ok { value := json }
      | .composite descriptor _ =>
          .error (.InvalidArgument ("Unexpected primitive FHIR type: " ++ descriptor.full_name))
    else
      .error (.InvalidArgument ("Not a primitive type: " ++ (GetDescriptor message).full_name))

/-! ## Typed views of a message -/

/-- Modelled from the spec: the "typed accessor" of a Boolean,
`dynamic_cast<const Boolean*>(message)->value()`, defined when
`IsMessageType<Boolean>(*message)`. -/
def AsBoolean : Message → Option Bool
  | .Boolean value => some value
  | _ => none

/-- Modelled from the spec: the "typed accessor" of an Integer,
`dynamic_cast<const Integer*>(message)->value()`, defined when
`IsMessageType<Integer>(*message)`. -/
def AsInteger : Message → Option Int
  | .Integer value => some value
  | _ => none

/-- Modelled from the spec: the "typed accessor" of a String,
`dynamic_cast<const String*>(message)->value()`, defined when
`IsMessageType<String>(*message)`. -/
def AsString : Message → Option String
  | .String value => some value
  | _ => none

/-- Modelled from the spec: IsMessageType (util.h), `IsMessageType<M>(message)`,
for the typed accessor `M` of the type. -/
def IsMessageType {T : Type} (M : Message → Option T) (message : Message) : Bool :=
  (M message).isSome

/-- Embeds `IsSingleBoolean`: the collection has exactly one item, which is a
Boolean. -/
def IsSingleBoolean (messages : List Message) : Bool :=
  match messages with
  | [message] => IsMessageType AsBoolean message
  | _ => false

/-- Embeds `MessagesToBoolean`: the value of a single Boolean, a failure otherwise. -/
def MessagesToBoolean (messages : List Message) : StatusOr Bool :=
  match messages with
  | [.Boolean value] => .ok value
  | _ => .error (.InvalidArgument "Expression did not evaluate to boolean")

/-- Embeds `PrimitiveOrEmpty<T, M>`: no value for the empty collection, the
value of a single primitive of type `M`, a failure otherwise. -/
def PrimitiveOrEmpty {T : Type} (M : Message → Option T) (messages : List Message) :
    StatusOr (Option T) :=
  match messages with
  | [] => .ok none
  | message :: rest =>
      if rest.length + 1 > 1 || !IsPrimitive (GetDescriptor message) then
        .error (.InvalidArgument
          "Expression must be empty or represent a single primitive value.")
      else
        match M message with
        | none => .error (.InvalidArgument "Single value expression of wrong type.")
        | some value => .ok (some value)

/-- Embeds `FindFieldByJsonName`: the first field of the descriptor whose JSON
name is the given name, if there is one. -/
def FindFieldByJsonName (descriptor : Descriptor) (json_name : String) :
    Option FieldDescriptor :=
  descriptor.fields.find? (fun field => json_name == field.json_name)

/-- Modelled from the spec: the values that a message holds in a field, which
RetrieveField reads: those stored under the field's wire name; a primitive
holds no message in any field. -/
def FieldValues (message : Message) (field : FieldDescriptor) : List Message :=
  match message with
  | .composite _ fields => (fields.lookup field.name).getD []
  | _ => []

/-- Modelled from the spec: RetrieveField (fhir_path/utils.h), which "reads
`name` from the current context Message": it appends the values of the field,
in their order, to the results. -/
def RetrieveField (message : Message) (field : FieldDescriptor) (results : List Message) :
    StatusOr (List Message) :=
  .ok (results ++ FieldValues message field)

/-! ## Work space -/

/-- Modelled from the spec: WorkSpace (fhir_path.h), of which the expression
tree uses the context stack: "a vector of Message pointers" that "supports
push/pop; ThisReference reads the top, ContextReference reads the bottom".
Both constructors put a message on the stack and a pop only follows a push, so
the stack is never empty: its bottom is kept apart from what was pushed on it.
The arena of temporaries (`DeleteWhenFinished`) governs lifetimes only and is
not represented: a message is a value. -/
structure WorkSpace where
  BottomMessageContext : Message
  pushed : List Message

/-- Embeds `WorkSpace(message_context)`: the work space of one `Evaluate` call. -/
def WorkSpace.ofMessage (message_context : Message) : WorkSpace :=
  { BottomMessageContext := message_context, pushed := [] }

/-- Embeds `work_space->MessageContextStack()`. -/
def WorkSpace.MessageContextStack (work_space : WorkSpace) : List Message :=
  work_space.BottomMessageContext :: work_space.pushed

/-- Embeds `work_space->MessageContext()`: the top of the context stack. -/
def WorkSpace.MessageContext (work_space : WorkSpace) : Message :=
  work_space.pushed.getLast?.getD work_space.BottomMessageContext

/-- Embeds `work_space->PushMessageContext(message)`. -/
def WorkSpace.PushMessageContext (work_space : WorkSpace) (message : Message) : WorkSpace :=
  { work_space with pushed := work_space.pushed ++ [message] }

/-- Embeds `WorkSpace(message_context_stack, message_context)`: the given stack
with the message pushed on it. -/
def WorkSpace.ofStack (message_context_stack : List Message) (message_context : Message) :
    WorkSpace :=
  match message_context_stack with
  | [] => WorkSpace.ofMessage message_context
  | bottom :: rest => { BottomMessageContext := bottom, pushed := rest ++ [message_context] }

/-! ## Expression nodes -/

/-- Embeds `ExpressionNode::Evaluate`: from the work space and the contents of
`*results` before the call, the status and the contents of `*results` after it.
Every `Evaluate` returns with the context stack as it found it (the one node
that pushes, `SelectFunction`, pops before it looks at the status), so the
work space is handed down and not returned. -/
abbrev ExpressionNode : Type := WorkSpace → List Message → StatusOr (List Message)

/-- Embeds `Literal<ProtoType, PrimitiveType>::Evaluate`: a fresh `ProtoType`
message holding `value_` is pushed onto the results. -/
def Literal.Evaluate {PrimitiveType : Type} (ProtoType : PrimitiveType → Message)
    (value_ : PrimitiveType) : ExpressionNode :=
  fun _ results => .ok (results ++ [ProtoType value_])

/-- Embeds `EmptyLiteral::Evaluate`. -/
def EmptyLiteral.Evaluate : ExpressionNode :=
  fun _ results => .ok results

/-- Embeds `InvokeTermNode::Evaluate`: the field of the context message, looked
up by JSON name when `field_` is null; nothing when there is no such field. -/
def InvokeTermNode.Evaluate (field_ : Option FieldDescriptor) (field_name_ : String) :
    ExpressionNode :=
  fun work_space results =>
    let message := work_space.MessageContext
    let field :=
      match field_ with
      | some field => some field
      | none => FindFieldByJsonName (GetDescriptor message) field_name_
    match field with
    | none => .ok results
    | some field => RetrieveField message field results

/-- The loop of `InvokeExpressionNode::Evaluate` over the child results. -/
def InvokeExpressionNode.loop (field_ : Option FieldDescriptor) (field_name_ : String) :
    List Message → List Message → StatusOr (List Message)
  | [], results => .ok results
  | child_message :: rest, results =>
      let field :=
        match field_ with
        | some field => some field
        | none => FindFieldByJsonName (GetDescriptor child_message) field_name_
      match field with
      | some field => do
          let results ← RetrieveField child_message field results
          InvokeExpressionNode.loop field_ field_name_ rest results
      | none => InvokeExpressionNode.loop field_ field_name_ rest results

/-- Embeds `InvokeExpressionNode::Evaluate`. -/
def InvokeExpressionNode.Evaluate (child_expression_ : ExpressionNode)
    (field_ : Option FieldDescriptor) (field_name_ : String) : ExpressionNode :=
  fun work_space results => do
    let child_results ← child_expression_ work_space []
    InvokeExpressionNode.loop field_ field_name_ child_results results

/-- Embeds `NotFunction::Evaluate`. -/
def NotFunction.Evaluate (child_ : ExpressionNode) : ExpressionNode :=
  fun work_space results => do
    let child_results ← child_ work_space []
    if child_results.isEmpty then
      .ok results
    else if IsSingleBoolean child_results then do
      let child_result ← MessagesToBoolean child_results
      .ok (results ++ [.Boolean (!child_result)])
    else
      .ok results

/-- Embeds `TailFunction::Evaluate`: when the child has more than one result,
all but the first are inserted at `results->begin()`. -/
def TailFunction.Evaluate (child_ : ExpressionNode) : ExpressionNode :=
  fun work_space results => do
    let child_results ← child_ work_space []
    if child_results.length > 1 then
      .ok (child_results.drop 1 ++ results)
    else
      .ok results

/-- Embeds `BinaryOperator::Evaluate`: both operands are evaluated, the left one
first, and handed to `EvaluateOperator`. -/
def BinaryOperator.Evaluate
    (EvaluateOperator : List Message → List Message → List Message → StatusOr (List Message))
    (left_ right_ : ExpressionNode) : ExpressionNode :=
  fun work_space results => do
    let left_results ← left_ work_space []
    let right_results ← right_ work_space []
    EvaluateOperator left_results right_results results

/-- Embeds `EqualsOperator::AreEqual`. -/
def EqualsOperator.AreEqual (handler : PrimitiveHandler) (left right : Message) : Bool :=
  if AreSameMessageType left right then
    MessageDifferencer.Equals left right
  else
    let left_primitive := handler.WrapPrimitiveProto left
    let right_primitive := handler.WrapPrimitiveProto right
    match left_primitive, right_primitive with
    | .ok left_json, .ok right_json => left_json.value == right_json.value
    | _, _ => false

/-- The scan of `EqualsOperator::EvaluateOperator` over the two collections:
`result->set_value(AreEqual(*left, *right))` for every index `i`. -/
def EqualsOperator.scan (handler : PrimitiveHandler) :
    Bool → List Message → List Message → Bool
  | _, left :: left_rest, right :: right_rest =>
      let result := EqualsOperator.AreEqual handler left right
      EqualsOperator.scan handler result left_rest right_rest
  | result, _, _ => result

/-- Embeds `EqualsOperator::EvaluateOperator`. -/
def EqualsOperator.EvaluateOperator (handler : PrimitiveHandler)
    (left_results right_results results : List Message) : StatusOr (List Message) :=
  if left_results.isEmpty || right_results.isEmpty then
    .ok results
  else
    let result :=
      if left_results.length != right_results.length then false
      else EqualsOperator.scan handler true left_results right_results
    .ok (results ++ [.Boolean result])

/-- Embeds `ComparisonOperator::EvaluateOperator`.  The chain that selects the
comparison by the types of the two single operands (integers, decimals,
strings, date-times, quantities) and fails for an unsupported pair is the
argument `compare`. -/
def ComparisonOperator.EvaluateOperator (compare : Message → Message → StatusOr Bool)
    (left_results right_results results : List Message) : StatusOr (List Message) :=
  match left_results, right_results with
  | [], _ => .ok results
  | _, [] => .ok results
  | left_result :: left_rest, right_result :: right_rest =>
      if left_rest.length + 1 > 1 || right_rest.length + 1 > 1 then
        .error (.InvalidArgument "Comparison operators must have one element on each side.")
      else do
        let result ← compare left_result right_result
        .ok (results ++ [.Boolean result])

/-- A 32-bit two's complement integer: the value that an `int32_t` holds after
an arithmetic operation on two of them. -/
def Int32Wrap (value : Int) : Int :=
  (value + 2 ^ 31) % 2 ^ 32 - 2 ^ 31

/-- Embeds `AdditionOperator::EvalIntegerAddition`. -/
def AdditionOperator.EvalIntegerAddition (left right : Int) : Int :=
  Int32Wrap (left + right)

/-- Embeds `AdditionOperator::EvalStringAddition`. -/
def AdditionOperator.EvalStringAddition (left right : String) : String :=
  left ++ right

/-- Embeds `AdditionOperator::EvaluateOperator`. -/
def AdditionOperator.EvaluateOperator
    (left_results right_results results : List Message) : StatusOr (List Message) :=
  match left_results, right_results with
  | [], _ => .ok results
  | _, [] => .ok results
  | left_result :: left_rest, right_result :: right_rest =>
      if left_rest.length + 1 > 1 || right_rest.length + 1 > 1 then
        .error (.InvalidArgument "Addition operators must have one element on each side.")
      else
        match AsInteger left_result, AsInteger right_result with
        | some left, some right =>
            .ok (results ++ [.Integer (AdditionOperator.EvalIntegerAddition left right)])
        | _, _ =>
            match AsString left_result, AsString right_result with
            | some left, some right =>
                .ok (results ++ [.String (AdditionOperator.EvalStringAddition left right)])
            | _, _ =>
                .error (.InvalidArgument ("Addition not supported for "
                  ++ (GetDescriptor left_result).full_name ++ " and "
                  ++ (GetDescriptor right_result).full_name))

/-- The loop of `WhereFunction::Evaluate` over the child results: the parameter
is evaluated in a work space of its own, with the message on top of the
context stack, and the message is kept when the outcome is a single true. -/
def WhereFunction.loop (param : ExpressionNode) (work_space : WorkSpace) :
    List Message → List Message → StatusOr (List Message)
  | [], results => .ok results
  | message :: rest, results => do
      let expression_work_space := WorkSpace.ofStack work_space.MessageContextStack message
      let param_results ← param expression_work_space []
      let allowed ← PrimitiveOrEmpty AsBoolean param_results
      if allowed.getD false then
        WhereFunction.loop param work_space rest (results ++ [message])
      else
        WhereFunction.loop param work_space rest results

/-- Embeds `WhereFunction::Evaluate`; `param` is `params_[0]`, the one parameter that
`ValidateParams` admits. -/
def WhereFunction.Evaluate (child_ param : ExpressionNode) : ExpressionNode :=
  fun work_space results => do
    let child_results ← child_ work_space []
    WhereFunction.loop param work_space child_results results

/-- The loop of `SelectFunction::Evaluate` over the child results: the message
is pushed on the context stack, the parameter is evaluated into `results`
itself, and the message is popped. -/
def SelectFunction.loop (param : ExpressionNode) (work_space : WorkSpace) :
    List Message → List Message → StatusOr (List Message)
  | [], results => .ok results
  | message :: rest, results => do
      let results ← param (work_space.PushMessageContext message) results
      SelectFunction.loop param work_space rest results

/-- Embeds `SelectFunction::Evaluate`; `param` is `params_[0]`, the one parameter that
`ValidateParams` admits. -/
def SelectFunction.Evaluate (child_ param : ExpressionNode) : ExpressionNode :=
  fun work_space results => do
    let child_results ← child_ work_space []
    SelectFunction.loop param work_space child_results results

/-- Embeds `BooleanOperator::SetResult`: a fresh Boolean is pushed onto the results. -/
def BooleanOperator.SetResult (eval_result : Bool) (results : List Message) : List Message :=
  results ++ [.Boolean eval_result]

/-- Embeds `BooleanOperator::EvaluateBooleanNode`: the node is evaluated into a vector
of its own, which has to be empty or a single Boolean. -/
def BooleanOperator.EvaluateBooleanNode (node : ExpressionNode) (work_space : WorkSpace) :
    StatusOr (Option Bool) := do
  let results ← node work_space []
  PrimitiveOrEmpty AsBoolean results

/-- Embeds `ImpliesOperator::Evaluate`. -/
def ImpliesOperator.Evaluate (left_ right_ : ExpressionNode) : ExpressionNode :=
  fun work_space results => do
    let left_result ← BooleanOperator.EvaluateBooleanNode left_ work_space
    if left_result = some false then
      .ok (BooleanOperator.SetResult true results)
    else do
      let right_result ← BooleanOperator.EvaluateBooleanNode right_ work_space
      match left_result, right_result with
      | none, right_result =>
          if right_result.getD false then .ok (BooleanOperator.SetResult true results)
          else .ok results
      | some _, some right => .ok (BooleanOperator.SetResult right results)
      | some _, none => .ok results

/-- Embeds `XorOperator::Evaluate`. -/
def XorOperator.Evaluate (left_ right_ : ExpressionNode) : ExpressionNode :=
  fun work_space results => do
    let left_result ← BooleanOperator.EvaluateBooleanNode left_ work_space
    match left_result with
    | none => .ok results
    | some left => do
        let right_result ← BooleanOperator.EvaluateBooleanNode right_ work_space
        match right_result with
        | none => .ok results
        | some right => .ok (BooleanOperator.SetResult (left != right) results)

/-- Embeds `OrOperator::Evaluate`. -/
def OrOperator.Evaluate (left_ right_ : ExpressionNode) : ExpressionNode :=
  fun work_space results => do
    let left_result ← BooleanOperator.EvaluateBooleanNode left_ work_space
    if left_result = some true then
      .ok (BooleanOperator.SetResult true results)
    else do
      let right_result ← BooleanOperator.EvaluateBooleanNode right_ work_space
      if right_result = some true then
        .ok (BooleanOperator.SetResult true results)
      else if left_result.isSome && right_result.isSome then
        .ok (BooleanOperator.SetResult false results)
      else
        .ok results

/-- Embeds `AndOperator::Evaluate`. -/
def AndOperator.Evaluate (left_ right_ : ExpressionNode) : ExpressionNode :=
  fun work_space results => do
    let left_result ← BooleanOperator.EvaluateBooleanNode left_ work_space
    if left_result = some false then
      .ok (BooleanOperator.SetResult false results)
    else do
      let right_result ← BooleanOperator.EvaluateBooleanNode right_ work_space
      if right_result = some false then
        .ok (BooleanOperator.SetResult false results)
      else if left_result.isSome && right_result.isSome then
        .ok (BooleanOperator.SetResult true results)
      else
        .ok results

/-! ## Indexer -/

/-- The conversion of an `int` to `size_t`, a 64-bit unsigned word: a negative
value becomes a value from `2 ^ 63` on. -/
def SizeOfInt (value : Int) : Nat :=
  (value % 2 ^ 64).toNat

/-- Embeds `IndexerExpression::EvaluateOperator`: the index has to be a single
Integer; it is compared with the size of the left collection as a `size_t`. -/
def IndexerExpression.EvaluateOperator
    (left_results right_results results : List Message) : StatusOr (List Message) := do
  let index ← PrimitiveOrEmpty AsInteger right_results
  match index with
  | none => .error (.InvalidArgument "Index must be present.")
  | some index =>
      if left_results.isEmpty || left_results.length ≤ SizeOfInt index then
        .ok results
      else
        .ok (results ++ (left_results[SizeOfInt index]?).toList)

/-! ## Comparison -/

/-- Modelled from the spec: the "typed accessor" of an UnsignedInt,
`dynamic_cast<const UnsignedInt*>(message)->value()`, defined when
`IsMessageType<UnsignedInt>(*message)`. -/
def AsUnsignedInt : Message → Option Nat
  | .UnsignedInt value => some value
  | _ => none

/-- Modelled from the spec: the "typed accessor" of a Decimal,
`dynamic_cast<const Decimal*>(message)->value()`, defined when
`IsMessageType<Decimal>(*message)`. -/
def AsDecimal : Message → Option String
  | .Decimal value => some value
  | _ => none

/-- Modelled from the spec: the "typed accessor" of a DateTime,
`dynamic_cast<const DateTime*>(message)`, defined when
`IsMessageType<DateTime>(*message)`. -/
def AsDateTime : Message → Option DateTime
  | .DateTime value => some value
  | _ => none

/-- Modelled from the spec: `IsMessageType<SimpleQuantity>(message)`: the
message is of the quantity type. -/
def IsSimpleQuantity (message : Message) : Bool :=
  match message with
  | .composite descriptor _ => descriptor.full_name == "google.fhir.r4.core.SimpleQuantity"
  | _ => false

/-- Embeds `ComparisonOperator::ComparisonType`. -/
inductive ComparisonOperator.ComparisonType where
  | kLessThan
  | kGreaterThan
  | kLessThanEqualTo
  | kGreaterThanEqualTo
deriving DecidableEq, Repr

/-- What the comparison operator calls and the sources do not hold:
`BuildTimeZoneFromString` (util.h); the comparison of two strings by the
`std::collate` facet of the locale `en_US.UTF-8`, negative, zero or positive;
and the two comparisons that go through `double` values and are not embedded,
`EvalDecimalComparison` and `EvalSimpleQuantityComparison`. -/
structure ComparisonLibrary where
  BuildTimeZoneFromString : String → StatusOr TimeZone
  collate_compare : String → String → Int
  EvalDecimalComparison :
    ComparisonOperator.ComparisonType → Message → Message → StatusOr Bool
  EvalSimpleQuantityComparison :
    ComparisonOperator.ComparisonType → Message → Message → StatusOr Bool

/-- The `switch (comparison_type_)` that ends every comparison, on a value that
is negative, zero or positive as left is below, equal to or above right. -/
def ComparisonOperator.Switch (comparison_type_ : ComparisonOperator.ComparisonType)
    (difference : Int) : Bool :=
  match comparison_type_ with
  | .kLessThan => decide (difference < 0)
  | .kGreaterThan => decide (difference > 0)
  | .kLessThanEqualTo => decide (difference ≤ 0)
  | .kGreaterThanEqualTo => decide (difference ≥ 0)

/-- Embeds `ComparisonOperator::EvalIntegerComparison`, on the two values as
`int32_t`. -/
def ComparisonOperator.EvalIntegerComparison
    (comparison_type_ : ComparisonOperator.ComparisonType) (left right : Int) : Bool :=
  match comparison_type_ with
  | .kLessThan => decide (left < right)
  | .kGreaterThan => decide (left > right)
  | .kLessThanEqualTo => decide (left ≤ right)
  | .kGreaterThanEqualTo => decide (left ≥ right)

/-- Embeds `ComparisonOperator::EvalStringComparison`. -/
def ComparisonOperator.EvalStringComparison (library : ComparisonLibrary)
    (comparison_type_ : ComparisonOperator.ComparisonType) (left right : String) : Bool :=
  let compare_result := library.collate_compare left right
  ComparisonOperator.Switch comparison_type_ compare_result

/-- The `time_difference` of `ComparisonOperator::EvalDateTimeComparison`:
the two instants are compared at the looser of the two precisions, each as a
civil time of its own zone; below the second, the parts of `value_us` under a
second are compared when the civil seconds are equal (`%` of C++ truncates). -/
def ComparisonOperator.TimeDifference (left_message right_message : DateTime)
    (left_zone right_zone : TimeZone) : Int :=
  if left_message.precision = .YEAR || right_message.precision = .YEAR then
    ToCivilYear left_message.value_us left_zone - ToCivilYear right_message.value_us right_zone
  else if left_message.precision = .MONTH || right_message.precision = .MONTH then
    ToCivilMonth left_message.value_us left_zone - ToCivilMonth right_message.value_us right_zone
  else if left_message.precision = .DAY || right_message.precision = .DAY then
    ToCivilDay left_message.value_us left_zone - ToCivilDay right_message.value_us right_zone
  else if left_message.precision = .SECOND || right_message.precision = .SECOND then
    ToCivilSecond left_message.value_us left_zone
      - ToCivilSecond right_message.value_us right_zone
  else
    let time_difference :=
      ToCivilSecond left_message.value_us left_zone
        - ToCivilSecond right_message.value_us right_zone
    if time_difference = 0 then
      Int.tmod left_message.value_us 1000000 - Int.tmod right_message.value_us 1000000
    else
      time_difference

/-- Embeds `ComparisonOperator::EvalDateTimeComparison`. -/
def ComparisonOperator.EvalDateTimeComparison (library : ComparisonLibrary)
    (comparison_type_ : ComparisonOperator.ComparisonType)
    (left_message right_message : DateTime) : StatusOr Bool := do
  let left_zone ← library.BuildTimeZoneFromString left_message.timezone
  let right_zone ← library.BuildTimeZoneFromString right_message.timezone
  let time_difference :=
    ComparisonOperator.TimeDifference left_message right_message left_zone right_zone
  .ok (ComparisonOperator.Switch comparison_type_ time_difference)

/-- The chain of `ComparisonOperator::EvaluateOperator` that selects the
comparison by the types of the two single operands.  An Integer value is an
`int32_t` already; an UnsignedInt value is converted to one. -/
def ComparisonOperator.Compare (library : ComparisonLibrary)
    (comparison_type_ : ComparisonOperator.ComparisonType)
    (left_result right_result : Message) : StatusOr Bool :=
  match AsInteger left_result, AsInteger right_result with
  | some left, some right =>
      .ok (ComparisonOperator.EvalIntegerComparison comparison_type_ left right)
  | _, _ =>
  match AsUnsignedInt left_result, AsInteger right_result with
  | some left, some right =>
      .ok (ComparisonOperator.EvalIntegerComparison comparison_type_ (Int32Wrap left) right)
  | _, _ =>
  match AsInteger left_result, AsUnsignedInt right_result with
  | some left, some right =>
      .ok (ComparisonOperator.EvalIntegerComparison comparison_type_ left (Int32Wrap right))
  | _, _ =>
  match AsUnsignedInt left_result, AsUnsignedInt right_result with
  | some left, some right =>
      .ok (ComparisonOperator.EvalIntegerComparison comparison_type_ (Int32Wrap left)
        (Int32Wrap right))
  | _, _ =>
  if IsMessageType AsDecimal left_result || IsMessageType AsDecimal right_result then
    library.EvalDecimalComparison comparison_type_ left_result right_result
  else
  match AsString left_result, AsString right_result with
  | some left, some right =>
      .ok (ComparisonOperator.EvalStringComparison library comparison_type_ left right)
  | _, _ =>
  match AsDateTime left_result, AsDateTime right_result with
  | some left, some right =>
      ComparisonOperator.EvalDateTimeComparison library comparison_type_ left right
  | _, _ =>
  if IsSimpleQuantity left_result && IsSimpleQuantity right_result then
    library.EvalSimpleQuantityComparison comparison_type_ left_result right_result
  else
    .error (.InvalidArgument ("Unsupported comparison value types: "
      ++ (GetDescriptor left_result).full_name ++ " and "
      ++ (GetDescriptor right_result).full_name))

/-! ## String concatenation -/

/-- Embeds `MessageToString`: the text of a message that JSON represents as a
string.  The result is `none` when the process aborts, in `ValueOrDie` on a
primitive for which the handler gives no JSON form. -/
def MessageToString (handler : PrimitiveHandler) (message : Message) :
    Option (StatusOr String) :=
  match AsString message with
  | some value => some (.ok value)
  | none =>
      if !IsPrimitive (GetDescriptor message) then
        some (.error (.InvalidArgument "Expression must be a primitive."))
      else
        match handler.WrapPrimitiveProto message with
        | .error _ => none
        | .ok json_primitive =>
            let json_string := json_primitive.value.data
            if json_string.head? != some '"' then
              some (.error (.InvalidArgument "Expression must evaluate to a string."))
            else
              some (.ok (String.mk ((json_string.drop 1).take (json_string.length - 2))))

/-- The text of an operand of `&`: the empty text for an empty operand,
`MessageToString` of the first message otherwise. -/
def StrCatOperator.OperandText (handler : PrimitiveHandler) (operand_results : List Message) :
    Option (StatusOr String) :=
  match operand_results with
  | [] => some (.ok "")
  | message :: _ => MessageToString handler message

/-- Embeds `StrCatOperator::EvaluateOperator`; the result is `none` when
`MessageToString` aborts. -/
def StrCatOperator.EvaluateOperator (handler : PrimitiveHandler)
    (left_results right_results results : List Message) :
    Option (StatusOr (List Message)) :=
  if left_results.length > 1 || right_results.length > 1 then
    some (.error (.InvalidArgument
      "String concatenation operators must have one element on each side."))
  else
    match StrCatOperator.OperandText handler left_results with
    | none => none
    | some (.error status) => some (.error status)
    | some (.ok left) =>
        match StrCatOperator.OperandText handler right_results with
        | none => none
        | some (.error status) => some (.error status)
        | some (.ok right) => some (.ok (results ++ [.String (left ++ right)]))

/-! ## Hashed sets of messages -/

/-- Services of the protocol-buffer and standard libraries that the set-based
operators use: the wire serialization `Message::SerializeAsString`, the string
hash `std::hash<std::string>`, and the order in which a hashed set is iterated,
as a function of its elements in the order of their insertion. -/
structure HashLibrary where
  SerializeAsString : Message → String
  hash : String → Nat
  iteration : List Message → List Message

/-- Embeds `ProtoPtrSameTypeAndEqual::operator()`.  The elements of a collection
are never null; two pointers to one message hold one value, and `AreEqual` holds
of a message and itself, so the pointer comparison adds nothing to it. -/
def ProtoPtrSameTypeAndEqual (handler : PrimitiveHandler) (lhs rhs : Message) : Bool :=
  EqualsOperator.AreEqual handler lhs rhs

/-- Embeds `ProtoPtrHash::operator()` on a non-null message: the hash of the JSON
form of a primitive, of the serialization of another message.  `none` is the
abort of `ValueOrDie` when the primitive has no JSON form. -/
def ProtoPtrHash (library : HashLibrary) (handler : PrimitiveHandler) (message : Message) :
    Option Nat :=
  if IsPrimitive (GetDescriptor message) then
    match handler.WrapPrimitiveProto message with
    | .ok json_primitive => some (library.hash json_primitive.value)
    | .error _ => none
  else
    some (library.hash (library.SerializeAsString message))

/-- Test that `std::unordered_set` applies to a stored element when it looks a
key up: the hash code kept with the element is the key's, and the key equality
holds of the key and the element. -/
def unordered_set.is_match (library : HashLibrary) (handler : PrimitiveHandler)
    (code : Nat) (key element : Message) : Bool :=
  ProtoPtrHash library handler element == some code &&
    ProtoPtrSameTypeAndEqual handler key element

/-- Models `std::unordered_set::count` on a set given by its elements in the
order of their insertion: 1 when an element matches the key, else 0. -/
def unordered_set.count (library : HashLibrary) (handler : PrimitiveHandler)
    (set : List Message) (key : Message) : Option Nat := do
  let code ← ProtoPtrHash library handler key
  pure (if set.any (unordered_set.is_match library handler code key) then 1 else 0)

/-- Models `std::unordered_set::insert` of one key: the set is unchanged when an
element matches the key, else the key is added. -/
def unordered_set.insert (library : HashLibrary) (handler : PrimitiveHandler)
    (set : List Message) (key : Message) : Option (List Message) := do
  let code ← ProtoPtrHash library handler key
  pure (if set.any (unordered_set.is_match library handler code key) then set
    else set ++ [key])

/-- Models `std::unordered_set::insert(first, last)`: the keys are inserted one
after the other. -/
def unordered_set.insert_range (library : HashLibrary) (handler : PrimitiveHandler) :
    List Message → List Message → Option (List Message)
  | set, [] => some set
  | set, key :: keys => do
      let set ← unordered_set.insert library handler set key
      unordered_set.insert_range library handler set keys

/-- Models `std::unordered_set::erase` of a key: the element that matches the
key, if there is one, is removed. -/
def unordered_set.erase (library : HashLibrary) (handler : PrimitiveHandler)
    (set : List Message) (key : Message) : Option (List Message) := do
  let code ← ProtoPtrHash library handler key
  pure (set.eraseP (unordered_set.is_match library handler code key))

/-- Embeds `UnionOperator::EvaluateOperator`; the elements of the set are
inserted at `out_results->begin()`. -/
def UnionOperator.EvaluateOperator (library : HashLibrary) (handler : PrimitiveHandler)
    (left_results right_results out_results : List Message) :
    Option (StatusOr (List Message)) := do
  let results ← unordered_set.insert_range library handler [] left_results
  let results ← unordered_set.insert_range library handler results right_results
  pure (.ok (library.iteration results ++ out_results))

/-- Embeds `IsDistinctFunction::Evaluate`. -/
def IsDistinctFunction.Evaluate (library : HashLibrary) (handler : PrimitiveHandler)
    (child_ : ExpressionNode) (work_space : WorkSpace) (results : List Message) :
    Option (StatusOr (List Message)) :=
  match child_ work_space [] with
  | .error status => some (.error status)
  | .ok child_results => do
      let child_results_set ← unordered_set.insert_range library handler [] child_results
      pure (.ok (results ++
        [.Boolean (child_results_set.length == child_results.length)]))

/-- Embeds `DistinctFunction::Evaluate`; the elements of the set are inserted at
`results->begin()`. -/
def DistinctFunction.Evaluate (library : HashLibrary) (handler : PrimitiveHandler)
    (child_ : ExpressionNode) (work_space : WorkSpace) (results : List Message) :
    Option (StatusOr (List Message)) :=
  match child_ work_space [] with
  | .error status => some (.error status)
  | .ok child_results => do
      let result_set ← unordered_set.insert_range library handler [] child_results
      pure (.ok (library.iteration result_set ++ results))

/-- The loop of `IntersectFunction::Evaluate` over `first_param`. -/
def IntersectFunction.loop (library : HashLibrary) (handler : PrimitiveHandler) :
    List Message → List Message → List Message → Option (List Message)
  | _, [], results => some results
  | child_set, elem :: rest, results => do
      let count ← unordered_set.count library handler child_set elem
      if count > 0 then
        let child_set ← unordered_set.erase library handler child_set elem
        IntersectFunction.loop library handler child_set rest (results ++ [elem])
      else
        IntersectFunction.loop library handler child_set rest results

/-- Embeds `IntersectFunction::Evaluate(work_space, first_param, results)`. -/
def IntersectFunction.Evaluate (library : HashLibrary) (handler : PrimitiveHandler)
    (child_ : ExpressionNode) (work_space : WorkSpace) (first_param results : List Message) :
    Option (StatusOr (List Message)) :=
  match child_ work_space [] with
  | .error status => some (.error status)
  | .ok child_results => do
      let child_set ← unordered_set.insert_range library handler [] child_results
      let results ← IntersectFunction.loop library handler child_set first_param results
      pure (.ok results)

/-! ## Polarity, membership and collection functions -/

/-- Embeds `PolarityOperator::PolarityOperation`. -/
inductive PolarityOperator.PolarityOperation where
  | kPositive
  | kNegative
deriving DecidableEq, Repr

/-- The text that `PolarityOperator::Evaluate` sets on the negated Decimal: the
text without its first character when it starts with `-`, else `-` and the
text. -/
def PolarityOperator.NegateDecimal (value : String) : String :=
  match value.data with
  | '-' :: rest => String.mk rest
  | data => String.mk ('-' :: data)

/-- Embeds `PolarityOperator::Evaluate`; the product of the Integer and `-1` is
an `int32_t`. -/
def PolarityOperator.Evaluate (operation_ : PolarityOperator.PolarityOperation)
    (operand_ : ExpressionNode) : ExpressionNode :=
  fun work_space results => do
    let operand_result ← operand_ work_space []
    if operand_result.length > 1 then
      .error (.InvalidArgument "Polarity operators must operate on a single element.")
    else
      match operand_result with
      | [] => .ok results
      | operand_value :: _ =>
          if operation_ = .kPositive then
            .ok (results ++ [operand_value])
          else
            match AsDecimal operand_value with
            | some value => .ok (results ++ [.Decimal (PolarityOperator.NegateDecimal value)])
            | none =>
                match AsInteger operand_value with
                | some value => .ok (results ++ [.Integer (Int32Wrap (value * -1))])
                | none =>
                    .error (.InvalidArgument
                      "Polarity operators must operate on a decimal or integer type.")

/-- Embeds `ContainsOperator::EvaluateOperator`: the left operand is the
collection, the right operand the element looked for. -/
def ContainsOperator.EvaluateOperator (handler : PrimitiveHandler)
    (left_results right_results results : List Message) : StatusOr (List Message) :=
  if right_results.isEmpty then
    .ok results
  else if right_results.length > 1 then
    .error (.InvalidArgument
      "in/contains must have one or fewer items in the left/right operand.")
  else
    match right_results with
    | [] => .ok results
    | right_operand :: _ =>
        let found :=
          left_results.any (fun message => EqualsOperator.AreEqual handler right_operand message)
        .ok (results ++ [.Boolean found])

/-- Embeds `FirstFunction::Evaluate`. -/
def FirstFunction.Evaluate (child_ : ExpressionNode) : ExpressionNode :=
  fun work_space results => do
    let child_results ← child_ work_space []
    match child_results with
    | [] => .ok results
    | first :: _ => .ok (results ++ [first])

/-- Embeds `SingleParameterFunctionNode::Evaluate(work_space, results)`: the one
parameter is evaluated into a vector of its own and handed to the function. -/
def SingleParameterFunctionNode.Evaluate
    (Evaluate : WorkSpace → List Message → List Message → StatusOr (List Message))
    (params_ : List ExpressionNode) : ExpressionNode :=
  fun work_space results =>
    match params_ with
    | [param] => do
        let first_param ← param work_space []
        Evaluate work_space first_param results
    | _ => .error (.InvalidArgument "this function requires a single parameter.")

/-- Embeds `CombineFunction::Evaluate(work_space, first_param, results)`. -/
def CombineFunction.Evaluate (child_ : ExpressionNode) (work_space : WorkSpace)
    (first_param results : List Message) : StatusOr (List Message) := do
  let child_results ← child_ work_space []
  .ok (results ++ child_results ++ first_param)

/-- Embeds `ToStringFunction::Evaluate`. -/
def ToStringFunction.Evaluate (handler : PrimitiveHandler) (child_ : ExpressionNode) :
    ExpressionNode :=
  fun work_space results => do
    let child_results ← child_ work_space []
    if child_results.length > 1 then
      .error (.InvalidArgument "Input collection must not contain multiple items")
    else
      match child_results with
      | [] => .ok results
      | child :: _ =>
          if IsMessageType AsString child then
            .ok (results ++ [child])
          else if !IsPrimitive (GetDescriptor child) then
            .ok results
          else do
            let json_primitive ← handler.WrapPrimitiveProto child
            let json_string := json_primitive.value.data
            let json_string :=
              if json_string.head? == some '"' then
                (json_string.drop 1).take (json_string.length - 2)
              else
                json_string
            .ok (results ++ [.String (String.mk json_string)])

/-- The private `AllFunction::Evaluate(work_space, child_results)`: false at the
first message for which the parameter is not a single true. -/
def AllFunction.loop (param : ExpressionNode) (work_space : WorkSpace) :
    List Message → StatusOr Bool
  | [] => .ok true
  | message :: rest => do
      let expression_work_space := WorkSpace.ofStack work_space.MessageContextStack message
      let param_results ← param expression_work_space []
      let criteria_met ← PrimitiveOrEmpty AsBoolean param_results
      if !criteria_met.getD false then
        .ok false
      else
        AllFunction.loop param work_space rest

/-- Embeds `AllFunction::Evaluate`; `param` is `params_[0]`, the one parameter
that `ValidateParams` admits. -/
def AllFunction.Evaluate (child_ param : ExpressionNode) : ExpressionNode :=
  fun work_space results => do
    let child_results ← child_ work_space []
    let result ← AllFunction.loop param work_space child_results
    .ok (results ++ [.Boolean result])

/-- Embeds `IifFunction::Evaluate`; `criterion` is `params_[0]`, `true_result` is
`params_[1]`, and `otherwise_result` is `params_[2]` when `params_.size() > 2`. -/
def IifFunction.Evaluate (child_ criterion true_result : ExpressionNode)
    (otherwise_result : Option ExpressionNode) : ExpressionNode :=
  fun work_space results => do
    let child_results ← child_ work_space []
    if child_results.length > 1 then
      .error (.InvalidArgument "iif() requires a collection with no more than 1 item.")
    else
      match child_results with
      | [] => .ok results
      | child :: _ => do
          let expression_work_space := WorkSpace.ofStack work_space.MessageContextStack child
          let param_results ← criterion expression_work_space []
          let criterion_met ← PrimitiveOrEmpty AsBoolean param_results
          if criterion_met.getD false then
            true_result work_space results
          else
            match otherwise_result with
            | some otherwise_result => otherwise_result work_space results
            | none => .ok results

/-- Embeds `ThisReference::Evaluate`. -/
def ThisReference.Evaluate : ExpressionNode :=
  fun work_space results => .ok (results ++ [work_space.MessageContext])

/-- Embeds `ContextReference::Evaluate`. -/
def ContextReference.Evaluate : ExpressionNode :=
  fun work_space results => .ok (results ++ [work_space.BottomMessageContext])

/-- Embeds `CompiledExpression::Evaluate`, up to the messages of the result:
the root expression is evaluated in a fresh work space on the message. -/
def CompiledExpression.Evaluate (root_expression_ : ExpressionNode) (message : Message) :
    StatusOr (List Message) :=
  root_expression_ (WorkSpace.ofMessage message) []

/-! ## Compiler -/

/-- An `ExpressionNode` as the compiler holds it: what its `Evaluate` does and
what its `ReturnType()` is (`none` for the null descriptor). -/
structure CompiledNode where
  Evaluate : ExpressionNode
  ReturnType : Option Descriptor

/-- Models `antlrcpp::Any` of the ANTLR runtime as the visitors return it: the
null value that `return nullptr` gives (`isNull()` holds of it), or a value that
holds a `std::shared_ptr<ExpressionNode>`, which is a node or the null pointer
(`none`); `as<std::shared_ptr<ExpressionNode>>()` reads the pointer. -/
inductive antlrcpp.Any where
  | null
  | of (pointer : Option CompiledNode)

/-- Embeds the members of `FhirPathCompilerVisitor`: the stack of context types
(`none` for a null descriptor) and the error message.  Both constructors leave a
descriptor on the stack, so `back` is read from a stack that is not empty. -/
structure FhirPathCompilerVisitor where
  descriptor_stack_ : List (Option Descriptor)
  error_message_ : String

/-- Embeds `FhirPathCompilerVisitor(descriptor)`. -/
def FhirPathCompilerVisitor.ofDescriptor (descriptor : Option Descriptor) :
    FhirPathCompilerVisitor :=
  { descriptor_stack_ := [descriptor], error_message_ := "" }

/-- Embeds `FhirPathCompilerVisitor(descriptor_stack_history, descriptor)`. -/
def FhirPathCompilerVisitor.ofHistory (descriptor_stack_history : List (Option Descriptor))
    (descriptor : Option Descriptor) : FhirPathCompilerVisitor :=
  { descriptor_stack_ := descriptor_stack_history ++ [descriptor], error_message_ := "" }

/-- Embeds `descriptor_stack_.back()`. -/
def FhirPathCompilerVisitor.back (visitor : FhirPathCompilerVisitor) : Option Descriptor :=
  visitor.descriptor_stack_.getLast?.getD none

/-- Embeds `FhirPathCompilerVisitor::CheckOk`. -/
def FhirPathCompilerVisitor.CheckOk (visitor : FhirPathCompilerVisitor) : Bool :=
  decide (visitor.error_message_ = "")

/-- Embeds `FhirPathCompilerVisitor::GetError`. -/
def FhirPathCompilerVisitor.GetError (visitor : FhirPathCompilerVisitor) : String :=
  visitor.error_message_

/-- Embeds `FhirPathCompilerVisitor::SetError`. -/
def FhirPathCompilerVisitor.SetError (visitor : FhirPathCompilerVisitor)
    (error_message : String) : FhirPathCompilerVisitor :=
  { visitor with error_message_ := error_message }

/-- Embeds `InvocationDefinition`; `ExpressionContext` is the type of the parse
trees of the parameters. -/
structure InvocationDefinition (ExpressionContext : Type) where
  name : String
  is_function : Bool
  params : List ExpressionContext

/-- What visiting the children of an invocation term gives: an expression node,
or the definition of an invocation. -/
inductive VisitedInvocation (ExpressionContext : Type) where
  | node (expression : CompiledNode)
  | definition (definition : InvocationDefinition ExpressionContext)

/-- The `InvokeTermNode` that the compiler makes; `message_type` is
`FieldDescriptor::message_type`, the type of the values of a field. -/
def InvokeTermNode.node (message_type : FieldDescriptor → Option Descriptor)
    (field_ : Option FieldDescriptor) (field_name_ : String) : CompiledNode :=
  { Evaluate := InvokeTermNode.Evaluate field_ field_name_,
    ReturnType := field_.bind message_type }

/-- The `InvokeExpressionNode` that the compiler makes. -/
def InvokeExpressionNode.node (message_type : FieldDescriptor → Option Descriptor)
    (child_expression_ : CompiledNode) (field_ : Option FieldDescriptor)
    (field_name_ : String) : CompiledNode :=
  { Evaluate := InvokeExpressionNode.Evaluate child_expression_.Evaluate field_ field_name_,
    ReturnType := field_.bind message_type }

/-- The `ThisReference` that the compiler makes. -/
def ThisReference.node (descriptor_ : Option Descriptor) : CompiledNode :=
  { Evaluate := ThisReference.Evaluate, ReturnType := descriptor_ }

/-- The `ContainsOperator` that the compiler makes. -/
def ContainsOperator.node (handler : PrimitiveHandler) (left right : CompiledNode) :
    CompiledNode :=
  { Evaluate :=
      BinaryOperator.Evaluate (ContainsOperator.EvaluateOperator handler)
        left.Evaluate right.Evaluate,
    ReturnType := some (PrimitiveDescriptor "Boolean") }

/-- Embeds `FhirPathCompilerVisitor::visitInvocationExpression`, from the visitor
as the visits of the two children leave it, the node of the first child and the
definition that the second child gives.  `createFunction` is the method of that
name, which returns a pointer (`none` for the null pointer); the result is the
visitor afterwards and the value returned. -/
def FhirPathCompilerVisitor.visitInvocationExpression {ExpressionContext : Type}
    (createFunction : FhirPathCompilerVisitor → String → CompiledNode →
      List ExpressionContext → FhirPathCompilerVisitor × Option CompiledNode)
    (message_type : FieldDescriptor → Option Descriptor)
    (visitor : FhirPathCompilerVisitor) (expression : CompiledNode)
    (definition : InvocationDefinition ExpressionContext) :
    FhirPathCompilerVisitor × antlrcpp.Any :=
  if !visitor.CheckOk then
    (visitor, .null)
  else if definition.is_function then
    let (visitor, function_node) :=
      createFunction visitor definition.name expression definition.params
    if function_node.isNone || !visitor.CheckOk then (visitor, .null)
    else (visitor, .of function_node)
  else
    let descriptor := expression.ReturnType
    let field :=
      match descriptor with
      | some descriptor => FindFieldByJsonName descriptor definition.name
      | none => none
    if descriptor.isSome && field.isNone then
      (visitor.SetError ("Unable to find field " ++ definition.name), .null)
    else
      (visitor,
        .of (some (InvokeExpressionNode.node message_type expression field definition.name)))

/-- Embeds `FhirPathCompilerVisitor::visitInvocationTerm`, from the visitor as
the visit of the children leaves it and what that visit gives.  For a function
the method returns `function_node == nullptr || !CheckOk() ? nullptr :
ToAny(function_node)`: both branches of the conditional are pointers, so the
value returned always holds a pointer, the null pointer when the call failed,
and `isNull()` does not hold of it. -/
def FhirPathCompilerVisitor.visitInvocationTerm {ExpressionContext : Type}
    (createFunction : FhirPathCompilerVisitor → String → CompiledNode →
      List ExpressionContext → FhirPathCompilerVisitor × Option CompiledNode)
    (message_type : FieldDescriptor → Option Descriptor)
    (visitor : FhirPathCompilerVisitor) (invocation : VisitedInvocation ExpressionContext) :
    FhirPathCompilerVisitor × antlrcpp.Any :=
  if !visitor.CheckOk then
    (visitor, .null)
  else
    match invocation with
    | .node expression => (visitor, .of (some expression))
    | .definition definition =>
        if definition.is_function then
          let (visitor, function_node) :=
            createFunction visitor definition.name (ThisReference.node visitor.back)
              definition.params
          (visitor, .of (if function_node.isNone || !visitor.CheckOk then none
            else function_node))
        else
          let field :=
            match visitor.back with
            | some descriptor => FindFieldByJsonName descriptor definition.name
            | none => none
          if visitor.back.isSome && field.isNone then
            (visitor.SetError ("Unable to find field " ++ definition.name), .null)
          else
            (visitor, .of (some (InvokeTermNode.node message_type field definition.name)))

/-- Embeds `CompiledExpression::Compile`; `visit` is the parse of the text and
the visit of its tree, from the fresh visitor to the visitor afterwards and the
value that the visit returns.  A root that holds the null pointer, which the
visitors embedded here give only with an error set (`visitInvocationTerm` when
`createFunction` has set one), is given as the failure. -/
def CompiledExpression.Compile
    (visit : FhirPathCompilerVisitor → FhirPathCompilerVisitor × antlrcpp.Any)
    (descriptor : Option Descriptor) : StatusOr CompiledNode :=
  let (visitor, result) := visit (FhirPathCompilerVisitor.ofDescriptor descriptor)
  match result with
  | .of (some root_node) =>
      if visitor.GetError = "" then .ok root_node
      else .error (.InvalidArgument visitor.GetError)
  | .of none => .error (.InvalidArgument visitor.GetError)
  | .null => .error (.InvalidArgument visitor.GetError)

/-! ## Compiler: terminals, binary expressions and functions -/

/-- The token types that `visitTerminal` tells apart; `other` is any other type
of `FhirPathLexer`. -/
inductive FhirPathLexer.TokenType where
  | NUMBER
  | STRING
  | BOOL
  | EMPTY
  | other
deriving DecidableEq, Repr

/-- The number that a text of decimal digits writes, read from the left; `none`
when a character is not a digit. -/
def ParseDigits : List Char → Nat → Option Nat
  | [], value => some value
  | c :: rest, value =>
      if '0' ≤ c ∧ c ≤ '9' then ParseDigits rest (value * 10 + (c.toNat - '0'.toNat))
      else none

/-- Models `absl::SimpleAtoi` into an `int32_t` on the text of a NUMBER token
without a point, which is a run of digits: the number, or `none` when it does not
fit the 32 bits. -/
def SimpleAtoi (text : String) : Option Int :=
  match text.data with
  | [] => none
  | data =>
      match ParseDigits data 0 with
      | some value => if value < 2 ^ 31 then some (value : Int) else none
      | none => none

/-- The `Literal<ProtoType, PrimitiveType>` that the compiler makes. -/
def Literal.node {PrimitiveType : Type} (ProtoType : PrimitiveType → Message)
    (descriptor : Descriptor) (value_ : PrimitiveType) : CompiledNode :=
  { Evaluate := Literal.Evaluate ProtoType value_, ReturnType := some descriptor }

/-- The `EmptyLiteral` that the compiler makes. -/
def EmptyLiteral.node : CompiledNode :=
  { Evaluate := EmptyLiteral.Evaluate, ReturnType := none }

/-- The `AndOperator` that the compiler makes. -/
def AndOperator.node (left right : CompiledNode) : CompiledNode :=
  { Evaluate := AndOperator.Evaluate left.Evaluate right.Evaluate,
    ReturnType := some (PrimitiveDescriptor "Boolean") }

/-- A visit `context->accept(visitor)` of a parse tree: from the visitor before
to the visitor afterwards and the value returned. -/
abbrev Visit : Type :=
  FhirPathCompilerVisitor → FhirPathCompilerVisitor × antlrcpp.Any

/-- Embeds `FhirPathCompilerVisitor::visitTerminal`, on the type and the text of
the token; `CUnescape` is `absl::CUnescape`. -/
def FhirPathCompilerVisitor.visitTerminal (CUnescape : String → String)
    (type : FhirPathLexer.TokenType) (text : String) : Visit :=
  fun visitor =>
    match type with
    | .NUMBER =>
        if text.data.contains '.' then
          (visitor,
            .of (some (Literal.node Message.Decimal (PrimitiveDescriptor "Decimal") text)))
        else
          match SimpleAtoi text with
          | none => (visitor.SetError ("Malformed integer " ++ text), .null)
          | some value =>
              (visitor,
                .of (some (Literal.node Message.Integer (PrimitiveDescriptor "Integer") value)))
    | .STRING =>
        let trimmed := String.mk ((text.data.drop 1).take (text.data.length - 2))
        (visitor,
          .of (some
            (Literal.node Message.String (PrimitiveDescriptor "String") (CUnescape trimmed))))
    | .BOOL =>
        (visitor,
          .of (some (Literal.node Message.Boolean (PrimitiveDescriptor "Boolean")
            (decide (text = "true")))))
    | .EMPTY => (visitor, .of (some EmptyLiteral.node))
    | .other => (visitor.SetError ("Unknown terminal type: " ++ text), .null)

/-- Embeds `FhirPathCompilerVisitor::visitAndExpression`; `left_context` and
`right_context` are the visits of `ctx->children[0]` and `ctx->children[2]`.
With no error set both operands are nodes; the cast of a null operand, which
the visitors embedded here never give without an error, is given as the null
value. -/
def FhirPathCompilerVisitor.visitAndExpression (left_context right_context : Visit) : Visit :=
  fun visitor =>
    let (visitor, left_any) := left_context visitor
    let (visitor, right_any) := right_context visitor
    if !visitor.CheckOk then
      (visitor, .null)
    else
      match left_any, right_any with
      | .of (some left), .of (some right) =>
          (visitor, .of (some (AndOperator.node left right)))
      | _, _ => (visitor, .null)

/-- Embeds `FhirPathParser::ExpressionContext` as the compiler uses the parse
tree of a parameter: it is visited, and its text is read. -/
structure ExpressionContext where
  accept : Visit
  getText : String

/-- Embeds `FunctionNode::CompileParams(params, visitor)`: the parameters are
visited in order, a parameter whose value `isNull()` fails the call, and the
pointer that another value holds, null or not, is added to the compiled
parameters. -/
def FunctionNode.CompileParams :
    List ExpressionContext → FhirPathCompilerVisitor →
      FhirPathCompilerVisitor × StatusOr (List (Option CompiledNode))
  | [], visitor => (visitor, .ok [])
  | param :: rest, visitor =>
      match param.accept visitor with
      | (visitor, .null) => (visitor, .error (.InvalidArgument "Failed to compile parameter."))
      | (visitor, .of param_any) =>
          match FunctionNode.CompileParams rest visitor with
          | (visitor, .ok compiled_params) => (visitor, .ok (param_any :: compiled_params))
          | (visitor, .error status) => (visitor, .error status)

/-- Embeds `FunctionNode::ValidateParams`, the default that accepts any
parameters. -/
def FunctionNode.ValidateParams (_ : List (Option CompiledNode)) : Except Status Unit :=
  .ok ()

/-- Embeds `ZeroParameterFunctionNode::ValidateParams`. -/
def ZeroParameterFunctionNode.ValidateParams (params : List (Option CompiledNode)) :
    Except Status Unit :=
  if !params.isEmpty then .error (.InvalidArgument "Function does not accept any arguments.")
  else .ok ()

/-- Embeds `SingleParameterFunctionNode::ValidateParams`, and the
`ValidateParams` of `WhereFunction`, `AllFunction` and `SelectFunction`, which
are the same. -/
def SingleParameterFunctionNode.ValidateParams (params : List (Option CompiledNode)) :
    Except Status Unit :=
  if params.length ≠ 1 then .error (.InvalidArgument "Function requires exactly one argument.")
  else .ok ()

/-- Embeds `IifFunction::CompileParams`: the criterion is visited in the child
context, the two results in the base context. -/
def IifFunction.CompileParams (params : List ExpressionContext)
    (base_context_visitor child_context_visitor : FhirPathCompilerVisitor) :
    FhirPathCompilerVisitor × FhirPathCompilerVisitor ×
      StatusOr (List (Option CompiledNode)) :=
  if params.length < 2 || params.length > 3 then
    (base_context_visitor, child_context_visitor,
      .error (.InvalidArgument "iif() requires 2 or 3 arugments."))
  else
    match params with
    | criterion_context :: true_context :: rest =>
        match criterion_context.accept child_context_visitor with
        | (child_context_visitor, .null) =>
            (base_context_visitor, child_context_visitor,
              .error (.InvalidArgument "Failed to compile parameter."))
        | (child_context_visitor, .of criterion) =>
            match true_context.accept base_context_visitor with
            | (base_context_visitor, .null) =>
                (base_context_visitor, child_context_visitor,
                  .error (.InvalidArgument "Failed to compile parameter."))
            | (base_context_visitor, .of true_result) =>
                match rest with
                | [] =>
                    (base_context_visitor, child_context_visitor,
                      .ok [criterion, true_result])
                | otherwise_context :: _ =>
                    match otherwise_context.accept base_context_visitor with
                    | (base_context_visitor, .null) =>
                        (base_context_visitor, child_context_visitor,
                          .error (.InvalidArgument "Failed to compile parameter."))
                    | (base_context_visitor, .of otherwise_result) =>
                        (base_context_visitor, child_context_visitor,
                          .ok [criterion, true_result, otherwise_result])
    | _ =>
        (base_context_visitor, child_context_visitor,
          .error (.InvalidArgument "iif() requires 2 or 3 arugments."))

/-- The static members of a function class `T` that `FunctionNode::Create<T>`
uses: `T::CompileParams`, `T::ValidateParams` and the constructor
`T(child, params)`. -/
structure FunctionClass where
  CompileParams : List ExpressionContext → FhirPathCompilerVisitor → FhirPathCompilerVisitor →
    FhirPathCompilerVisitor × FhirPathCompilerVisitor ×
      StatusOr (List (Option CompiledNode))
  ValidateParams : List (Option CompiledNode) → Except Status Unit
  construct : CompiledNode → List (Option CompiledNode) → CompiledNode

/-- Embeds `FunctionFactory`: from the child expression, the parameters, the
base context visitor and the child context visitor to the two visitors
afterwards and the node or a status. -/
abbrev FunctionFactory : Type :=
  CompiledNode → List ExpressionContext → FhirPathCompilerVisitor → FhirPathCompilerVisitor →
    FhirPathCompilerVisitor × FhirPathCompilerVisitor × StatusOr CompiledNode

/-- Embeds `FunctionNode::Create<T>`. -/
def FunctionNode.Create (T : FunctionClass) : FunctionFactory :=
  fun child_expression params base_context_visitor child_context_visitor =>
    match T.CompileParams params base_context_visitor child_context_visitor with
    | (base_context_visitor, child_context_visitor, .error status) =>
        (base_context_visitor, child_context_visitor, .error status)
    | (base_context_visitor, child_context_visitor, .ok compiled_params) =>
        match T.ValidateParams compiled_params with
        | .error status => (base_context_visitor, child_context_visitor, .error status)
        | .ok _ =>
            (base_context_visitor, child_context_visitor,
              .ok (T.construct child_expression compiled_params))

/-- Embeds `FunctionNode::CompileParams(params, base_context_visitor,
child_context_visitor)`, which compiles in the base context. -/
def FunctionNode.CompileParamsInBaseContext (params : List ExpressionContext)
    (base_context_visitor child_context_visitor : FhirPathCompilerVisitor) :
    FhirPathCompilerVisitor × FhirPathCompilerVisitor ×
      StatusOr (List (Option CompiledNode)) :=
  let (base_context_visitor, compiled_params) :=
    FunctionNode.CompileParams params base_context_visitor
  (base_context_visitor, child_context_visitor, compiled_params)

/-- Embeds the `CompileParams` of `WhereFunction`, `AllFunction` and
`SelectFunction`, which compile in the child context. -/
def FunctionNode.CompileParamsInChildContext (params : List ExpressionContext)
    (base_context_visitor child_context_visitor : FhirPathCompilerVisitor) :
    FhirPathCompilerVisitor × FhirPathCompilerVisitor ×
      StatusOr (List (Option CompiledNode)) :=
  let (child_context_visitor, compiled_params) :=
    FunctionNode.CompileParams params child_context_visitor
  (base_context_visitor, child_context_visitor, compiled_params)

/-- A class derived from `ZeroParameterFunctionNode`, with its constructor. -/
def ZeroParameterFunctionNode.Class
    (construct : CompiledNode → List (Option CompiledNode) → CompiledNode) : FunctionClass :=
  { CompileParams := FunctionNode.CompileParamsInBaseContext,
    ValidateParams := ZeroParameterFunctionNode.ValidateParams,
    construct := construct }

/-- A class derived from `SingleParameterFunctionNode`, with its constructor. -/
def SingleParameterFunctionNode.Class
    (construct : CompiledNode → List (Option CompiledNode) → CompiledNode) : FunctionClass :=
  { CompileParams := FunctionNode.CompileParamsInBaseContext,
    ValidateParams := SingleParameterFunctionNode.ValidateParams,
    construct := construct }

/-- One of `WhereFunction`, `AllFunction` and `SelectFunction`, with its
constructor. -/
def ChildContextFunction.Class
    (construct : CompiledNode → List (Option CompiledNode) → CompiledNode) : FunctionClass :=
  { CompileParams := FunctionNode.CompileParamsInChildContext,
    ValidateParams := SingleParameterFunctionNode.ValidateParams,
    construct := construct }

/-- The class `IifFunction`, with its constructor: it has a `CompileParams` of its
own and the `ValidateParams` of `FunctionNode`. -/
def IifFunction.Class
    (construct : CompiledNode → List (Option CompiledNode) → CompiledNode) : FunctionClass :=
  { CompileParams := IifFunction.CompileParams,
    ValidateParams := FunctionNode.ValidateParams,
    construct := construct }

/-- Embeds `IsFunction::Create` and `AsFunction::Create`, which differ in the
name of the error message and in the constructor. -/
def TypeFunction.Create (function_name : String) (construct : CompiledNode → String → CompiledNode) :
    FunctionFactory :=
  fun child_expression params base_context_visitor child_context_visitor =>
    match params with
    | [param] =>
        (base_context_visitor, child_context_visitor,
          .ok (construct child_expression param.getText))
    | _ =>
        (base_context_visitor, child_context_visitor,
          .error (.InvalidArgument (function_name ++ "() requires a single argument.")))

/-- The constructors of the function nodes, by the name of the class: the
nodes of the classes derived from `FunctionNode`, and those of `IsFunction` and
`AsFunction`, which hold the text of their parameter. -/
structure FunctionNodes where
  node : String → CompiledNode → List (Option CompiledNode) → CompiledNode
  type_node : String → CompiledNode → String → CompiledNode

/-- Embeds `FhirPathCompilerVisitor::function_map`. -/
def FhirPathCompilerVisitor.function_map (nodes : FunctionNodes) :
    List (String × FunctionFactory) :=
  [("exists", FunctionNode.Create (ZeroParameterFunctionNode.Class (nodes.node "ExistsFunction"))),
   ("not", FunctionNode.Create (ZeroParameterFunctionNode.Class (nodes.node "NotFunction"))),
   ("hasValue",
      FunctionNode.Create (ZeroParameterFunctionNode.Class (nodes.node "HasValueFunction"))),
   ("startsWith",
      FunctionNode.Create (SingleParameterFunctionNode.Class (nodes.node "StartsWithFunction"))),
   ("contains",
      FunctionNode.Create (SingleParameterFunctionNode.Class (nodes.node "ContainsFunction"))),
   ("empty", FunctionNode.Create (ZeroParameterFunctionNode.Class (nodes.node "EmptyFunction"))),
   ("first", FunctionNode.Create (ZeroParameterFunctionNode.Class (nodes.node "FirstFunction"))),
   ("tail", FunctionNode.Create (ZeroParameterFunctionNode.Class (nodes.node "TailFunction"))),
   ("trace",
      FunctionNode.Create (SingleParameterFunctionNode.Class (nodes.node "TraceFunction"))),
   ("toInteger",
      FunctionNode.Create (ZeroParameterFunctionNode.Class (nodes.node "ToIntegerFunction"))),
   ("count", FunctionNode.Create (ZeroParameterFunctionNode.Class (nodes.node "CountFunction"))),
   ("combine",
      FunctionNode.Create (SingleParameterFunctionNode.Class (nodes.node "CombineFunction"))),
   ("distinct",
      FunctionNode.Create (ZeroParameterFunctionNode.Class (nodes.node "DistinctFunction"))),
   ("matches",
      FunctionNode.Create (SingleParameterFunctionNode.Class (nodes.node "MatchesFunction"))),
   ("length",
      FunctionNode.Create (ZeroParameterFunctionNode.Class (nodes.node "LengthFunction"))),
   ("isDistinct",
      FunctionNode.Create (ZeroParameterFunctionNode.Class (nodes.node "IsDistinctFunction"))),
   ("intersect",
      FunctionNode.Create (SingleParameterFunctionNode.Class (nodes.node "IntersectFunction"))),
   ("where", FunctionNode.Create (ChildContextFunction.Class (nodes.node "WhereFunction"))),
   ("select", FunctionNode.Create (ChildContextFunction.Class (nodes.node "SelectFunction"))),
   ("all", FunctionNode.Create (ChildContextFunction.Class (nodes.node "AllFunction"))),
   ("toString",
      FunctionNode.Create (ZeroParameterFunctionNode.Class (nodes.node "ToStringFunction"))),
   ("iif", FunctionNode.Create (IifFunction.Class (nodes.node "IifFunction"))),
   ("is", TypeFunction.Create "is" (nodes.type_node "IsFunction")),
   ("as", TypeFunction.Create "as" (nodes.type_node "AsFunction")),
   ("children",
      FunctionNode.Create (ZeroParameterFunctionNode.Class (nodes.node "ChildrenFunction")))]

/-- The message of a status: `status.error_message()`. -/
def Status.message : Status → String
  | .InvalidArgument error_message => error_message
  | .FailedPrecondition error_message => error_message

/-- Embeds `FhirPathCompilerVisitor::createFunction`. -/
def FhirPathCompilerVisitor.createFunction (nodes : FunctionNodes)
    (visitor : FhirPathCompilerVisitor) (function_name : String)
    (child_expression : CompiledNode) (params : List ExpressionContext) :
    FhirPathCompilerVisitor × Option CompiledNode :=
  match (FhirPathCompilerVisitor.function_map nodes).lookup function_name with
  | some function_factory =>
      let child_context_visitor :=
        FhirPathCompilerVisitor.ofHistory visitor.descriptor_stack_ child_expression.ReturnType
      match function_factory child_expression params visitor child_context_visitor with
      | (visitor, child_context_visitor, .error status) =>
          (visitor.SetError
            ("Failed to compile call to " ++ function_name ++ "(): " ++ status.message ++
              (if !child_context_visitor.CheckOk then "; " ++ child_context_visitor.GetError
                else "")),
            none)
      | (visitor, _, .ok result) => (visitor, some result)
  | none =>
      (visitor.SetError ("The function " ++ function_name ++ " is not yet implemented"), none)

/-! ## Validator -/

/-- Embeds the members of `CompiledExpression`: the text of the expression and
its root node. -/
structure CompiledExpression where
  fhir_path_ : String
  root_expression_ : ExpressionNode

/-- Embeds `EvaluationResult::GetBoolean`, on the result messages of the work
space. -/
def EvaluationResult.GetBoolean (messages : List Message) : StatusOr Bool :=
  if IsSingleBoolean messages then MessagesToBoolean messages
  else .error (.InvalidArgument "Expression did not evaluate to boolean")

/-- Embeds the members of `MessageConstraints`. -/
structure MessageConstraints where
  message_expressions_ : List CompiledExpression
  field_expressions_ : List (FieldDescriptor × CompiledExpression)
  nested_with_constraints_ : List FieldDescriptor

/-- The part of a dotted name after its last dot; `current` is the part read
since the last dot. -/
def Descriptor.name.last (current : List Char) : List Char → List Char
  | [] => current
  | c :: rest =>
      if c = '.' then Descriptor.name.last [] rest
      else Descriptor.name.last (current ++ [c]) rest

/-- Modelled from the spec: `Descriptor::name()`, the name of the type without
its package: the last part of the "full name". -/
def Descriptor.name (descriptor : Descriptor) : String :=
  String.mk (Descriptor.name.last [] descriptor.full_name.data)

/-- Modelled from the spec: what the validator reads of the schema besides the
name and the fields of a descriptor: the type of a field that holds messages
(`field->message_type()`, absent for a field of a scalar type), the type that
declares a field (`field->containing_type()`), the "message-level constraint
annotations on the Descriptor options" and the "constraint annotations"
attached to a field. -/
structure Schema where
  message_type : FieldDescriptor → Option Descriptor
  containing_type : FieldDescriptor → Descriptor
  fhir_path_message_constraint : Descriptor → List String
  fhir_path_constraint : FieldDescriptor → List String

/-- Modelled from the spec: ViolationHandlerFunc (fhir_path.h), the handler
that "reporting calls" with "(containing message, field-or-null, source
text)" and that "returns a bool meaning halt further validation".  The handler
is a function object: `σ` is the type of what it holds, given to each call and
returned by it with the Boolean. -/
abbrev ViolationHandlerFunc (σ : Type) : Type :=
  σ → Message → Option FieldDescriptor → String → Bool × σ

/-- Embeds `HaltOnErrorHandler`. -/
def HaltOnErrorHandler {σ : Type} : ViolationHandlerFunc σ :=
  fun handler_state _ _ _ => (true, handler_state)

/-- What a run of the validator does, in the order in which it does it:
`constraint message fhir_path status` is a call of `ValidateMessageConstraint`
or of `ValidateFieldConstraint` that evaluates the expression of that text on
the message, with the status that the call returns (`.ok ()` is `Status::OK()`,
no status is the end of the process in a `ValueOrDie` on a failure);
`handler message field constraint halt` is a call of the handler with these
arguments (no field is the null pointer) that returned `halt`. -/
inductive ValidationEvent where
  | constraint (message : Message) (fhir_path : String) (status : Option (StatusOr Unit))
  | handler (message : Message) (field : Option FieldDescriptor) (constraint : String)
      (halt : Bool)

/-- What the calls of one validation share: `*halt_validation`, what the
handler holds, and the events so far. -/
structure ValidationState (σ : Type) where
  halt_validation : Bool
  handler_state : σ
  log : List ValidationEvent

/-- The state after one more event. -/
def ValidationState.record {σ : Type} (state : ValidationState σ) (event : ValidationEvent) :
    ValidationState σ :=
  { state with log := state.log ++ [event] }

/-- The call `handler(message, field, constraint)` and the assignment of its
result to `*halt_validation`. -/
def ValidationState.call {σ : Type} (state : ValidationState σ)
    (handler : ViolationHandlerFunc σ) (message : Message) (field : Option FieldDescriptor)
    (constraint : String) : ValidationState σ :=
  { halt_validation := (handler state.handler_state message field constraint).1,
    handler_state := (handler state.handler_state message field constraint).2,
    log := state.log ++
      [.handler message field constraint
        (handler state.handler_state message field constraint).1] }

/-- Embeds `ValidateMessageConstraint`: the status returned and the state
afterwards. -/
def ValidateMessageConstraint {σ : Type} (message : Message)
    (expression : CompiledExpression) (handler : ViolationHandlerFunc σ)
    (state : ValidationState σ) : StatusOr Unit × ValidationState σ :=
  match CompiledExpression.Evaluate expression.root_expression_ message with
  | .error status =>
      (.error status,
        state.record (.constraint message expression.fhir_path_ (some (.error status))))
  | .ok expr_result =>
      match EvaluationResult.GetBoolean expr_result with
      | .error _ =>
          let status := Status.InvalidArgument
            ("Constraint did not evaluate to boolean: " ++ (GetDescriptor message).name ++
              ": \"" ++ expression.fhir_path_ ++ "\"")
          (.error status,
            { state.record (.constraint message expression.fhir_path_ (some (.error status)))
              with halt_validation := true })
      | .ok false =>
          let err_msg := "fhirpath-constraint-violation-" ++ (GetDescriptor message).name ++
            ": \"" ++ expression.fhir_path_ ++ "\""
          (.error (.FailedPrecondition err_msg),
            (state.record (.constraint message expression.fhir_path_
                (some (.error (.FailedPrecondition err_msg))))).call
              handler message none expression.fhir_path_)
      | .ok true =>
          (.ok (), state.record (.constraint message expression.fhir_path_ (some (.ok ()))))

/-- Embeds `ValidateFieldConstraint`: the status returned and the state
afterwards; no status when `GetBoolean().ValueOrDie()` ends the process. -/
def ValidateFieldConstraint {σ : Type} (schema : Schema) (parent : Message)
    (field : FieldDescriptor) (field_value : Message) (expression : CompiledExpression)
    (handler : ViolationHandlerFunc σ) (state : ValidationState σ) :
    Option (StatusOr Unit) × ValidationState σ :=
  match CompiledExpression.Evaluate expression.root_expression_ field_value with
  | .error status =>
      (some (.error status),
        state.record (.constraint field_value expression.fhir_path_ (some (.error status))))
  | .ok expr_result =>
      match EvaluationResult.GetBoolean expr_result with
      | .error _ => (none, state.record (.constraint field_value expression.fhir_path_ none))
      | .ok false =>
          let err_msg := "fhirpath-constraint-violation-" ++
            (schema.containing_type field).name ++ "." ++ field.json_name ++ ": \"" ++
            expression.fhir_path_ ++ "\""
          (some (.error (.FailedPrecondition err_msg)),
            (state.record (.constraint field_value expression.fhir_path_
                (some (.error (.FailedPrecondition err_msg))))).call
              handler parent (some field) expression.fhir_path_)
      | .ok true =>
          (some (.ok ()),
            state.record (.constraint field_value expression.fhir_path_ (some (.ok ()))))

/-- Embeds `UpdateStatus`: the accumulative status afterwards. -/
def UpdateStatus (accumulative_status current_status : StatusOr Unit) : StatusOr Unit :=
  match accumulative_status, current_status with
  | .ok _, .error status => .error status
  | _, _ => accumulative_status

/-- How a call of `MessageValidator::Validate` ends: with the status that it
returns, or without one when the process ends in a `ValueOrDie` on a failure;
and the state then. -/
abbrev ValidateResult (σ : Type) : Type := Option (StatusOr Unit) × ValidationState σ

/-- Modelled from the spec: ForEachMessageHalting (proto_util.h), "for every
element of that field in the message" the function is called, in order, until a
call returns true.  `S` is what the function captures by reference; a call that
does not return (`.error`) ends the loop with that. -/
def ForEachMessageHalting.loop {E S : Type} (func : Message → S → Except E (Bool × S)) :
    List Message → S → Except E S
  | [], captured => .ok captured
  | child :: rest, captured =>
      match func child captured with
      | .error exit => .error exit
      | .ok (true, captured) => .ok captured
      | .ok (false, captured) => ForEachMessageHalting.loop func rest captured

/-- Modelled from the spec: ForEachMessageHalting (proto_util.h), on the values
of the field in the message. -/
def ForEachMessageHalting {E S : Type} (message : Message) (field : FieldDescriptor)
    (func : Message → S → Except E (Bool × S)) (captured : S) : Except E S :=
  ForEachMessageHalting.loop func (FieldValues message field) captured

/-- The first loop of `MessageValidator::Validate`, over the constraints
attached to the message root: `.error` is the `return accumulative_status` in
the loop, `.ok` the accumulative status and the state at the end of the loop. -/
def MessageValidator.Validate.message_expressions {σ : Type} (message : Message)
    (handler : ViolationHandlerFunc σ) :
    List CompiledExpression → StatusOr Unit × ValidationState σ →
      Except (ValidateResult σ) (StatusOr Unit × ValidationState σ)
  | [], captured => .ok captured
  | expr :: rest, (accumulative_status, state) =>
      let (status, state) := ValidateMessageConstraint message expr handler state
      let accumulative_status := UpdateStatus accumulative_status status
      if state.halt_validation then .error (some accumulative_status, state)
      else MessageValidator.Validate.message_expressions message handler rest
        (accumulative_status, state)

/-- The function that the second loop of `MessageValidator::Validate` gives to
`ForEachMessageHalting`, which captures the accumulative status and the state:
`.error` is the end of the process. -/
def MessageValidator.Validate.field_expression {σ : Type} (schema : Schema)
    (message : Message) (handler : ViolationHandlerFunc σ) (field : FieldDescriptor)
    (expr : CompiledExpression) (child : Message)
    (captured : StatusOr Unit × ValidationState σ) :
    Except (ValidateResult σ) (Bool × (StatusOr Unit × ValidationState σ)) :=
  match ValidateFieldConstraint schema message field child expr handler captured.2 with
  | (none, state) => .error (none, state)
  | (some status, state) =>
      .ok (state.halt_validation, (UpdateStatus captured.1 status, state))

/-- The second loop of `MessageValidator::Validate`, over the constraints
attached to the fields of the message: `.error` is the
`return accumulative_status` in the loop or the end of the process, `.ok` the
accumulative status and the state at the end of the loop. -/
def MessageValidator.Validate.field_expressions {σ : Type} (schema : Schema)
    (message : Message) (handler : ViolationHandlerFunc σ) :
    List (FieldDescriptor × CompiledExpression) → StatusOr Unit × ValidationState σ →
      Except (ValidateResult σ) (StatusOr Unit × ValidationState σ)
  | [], captured => .ok captured
  | expression :: rest, (accumulative_status, state) =>
      if state.halt_validation then .error (some accumulative_status, state)
      else
        let field := expression.1
        let expr := expression.2
        match ForEachMessageHalting message field
            (MessageValidator.Validate.field_expression schema message handler field expr)
            (accumulative_status, state) with
        | .error exit => .error exit
        | .ok captured =>
            MessageValidator.Validate.field_expressions schema message handler rest captured

/-- The function that the third loop of `MessageValidator::Validate` gives to
`ForEachMessageHalting`, which captures the accumulative status and the state;
`Validate` is the recursive call.  `.error` is the end of the process, or no
result when the recursive call has none. -/
def MessageValidator.Validate.nested_message {σ : Type}
    (Validate : Message → ValidationState σ → Option (ValidateResult σ)) (child : Message)
    (captured : StatusOr Unit × ValidationState σ) :
    Except (Option (ValidateResult σ)) (Bool × (StatusOr Unit × ValidationState σ)) :=
  match Validate child captured.2 with
  | none => .error none
  | some (none, state) => .error (some (none, state))
  | some (some status, state) =>
      .ok (state.halt_validation, (UpdateStatus captured.1 status, state))

/-- The third loop of `MessageValidator::Validate`, over the nested fields with
constraints; `Validate` is the recursive call.  `.error` is the
`return accumulative_status` in the loop, the end of the process, or no result
when the recursive call has none; `.ok` is the accumulative status and the
state at the end of the loop. -/
def MessageValidator.Validate.nested_with_constraints {σ : Type}
    (Validate : Message → ValidationState σ → Option (ValidateResult σ))
    (message : Message) :
    List FieldDescriptor → StatusOr Unit × ValidationState σ →
      Except (Option (ValidateResult σ)) (StatusOr Unit × ValidationState σ)
  | [], captured => .ok captured
  | field :: rest, (accumulative_status, state) =>
      if state.halt_validation then .error (some (some accumulative_status, state))
      else
        match ForEachMessageHalting message field
            (MessageValidator.Validate.nested_message Validate) (accumulative_status, state) with
        | .error exit => .error exit
        | .ok captured =>
            MessageValidator.Validate.nested_with_constraints Validate message rest captured

/-- Embeds `MessageValidator::Validate(message, handler, halt_validation)`.
`ConstraintsFor` gives what `ConstraintsFor(descriptor)` returns: the entry of
the constraints cache, which no call changes once the first one has returned.
The recursion is on the fuel: the result is `none` when the nesting of the
message is deeper than the fuel. -/
def MessageValidator.Validate.go {σ : Type} (schema : Schema)
    (ConstraintsFor : Descriptor → StatusOr MessageConstraints)
    (handler : ViolationHandlerFunc σ) :
    Nat → Message → ValidationState σ → Option (ValidateResult σ)
  | 0, _, _ => none
  | fuel + 1, message, state =>
      match ConstraintsFor (GetDescriptor message) with
      | .error status => some (some (.error status), state)
      | .ok constraints =>
          match MessageValidator.Validate.message_expressions message handler
              constraints.message_expressions_ (.ok (), state) with
          | .error exit => some exit
          | .ok captured =>
              match MessageValidator.Validate.field_expressions schema message handler
                  constraints.field_expressions_ captured with
              | .error exit => some exit
              | .ok captured =>
                  match MessageValidator.Validate.nested_with_constraints
                      (MessageValidator.Validate.go schema ConstraintsFor handler fuel)
                      message constraints.nested_with_constraints_ captured with
                  | .error exit => exit
                  | .ok captured => some (some captured.1, captured.2)

/-- Embeds `MessageValidator::Validate(message, handler)`, which starts with
`halt_validation = false`; `handler_state` is what the handler holds at the
start. -/
def MessageValidator.Validate {σ : Type} (schema : Schema)
    (ConstraintsFor : Descriptor → StatusOr MessageConstraints) (fuel : Nat)
    (message : Message) (handler : ViolationHandlerFunc σ) (handler_state : σ) :
    Option (ValidateResult σ) :=
  MessageValidator.Validate.go schema ConstraintsFor handler fuel message
    { halt_validation := false, handler_state := handler_state, log := [] }

/-! ## Constraints of a message type -/

/-- Embeds `CompiledExpression::Compile(descriptor, fhir_path)` up to the
compiled expression that it constructs; `parse` is the parse of a text, as the
visit of its tree. -/
def CompiledExpression.CompileExpression (parse : String → Visit) (descriptor : Descriptor)
    (fhir_path : String) : StatusOr CompiledExpression :=
  match CompiledExpression.Compile (parse fhir_path) (some descriptor) with
  | .ok root_node => .ok { fhir_path_ := fhir_path, root_expression_ := root_node.Evaluate }
  | .error status => .error status

/-- Embeds `constraints_cache_`: the constraints built so far, under the full
name of their type.  A `MessageConstraints*` is the name of the entry that it
points to. -/
abbrev ConstraintsCache : Type := List (String × MessageConstraints)

/-- Embeds `constraints_local->nested_with_constraints_.push_back(field)`, for
the entry of the cache under the name. -/
def ConstraintsCache.push_back (constraints_cache_ : ConstraintsCache) (full_name : String)
    (field : FieldDescriptor) : ConstraintsCache :=
  constraints_cache_.map fun entry =>
    if entry.1 = full_name then
      (entry.1,
        { entry.2 with nested_with_constraints_ := entry.2.nested_with_constraints_ ++ [field] })
    else entry

/-- The last loop of `MessageValidator::ConstraintsFor`, which looks for the
fields with constraints; `ConstraintsFor` is the recursive call and `full_name`
the name of the entry `constraints_local`.  The result is `none` when the
recursive call has none. -/
def MessageValidator.ConstraintsFor.nested_with_constraints (schema : Schema)
    (ConstraintsFor : Descriptor → ConstraintsCache → Option (StatusOr String × ConstraintsCache))
    (full_name : String) :
    List FieldDescriptor → ConstraintsCache → Option (StatusOr String × ConstraintsCache)
  | [], constraints_cache_ => some (.ok full_name, constraints_cache_)
  | field :: rest, constraints_cache_ =>
      match schema.message_type field with
      | none =>
          MessageValidator.ConstraintsFor.nested_with_constraints schema ConstraintsFor
            full_name rest constraints_cache_
      | some field_type =>
          match ConstraintsFor field_type constraints_cache_ with
          | none => none
          | some (.error status, constraints_cache_) => some (.error status, constraints_cache_)
          | some (.ok child_constraints, constraints_cache_) =>
              match constraints_cache_.lookup child_constraints with
              | none => none
              | some child_constraints =>
                  if !child_constraints.message_expressions_.isEmpty ||
                      !child_constraints.field_expressions_.isEmpty ||
                      !child_constraints.nested_with_constraints_.isEmpty then
                    MessageValidator.ConstraintsFor.nested_with_constraints schema
                      ConstraintsFor full_name rest
                      (constraints_cache_.push_back full_name field)
                  else
                    MessageValidator.ConstraintsFor.nested_with_constraints schema
                      ConstraintsFor full_name rest constraints_cache_

/-- Embeds `MessageValidator::ConstraintsFor`: the pointer returned and the
cache afterwards.  The recursion is on the fuel: the result is `none` when the
fuel does not suffice. -/
def MessageValidator.ConstraintsFor (schema : Schema) (parse : String → Visit) :
    Nat → Descriptor → ConstraintsCache → Option (StatusOr String × ConstraintsCache)
  | 0, _, _ => none
  | fuel + 1, descriptor, constraints_cache_ =>
      match constraints_cache_.lookup descriptor.full_name with
      | some _ => some (.ok descriptor.full_name, constraints_cache_)
      | none =>
          let constraints : MessageConstraints :=
            { message_expressions_ :=
                (schema.fhir_path_message_constraint descriptor).filterMap fun fhir_path =>
                  match CompiledExpression.CompileExpression parse descriptor fhir_path with
                  | .ok expression => some expression
                  | .error _ => none,
              field_expressions_ :=
                descriptor.fields.flatMap fun field =>
                  match schema.message_type field with
                  | none => []
                  | some field_type =>
                      (schema.fhir_path_constraint field).filterMap fun fhir_path =>
                        match CompiledExpression.CompileExpression parse field_type
                            fhir_path with
                        | .ok expression => some (field, expression)
                        | .error _ => none,
              nested_with_constraints_ := [] }
          MessageValidator.ConstraintsFor.nested_with_constraints schema
            (MessageValidator.ConstraintsFor schema parse fuel) descriptor.full_name
            descriptor.fields ((descriptor.full_name, constraints) :: constraints_cache_)

/-! ## Collections and schema used to state the properties -/

/-- The collection that stands for a three-valued Boolean: the empty collection
for "unknown", a single Boolean otherwise. -/
def ThreeValued (value : Option Bool) : List Message :=
  match value with
  | none => []
  | some value => [.Boolean value]

/-- A node whose evaluation fails. -/
def FailingNode : ExpressionNode :=
  fun _ _ => .error (.InvalidArgument "evaluation fails")

/-- The type of a name of the patient of the end-to-end scenarios: `family` and
the repeated `given`. -/
def HumanName.descriptor : Descriptor :=
  { full_name := "google.fhir.r4.core.HumanName", is_primitive := false,
    fields := [{ name := "family", json_name := "family" },
               { name := "given", json_name := "given" }] }

/-- The type of the patient of the end-to-end scenarios: the repeated `name`,
`active` and `birthDate`. -/
def Patient.descriptor : Descriptor :=
  { full_name := "google.fhir.r4.core.Patient", is_primitive := false,
    fields := [{ name := "name", json_name := "name" },
               { name := "active", json_name := "active" },
               { name := "birth_date", json_name := "birthDate" }] }

/-- What one message of the child collection contributes to a member
invocation: the values of the field resolved at compile time or, failing
that, of the field of the message's own type that has the JSON name; nothing
when there is no such field. -/
def InvokedValues (field_ : Option FieldDescriptor) (field_name_ : String)
    (child_message : Message) : List Message :=
  match field_ with
  | some field => FieldValues child_message field
  | none =>
      match FindFieldByJsonName (GetDescriptor child_message) field_name_ with
      | some field => FieldValues child_message field
      | none => []

/-- A name with the given family name. -/
def HumanName.ofFamily (family : String) : Message :=
  .composite HumanName.descriptor [("family", [.String family])]

/-- A name with the given given names. -/
def HumanName.ofGiven (given : List String) : Message :=
  .composite HumanName.descriptor [("given", given.map Message.String)]

/-- A patient with the given names. -/
def Patient.ofNames (names : List Message) : Message :=
  .composite Patient.descriptor [("name", names)]

/-- The collection that stands for an operand that is empty or a single
String. -/
def StringOperand (value : Option String) : List Message :=
  match value with
  | none => []
  | some value => [.String value]

/-- The numeric value of an Integer or an UnsignedInt message. -/
def NumericValue : Message → Option Int
  | .Integer value => some value
  | .UnsignedInt value => some value
  | _ => none

/-- A comparison library for the examples: the zones that
`BuildTimeZoneFromString` resolves without a time zone database, strings that
all collate as equal, and no comparison of decimals or quantities. -/
def ExampleComparisonLibrary : ComparisonLibrary :=
  { BuildTimeZoneFromString := BuildTimeZoneFromString,
    collate_compare := fun _ _ => 0,
    EvalDecimalComparison := fun _ _ _ => .error (.InvalidArgument "no decimal comparison"),
    EvalSimpleQuantityComparison :=
      fun _ _ _ => .error (.InvalidArgument "no quantity comparison") }

/-- A library for the examples: a message that is not primitive is serialized as
the name of its type, a string is hashed to its length, and a set is iterated
from the element inserted last to the one inserted first. -/
def ExampleHashLibrary : HashLibrary :=
  { SerializeAsString := fun message => (GetDescriptor message).full_name,
    hash := fun text => text.length,
    iteration := fun set => set.reverse }

/-- Value-equality is transitive on the messages. -/
def TransitiveOn (handler : PrimitiveHandler) (messages : List Message) : Prop :=
  ∀ x ∈ messages, ∀ y ∈ messages, ∀ z ∈ messages,
    EqualsOperator.AreEqual handler x y = true → EqualsOperator.AreEqual handler y z = true →
    EqualsOperator.AreEqual handler x z = true

/-- The handler contract that a message of a type that is not primitive has no
JSON form. -/
def NoJsonFormUnlessPrimitive (handler : PrimitiveHandler) : Prop :=
  ∀ message, IsPrimitive (GetDescriptor message) = false →
    ∃ status, handler.WrapPrimitiveProto message = .error status

/-- Every primitive among the messages has a JSON form. -/
def HaveJsonForms (handler : PrimitiveHandler) (messages : List Message) : Prop :=
  ∀ message ∈ messages, IsPrimitive (GetDescriptor message) = true →
    ∃ json_primitive, handler.WrapPrimitiveProto message = .ok json_primitive

/-- A node that evaluates to the given collection. -/
def ConstantNode (messages : List Message) : ExpressionNode :=
  fun _ results => .ok (results ++ messages)

/-- Expression trees over the nodes that make or read a context: the two
references, `where`, `all`, `select` and `iif` (without and with its third
parameter); `function` is a node that computes from the results of its child,
`binary` a binary operator, and `node` any other node. -/
inductive Expression where
  | node (Evaluate : ExpressionNode)
  | ThisReference
  | ContextReference
  | function (Evaluate : List Message → List Message → StatusOr (List Message))
      (child : Expression)
  | binary (EvaluateOperator : List Message → List Message → List Message →
      StatusOr (List Message)) (left right : Expression)
  | WhereFunction (child param : Expression)
  | AllFunction (child param : Expression)
  | SelectFunction (child param : Expression)
  | IifFunction (child criterion true_result : Expression)
  | IifOtherwise (child criterion true_result otherwise_result : Expression)

/-- The node of an expression tree. -/
def Expression.Evaluate : Expression → ExpressionNode
  | .node Evaluate => Evaluate
  | .ThisReference => ThisReference.Evaluate
  | .ContextReference => ContextReference.Evaluate
  | .function Evaluate child => fun work_space results => do
      let child_results ← child.Evaluate work_space []
      Evaluate child_results results
  | .binary EvaluateOperator left right =>
      BinaryOperator.Evaluate EvaluateOperator left.Evaluate right.Evaluate
  | .WhereFunction child param => WhereFunction.Evaluate child.Evaluate param.Evaluate
  | .AllFunction child param => AllFunction.Evaluate child.Evaluate param.Evaluate
  | .SelectFunction child param => SelectFunction.Evaluate child.Evaluate param.Evaluate
  | .IifFunction child criterion true_result =>
      IifFunction.Evaluate child.Evaluate criterion.Evaluate true_result.Evaluate none
  | .IifOtherwise child criterion true_result otherwise_result =>
      IifFunction.Evaluate child.Evaluate criterion.Evaluate true_result.Evaluate
        (some otherwise_result.Evaluate)

/-- Node constructors for the examples: every function node behaves as its
child. -/
def ExampleFunctionNodes : FunctionNodes :=
  { node := fun _ child _ => child, type_node := fun _ child _ => child }

/-- Parse trees for the examples: a terminal, the invocation of a member as a
term, a function called on the context with parameters, and an `and`
expression. -/
inductive ExampleTree where
  | terminal (type : FhirPathLexer.TokenType) (text : String)
  | memberInvocation (name : String)
  | andExpression (left right : ExampleTree)

/-- The visit of an example tree; the contexts between an expression and its
terminal are visited by `visitChildren`, which gives what the terminal gives. -/
def ExampleTree.accept : ExampleTree → Visit
  | .terminal type text => FhirPathCompilerVisitor.visitTerminal id type text
  | .memberInvocation name => fun visitor =>
      FhirPathCompilerVisitor.visitInvocationTerm
        (FhirPathCompilerVisitor.createFunction ExampleFunctionNodes) (fun _ => none) visitor
        (.definition { name := name, is_function := false, params := [] })
  | .andExpression left right =>
      FhirPathCompilerVisitor.visitAndExpression left.accept right.accept

/-- The parse tree of a parameter of the examples. -/
def ExampleTree.context (tree : ExampleTree) (text : String) : ExpressionContext :=
  { accept := tree.accept, getText := text }

/-- The parse tree of the call `name(params)` of a function on the context, as
a term of the examples. -/
def ExampleCall (name : String) (params : List ExpressionContext) (text : String) :
    ExpressionContext :=
  { accept := fun visitor =>
      FhirPathCompilerVisitor.visitInvocationTerm
        (FhirPathCompilerVisitor.createFunction ExampleFunctionNodes) (fun _ => none) visitor
        (.definition { name := name, is_function := true, params := params }),
    getText := text }

/-- A DateTime whose precision is not set, which has no JSON form. -/
def DateTimeWithoutPrecision : Message :=
  .DateTime { value_us := 0, timezone := "Z", precision := .PRECISION_UNSPECIFIED }

/-- The functions that take no parameter. -/
def ZeroParameterFunctions : List String :=
  ["exists", "not", "hasValue", "empty", "count", "first", "tail", "distinct", "isDistinct",
    "toInteger", "toString", "length", "children"]

/-- The functions that take one parameter. -/
def SingleParameterFunctions : List String :=
  ["startsWith", "contains", "matches", "trace", "combine", "intersect", "where", "all",
    "select", "is", "as"]

/-- The parse of the texts of the examples: the Boolean literals, the empty
literal, and otherwise the invocation of a member of that name. -/
def ExampleParse (text : String) : Visit :=
  if text = "true" ∨ text = "false" then (ExampleTree.terminal .BOOL text).accept
  else if text = "\x7b\x7d" then (ExampleTree.terminal .EMPTY text).accept
  else (ExampleTree.memberInvocation text).accept

/-- The compiled expression of the empty literal. -/
def EmptyConstraint : CompiledExpression :=
  { fhir_path_ := "\x7b\x7d", root_expression_ := EmptyLiteral.node.Evaluate }

/-- The compiled expression of the literal `false`. -/
def FalseConstraint : CompiledExpression :=
  { fhir_path_ := "false",
    root_expression_ :=
      (Literal.node Message.Boolean (PrimitiveDescriptor "Boolean") false).Evaluate }

/-- The compiled expression of the literal `true`. -/
def TrueConstraint : CompiledExpression :=
  { fhir_path_ := "true",
    root_expression_ :=
      (Literal.node Message.Boolean (PrimitiveDescriptor "Boolean") true).Evaluate }

/-- The schema of the patient of the examples, without constraint annotations:
`name` holds messages of type HumanName. -/
def ExampleSchema : Schema :=
  { message_type := fun field => if field.name = "name" then some HumanName.descriptor else none,
    containing_type := fun field =>
      if field.name = "family" ∨ field.name = "given" then HumanName.descriptor
      else Patient.descriptor,
    fhir_path_message_constraint := fun _ => [],
    fhir_path_constraint := fun _ => [] }

/-- A handler that never halts and counts its calls. -/
def CountingHandler : ViolationHandlerFunc Nat :=
  fun calls _ _ _ => (false, calls + 1)

/-- A handler that never halts and holds nothing. -/
def ContinueHandler : ViolationHandlerFunc Unit :=
  fun handler_state _ _ _ => (false, handler_state)

/-- The state at the start of a validation: `halt_validation = false`, and no
event so far. -/
def ValidationState.start {σ : Type} (handler_state : σ) : ValidationState σ :=
  { halt_validation := false, handler_state := handler_state, log := [] }

mutual
/-- The depth of the nesting of a message: 0 for a message that holds no
message in a field. -/
def MessageDepth : Message → Nat
  | .composite _ fields => MessageDepth.fields fields + 1
  | _ => 0
/-- The greatest depth of the values of the fields. -/
def MessageDepth.fields : List (String × List Message) → Nat
  | [] => 0
  | (_, values) :: rest => max (MessageDepth.values values) (MessageDepth.fields rest)
/-- The greatest depth of the messages. -/
def MessageDepth.values : List Message → Nat
  | [] => 0
  | message :: rest => max (MessageDepth message) (MessageDepth.values rest)
end

/-- The first status that is not OK among the statuses of the constraints of the
events, in their order, and OK when there is none. -/
def FirstFailure : List ValidationEvent → StatusOr Unit
  | [] => .ok ()
  | .constraint _ _ (some (.error status)) :: _ => .error status
  | _ :: rest => FirstFailure rest

/-- No call of the handler among the events returned true. -/
def NoHalt (events : List ValidationEvent) : Prop :=
  ∀ message field constraint, ValidationEvent.handler message field constraint true ∉ events

/-- No event follows a call of the handler that returned true. -/
def HaltIsLast (events : List ValidationEvent) : Prop :=
  ∀ before after message field constraint,
    events = before ++ ValidationEvent.handler message field constraint true :: after →
    after = []

/-- No call among the events ended the process. -/
def NoAbort (events : List ValidationEvent) : Prop :=
  ∀ message fhir_path, ValidationEvent.constraint message fhir_path none ∉ events

/-- Whether the event is a call of the handler. -/
def ValidationEvent.is_handler : ValidationEvent → Bool
  | .handler _ _ _ _ => true
  | .constraint _ _ _ => false

/-- The events of a part of a validation that starts with the accumulative
status `accumulative_status` and `*halt_validation = halt`, and ends with the
status `status` and `*halt_validation = halted`: nothing happens once the
validation is halted, no event follows a call of the handler that returned
true, the validation is halted only with a failure, and the status is the first
failure. -/
structure Advances {σ : Type} (handler : ViolationHandlerFunc σ)
    (accumulative_status : StatusOr Unit) (halt : Bool) (status : StatusOr Unit)
    (halted : Bool) (events : List ValidationEvent) : Prop where
  stays : halt = true → events = [] ∧ status = accumulative_status ∧ halted = true
  last : HaltIsLast events
  quiet : halted = false → NoHalt events
  failed : halted = true → halt = false → ∃ failure, status = .error failure
  first : status = UpdateStatus accumulative_status (FirstFailure events)
  returns : NoAbort events
  handled : ∀ message field constraint halt,
    ValidationEvent.handler message field constraint halt ∈ events →
    ∃ handler_state, (handler handler_state message field constraint).1 = halt

/-- The events of a part of a validation that ends the process: the last event
is the call that ends it, and no call of the handler before it returned true. -/
structure Aborts {σ : Type} (handler : ViolationHandlerFunc σ)
    (events : List ValidationEvent) : Prop where
  last : ∃ before message fhir_path,
    events = before ++ [ValidationEvent.constraint message fhir_path none] ∧ NoHalt before ∧
      NoAbort before
  handled : ∀ message field constraint halt,
    ValidationEvent.handler message field constraint halt ∈ events →
    ∃ handler_state, (handler handler_state message field constraint).1 = halt

/-- The result of a part of a validation that starts with the accumulative
status and the state `captured`: the events of the part are added to the log,
and they are those of a part that returns or of a part that ends the
process. -/
def Lands {σ : Type} (handler : ViolationHandlerFunc σ)
    (captured : StatusOr Unit × ValidationState σ) (result : ValidateResult σ) : Prop :=
  ∃ events, result.2.log = captured.2.log ++ events ∧
    match result.1 with
    | some status =>
        Advances handler captured.1 captured.2.halt_validation status result.2.halt_validation
          events
    | none => captured.2.halt_validation = false ∧ Aborts handler events

/-- The result of a function given to `ForEachMessageHalting`, called with the
accumulative status and the state `captured`: it returns `*halt_validation`
after a part of the validation that returns, or it exits with the result of a
part of the validation (`exits` gives the result of an exit). -/
def CallLands {σ E : Type} (handler : ViolationHandlerFunc σ)
    (exits : E → Option (ValidateResult σ)) (captured : StatusOr Unit × ValidationState σ)
    (returned : Except E (Bool × (StatusOr Unit × ValidationState σ))) : Prop :=
  match returned with
  | .ok (halt, after) =>
      halt = after.2.halt_validation ∧ Lands handler captured (some after.1, after.2)
  | .error exit => ∃ result, exits exit = some result ∧ Lands handler captured result

/-- The result of a loop of the validation that starts with the accumulative
status and the state `captured`: it ends after a part of the validation that
returns, or it exits with the result of a part of the validation (`exits` gives
the result of an exit). -/
def LoopLands {σ E : Type} (handler : ViolationHandlerFunc σ)
    (exits : E → Option (ValidateResult σ)) (captured : StatusOr Unit × ValidationState σ)
    (returned : Except E (StatusOr Unit × ValidationState σ)) : Prop :=
  match returned with
  | .ok after => Lands handler captured (some after.1, after.2)
  | .error exit => ∃ result, exits exit = some result ∧ Lands handler captured result

/-- A constraint of the traversal of a message: the message that holds the
constraint, the field of a constraint attached to a field, the message on which
the expression is evaluated, and the expression. -/
structure TraversalEntry where
  parent : Message
  field : Option FieldDescriptor
  message : Message
  expression : CompiledExpression

/-- The constraints of the traversal of a message, in its order: those attached
to the message root, those attached to its fields for each value of the field,
and those of the values of the nested fields with constraints. -/
def Traversal (constraints : Descriptor → MessageConstraints) : Nat → Message →
    List TraversalEntry
  | 0, _ => []
  | fuel + 1, message =>
      (constraints (GetDescriptor message)).message_expressions_.map
          (fun expression =>
            { parent := message, field := none, message := message, expression := expression })
        ++ (constraints (GetDescriptor message)).field_expressions_.flatMap
          (fun expression =>
            (FieldValues message expression.1).map fun child =>
              { parent := message, field := some expression.1, message := child,
                expression := expression.2 })
        ++ (constraints (GetDescriptor message)).nested_with_constraints_.flatMap
          (fun field => (FieldValues message field).flatMap (Traversal constraints fuel))

/-- The events of a constraint that is validated on its own, with a handler that
never halts. -/
def TraversalEntry.events (schema : Schema) (entry : TraversalEntry) : List ValidationEvent :=
  match entry.field with
  | none =>
      (ValidateMessageConstraint entry.message entry.expression ContinueHandler
        (ValidationState.start ())).2.log
  | some field =>
      (ValidateFieldConstraint schema entry.parent field entry.message entry.expression
        ContinueHandler (ValidationState.start ())).2.log

/-- The full names of the types of which the cache holds the constraints. -/
def ConstraintsCache.names (constraints_cache_ : ConstraintsCache) : List String :=
  constraints_cache_.map Prod.fst

/-- The number of the types of which the cache does not hold the constraints. -/
def ConstraintsCache.missing (types : List Descriptor) (constraints_cache_ : ConstraintsCache) :
    Nat :=
  ((types.map Descriptor.full_name).toFinset.filter
    (fun full_name => full_name ∉ constraints_cache_.names)).card

/-- The types hold the type of every field of theirs that holds messages. -/
def Schema.Closed (schema : Schema) (types : List Descriptor) : Prop :=
  ∀ descriptor ∈ types, ∀ field ∈ descriptor.fields, ∀ field_type,
    schema.message_type field = some field_type → field_type ∈ types

/-- A section of a document: it holds sections, and entries that are references. -/
def Section.descriptor : Descriptor :=
  { full_name := "example.Section", is_primitive := false,
    fields := [{ name := "section", json_name := "section" },
               { name := "entry", json_name := "entry" }] }

/-- A reference, which holds no message. -/
def Reference.descriptor : Descriptor :=
  { full_name := "example.Reference", is_primitive := false, fields := [] }

/-- A schema in which a type holds itself: a section holds sections before it
holds references, and a reference has a constraint, here one that no reference
satisfies. -/
def SectionSchema : Schema :=
  { message_type := fun field =>
      if field.name = "section" then some Section.descriptor
      else if field.name = "entry" then some Reference.descriptor
      else none,
    containing_type := fun _ => Section.descriptor,
    fhir_path_message_constraint := fun descriptor =>
      if descriptor.full_name = "example.Reference" then ["false"] else [],
    fhir_path_constraint := fun _ => [] }

/-- The section with its fields in the other order: it holds references before
it holds sections. -/
def Section.reordered : Descriptor :=
  { full_name := "example.Section", is_primitive := false,
    fields := [{ name := "entry", json_name := "entry" },
               { name := "section", json_name := "section" }] }

/-- A section that holds one reference. -/
def Section.ofReference : Message :=
  .composite Section.descriptor [("entry", [.composite Reference.descriptor []])]

/-- A section that holds one section, which holds one reference. -/
def Section.ofSection : Message :=
  .composite Section.descriptor [("section", [Section.ofReference])]

/-- The constraints that `ConstraintsFor(descriptor)` returns when the cache
holds the type: the entry of that name; no constraints for another type. -/
def ConstraintsCache.constraints (constraints_cache_ : ConstraintsCache)
    (descriptor : Descriptor) : MessageConstraints :=
  (constraints_cache_.lookup descriptor.full_name).getD
    { message_expressions_ := [], field_expressions_ := [], nested_with_constraints_ := [] }

/-! ## Structural equality is equality -/

mutual
theorem MessageDifferencer.Equals_iff : ∀ a b : Message,
    MessageDifferencer.Equals a b = true ↔ a = b
  | .Boolean _, b => by cases b <;> simp [MessageDifferencer.Equals]
  | .Integer _, b => by cases b <;> simp [MessageDifferencer.Equals]
  | .UnsignedInt _, b => by cases b <;> simp [MessageDifferencer.Equals]
  | .Decimal _, b => by cases b <;> simp [MessageDifferencer.Equals]
  | .String _, b => by cases b <;> simp [MessageDifferencer.Equals]
  | .DateTime _, b => by cases b <;> simp [MessageDifferencer.Equals]
  | .primitive _ _, b => by cases b <;> simp [MessageDifferencer.Equals]
  | .composite _ fs, b => by
      cases b <;> simp [MessageDifferencer.Equals, MessageDifferencer.EqualsFields_iff fs]
theorem MessageDifferencer.EqualsFields_iff : ∀ fs gs : List (String × List Message),
    MessageDifferencer.EqualsFields fs gs = true ↔ fs = gs
  | [], gs => by cases gs <;> simp [MessageDifferencer.EqualsFields]
  | (n, vs) :: fs, gs => by
      rcases gs with _ | ⟨⟨m, ws⟩, gs⟩ <;>
        simp [MessageDifferencer.EqualsFields, MessageDifferencer.EqualsRepeated_iff vs,
          MessageDifferencer.EqualsFields_iff fs, and_assoc]
theorem MessageDifferencer.EqualsRepeated_iff : ∀ xs ys : List Message,
    MessageDifferencer.EqualsRepeated xs ys = true ↔ xs = ys
  | [], ys => by cases ys <;> simp [MessageDifferencer.EqualsRepeated]
  | a :: as, ys => by
      cases ys <;>
        simp [MessageDifferencer.EqualsRepeated, MessageDifferencer.Equals_iff a,
          MessageDifferencer.EqualsRepeated_iff as]
end

instance : DecidableEq Message := fun a b =>
  decidable_of_iff (MessageDifferencer.Equals a b = true) (MessageDifferencer.Equals_iff a b)

/-! ## Three-valued Boolean operators -/

theorem PrimitiveOrEmpty_ThreeValued (value : Option Bool) :
    PrimitiveOrEmpty AsBoolean (ThreeValued value) = .ok value := by
  cases value <;> simp [ThreeValued, PrimitiveOrEmpty, AsBoolean, IsPrimitive, GetDescriptor,
    PrimitiveDescriptor]

theorem EvaluateBooleanNode_of_ThreeValued {node : ExpressionNode} {work_space : WorkSpace}
    {value : Option Bool} (h : node work_space [] = .ok (ThreeValued value)) :
    BooleanOperator.EvaluateBooleanNode node work_space = .ok value := by
  simp [BooleanOperator.EvaluateBooleanNode, h, bind, Except.bind, PrimitiveOrEmpty_ThreeValued]

/-- C2: over operands that evaluate to the empty collection or to a single
Boolean, `and` yields `[false]` if either operand is false, `[true]` if both
are true and nothing otherwise; when the left operand is false the result is
`[false]` whatever the right operand is, also when its evaluation fails. -/
theorem AndOperator_three_valued (left_ right_ : ExpressionNode) (work_space : WorkSpace)
    (results : List Message) (l : Option Bool)
    (hl : left_ work_space [] = .ok (ThreeValued l)) :
    (l = some false →
      AndOperator.Evaluate left_ right_ work_space results = .ok (results ++ [.Boolean false])) ∧
    (∀ r : Option Bool, right_ work_space [] = .ok (ThreeValued r) →
      AndOperator.Evaluate left_ right_ work_space results
        = .ok (results ++
            (if l = some false ∨ r = some false then [.Boolean false]
             else if l = some true ∧ r = some true then [.Boolean true]
             else []))) := by
  have hL := EvaluateBooleanNode_of_ThreeValued hl
  refine ⟨?_, ?_⟩
  · intro h
    subst h
    simp [AndOperator.Evaluate, hL, bind, Except.bind, BooleanOperator.SetResult]
  · intro r hr
    have hR := EvaluateBooleanNode_of_ThreeValued hr
    rcases l with _ | _ | _ <;> rcases r with _ | _ | _ <;>
      simp [AndOperator.Evaluate, hL, hR, bind, Except.bind, BooleanOperator.SetResult]

theorem AndOperator_three_valued_witness :
    AndOperator.Evaluate (Literal.Evaluate Message.Boolean false) FailingNode
        (WorkSpace.ofMessage (.Boolean true)) [] = .ok [.Boolean false] ∧
    AndOperator.Evaluate (Literal.Evaluate Message.Boolean true) EmptyLiteral.Evaluate
        (WorkSpace.ofMessage (.Boolean true)) [] = .ok [] :=
  ⟨(AndOperator_three_valued _ FailingNode (WorkSpace.ofMessage (.Boolean true)) []
      (some false) rfl).1 rfl,
   (AndOperator_three_valued (Literal.Evaluate Message.Boolean true) EmptyLiteral.Evaluate
      (WorkSpace.ofMessage (.Boolean true)) [] (some true) rfl).2 none rfl⟩

/-- C3: over operands that evaluate to the empty collection or to a single
Boolean, `or` yields `[true]` if either operand is true, `[false]` if both are
false and nothing otherwise; when the left operand is true the result is
`[true]` whatever the right operand is, also when its evaluation fails. -/
theorem OrOperator_three_valued (left_ right_ : ExpressionNode) (work_space : WorkSpace)
    (results : List Message) (l : Option Bool)
    (hl : left_ work_space [] = .ok (ThreeValued l)) :
    (l = some true →
      OrOperator.Evaluate left_ right_ work_space results = .ok (results ++ [.Boolean true])) ∧
    (∀ r : Option Bool, right_ work_space [] = .ok (ThreeValued r) →
      OrOperator.Evaluate left_ right_ work_space results
        = .ok (results ++
            (if l = some true ∨ r = some true then [.Boolean true]
             else if l = some false ∧ r = some false then [.Boolean false]
             else []))) := by
  have hL := EvaluateBooleanNode_of_ThreeValued hl
  refine ⟨?_, ?_⟩
  · intro h
    subst h
    simp [OrOperator.Evaluate, hL, bind, Except.bind, BooleanOperator.SetResult]
  · intro r hr
    have hR := EvaluateBooleanNode_of_ThreeValued hr
    rcases l with _ | _ | _ <;> rcases r with _ | _ | _ <;>
      simp [OrOperator.Evaluate, hL, hR, bind, Except.bind, BooleanOperator.SetResult]

theorem OrOperator_three_valued_witness :
    OrOperator.Evaluate (Literal.Evaluate Message.Boolean true) FailingNode
        (WorkSpace.ofMessage (.Boolean true)) [] = .ok [.Boolean true] ∧
    OrOperator.Evaluate (Literal.Evaluate Message.Boolean false) EmptyLiteral.Evaluate
        (WorkSpace.ofMessage (.Boolean true)) [] = .ok [] :=
  ⟨(OrOperator_three_valued _ FailingNode (WorkSpace.ofMessage (.Boolean true)) []
      (some true) rfl).1 rfl,
   (OrOperator_three_valued (Literal.Evaluate Message.Boolean false) EmptyLiteral.Evaluate
      (WorkSpace.ofMessage (.Boolean true)) [] (some false) rfl).2 none rfl⟩

theorem InvokeTermNode_resolved (field : FieldDescriptor) (field_name_ : String)
    (work_space : WorkSpace) (results : List Message) :
    InvokeTermNode.Evaluate (some field) field_name_ work_space results
      = .ok (results ++ FieldValues work_space.MessageContext field) := by
  simp [InvokeTermNode.Evaluate, RetrieveField]

/-- C4, as the claim states it: with a single true antecedent and with an empty
antecedent, `implies` over the consequent `3`, a single Integer, fails:
it yields neither the consequent nor the empty collection. -/
theorem ImpliesOperator_integer_consequent_counterexample :
    ImpliesOperator.Evaluate (Literal.Evaluate Message.Boolean true)
        (Literal.Evaluate Message.Integer 3) (WorkSpace.ofMessage (.Boolean true)) []
      = .error (.InvalidArgument "Single value expression of wrong type.") ∧
    ImpliesOperator.Evaluate EmptyLiteral.Evaluate
        (Literal.Evaluate Message.Integer 3) (WorkSpace.ofMessage (.Boolean true)) []
      = .error (.InvalidArgument "Single value expression of wrong type.") :=
  ⟨rfl, rfl⟩

/-- C4, amended: `implies` yields `[true]` when the antecedent is a single false,
whatever the consequent is (also when its evaluation fails); when the
consequent evaluates to the empty collection or to a single Boolean, it yields
the consequent with a single true antecedent (nothing if the consequent is
empty), and with an empty antecedent `[true]` if the consequent is true and
nothing otherwise.  On a context whose `active` is true,
`active implies active.not()` yields `[false]`. -/
theorem ImpliesOperator_three_valued :
    (∀ (left_ right_ : ExpressionNode) (work_space : WorkSpace) (results : List Message)
        (l : Option Bool), left_ work_space [] = .ok (ThreeValued l) →
      (l = some false →
        ImpliesOperator.Evaluate left_ right_ work_space results
          = .ok (results ++ [.Boolean true])) ∧
      (∀ r : Option Bool, right_ work_space [] = .ok (ThreeValued r) →
        (l = some true →
          ImpliesOperator.Evaluate left_ right_ work_space results
            = .ok (results ++ ThreeValued r)) ∧
        (l = none →
          ImpliesOperator.Evaluate left_ right_ work_space results
            = .ok (results ++ (if r = some true then [.Boolean true] else []))))) ∧
    (∀ (active : FieldDescriptor) (context : Message),
      FieldValues context active = [.Boolean true] →
      ImpliesOperator.Evaluate (InvokeTermNode.Evaluate (some active) "active")
          (NotFunction.Evaluate (InvokeTermNode.Evaluate (some active) "active"))
          (WorkSpace.ofMessage context) []
        = .ok [.Boolean false]) := by
  have key : ∀ (left_ right_ : ExpressionNode) (work_space : WorkSpace) (results : List Message)
      (l : Option Bool), left_ work_space [] = .ok (ThreeValued l) →
      (l = some false →
        ImpliesOperator.Evaluate left_ right_ work_space results
          = .ok (results ++ [.Boolean true])) ∧
      (∀ r : Option Bool, right_ work_space [] = .ok (ThreeValued r) →
        (l = some true →
          ImpliesOperator.Evaluate left_ right_ work_space results
            = .ok (results ++ ThreeValued r)) ∧
        (l = none →
          ImpliesOperator.Evaluate left_ right_ work_space results
            = .ok (results ++ (if r = some true then [.Boolean true] else [])))) := by
    intro left_ right_ work_space results l hl
    have hL := EvaluateBooleanNode_of_ThreeValued hl
    refine ⟨?_, ?_⟩
    · intro h
      subst h
      simp [ImpliesOperator.Evaluate, hL, bind, Except.bind, BooleanOperator.SetResult]
    · intro r hr
      have hR := EvaluateBooleanNode_of_ThreeValued hr
      refine ⟨?_, ?_⟩ <;> intro h <;> subst h <;> rcases r with _ | _ | _ <;>
        simp [ImpliesOperator.Evaluate, hL, hR, bind, Except.bind, BooleanOperator.SetResult,
          ThreeValued]
  refine ⟨key, ?_⟩
  intro active context hactive
  have hleft : InvokeTermNode.Evaluate (some active) "active" (WorkSpace.ofMessage context) []
      = .ok (ThreeValued (some true)) := by
    simp [InvokeTermNode_resolved, WorkSpace.ofMessage, WorkSpace.MessageContext, hactive,
      ThreeValued]
  have hright : NotFunction.Evaluate (InvokeTermNode.Evaluate (some active) "active")
      (WorkSpace.ofMessage context) [] = .ok (ThreeValued (some false)) := by
    simp [NotFunction.Evaluate, hleft, bind, Except.bind, ThreeValued, IsSingleBoolean,
      IsMessageType, AsBoolean, MessagesToBoolean]
  simpa [ThreeValued] using ((key _ _ _ [] (some true) hleft).2 (some false) hright).1 rfl

theorem ImpliesOperator_three_valued_witness :
    ImpliesOperator.Evaluate (Literal.Evaluate Message.Boolean false) FailingNode
        (WorkSpace.ofMessage (.Boolean true)) [] = .ok [.Boolean true] ∧
    ImpliesOperator.Evaluate (Literal.Evaluate Message.Boolean true) EmptyLiteral.Evaluate
        (WorkSpace.ofMessage (.Boolean true)) [] = .ok [] ∧
    ImpliesOperator.Evaluate EmptyLiteral.Evaluate (Literal.Evaluate Message.Boolean false)
        (WorkSpace.ofMessage (.Boolean true)) [] = .ok [] ∧
    ImpliesOperator.Evaluate
        (InvokeTermNode.Evaluate (some { name := "active", json_name := "active" }) "active")
        (NotFunction.Evaluate
          (InvokeTermNode.Evaluate (some { name := "active", json_name := "active" }) "active"))
        (WorkSpace.ofMessage (.composite Patient.descriptor [("active", [.Boolean true])])) []
      = .ok [.Boolean false] :=
  ⟨((ImpliesOperator_three_valued.1 (Literal.Evaluate Message.Boolean false) FailingNode
      (WorkSpace.ofMessage (.Boolean true)) [] (some false) rfl).1 rfl),
   ((ImpliesOperator_three_valued.1 (Literal.Evaluate Message.Boolean true)
      EmptyLiteral.Evaluate (WorkSpace.ofMessage (.Boolean true)) [] (some true) rfl).2
      none rfl).1 rfl,
   ((ImpliesOperator_three_valued.1 EmptyLiteral.Evaluate
      (Literal.Evaluate Message.Boolean false) (WorkSpace.ofMessage (.Boolean true)) [] none
      rfl).2 (some false) rfl).2 rfl,
   ImpliesOperator_three_valued.2 { name := "active", json_name := "active" }
      (.composite Patient.descriptor [("active", [.Boolean true])]) (by decide)⟩

/-- C5, as the claim states it: `1 xor {}`, whose right operand is empty, fails and
does not yield the empty collection. -/
theorem XorOperator_integer_left_counterexample :
    XorOperator.Evaluate (Literal.Evaluate Message.Integer 1) EmptyLiteral.Evaluate
        (WorkSpace.ofMessage (.Boolean true)) []
      = .error (.InvalidArgument "Single value expression of wrong type.") :=
  rfl

/-- C5, amended: when the left operand evaluates to the empty collection, `xor`
yields nothing, whatever the right operand is; when the left operand evaluates
to a single Boolean `l`, it yields nothing if the right operand evaluates to
the empty collection, and the single Boolean `l != r` if the right operand
evaluates to the single Boolean `r`. -/
theorem XorOperator_three_valued (left_ right_ : ExpressionNode) (work_space : WorkSpace)
    (results : List Message) (l : Option Bool)
    (hl : left_ work_space [] = .ok (ThreeValued l)) :
    (l = none → XorOperator.Evaluate left_ right_ work_space results = .ok results) ∧
    (∀ r : Option Bool, right_ work_space [] = .ok (ThreeValued r) →
      (r = none → XorOperator.Evaluate left_ right_ work_space results = .ok results) ∧
      (∀ a b : Bool, l = some a → r = some b →
        XorOperator.Evaluate left_ right_ work_space results
          = .ok (results ++ [.Boolean (a != b)]))) := by
  have hL := EvaluateBooleanNode_of_ThreeValued hl
  refine ⟨?_, ?_⟩
  · intro h
    subst h
    simp [XorOperator.Evaluate, hL, bind, Except.bind]
  · intro r hr
    have hR := EvaluateBooleanNode_of_ThreeValued hr
    refine ⟨?_, ?_⟩
    · intro h
      subst h
      cases l <;> simp [XorOperator.Evaluate, hL, hR, bind, Except.bind]
    · intro a b ha hb
      subst ha
      subst hb
      simp [XorOperator.Evaluate, hL, hR, bind, Except.bind, BooleanOperator.SetResult]

theorem XorOperator_three_valued_witness :
    XorOperator.Evaluate EmptyLiteral.Evaluate FailingNode
        (WorkSpace.ofMessage (.Boolean true)) [] = .ok [] ∧
    XorOperator.Evaluate (Literal.Evaluate Message.Boolean true) EmptyLiteral.Evaluate
        (WorkSpace.ofMessage (.Boolean true)) [] = .ok [] ∧
    XorOperator.Evaluate (Literal.Evaluate Message.Boolean true)
        (Literal.Evaluate Message.Boolean false) (WorkSpace.ofMessage (.Boolean true)) []
      = .ok [.Boolean true] :=
  ⟨(XorOperator_three_valued EmptyLiteral.Evaluate FailingNode
      (WorkSpace.ofMessage (.Boolean true)) [] none rfl).1 rfl,
   ((XorOperator_three_valued (Literal.Evaluate Message.Boolean true) EmptyLiteral.Evaluate
      (WorkSpace.ofMessage (.Boolean true)) [] (some true) rfl).2 none rfl).1 rfl,
   ((XorOperator_three_valued (Literal.Evaluate Message.Boolean true)
      (Literal.Evaluate Message.Boolean false) (WorkSpace.ofMessage (.Boolean true)) []
      (some true) rfl).2 (some false) rfl).2 true false rfl rfl⟩

/-! ## Equality and the propagation of the empty collection -/

theorem EqualsOperator.scan_append (handler : PrimitiveHandler) (left right : Message) :
    ∀ (left_results right_results : List Message) (result : Bool),
      left_results.length = right_results.length →
      EqualsOperator.scan handler result (left_results ++ [left]) (right_results ++ [right])
        = EqualsOperator.AreEqual handler left right := by
  intro left_results
  induction left_results with
  | nil =>
      intro right_results result hlen
      cases right_results with
      | nil => simp [EqualsOperator.scan]
      | cons _ _ => simp at hlen
  | cons first rest ih =>
      intro right_results result hlen
      cases right_results with
      | nil => simp at hlen
      | cons first2 rest2 =>
          have hlen2 : rest.length = rest2.length := by simpa using hlen
          simp [EqualsOperator.scan, ih rest2 _ hlen2]

theorem EqualsOperator.EvaluateOperator_last_pair (handler : PrimitiveHandler)
    (left_results right_results results : List Message) (left right : Message)
    (hlen : left_results.length = right_results.length) :
    EqualsOperator.EvaluateOperator handler (left_results ++ [left]) (right_results ++ [right])
        results
      = .ok (results ++ [.Boolean (EqualsOperator.AreEqual handler left right)]) := by
  simp [EqualsOperator.EvaluateOperator, hlen, EqualsOperator.scan_append]

/-- C1: on the collections `[John, Paul]` and `[Jim, Paul]`, which have the
same length and differ at index 0, `=` yields `[true]`: every step of the scan
overwrites the result, so only the last pair decides. -/
theorem EqualsOperator_last_pair_decides (handler : PrimitiveHandler) :
    EqualsOperator.EvaluateOperator handler [.String "John", .String "Paul"]
        [.String "Jim", .String "Paul"] [] = .ok [.Boolean true] ∧
    EqualsOperator.AreEqual handler (.String "John") (.String "Jim") = false := by
  constructor
  · simp [EqualsOperator.EvaluateOperator, EqualsOperator.scan, EqualsOperator.AreEqual,
      AreSameMessageType, GetDescriptor, MessageDifferencer.Equals]
  · simp [EqualsOperator.AreEqual, AreSameMessageType, GetDescriptor, MessageDifferencer.Equals]

/-- C6: when both operands of `=`, `!=`, a comparison (`<`, `<=`, `>`, `>=`,
whatever its dispatch on the operand types) or `+` are evaluated successfully
and one of them is empty, the operator succeeds and adds nothing to the
results, whatever the other operand is. -/
theorem empty_operand_propagates (handler : PrimitiveHandler)
    (compare : Message → Message → StatusOr Bool) (left_ right_ : ExpressionNode)
    (work_space : WorkSpace) (results left_results right_results : List Message)
    (hl : left_ work_space [] = .ok left_results)
    (hr : right_ work_space [] = .ok right_results)
    (hempty : left_results = [] ∨ right_results = []) :
    BinaryOperator.Evaluate (EqualsOperator.EvaluateOperator handler) left_ right_
        work_space results = .ok results ∧
    NotFunction.Evaluate
        (BinaryOperator.Evaluate (EqualsOperator.EvaluateOperator handler) left_ right_)
        work_space results = .ok results ∧
    BinaryOperator.Evaluate (ComparisonOperator.EvaluateOperator compare) left_ right_
        work_space results = .ok results ∧
    BinaryOperator.Evaluate AdditionOperator.EvaluateOperator left_ right_
        work_space results = .ok results := by
  have heq : ∀ acc : List Message,
      BinaryOperator.Evaluate (EqualsOperator.EvaluateOperator handler) left_ right_
        work_space acc = .ok acc := by
    intro acc
    rcases hempty with h | h <;> subst h <;>
      simp [BinaryOperator.Evaluate, hl, hr, bind, Except.bind, EqualsOperator.EvaluateOperator]
  refine ⟨heq results, ?_, ?_, ?_⟩
  · simp [NotFunction.Evaluate, heq [], bind, Except.bind]
  · rcases left_results with _ | ⟨a, as⟩ <;> rcases right_results with _ | ⟨b, bs⟩ <;>
      simp_all [BinaryOperator.Evaluate, bind, Except.bind, ComparisonOperator.EvaluateOperator]
  · rcases left_results with _ | ⟨a, as⟩ <;> rcases right_results with _ | ⟨b, bs⟩ <;>
      simp_all [BinaryOperator.Evaluate, bind, Except.bind, AdditionOperator.EvaluateOperator]

theorem empty_operand_propagates_witness :
    BinaryOperator.Evaluate (EqualsOperator.EvaluateOperator R4PrimitiveHandler)
        EmptyLiteral.Evaluate (Literal.Evaluate Message.Integer 1)
        (WorkSpace.ofMessage (.Boolean true)) [] = .ok [] ∧
    NotFunction.Evaluate
        (BinaryOperator.Evaluate (EqualsOperator.EvaluateOperator R4PrimitiveHandler)
          EmptyLiteral.Evaluate (Literal.Evaluate Message.Integer 1))
        (WorkSpace.ofMessage (.Boolean true)) [] = .ok [] ∧
    BinaryOperator.Evaluate (ComparisonOperator.EvaluateOperator (fun _ _ => .ok true))
        EmptyLiteral.Evaluate (Literal.Evaluate Message.Integer 1)
        (WorkSpace.ofMessage (.Boolean true)) [] = .ok [] ∧
    BinaryOperator.Evaluate AdditionOperator.EvaluateOperator
        EmptyLiteral.Evaluate (Literal.Evaluate Message.Integer 1)
        (WorkSpace.ofMessage (.Boolean true)) [] = .ok [] :=
  empty_operand_propagates R4PrimitiveHandler (fun _ _ => .ok true) EmptyLiteral.Evaluate
    (Literal.Evaluate Message.Integer 1) (WorkSpace.ofMessage (.Boolean true)) [] []
    [.Integer 1] rfl rfl (Or.inl rfl)

/-! ## Value-equality -/

theorem R4PrimitiveHandler_not_primitive (message : Message)
    (h : IsPrimitive (GetDescriptor message) = false) :
    ∃ status, R4PrimitiveHandler.WrapPrimitiveProto message = .error status := by
  simp [R4PrimitiveHandler, h]

theorem WorkSpace.ofStack_MessageContextStack (work_space : WorkSpace) (message : Message) :
    WorkSpace.ofStack work_space.MessageContextStack message
      = work_space.PushMessageContext message := by
  simp [WorkSpace.ofStack, WorkSpace.MessageContextStack, WorkSpace.PushMessageContext]

theorem SelectFunction.loop_appending_param (param : ExpressionNode) (work_space : WorkSpace)
    (outcome : Message → List Message) :
    ∀ (child_results results : List Message),
      (∀ message ∈ child_results, ∀ gathered : List Message,
        param (work_space.PushMessageContext message) gathered
          = .ok (gathered ++ outcome message)) →
      SelectFunction.loop param work_space child_results results
        = .ok (results ++ child_results.flatMap outcome) := by
  intro child_results
  induction child_results with
  | nil => intro results _; simp [SelectFunction.loop]
  | cons message rest ih =>
      intro results h
      have hm := h message (List.mem_cons_self _ _) results
      have hrest : ∀ m ∈ rest, ∀ gathered : List Message,
          param (work_space.PushMessageContext m) gathered = .ok (gathered ++ outcome m) :=
        fun m hmem => h m (List.mem_cons_of_mem _ hmem)
      simp [SelectFunction.loop, hm, bind, Except.bind, ih _ hrest]

/-- For a parameter that appends its outcome to the results it is handed,
`select` yields the concatenation of the outcomes in child order. -/
theorem SelectFunction.Evaluate_appending_param (child_ param : ExpressionNode)
    (work_space : WorkSpace) (results child_results : List Message)
    (outcome : Message → List Message)
    (hchild : child_ work_space [] = .ok child_results)
    (hparam : ∀ message ∈ child_results, ∀ gathered : List Message,
      param (work_space.PushMessageContext message) gathered
        = .ok (gathered ++ outcome message)) :
    SelectFunction.Evaluate child_ param work_space results
      = .ok (results ++ child_results.flatMap outcome) := by
  simp only [SelectFunction.Evaluate, hchild, bind, Except.bind]
  exact SelectFunction.loop_appending_param param work_space outcome child_results results hparam

/-- C9: on the names with the given names `[A, B]` and `[C, D]`,
`name.select(given.tail())` yields `[D, B]`, while `given.tail()` yields `[B]`
on the first name and `[D]` on the second: `tail` inserts its outcome at the
front of the results that `select` has gathered so far. -/
theorem SelectFunction_tail_reverses :
    SelectFunction.Evaluate
        (InvokeTermNode.Evaluate (FindFieldByJsonName Patient.descriptor "name") "name")
        (TailFunction.Evaluate
          (InvokeTermNode.Evaluate (FindFieldByJsonName HumanName.descriptor "given") "given"))
        (WorkSpace.ofMessage
          (Patient.ofNames [HumanName.ofGiven ["A", "B"], HumanName.ofGiven ["C", "D"]])) []
      = .ok [.String "D", .String "B"] ∧
    TailFunction.Evaluate
        (InvokeTermNode.Evaluate (FindFieldByJsonName HumanName.descriptor "given") "given")
        ((WorkSpace.ofMessage
          (Patient.ofNames [HumanName.ofGiven ["A", "B"], HumanName.ofGiven ["C", "D"]])
          ).PushMessageContext (HumanName.ofGiven ["A", "B"])) []
      = .ok [.String "B"] ∧
    TailFunction.Evaluate
        (InvokeTermNode.Evaluate (FindFieldByJsonName HumanName.descriptor "given") "given")
        ((WorkSpace.ofMessage
          (Patient.ofNames [HumanName.ofGiven ["A", "B"], HumanName.ofGiven ["C", "D"]])
          ).PushMessageContext (HumanName.ofGiven ["C", "D"])) []
      = .ok [.String "D"] :=
  ⟨rfl, rfl, rfl⟩

theorem InvokeExpressionNode.loop_invoked_values (field_ : Option FieldDescriptor)
    (field_name_ : String) :
    ∀ (child_results results : List Message),
      InvokeExpressionNode.loop field_ field_name_ child_results results
        = .ok (results ++ child_results.flatMap (InvokedValues field_ field_name_)) := by
  intro child_results
  induction child_results with
  | nil => intro results; simp [InvokeExpressionNode.loop]
  | cons child_message rest ih =>
      intro results
      cases field_ with
      | some field =>
          simp [InvokeExpressionNode.loop, RetrieveField, bind, Except.bind, ih, InvokedValues]
      | none =>
          cases hfind : FindFieldByJsonName (GetDescriptor child_message) field_name_ <;>
            simp [InvokeExpressionNode.loop, RetrieveField, bind, Except.bind, ih,
              InvokedValues, hfind]

/-- C10: when the child is evaluated, a member invocation appends, in child
order, what each child message holds in the field: the field resolved at
compile time or else the field of the message's own descriptor that has the
JSON name.  A message whose descriptor has no field of that JSON name adds
nothing and evaluation goes on; the field found by JSON name is a field of the
descriptor with that JSON name, and none is found only when the descriptor has
no such field. -/
theorem InvokeExpressionNode_concatenates (child_expression_ : ExpressionNode)
    (field_ : Option FieldDescriptor) (field_name_ : String) (work_space : WorkSpace)
    (results child_results : List Message)
    (hchild : child_expression_ work_space [] = .ok child_results) :
    InvokeExpressionNode.Evaluate child_expression_ field_ field_name_ work_space results
      = .ok (results ++ child_results.flatMap (InvokedValues field_ field_name_)) ∧
    (∀ (field : FieldDescriptor) (message : Message),
      InvokedValues (some field) field_name_ message = FieldValues message field) ∧
    (∀ message : Message,
      (∀ field ∈ (GetDescriptor message).fields, field.json_name ≠ field_name_) →
      InvokedValues none field_name_ message = []) ∧
    (∀ (message : Message) (field : FieldDescriptor),
      FindFieldByJsonName (GetDescriptor message) field_name_ = some field →
      field ∈ (GetDescriptor message).fields ∧ field.json_name = field_name_ ∧
      InvokedValues none field_name_ message = FieldValues message field) := by
  refine ⟨?_, ?_, ?_, ?_⟩
  · simp [InvokeExpressionNode.Evaluate, hchild, bind, Except.bind,
      InvokeExpressionNode.loop_invoked_values]
  · intro field message
    rfl
  · intro message hnone
    have hfind : FindFieldByJsonName (GetDescriptor message) field_name_ = none := by
      simp only [FindFieldByJsonName, List.find?_eq_none]
      intro field hmem hbeq
      exact hnone field hmem (eq_of_beq hbeq).symm
    simp [InvokedValues, hfind]
  · intro message field hfind
    have hmem := List.mem_of_find?_eq_some hfind
    have hname := List.find?_some hfind
    refine ⟨hmem, ?_, ?_⟩
    · exact (eq_of_beq hname).symm
    · simp [InvokedValues, hfind]

theorem InvokeExpressionNode_concatenates_witness :
    InvokeExpressionNode.Evaluate
        (fun _ results => .ok (results ++
          [HumanName.ofFamily "Smith", .Boolean true, HumanName.ofFamily "Jones"]))
        none "family" (WorkSpace.ofMessage (.Boolean true)) []
      = .ok [.String "Smith", .String "Jones"] :=
  (InvokeExpressionNode_concatenates
    (fun _ results => .ok (results ++
      [HumanName.ofFamily "Smith", .Boolean true, HumanName.ofFamily "Jones"]))
    none "family" (WorkSpace.ofMessage (.Boolean true)) []
    [HumanName.ofFamily "Smith", .Boolean true, HumanName.ofFamily "Jones"] rfl).1

/-! ## Indexer -/

theorem SizeOfInt_of_nonneg (i : Int) (h0 : 0 ≤ i) (h31 : i < 2 ^ 31) :
    SizeOfInt i = i.toNat := by
  have h64 : i < 2 ^ 64 := by omega
  have hmod : i % 2 ^ 64 = i := Int.emod_eq_of_lt h0 h64
  unfold SizeOfInt
  rw [hmod]

theorem PrimitiveOrEmpty_AsInteger_single (i : Int) :
    PrimitiveOrEmpty AsInteger [.Integer i] = .ok (some i) := by
  simp [PrimitiveOrEmpty, AsInteger, IsPrimitive, GetDescriptor, PrimitiveDescriptor]

/-- C15: for an index that is a single Integer `i` with `0 ≤ i` (below
`2 ^ 31`, as every Integer is), the indexer appends `L[i]` when `L` has an
element at `i` and appends nothing when `|L| ≤ i`; it fails when the index is
empty, has more than one element, or is a single message that is not an
Integer. -/
theorem IndexerExpression_indexes (left_results results : List Message) :
    (∀ (i : Int) (message : Message), 0 ≤ i → i < 2 ^ 31 →
      left_results[i.toNat]? = some message →
      IndexerExpression.EvaluateOperator left_results [.Integer i] results
        = .ok (results ++ [message])) ∧
    (∀ i : Int, 0 ≤ i → i < 2 ^ 31 → left_results.length ≤ i.toNat →
      IndexerExpression.EvaluateOperator left_results [.Integer i] results = .ok results) ∧
    (∃ status, IndexerExpression.EvaluateOperator left_results [] results = .error status) ∧
    (∀ right_results : List Message, right_results.length > 1 →
      ∃ status,
        IndexerExpression.EvaluateOperator left_results right_results results
          = .error status) ∧
    (∀ message : Message, AsInteger message = none →
      ∃ status,
        IndexerExpression.EvaluateOperator left_results [message] results
          = .error status) := by
  refine ⟨?_, ?_, ?_, ?_, ?_⟩
  · intro i message h0 h31 hget
    have hlt : i.toNat < left_results.length := by
      rcases List.getElem?_eq_some_iff.mp hget with ⟨h, _⟩
      exact h
    have hne : left_results ≠ [] := by
      intro h
      simp [h] at hlt
    simp [IndexerExpression.EvaluateOperator, PrimitiveOrEmpty_AsInteger_single, bind,
      Except.bind, SizeOfInt_of_nonneg i h0 h31, hlt, hne, hget]
  · intro i h0 h31 hle
    simp [IndexerExpression.EvaluateOperator, PrimitiveOrEmpty_AsInteger_single, bind,
      Except.bind, SizeOfInt_of_nonneg i h0 h31, hle]
  · exact ⟨.InvalidArgument "Index must be present.", by
      simp [IndexerExpression.EvaluateOperator, PrimitiveOrEmpty, bind, Except.bind]⟩
  · intro right_results hlen
    rcases right_results with _ | ⟨first, rest⟩
    · simp at hlen
    · have hrest : 0 < rest.length := by simpa using hlen
      exact ⟨.InvalidArgument
          "Expression must be empty or represent a single primitive value.", by
        simp [IndexerExpression.EvaluateOperator, PrimitiveOrEmpty, bind, Except.bind, hrest]⟩
  · intro message hnone
    by_cases hprim : IsPrimitive (GetDescriptor message) = true
    · exact ⟨.InvalidArgument "Single value expression of wrong type.", by
        simp [IndexerExpression.EvaluateOperator, PrimitiveOrEmpty, bind, Except.bind, hprim,
          hnone]⟩
    · exact ⟨.InvalidArgument
          "Expression must be empty or represent a single primitive value.", by
        simp [IndexerExpression.EvaluateOperator, PrimitiveOrEmpty, bind, Except.bind, hprim]⟩

theorem IndexerExpression_indexes_witness :
    IndexerExpression.EvaluateOperator [.String "a", .String "b"] [.Integer 1] []
      = .ok [.String "b"] ∧
    IndexerExpression.EvaluateOperator [.String "a", .String "b"] [.Integer 2] [] = .ok [] ∧
    (∃ status,
      IndexerExpression.EvaluateOperator [.String "a", .String "b"] [.Integer 0, .Integer 1] []
        = .error status) ∧
    (∃ status,
      IndexerExpression.EvaluateOperator [.String "a", .String "b"] [.String "0"] []
        = .error status) :=
  ⟨(IndexerExpression_indexes [.String "a", .String "b"] []).1 1 (.String "b")
      (by decide) (by decide) rfl,
   (IndexerExpression_indexes [.String "a", .String "b"] []).2.1 2
      (by decide) (by decide) (by decide),
   (IndexerExpression_indexes [.String "a", .String "b"] []).2.2.2.1
      [.Integer 0, .Integer 1] (by decide),
   (IndexerExpression_indexes [.String "a", .String "b"] []).2.2.2.2 (.String "0") rfl⟩

/-! ## Addition and string concatenation -/

theorem Int32Wrap_of_range (value : Int) (hlow : -(2 ^ 31) ≤ value) (hhigh : value < 2 ^ 31) :
    Int32Wrap value = value := by
  unfold Int32Wrap
  have h0 : 0 ≤ value + 2 ^ 31 := by omega
  have h1 : value + 2 ^ 31 < 2 ^ 32 := by omega
  rw [Int.emod_eq_of_lt h0 h1]
  omega

/-- C19, as the claim states it: with two elements on the left and an empty
right operand, `+` does not fail: it returns the empty collection. -/
theorem AdditionOperator_several_elements_counterexample :
    AdditionOperator.EvaluateOperator [.Integer 1, .Integer 2] [] [] = .ok [] ∧
    [Message.Integer 1, Message.Integer 2].length > 1 := by
  constructor
  · rfl
  · decide

/-- C19, amended: on two single Integers whose sum is in the 32-bit range `+`
appends their sum; on two single Strings it appends their concatenation; on
two single operands of any other pair of types it fails; and it fails when an
operand has more than one element and neither operand is empty. -/
theorem AdditionOperator_adds (results : List Message) :
    (∀ a b : Int, -(2 ^ 31) ≤ a + b → a + b < 2 ^ 31 →
      AdditionOperator.EvaluateOperator [.Integer a] [.Integer b] results
        = .ok (results ++ [.Integer (a + b)])) ∧
    (∀ s t : String,
      AdditionOperator.EvaluateOperator [.String s] [.String t] results
        = .ok (results ++ [.String (s ++ t)])) ∧
    (∀ left right : Message,
      ¬ (IsMessageType AsInteger left = true ∧ IsMessageType AsInteger right = true) →
      ¬ (IsMessageType AsString left = true ∧ IsMessageType AsString right = true) →
      ∃ status,
        AdditionOperator.EvaluateOperator [left] [right] results = .error status) ∧
    (∀ left_results right_results : List Message,
      left_results ≠ [] → right_results ≠ [] →
      left_results.length > 1 ∨ right_results.length > 1 →
      ∃ status,
        AdditionOperator.EvaluateOperator left_results right_results results
          = .error status) := by
  refine ⟨?_, ?_, ?_, ?_⟩
  · intro a b hlow hhigh
    simp [AdditionOperator.EvaluateOperator, AsInteger, AdditionOperator.EvalIntegerAddition,
      Int32Wrap_of_range _ hlow hhigh]
  · intro s t
    simp [AdditionOperator.EvaluateOperator, AsInteger, AsString,
      AdditionOperator.EvalStringAddition]
  · intro left right hint hstr
    refine ⟨.InvalidArgument ("Addition not supported for "
      ++ (GetDescriptor left).full_name ++ " and " ++ (GetDescriptor right).full_name), ?_⟩
    cases left <;> cases right <;>
      simp_all [AdditionOperator.EvaluateOperator, AsInteger, AsString, IsMessageType]
  · intro left_results right_results hl hr hlen
    refine ⟨.InvalidArgument "Addition operators must have one element on each side.", ?_⟩
    rcases left_results with _ | ⟨left, left_rest⟩
    · exact absurd rfl hl
    rcases right_results with _ | ⟨right, right_rest⟩
    · exact absurd rfl hr
    have hlen2 : 0 < left_rest.length ∨ 0 < right_rest.length := by simpa using hlen
    simp [AdditionOperator.EvaluateOperator, hlen2]

theorem AdditionOperator_adds_witness :
    AdditionOperator.EvaluateOperator [.Integer 2] [.Integer 3] [] = .ok [.Integer 5] ∧
    (∃ status,
      AdditionOperator.EvaluateOperator [.Decimal "1.5"] [.Decimal "2.5"] []
        = .error status) ∧
    (∃ status,
      AdditionOperator.EvaluateOperator [.Integer 1] [.String "a"] [] = .error status) ∧
    (∃ status,
      AdditionOperator.EvaluateOperator [.Integer 1, .Integer 2] [.Integer 3] []
        = .error status) :=
  ⟨(AdditionOperator_adds []).1 2 3 (by decide) (by decide),
   (AdditionOperator_adds []).2.2.1 (.Decimal "1.5") (.Decimal "2.5")
      (by decide) (by decide),
   (AdditionOperator_adds []).2.2.1 (.Integer 1) (.String "a") (by decide) (by decide),
   (AdditionOperator_adds []).2.2.2 [.Integer 1, .Integer 2] [.Integer 3]
      (by simp) (by simp) (Or.inl (by decide))⟩

/-- C20: on operands that are each empty or a single String, `&` returns
normally and appends exactly one String, the concatenation of the two values
with the empty text for an empty operand; two empty operands give `['']`. -/
theorem StrCatOperator_concatenates (handler : PrimitiveHandler) (left right : Option String)
    (results : List Message) :
    StrCatOperator.EvaluateOperator handler (StringOperand left) (StringOperand right) results
      = some (.ok (results ++ [.String (left.getD "" ++ right.getD "")])) ∧
    StrCatOperator.EvaluateOperator handler [] [] [] = some (.ok [.String ""]) := by
  constructor
  · cases left <;> cases right <;>
      simp [StrCatOperator.EvaluateOperator, StrCatOperator.OperandText, StringOperand,
        MessageToString, AsString]
  · simp [StrCatOperator.EvaluateOperator, StrCatOperator.OperandText]

/-! ## Comparison -/

/-- C16, as the claim states it: the UnsignedInt `2147483648` (which is
`2 ^ 31`) is found less than the Integer `0`: the conversion to `int32_t` makes
it `-2147483648`. -/
theorem ComparisonOperator_unsigned_counterexample :
    (∀ library : ComparisonLibrary,
      ComparisonOperator.EvaluateOperator (ComparisonOperator.Compare library .kLessThan)
        [.UnsignedInt 2147483648] [.Integer 0] [] = .ok [.Boolean true]) ∧
    NumericValue (.UnsignedInt 2147483648) = some 2147483648 ∧
    NumericValue (.Integer 0) = some 0 ∧
    ¬ ((2147483648 : Int) < 0) := by
  refine ⟨fun _ => rfl, rfl, rfl, by decide⟩

/-- C16, amended: on a single Integer or UnsignedInt on each side, where every
UnsignedInt value is below `2 ^ 31`, each of `<`, `>`, `<=`, `>=` appends the
single Boolean that compares the two numeric values. -/
theorem ComparisonOperator_integer_comparison (library : ComparisonLibrary)
    (left right : Message) (x y : Int) (results : List Message)
    (hx : NumericValue left = some x) (hy : NumericValue right = some y)
    (hleft : ∀ value : Nat, left = .UnsignedInt value → value < 2 ^ 31)
    (hright : ∀ value : Nat, right = .UnsignedInt value → value < 2 ^ 31) :
    ComparisonOperator.EvaluateOperator (ComparisonOperator.Compare library .kLessThan)
        [left] [right] results = .ok (results ++ [.Boolean (decide (x < y))]) ∧
    ComparisonOperator.EvaluateOperator (ComparisonOperator.Compare library .kGreaterThan)
        [left] [right] results = .ok (results ++ [.Boolean (decide (x > y))]) ∧
    ComparisonOperator.EvaluateOperator (ComparisonOperator.Compare library .kLessThanEqualTo)
        [left] [right] results = .ok (results ++ [.Boolean (decide (x ≤ y))]) ∧
    ComparisonOperator.EvaluateOperator
        (ComparisonOperator.Compare library .kGreaterThanEqualTo)
        [left] [right] results = .ok (results ++ [.Boolean (decide (x ≥ y))]) := by
  have hwrap : ∀ value : Nat, value < 2 ^ 31 → Int32Wrap (value : Int) = (value : Int) := by
    intro value h
    apply Int32Wrap_of_range <;> omega
  cases left <;> simp [NumericValue] at hx <;> cases right <;> simp [NumericValue] at hy <;>
    subst hx <;> subst hy
  · simp [ComparisonOperator.EvaluateOperator, ComparisonOperator.Compare, AsInteger,
      ComparisonOperator.EvalIntegerComparison, bind, Except.bind]
  · rename_i u
    have hu := hwrap u (hright u rfl)
    simp [ComparisonOperator.EvaluateOperator, ComparisonOperator.Compare, AsInteger,
      AsUnsignedInt, ComparisonOperator.EvalIntegerComparison, bind, Except.bind, hu]
  · rename_i u _
    have hu := hwrap u (hleft u rfl)
    simp [ComparisonOperator.EvaluateOperator, ComparisonOperator.Compare, AsInteger,
      AsUnsignedInt, ComparisonOperator.EvalIntegerComparison, bind, Except.bind, hu]
  · rename_i u v
    have hu := hwrap u (hleft u rfl)
    have hv := hwrap v (hright v rfl)
    simp [ComparisonOperator.EvaluateOperator, ComparisonOperator.Compare, AsInteger,
      AsUnsignedInt, ComparisonOperator.EvalIntegerComparison, bind, Except.bind, hu, hv]

theorem ComparisonOperator_integer_comparison_witness :
    ComparisonOperator.EvaluateOperator
        (ComparisonOperator.Compare ExampleComparisonLibrary .kLessThan)
        [.UnsignedInt 2147483647] [.Integer (-1)] []
      = .ok [.Boolean (decide ((2147483647 : Int) < -1))] :=
  (ComparisonOperator_integer_comparison ExampleComparisonLibrary (.UnsignedInt 2147483647)
    (.Integer (-1)) 2147483647 (-1) [] rfl rfl
    (by intro value h; cases h; decide)
    (by intro value h; cases h)).1

theorem ComparisonOperator.Switch_not_less (difference : Int) :
    ComparisonOperator.Switch .kGreaterThanEqualTo difference
      = !ComparisonOperator.Switch .kLessThan difference := by
  by_cases h : difference < 0
  · simp [ComparisonOperator.Switch, h]
  · simp [ComparisonOperator.Switch, h]
    omega

theorem ComparisonOperator.Switch_not_greater (difference : Int) :
    ComparisonOperator.Switch .kLessThanEqualTo difference
      = !ComparisonOperator.Switch .kGreaterThan difference := by
  by_cases h : 0 < difference
  · simp [ComparisonOperator.Switch, h]
  · simp [ComparisonOperator.Switch, h]
    omega

theorem ComparisonOperator.EvalIntegerComparison_not_less (left right : Int) :
    ComparisonOperator.EvalIntegerComparison .kGreaterThanEqualTo left right
      = !ComparisonOperator.EvalIntegerComparison .kLessThan left right := by
  by_cases h : left < right
  · simp [ComparisonOperator.EvalIntegerComparison, h]
  · simp [ComparisonOperator.EvalIntegerComparison, h]
    omega

theorem ComparisonOperator.EvalIntegerComparison_not_greater (left right : Int) :
    ComparisonOperator.EvalIntegerComparison .kLessThanEqualTo left right
      = !ComparisonOperator.EvalIntegerComparison .kGreaterThan left right := by
  by_cases h : right < left
  · simp [ComparisonOperator.EvalIntegerComparison, h]
  · simp [ComparisonOperator.EvalIntegerComparison, h]
    omega

theorem ComparisonOperator.Compare_complement (library : ComparisonLibrary)
    (x y : Message)
    (hpair : ((NumericValue x).isSome = true ∧ (NumericValue y).isSome = true) ∨
      ((AsDateTime x).isSome = true ∧ (AsDateTime y).isSome = true)) :
    (∀ b : Bool, ComparisonOperator.Compare library .kLessThan x y = .ok b →
      ComparisonOperator.Compare library .kGreaterThanEqualTo x y = .ok (!b)) ∧
    (∀ b : Bool, ComparisonOperator.Compare library .kGreaterThan x y = .ok b →
      ComparisonOperator.Compare library .kLessThanEqualTo x y = .ok (!b)) := by
  rcases hpair with ⟨hx, hy⟩ | ⟨hx, hy⟩
  · cases x <;> simp [NumericValue] at hx <;> cases y <;> simp [NumericValue] at hy <;>
      simp [ComparisonOperator.Compare, AsInteger, AsUnsignedInt,
        ComparisonOperator.EvalIntegerComparison_not_less,
        ComparisonOperator.EvalIntegerComparison_not_greater]
  · cases x <;> simp [AsDateTime] at hx
    cases y <;> simp [AsDateTime] at hy
    rename_i left right
    simp only [ComparisonOperator.Compare, AsInteger, AsUnsignedInt, AsDecimal, AsString,
      AsDateTime, IsMessageType, ComparisonOperator.EvalDateTimeComparison, bind, Except.bind]
    cases library.BuildTimeZoneFromString left.timezone <;>
      cases library.BuildTimeZoneFromString right.timezone <;>
      simp [ComparisonOperator.Switch_not_less, ComparisonOperator.Switch_not_greater]

theorem PrimitiveOrEmpty_AsBoolean_single (value : Bool) :
    PrimitiveOrEmpty AsBoolean [.Boolean value] = .ok (some value) :=
  PrimitiveOrEmpty_ThreeValued (some value)

/-- C17: for single operands `x` and `y` that are both an Integer or an
UnsignedInt, or both a DateTime, whenever `x < y` is compared successfully to
`b`, `x >= y` is compared to the negation of `b`, so exactly one of the two is
true and `(x < y) xor (x >= y)` evaluates to `[true]`; the same holds of
`x > y` and `x <= y`. -/
theorem ComparisonOperator_exactly_one (library : ComparisonLibrary) (x y : Message)
    (hpair : ((NumericValue x).isSome = true ∧ (NumericValue y).isSome = true) ∨
      ((AsDateTime x).isSome = true ∧ (AsDateTime y).isSome = true)) :
    (∀ b : Bool, ComparisonOperator.Compare library .kLessThan x y = .ok b →
      ComparisonOperator.Compare library .kGreaterThanEqualTo x y = .ok (!b)) ∧
    (∀ b : Bool, ComparisonOperator.Compare library .kGreaterThan x y = .ok b →
      ComparisonOperator.Compare library .kLessThanEqualTo x y = .ok (!b)) ∧
    (∀ (left_ right_ : ExpressionNode) (work_space : WorkSpace) (results : List Message)
        (b : Bool),
      left_ work_space [] = .ok [x] → right_ work_space [] = .ok [y] →
      ComparisonOperator.Compare library .kLessThan x y = .ok b →
      XorOperator.Evaluate
          (BinaryOperator.Evaluate
            (ComparisonOperator.EvaluateOperator
              (ComparisonOperator.Compare library .kLessThan)) left_ right_)
          (BinaryOperator.Evaluate
            (ComparisonOperator.EvaluateOperator
              (ComparisonOperator.Compare library .kGreaterThanEqualTo)) left_ right_)
          work_space results
        = .ok (results ++ [.Boolean true])) ∧
    (∀ (left_ right_ : ExpressionNode) (work_space : WorkSpace) (results : List Message)
        (b : Bool),
      left_ work_space [] = .ok [x] → right_ work_space [] = .ok [y] →
      ComparisonOperator.Compare library .kGreaterThan x y = .ok b →
      XorOperator.Evaluate
          (BinaryOperator.Evaluate
            (ComparisonOperator.EvaluateOperator
              (ComparisonOperator.Compare library .kGreaterThan)) left_ right_)
          (BinaryOperator.Evaluate
            (ComparisonOperator.EvaluateOperator
              (ComparisonOperator.Compare library .kLessThanEqualTo)) left_ right_)
          work_space results
        = .ok (results ++ [.Boolean true])) := by
  have hc := ComparisonOperator.Compare_complement library x y hpair
  refine ⟨hc.1, hc.2, ?_, ?_⟩
  · intro left_ right_ work_space results b hl hr hb
    have hb2 := hc.1 b hb
    cases b <;>
      simp [XorOperator.Evaluate, BooleanOperator.EvaluateBooleanNode, BinaryOperator.Evaluate,
        ComparisonOperator.EvaluateOperator, hl, hr, hb, hb2, bind, Except.bind,
        PrimitiveOrEmpty_AsBoolean_single, BooleanOperator.SetResult]
  · intro left_ right_ work_space results b hl hr hb
    have hb2 := hc.2 b hb
    cases b <;>
      simp [XorOperator.Evaluate, BooleanOperator.EvaluateBooleanNode, BinaryOperator.Evaluate,
        ComparisonOperator.EvaluateOperator, hl, hr, hb, hb2, bind, Except.bind,
        PrimitiveOrEmpty_AsBoolean_single, BooleanOperator.SetResult]

theorem ComparisonOperator_exactly_one_witness :
    XorOperator.Evaluate
        (BinaryOperator.Evaluate
          (ComparisonOperator.EvaluateOperator
            (ComparisonOperator.Compare ExampleComparisonLibrary .kLessThan))
          (Literal.Evaluate Message.DateTime
            { value_us := 1590969600000000, timezone := "Z", precision := .DAY })
          (Literal.Evaluate Message.DateTime
            { value_us := 1577836800000000, timezone := "Z", precision := .YEAR }))
        (BinaryOperator.Evaluate
          (ComparisonOperator.EvaluateOperator
            (ComparisonOperator.Compare ExampleComparisonLibrary .kGreaterThanEqualTo))
          (Literal.Evaluate Message.DateTime
            { value_us := 1590969600000000, timezone := "Z", precision := .DAY })
          (Literal.Evaluate Message.DateTime
            { value_us := 1577836800000000, timezone := "Z", precision := .YEAR }))
        (WorkSpace.ofMessage (.Boolean true)) []
      = .ok [.Boolean true] :=
  (ComparisonOperator_exactly_one ExampleComparisonLibrary
    (.DateTime { value_us := 1590969600000000, timezone := "Z", precision := .DAY })
    (.DateTime { value_us := 1577836800000000, timezone := "Z", precision := .YEAR })
    (Or.inr ⟨rfl, rfl⟩)).2.2.1 _ _ (WorkSpace.ofMessage (.Boolean true)) [] false rfl rfl rfl

/-- C18, as the claim states it: the day-precision 2020-06-01 and the
year-precision 2020, both in UTC, have the civil year 2020, and `<` and `>`
each yield `[false]`, which is not the empty collection. -/
theorem ComparisonOperator_year_counterexample :
    ToCivilYear 1590969600000000 UTCTimeZone = 2020 ∧
    ToCivilYear 1577836800000000 UTCTimeZone = 2020 ∧
    ComparisonOperator.EvaluateOperator
        (ComparisonOperator.Compare ExampleComparisonLibrary .kLessThan)
        [.DateTime { value_us := 1590969600000000, timezone := "Z", precision := .DAY }]
        [.DateTime { value_us := 1577836800000000, timezone := "Z", precision := .YEAR }] []
      = .ok [.Boolean false] ∧
    ComparisonOperator.EvaluateOperator
        (ComparisonOperator.Compare ExampleComparisonLibrary .kGreaterThan)
        [.DateTime { value_us := 1590969600000000, timezone := "Z", precision := .DAY }]
        [.DateTime { value_us := 1577836800000000, timezone := "Z", precision := .YEAR }] []
      = .ok [.Boolean false] ∧
    [Message.Boolean false] ≠ [] := by
  refine ⟨by decide, by decide, rfl, rfl, by simp⟩

/-- C18, amended: when two single DateTime operands whose zones are resolved
are compared and at least one has YEAR precision, the outcome is the single
Boolean that compares the civil year of the left operand in its zone with the
civil year of the right operand in its zone; when the two years are equal,
`<` and `>` yield `[false]` and `<=` and `>=` yield `[true]`. -/
theorem ComparisonOperator_year_precision (library : ComparisonLibrary)
    (left right : DateTime) (left_zone right_zone : TimeZone) (results : List Message)
    (hleft : library.BuildTimeZoneFromString left.timezone = .ok left_zone)
    (hright : library.BuildTimeZoneFromString right.timezone = .ok right_zone)
    (hyear : left.precision = .YEAR ∨ right.precision = .YEAR) :
    (∀ comparison_type_ : ComparisonOperator.ComparisonType,
      ComparisonOperator.EvaluateOperator
          (ComparisonOperator.Compare library comparison_type_)
          [.DateTime left] [.DateTime right] results
        = .ok (results ++ [.Boolean (ComparisonOperator.Switch comparison_type_
            (ToCivilYear left.value_us left_zone
              - ToCivilYear right.value_us right_zone))])) ∧
    (ToCivilYear left.value_us left_zone = ToCivilYear right.value_us right_zone →
      ComparisonOperator.EvaluateOperator (ComparisonOperator.Compare library .kLessThan)
          [.DateTime left] [.DateTime right] results = .ok (results ++ [.Boolean false]) ∧
      ComparisonOperator.EvaluateOperator (ComparisonOperator.Compare library .kGreaterThan)
          [.DateTime left] [.DateTime right] results = .ok (results ++ [.Boolean false]) ∧
      ComparisonOperator.EvaluateOperator
          (ComparisonOperator.Compare library .kLessThanEqualTo)
          [.DateTime left] [.DateTime right] results = .ok (results ++ [.Boolean true]) ∧
      ComparisonOperator.EvaluateOperator
          (ComparisonOperator.Compare library .kGreaterThanEqualTo)
          [.DateTime left] [.DateTime right] results = .ok (results ++ [.Boolean true])) := by
  have hdiff : ComparisonOperator.TimeDifference left right left_zone right_zone
      = ToCivilYear left.value_us left_zone - ToCivilYear right.value_us right_zone := by
    rcases hyear with h | h <;> simp [ComparisonOperator.TimeDifference, h]
  have hall : ∀ comparison_type_ : ComparisonOperator.ComparisonType,
      ComparisonOperator.EvaluateOperator
          (ComparisonOperator.Compare library comparison_type_)
          [.DateTime left] [.DateTime right] results
        = .ok (results ++ [.Boolean (ComparisonOperator.Switch comparison_type_
            (ToCivilYear left.value_us left_zone
              - ToCivilYear right.value_us right_zone))]) := by
    intro comparison_type_
    simp [ComparisonOperator.EvaluateOperator, ComparisonOperator.Compare, AsInteger,
      AsUnsignedInt, AsDecimal, AsString, AsDateTime, IsMessageType,
      ComparisonOperator.EvalDateTimeComparison, hleft, hright, hdiff, bind, Except.bind]
  refine ⟨hall, ?_⟩
  intro heq
  refine ⟨?_, ?_, ?_, ?_⟩ <;> rw [hall] <;> simp [ComparisonOperator.Switch, heq]

theorem ComparisonOperator_year_precision_witness :
    ComparisonOperator.EvaluateOperator
        (ComparisonOperator.Compare ExampleComparisonLibrary .kLessThanEqualTo)
        [.DateTime { value_us := 1590969600000000, timezone := "Z", precision := .DAY }]
        [.DateTime { value_us := 1577836800000000, timezone := "Z", precision := .YEAR }] []
      = .ok [.Boolean true] :=
  ((ComparisonOperator_year_precision ExampleComparisonLibrary
    { value_us := 1590969600000000, timezone := "Z", precision := .DAY }
    { value_us := 1577836800000000, timezone := "Z", precision := .YEAR }
    UTCTimeZone UTCTimeZone [] rfl rfl (Or.inr rfl)).2 (by decide)).2.2.1

/-! ## Hashed sets of messages -/

theorem EqualsOperator.AreEqual_self (handler : PrimitiveHandler) (message : Message) :
    EqualsOperator.AreEqual handler message message = true := by
  simp [EqualsOperator.AreEqual, AreSameMessageType, MessageDifferencer.Equals_iff]

theorem EqualsOperator.AreEqual_same_type (handler : PrimitiveHandler) (left right : Message)
    (h : GetDescriptor left = GetDescriptor right) :
    EqualsOperator.AreEqual handler left right = true ↔ left = right := by
  simp [EqualsOperator.AreEqual, AreSameMessageType, h, MessageDifferencer.Equals_iff]

theorem EqualsOperator.AreEqual_other_type (handler : PrimitiveHandler) (left right : Message)
    (h : GetDescriptor left ≠ GetDescriptor right) :
    EqualsOperator.AreEqual handler left right = true ↔
      ∃ left_json right_json,
        handler.WrapPrimitiveProto left = .ok left_json ∧
        handler.WrapPrimitiveProto right = .ok right_json ∧
        left_json.value = right_json.value := by
  simp only [EqualsOperator.AreEqual, AreSameMessageType, h, decide_False, Bool.false_eq_true,
    if_false]
  cases hl : handler.WrapPrimitiveProto left <;> cases hr : handler.WrapPrimitiveProto right <;>
    simp

theorem EqualsOperator.AreEqual_comm (handler : PrimitiveHandler) (left right : Message) :
    EqualsOperator.AreEqual handler left right = EqualsOperator.AreEqual handler right left := by
  rw [Bool.eq_iff_iff]
  by_cases h : GetDescriptor left = GetDescriptor right
  · rw [EqualsOperator.AreEqual_same_type handler left right h,
      EqualsOperator.AreEqual_same_type handler right left h.symm]
    exact ⟨Eq.symm, Eq.symm⟩
  · rw [EqualsOperator.AreEqual_other_type handler left right h,
      EqualsOperator.AreEqual_other_type handler right left (fun e => h e.symm)]
    constructor
    · rintro ⟨a, b, ha, hb, hab⟩
      exact ⟨b, a, hb, ha, hab.symm⟩
    · rintro ⟨a, b, ha, hb, hab⟩
      exact ⟨b, a, hb, ha, hab.symm⟩

theorem ProtoPtrHash_of_AreEqual (library : HashLibrary) (handler : PrimitiveHandler)
    (hhandler : NoJsonFormUnlessPrimitive handler) (left right : Message)
    (h : EqualsOperator.AreEqual handler left right = true) :
    ProtoPtrHash library handler left = ProtoPtrHash library handler right := by
  by_cases htype : GetDescriptor left = GetDescriptor right
  · rw [(EqualsOperator.AreEqual_same_type handler left right htype).1 h]
  · obtain ⟨a, b, ha, hb, hab⟩ := (EqualsOperator.AreEqual_other_type handler left right htype).1 h
    have hleft : IsPrimitive (GetDescriptor left) = true := by
      cases hp : IsPrimitive (GetDescriptor left)
      · obtain ⟨status, hstatus⟩ := hhandler left hp
        rw [hstatus] at ha
        cases ha
      · rfl
    have hright : IsPrimitive (GetDescriptor right) = true := by
      cases hp : IsPrimitive (GetDescriptor right)
      · obtain ⟨status, hstatus⟩ := hhandler right hp
        rw [hstatus] at hb
        cases hb
      · rfl
    simp [ProtoPtrHash, hleft, hright, ha, hb, hab]

theorem ProtoPtrHash_of_HaveJsonForms (library : HashLibrary) (handler : PrimitiveHandler)
    (messages : List Message) (hjson : HaveJsonForms handler messages)
    (message : Message) (hmem : message ∈ messages) :
    ∃ code, ProtoPtrHash library handler message = some code := by
  cases hp : IsPrimitive (GetDescriptor message)
  · exact ⟨library.hash (library.SerializeAsString message), by simp [ProtoPtrHash, hp]⟩
  · obtain ⟨json, hjson⟩ := hjson message hmem hp
    exact ⟨library.hash json.value, by simp [ProtoPtrHash, hp, hjson]⟩

theorem unordered_set.AreEqual_of_is_match (library : HashLibrary) (handler : PrimitiveHandler)
    (code : Nat) (key element : Message)
    (h : unordered_set.is_match library handler code key element = true) :
    EqualsOperator.AreEqual handler key element = true := by
  simp [unordered_set.is_match, ProtoPtrSameTypeAndEqual] at h
  exact h.2

theorem unordered_set.is_match_eq_AreEqual (library : HashLibrary) (handler : PrimitiveHandler)
    (hhandler : NoJsonFormUnlessPrimitive handler) (code : Nat) (key element : Message)
    (hcode : ProtoPtrHash library handler key = some code) :
    unordered_set.is_match library handler code key element
      = EqualsOperator.AreEqual handler key element := by
  cases h : EqualsOperator.AreEqual handler key element
  · simp [unordered_set.is_match, ProtoPtrSameTypeAndEqual, h]
  · have hhash := ProtoPtrHash_of_AreEqual library handler hhandler key element h
    simp [unordered_set.is_match, ProtoPtrSameTypeAndEqual, h, ← hhash, hcode]

theorem unordered_set.insert_of_code (library : HashLibrary) (handler : PrimitiveHandler)
    (set : List Message) (key : Message) (code : Nat)
    (hcode : ProtoPtrHash library handler key = some code) :
    unordered_set.insert library handler set key
      = some (if set.any (unordered_set.is_match library handler code key) = true then set
          else set ++ [key]) := by
  unfold unordered_set.insert
  rw [hcode]
  rfl

theorem unordered_set.insert_range_inserted (library : HashLibrary) (handler : PrimitiveHandler)
    (keys : List Message) :
    ∀ set : List Message, HaveJsonForms handler keys →
      ∃ inserted, unordered_set.insert_range library handler set keys = some (set ++ inserted) ∧
        inserted.Sublist keys ∧
        (∀ key ∈ keys, ∃ element ∈ set ++ inserted,
          EqualsOperator.AreEqual handler key element = true) ∧
        (NoJsonFormUnlessPrimitive handler →
          set.Pairwise (fun a b => EqualsOperator.AreEqual handler a b = false) →
          (set ++ inserted).Pairwise (fun a b => EqualsOperator.AreEqual handler a b = false)) := by
  induction keys with
  | nil =>
      intro set _
      exact ⟨[], by simp [unordered_set.insert_range], List.Sublist.refl _, by simp,
        fun _ h => by simpa using h⟩
  | cons key keys ih =>
      intro set hjson
      obtain ⟨code, hcode⟩ :=
        ProtoPtrHash_of_HaveJsonForms library handler (key :: keys) hjson key (by simp)
      have hrest : HaveJsonForms handler keys := fun message hmem =>
        hjson message (List.mem_cons_of_mem _ hmem)
      by_cases hany : set.any (unordered_set.is_match library handler code key) = true
      · obtain ⟨inserted, hrange, hsub, hcover, hpair⟩ := ih set hrest
        refine ⟨inserted, ?_, hsub.cons _, ?_, hpair⟩
        · rw [unordered_set.insert_range,
            unordered_set.insert_of_code library handler set key code hcode, if_pos hany]
          exact hrange
        · intro k hk
          rcases List.mem_cons.1 hk with rfl | hk
          · obtain ⟨element, hmem, hmatch⟩ := List.any_eq_true.1 hany
            exact ⟨element, List.mem_append_left _ hmem,
              unordered_set.AreEqual_of_is_match library handler code k element hmatch⟩
          · exact hcover k hk
      · obtain ⟨inserted, hrange, hsub, hcover, hpair⟩ := ih (set ++ [key]) hrest
        refine ⟨key :: inserted, ?_, hsub.cons₂ _, ?_, ?_⟩
        · rw [unordered_set.insert_range,
            unordered_set.insert_of_code library handler set key code hcode, if_neg hany]
          simpa using hrange
        · intro k hk
          rcases List.mem_cons.1 hk with rfl | hk
          · exact ⟨k, by simp, EqualsOperator.AreEqual_self handler k⟩
          · obtain ⟨element, hmem, heq⟩ := hcover k hk
            exact ⟨element, by simpa using hmem, heq⟩
        · intro hhandler hset
          have := hpair hhandler (by
            rw [List.pairwise_append]
            refine ⟨hset, by simp, ?_⟩
            intro a ha b hb
            rw [List.mem_singleton] at hb
            subst hb
            rw [EqualsOperator.AreEqual_comm]
            have hno : ¬ unordered_set.is_match library handler code b a = true := fun hm =>
              hany (List.any_eq_true.2 ⟨a, ha, hm⟩)
            rw [unordered_set.is_match_eq_AreEqual library handler hhandler code b a hcode] at hno
            simpa using hno)
          simpa using this

/-! ## Union and distinct -/

theorem UnionOperator.EvaluateOperator_set (library : HashLibrary) (handler : PrimitiveHandler)
    (left_results right_results out_results : List Message)
    (hjson : HaveJsonForms handler (left_results ++ right_results)) :
    ∃ set, UnionOperator.EvaluateOperator library handler left_results right_results out_results
        = some (.ok (library.iteration set ++ out_results)) ∧
      (∀ u ∈ set, u ∈ left_results ∨ u ∈ right_results) ∧
      (∀ x, x ∈ left_results ∨ x ∈ right_results →
        ∃ u ∈ set, EqualsOperator.AreEqual handler x u = true) ∧
      (NoJsonFormUnlessPrimitive handler →
        set.Pairwise (fun a b => EqualsOperator.AreEqual handler a b = false)) := by
  obtain ⟨left_set, hleft, hleft_sub, hleft_cover, hleft_pair⟩ :=
    unordered_set.insert_range_inserted library handler left_results []
      (fun message hmem => hjson message (List.mem_append_left _ hmem))
  obtain ⟨right_set, hright, hright_sub, hright_cover, hright_pair⟩ :=
    unordered_set.insert_range_inserted library handler right_results ([] ++ left_set)
      (fun message hmem => hjson message (List.mem_append_right _ hmem))
  refine ⟨[] ++ left_set ++ right_set, ?_, ?_, ?_, ?_⟩
  · simp only [UnionOperator.EvaluateOperator, hleft, hright, Option.bind_eq_bind,
      Option.some_bind]
    rfl
  · intro u hu
    simp only [List.nil_append, List.mem_append] at hu
    rcases hu with hu | hu
    · exact Or.inl (hleft_sub.subset hu)
    · exact Or.inr (hright_sub.subset hu)
  · intro x hx
    rcases hx with hx | hx
    · obtain ⟨u, hu, heq⟩ := hleft_cover x hx
      exact ⟨u, List.mem_append_left _ hu, heq⟩
    · exact hright_cover x hx
  · intro hhandler
    exact hright_pair hhandler (hleft_pair hhandler List.Pairwise.nil)

theorem Pairwise_not_AreEqual_get (handler : PrimitiveHandler) (messages : List Message)
    (hpair : messages.Pairwise (fun a b => EqualsOperator.AreEqual handler a b = false))
    (i j : Fin messages.length) (hne : i ≠ j) :
    EqualsOperator.AreEqual handler (messages.get i) (messages.get j) = false := by
  rw [List.pairwise_iff_get] at hpair
  rcases Nat.lt_or_gt_of_ne (fun h => hne (Fin.ext h)) with h | h
  · exact hpair i j h
  · rw [EqualsOperator.AreEqual_comm]
    exact hpair j i h

/-- C11: the union of a DateTime without precision, a primitive that has no JSON
form, with the empty collection returns no collection: `ProtoPtrHash` aborts
in `ValueOrDie`, with every hash library.  `AreEqual`, the equality of the same
set, tests the status first and answers false on this message. -/
theorem UnionOperator_aborts_without_json_form :
    IsPrimitive (GetDescriptor DateTimeWithoutPrecision) = true ∧
    (∃ status,
      R4PrimitiveHandler.WrapPrimitiveProto DateTimeWithoutPrecision = .error status) ∧
    (∀ library : HashLibrary,
      ProtoPtrHash library R4PrimitiveHandler DateTimeWithoutPrecision = none ∧
      UnionOperator.EvaluateOperator library R4PrimitiveHandler [DateTimeWithoutPrecision] [] []
        = none) ∧
    EqualsOperator.AreEqual R4PrimitiveHandler DateTimeWithoutPrecision (.String "2020")
      = false :=
  ⟨rfl, ⟨_, rfl⟩, fun _ => ⟨rfl, rfl⟩, rfl⟩

/-- The union where no hash aborts: when the handler gives no JSON form to a
message that is not primitive, every primitive of `L` and `R` has a JSON form
and a set is iterated as a permutation of its elements, the union
operator returns a collection `U`, put before the results, such that every
element of `U` is an element of `L` or of `R`, every element of `L` and of `R`
is value-equal to some element of `U`, and no two distinct positions of `U`
hold value-equal elements. -/
theorem UnionOperator_set_union (library : HashLibrary) (handler : PrimitiveHandler)
    (left_results right_results out_results : List Message)
    (hhandler : NoJsonFormUnlessPrimitive handler)
    (hjson : HaveJsonForms handler (left_results ++ right_results))
    (hiteration : ∀ set, (library.iteration set).Perm set) :
    ∃ U, UnionOperator.EvaluateOperator library handler left_results right_results out_results
        = some (.ok (U ++ out_results)) ∧
      (∀ u ∈ U, u ∈ left_results ∨ u ∈ right_results) ∧
      (∀ x, x ∈ left_results ∨ x ∈ right_results →
        ∃ u ∈ U, EqualsOperator.AreEqual handler x u = true) ∧
      (∀ i j : Fin U.length, i ≠ j →
        EqualsOperator.AreEqual handler (U.get i) (U.get j) = false) := by
  obtain ⟨set, heval, hsub, hcover, hpair⟩ :=
    UnionOperator.EvaluateOperator_set library handler left_results right_results out_results
      hjson
  have hperm := hiteration set
  refine ⟨library.iteration set, heval, ?_, ?_, ?_⟩
  · intro u hu
    exact hsub u (hperm.mem_iff.1 hu)
  · intro x hx
    obtain ⟨u, hu, heq⟩ := hcover x hx
    exact ⟨u, hperm.mem_iff.2 hu, heq⟩
  · have hsymm : ∀ {x y : Message}, EqualsOperator.AreEqual handler x y = false →
        EqualsOperator.AreEqual handler y x = false := by
      intro x y h
      rw [EqualsOperator.AreEqual_comm]
      exact h
    exact Pairwise_not_AreEqual_get handler _
      ((hperm.pairwise_iff hsymm).2 (hpair hhandler))

theorem UnionOperator_set_union_witness :
    ∃ U, UnionOperator.EvaluateOperator ExampleHashLibrary R4PrimitiveHandler
          [.Integer 1, .String "a"] [.String "a", .Integer 2, .UnsignedInt 1] []
        = some (.ok (U ++ [])) ∧
      (∀ u ∈ U, u ∈ [Message.Integer 1, .String "a"] ∨
        u ∈ [Message.String "a", .Integer 2, .UnsignedInt 1]) ∧
      (∀ x, x ∈ [Message.Integer 1, .String "a"] ∨
          x ∈ [Message.String "a", .Integer 2, .UnsignedInt 1] →
        ∃ u ∈ U, EqualsOperator.AreEqual R4PrimitiveHandler x u = true) ∧
      (∀ i j : Fin U.length, i ≠ j →
        EqualsOperator.AreEqual R4PrimitiveHandler (U.get i) (U.get j) = false) :=
  UnionOperator_set_union ExampleHashLibrary R4PrimitiveHandler
    [.Integer 1, .String "a"] [.String "a", .Integer 2, .UnsignedInt 1] []
    R4PrimitiveHandler_not_primitive
    (by
      intro message hmem _
      simp only [List.cons_append, List.nil_append, List.mem_cons, List.not_mem_nil,
        or_false] at hmem
      rcases hmem with rfl | rfl | rfl | rfl | rfl <;> exact ⟨_, rfl⟩)
    (fun set => List.reverse_perm set)

/-- C12: neither `a | b` nor `b | a` returns a collection when `a` holds a
DateTime without precision and `b` an Integer: the hash of the DateTime
aborts in both. -/
theorem UnionOperator_aborts_in_both_orders :
    ∀ library : HashLibrary,
      UnionOperator.EvaluateOperator library R4PrimitiveHandler [DateTimeWithoutPrecision]
          [.Integer 1] [] = none ∧
      UnionOperator.EvaluateOperator library R4PrimitiveHandler [.Integer 1]
          [DateTimeWithoutPrecision] [] = none :=
  fun _ => ⟨rfl, rfl⟩

/-- The two orders of a union where no hash aborts: when every primitive of `a`
and `b` has a JSON form and a set is iterated as a permutation of its elements,
`union(a, b)`
and `union(b, a)` both return, and every element of either result is value-equal
to some element of the other. -/
theorem UnionOperator_commutes (library : HashLibrary) (handler : PrimitiveHandler)
    (a b out_results : List Message)
    (hjson : HaveJsonForms handler (a ++ b))
    (hiteration : ∀ set, (library.iteration set).Perm set) :
    ∃ U V,
      UnionOperator.EvaluateOperator library handler a b out_results
        = some (.ok (U ++ out_results)) ∧
      UnionOperator.EvaluateOperator library handler b a out_results
        = some (.ok (V ++ out_results)) ∧
      (∀ u ∈ U, ∃ v ∈ V, EqualsOperator.AreEqual handler u v = true) ∧
      (∀ v ∈ V, ∃ u ∈ U, EqualsOperator.AreEqual handler v u = true) := by
  obtain ⟨left_set, hleft, hleft_sub, hleft_cover, _⟩ :=
    UnionOperator.EvaluateOperator_set library handler a b out_results hjson
  obtain ⟨right_set, hright, hright_sub, hright_cover, _⟩ :=
    UnionOperator.EvaluateOperator_set library handler b a out_results
      (fun message hmem => hjson message (by
        rw [List.mem_append] at hmem ⊢
        exact hmem.symm))
  refine ⟨library.iteration left_set, library.iteration right_set, hleft, hright, ?_, ?_⟩
  · intro u hu
    obtain ⟨v, hv, heq⟩ := hright_cover u ((hleft_sub u ((hiteration _).mem_iff.1 hu)).symm)
    exact ⟨v, (hiteration _).mem_iff.2 hv, heq⟩
  · intro v hv
    obtain ⟨u, hu, heq⟩ := hleft_cover v ((hright_sub v ((hiteration _).mem_iff.1 hv)).symm)
    exact ⟨u, (hiteration _).mem_iff.2 hu, heq⟩

theorem UnionOperator_commutes_witness :
    ∃ U V,
      UnionOperator.EvaluateOperator ExampleHashLibrary R4PrimitiveHandler
          [.Integer 1, .String "a"] [.UnsignedInt 1, .Integer 2] []
        = some (.ok (U ++ [])) ∧
      UnionOperator.EvaluateOperator ExampleHashLibrary R4PrimitiveHandler
          [.UnsignedInt 1, .Integer 2] [.Integer 1, .String "a"] []
        = some (.ok (V ++ [])) ∧
      (∀ u ∈ U, ∃ v ∈ V, EqualsOperator.AreEqual R4PrimitiveHandler u v = true) ∧
      (∀ v ∈ V, ∃ u ∈ U, EqualsOperator.AreEqual R4PrimitiveHandler v u = true) :=
  UnionOperator_commutes ExampleHashLibrary R4PrimitiveHandler
    [.Integer 1, .String "a"] [.UnsignedInt 1, .Integer 2] []
    (by
      intro message hmem _
      simp only [List.cons_append, List.nil_append, List.mem_cons, List.not_mem_nil,
        or_false] at hmem
      rcases hmem with rfl | rfl | rfl | rfl <;> exact ⟨_, rfl⟩)
    (fun set => List.reverse_perm set)

/-- C13: on a child that evaluates to one DateTime without precision neither
`distinct()` nor `isDistinct()` returns: the hash of the DateTime aborts, so
there is no number of elements to compare. -/
theorem DistinctFunction_aborts_without_json_form :
    ∀ library : HashLibrary,
      DistinctFunction.Evaluate library R4PrimitiveHandler
          (ConstantNode [DateTimeWithoutPrecision]) (WorkSpace.ofMessage (.Boolean true)) []
        = none ∧
      IsDistinctFunction.Evaluate library R4PrimitiveHandler
          (ConstantNode [DateTimeWithoutPrecision]) (WorkSpace.ofMessage (.Boolean true)) []
        = none :=
  fun _ => ⟨rfl, rfl⟩

/-- The numbers of elements where no hash aborts: when the child evaluates to
`xs`, every primitive of `xs` has a JSON form and a set is iterated as a
permutation of its elements, `distinct` returns a collection of at most as many elements as `xs`,
`isDistinct` returns one Boolean, that Boolean is true if and only if the two
numbers are equal, and when it is false `distinct` has strictly fewer elements
than `xs`. -/
theorem DistinctFunction_count (library : HashLibrary) (handler : PrimitiveHandler)
    (child_ : ExpressionNode) (work_space : WorkSpace) (xs results : List Message)
    (hchild : child_ work_space [] = .ok xs)
    (hjson : HaveJsonForms handler xs)
    (hiteration : ∀ set, (library.iteration set).Perm set) :
    ∃ (distinct : List Message) (is_distinct : Bool),
      DistinctFunction.Evaluate library handler child_ work_space results
        = some (.ok (distinct ++ results)) ∧
      IsDistinctFunction.Evaluate library handler child_ work_space results
        = some (.ok (results ++ [.Boolean is_distinct])) ∧
      distinct.length ≤ xs.length ∧
      (is_distinct = true ↔ distinct.length = xs.length) ∧
      (is_distinct = false → distinct.length < xs.length) := by
  obtain ⟨set, hset, hsub, _, _⟩ :=
    unordered_set.insert_range_inserted library handler xs [] hjson
  have hlen : (library.iteration ([] ++ set)).length = set.length := by
    simpa using (hiteration ([] ++ set)).length_eq
  have hle : set.length ≤ xs.length := hsub.length_le
  refine ⟨library.iteration ([] ++ set), set.length == xs.length, ?_, ?_, ?_, ?_, ?_⟩
  · simp only [DistinctFunction.Evaluate, hchild, hset, Option.bind_eq_bind, Option.some_bind]
    rfl
  · simp only [IsDistinctFunction.Evaluate, hchild, hset, Option.bind_eq_bind,
      Option.some_bind]
    rfl
  · rw [hlen]
    exact hle
  · rw [hlen]
    simp
  · rw [hlen]
    intro h
    have hne : set.length ≠ xs.length := by simpa using h
    omega

theorem DistinctFunction_count_witness :
    ∃ (distinct : List Message) (is_distinct : Bool),
      DistinctFunction.Evaluate ExampleHashLibrary R4PrimitiveHandler
          (ConstantNode [.Integer 1, .UnsignedInt 1, .String "a"])
          (WorkSpace.ofMessage (.Boolean true)) []
        = some (.ok (distinct ++ [])) ∧
      IsDistinctFunction.Evaluate ExampleHashLibrary R4PrimitiveHandler
          (ConstantNode [.Integer 1, .UnsignedInt 1, .String "a"])
          (WorkSpace.ofMessage (.Boolean true)) []
        = some (.ok ([] ++ [.Boolean is_distinct])) ∧
      distinct.length ≤ [Message.Integer 1, .UnsignedInt 1, .String "a"].length ∧
      (is_distinct = true ↔
        distinct.length = [Message.Integer 1, .UnsignedInt 1, .String "a"].length) ∧
      (is_distinct = false →
        distinct.length < [Message.Integer 1, .UnsignedInt 1, .String "a"].length) :=
  DistinctFunction_count ExampleHashLibrary R4PrimitiveHandler
    (ConstantNode [.Integer 1, .UnsignedInt 1, .String "a"])
    (WorkSpace.ofMessage (.Boolean true)) [.Integer 1, .UnsignedInt 1, .String "a"] [] rfl
    (by
      intro message hmem _
      simp only [List.mem_cons, List.not_mem_nil, or_false] at hmem
      rcases hmem with rfl | rfl | rfl <;> exact ⟨_, rfl⟩)
    (fun set => List.reverse_perm set)

/-! ## Intersection -/

theorem unordered_set.count_of_code (library : HashLibrary) (handler : PrimitiveHandler)
    (set : List Message) (key : Message) (code : Nat)
    (hcode : ProtoPtrHash library handler key = some code) :
    unordered_set.count library handler set key
      = some (if set.any (unordered_set.is_match library handler code key) = true then 1
          else 0) := by
  unfold unordered_set.count
  rw [hcode]
  rfl

theorem unordered_set.erase_of_code (library : HashLibrary) (handler : PrimitiveHandler)
    (set : List Message) (key : Message) (code : Nat)
    (hcode : ProtoPtrHash library handler key = some code) :
    unordered_set.erase library handler set key
      = some (set.eraseP (unordered_set.is_match library handler code key)) := by
  unfold unordered_set.erase
  rw [hcode]
  rfl

theorem IntersectFunction.loop_of_match (library : HashLibrary) (handler : PrimitiveHandler)
    (child_set rest results : List Message) (elem : Message) (code : Nat)
    (hcode : ProtoPtrHash library handler elem = some code)
    (hany : child_set.any (unordered_set.is_match library handler code elem) = true) :
    IntersectFunction.loop library handler child_set (elem :: rest) results
      = IntersectFunction.loop library handler
          (child_set.eraseP (unordered_set.is_match library handler code elem)) rest
          (results ++ [elem]) := by
  rw [IntersectFunction.loop, unordered_set.count_of_code library handler _ _ code hcode,
    if_pos hany, unordered_set.erase_of_code library handler _ _ code hcode]
  rfl

theorem IntersectFunction.loop_of_no_match (library : HashLibrary) (handler : PrimitiveHandler)
    (child_set rest results : List Message) (elem : Message) (code : Nat)
    (hcode : ProtoPtrHash library handler elem = some code)
    (hany : ¬ child_set.any (unordered_set.is_match library handler code elem) = true) :
    IntersectFunction.loop library handler child_set (elem :: rest) results
      = IntersectFunction.loop library handler child_set rest results := by
  rw [IntersectFunction.loop, unordered_set.count_of_code library handler _ _ code hcode,
    if_neg hany]
  rfl

theorem IntersectFunction.loop_returned (library : HashLibrary) (handler : PrimitiveHandler)
    (all : List Message) (first_param : List Message) :
    ∀ child_set results : List Message, HaveJsonForms handler first_param →
      ∃ returned,
        IntersectFunction.loop library handler child_set first_param results
          = some (results ++ returned) ∧
        returned.Sublist first_param ∧
        (∀ r ∈ returned, ∃ c ∈ child_set, EqualsOperator.AreEqual handler r c = true) ∧
        (NoJsonFormUnlessPrimitive handler → TransitiveOn handler all →
          (∀ c ∈ child_set, c ∈ all) → (∀ p ∈ first_param, p ∈ all) →
          child_set.Pairwise (fun a b => EqualsOperator.AreEqual handler a b = false) →
          returned.Pairwise (fun a b => EqualsOperator.AreEqual handler a b = false) ∧
          (∀ p ∈ first_param, (∃ c ∈ child_set, EqualsOperator.AreEqual handler p c = true) →
            ∃ r ∈ returned, EqualsOperator.AreEqual handler p r = true)) := by
  induction first_param with
  | nil =>
      intro child_set results _
      exact ⟨[], by simp [IntersectFunction.loop], List.Sublist.refl _, by simp, by simp⟩
  | cons elem rest ih =>
      intro child_set results hjson
      obtain ⟨code, hcode⟩ :=
        ProtoPtrHash_of_HaveJsonForms library handler (elem :: rest) hjson elem (by simp)
      have hrest : HaveJsonForms handler rest := fun message hmem =>
        hjson message (List.mem_cons_of_mem _ hmem)
      by_cases hany : child_set.any (unordered_set.is_match library handler code elem) = true
      · obtain ⟨found, hfound, hmatch⟩ := List.any_eq_true.1 hany
        obtain ⟨returned, hloop, hsub, hfrom, hset⟩ :=
          ih (child_set.eraseP (unordered_set.is_match library handler code elem))
            (results ++ [elem]) hrest
        refine ⟨elem :: returned, ?_, hsub.cons₂ _, ?_, ?_⟩
        · rw [IntersectFunction.loop_of_match library handler _ _ _ _ code hcode hany, hloop]
          simp
        · intro r hr
          rcases List.mem_cons.1 hr with rfl | hr
          · exact ⟨found, hfound,
              unordered_set.AreEqual_of_is_match library handler code r found hmatch⟩
          · obtain ⟨c, hc, heq⟩ := hfrom r hr
            exact ⟨c, List.mem_of_mem_eraseP hc, heq⟩
        · intro hhandler htrans hchild hparam hpair
          obtain ⟨erased, before, after, _, herased, hsplit, herase⟩ :=
            List.exists_of_eraseP hfound hmatch
          have helem : EqualsOperator.AreEqual handler elem erased = true :=
            unordered_set.AreEqual_of_is_match library handler code elem erased herased
          have herased_all : erased ∈ all := hchild erased (by rw [hsplit]; simp)
          have hother : ∀ c ∈ before ++ after,
              EqualsOperator.AreEqual handler erased c = false := by
            rw [hsplit, List.pairwise_append, List.pairwise_cons] at hpair
            intro c hc
            rcases List.mem_append.1 hc with hc | hc
            · rw [EqualsOperator.AreEqual_comm]
              exact hpair.2.2 c hc erased (by simp)
            · exact hpair.2.1.1 c hc
          obtain ⟨hreturned, hcover⟩ := hset hhandler htrans
            (fun c hc => hchild c (List.mem_of_mem_eraseP hc))
            (fun p hp => hparam p (List.mem_cons_of_mem _ hp))
            (hpair.sublist (List.eraseP_sublist _))
          constructor
          · rw [List.pairwise_cons]
            refine ⟨?_, hreturned⟩
            intro r hr
            cases hr_eq : EqualsOperator.AreEqual handler elem r
            · rfl
            · exfalso
              obtain ⟨c, hc, hrc⟩ := hfrom r hr
              have hr_all : r ∈ all := hparam r (List.mem_cons_of_mem _ (hsub.subset hr))
              have hc_all : c ∈ all := hchild c (List.mem_of_mem_eraseP hc)
              have h1 : EqualsOperator.AreEqual handler erased r = true :=
                htrans erased herased_all elem (hparam elem (by simp)) r hr_all
                  (by rw [EqualsOperator.AreEqual_comm]; exact helem) hr_eq
              have h2 : EqualsOperator.AreEqual handler erased c = true :=
                htrans erased herased_all r hr_all c hc_all h1 hrc
              rw [herase] at hc
              rw [hother c hc] at h2
              exact Bool.false_ne_true h2
          · intro p hp hex
            rcases List.mem_cons.1 hp with rfl | hp
            · exact ⟨p, by simp, EqualsOperator.AreEqual_self handler p⟩
            · obtain ⟨c, hc, hpc⟩ := hex
              by_cases hce : c ∈ before ++ after
              · obtain ⟨r, hr, hpr⟩ := hcover p hp ⟨c, by rw [herase]; exact hce, hpc⟩
                exact ⟨r, List.mem_cons_of_mem _ hr, hpr⟩
              · have hc_eq : c = erased := by
                  rw [hsplit] at hc
                  simp only [List.mem_append, List.mem_cons] at hc hce
                  tauto
                subst hc_eq
                refine ⟨elem, by simp, ?_⟩
                exact htrans p (hparam p (List.mem_cons_of_mem _ hp)) c herased_all elem
                  (hparam elem (by simp)) hpc
                  (by rw [EqualsOperator.AreEqual_comm]; exact helem)
      · obtain ⟨returned, hloop, hsub, hfrom, hset⟩ := ih child_set results hrest
        refine ⟨returned, ?_, hsub.cons _, hfrom, ?_⟩
        · rw [IntersectFunction.loop_of_no_match library handler _ _ _ _ code hcode hany, hloop]
        · intro hhandler htrans hchild hparam hpair
          obtain ⟨hreturned, hcover⟩ := hset hhandler htrans hchild
            (fun p hp => hparam p (List.mem_cons_of_mem _ hp)) hpair
          refine ⟨hreturned, ?_⟩
          intro p hp hex
          rcases List.mem_cons.1 hp with rfl | hp
          · exfalso
            obtain ⟨c, hc, hpc⟩ := hex
            apply hany
            refine List.any_eq_true.2 ⟨c, hc, ?_⟩
            rw [unordered_set.is_match_eq_AreEqual library handler hhandler code p c hcode]
            exact hpc
          · exact hcover p hp hex

/-- C14, as the claim states it: two year-precision DateTimes of the year 2020
at different instants are not value-equal to each other, and both are
value-equal to the String `2020`.  With the two DateTimes as child and twice that
String as parameter, both Strings are returned, and they are value-equal to each
other; with the first DateTime and the String as child and the second DateTime as
parameter, nothing is returned, though the parameter element is value-equal to
an element of the child. -/
theorem IntersectFunction_counterexample :
    IntersectFunction.Evaluate ExampleHashLibrary R4PrimitiveHandler
        (ConstantNode
          [.DateTime { value_us := 1577836800000000, timezone := "Z", precision := .YEAR },
           .DateTime { value_us := 1590969600000000, timezone := "Z", precision := .YEAR }])
        (WorkSpace.ofMessage (.Boolean true)) [.String "2020", .String "2020"] []
      = some (.ok [.String "2020", .String "2020"]) ∧
    EqualsOperator.AreEqual R4PrimitiveHandler (.String "2020") (.String "2020") = true ∧
    IntersectFunction.Evaluate ExampleHashLibrary R4PrimitiveHandler
        (ConstantNode
          [.DateTime { value_us := 1577836800000000, timezone := "Z", precision := .YEAR },
           .String "2020"])
        (WorkSpace.ofMessage (.Boolean true))
        [.DateTime { value_us := 1590969600000000, timezone := "Z", precision := .YEAR }] []
      = some (.ok []) ∧
    EqualsOperator.AreEqual R4PrimitiveHandler
      (.DateTime { value_us := 1590969600000000, timezone := "Z", precision := .YEAR })
      (.String "2020") = true ∧
    EqualsOperator.AreEqual R4PrimitiveHandler
      (.DateTime { value_us := 1577836800000000, timezone := "Z", precision := .YEAR })
      (.DateTime { value_us := 1590969600000000, timezone := "Z", precision := .YEAR })
      = false := by
  refine ⟨rfl, by decide, rfl, by decide, by decide⟩

/-- C14, amended: when the child evaluates to `C`, the handler gives no JSON
form to a message that is not primitive and every primitive of `C` and `P` has a
JSON form (so that no hash aborts), `C.intersect(P)` returns a subsequence of
`P`, put after the results, whose elements are each value-equal to some element
of `C`; and when value-equality is transitive on the elements of `C` and `P`, no
two returned elements are value-equal to each other and every element of `P`
that is value-equal to an element of `C` is value-equal to some returned
element. -/
theorem IntersectFunction_intersects (library : HashLibrary) (handler : PrimitiveHandler)
    (child_ : ExpressionNode) (work_space : WorkSpace) (C P results : List Message)
    (hchild : child_ work_space [] = .ok C)
    (hhandler : NoJsonFormUnlessPrimitive handler)
    (hjson : HaveJsonForms handler (C ++ P)) :
    ∃ returned,
      IntersectFunction.Evaluate library handler child_ work_space P results
        = some (.ok (results ++ returned)) ∧
      returned.Sublist P ∧
      (∀ r ∈ returned, ∃ c ∈ C, EqualsOperator.AreEqual handler r c = true) ∧
      (TransitiveOn handler (C ++ P) →
        (∀ i j : Fin returned.length, i ≠ j →
          EqualsOperator.AreEqual handler (returned.get i) (returned.get j) = false) ∧
        (∀ p ∈ P, (∃ c ∈ C, EqualsOperator.AreEqual handler p c = true) →
          ∃ r ∈ returned, EqualsOperator.AreEqual handler p r = true)) := by
  obtain ⟨child_set, hset, hsub, hcover, hpair⟩ :=
    unordered_set.insert_range_inserted library handler C []
      (fun message hmem => hjson message (List.mem_append_left _ hmem))
  obtain ⟨returned, hloop, hreturned_sub, hfrom, hrest⟩ :=
    IntersectFunction.loop_returned library handler (C ++ P) P ([] ++ child_set) results
      (fun message hmem => hjson message (List.mem_append_right _ hmem))
  have hset_sub : ∀ c ∈ [] ++ child_set, c ∈ C := fun c hc =>
    hsub.subset (by simpa using hc)
  refine ⟨returned, ?_, hreturned_sub, ?_, ?_⟩
  · simp only [IntersectFunction.Evaluate, hchild, hset, hloop, Option.bind_eq_bind,
      Option.some_bind]
    rfl
  · intro r hr
    obtain ⟨c, hc, heq⟩ := hfrom r hr
    exact ⟨c, hset_sub c hc, heq⟩
  · intro htrans
    obtain ⟨hpairwise, hcovered⟩ := hrest hhandler htrans
      (fun c hc => List.mem_append_left _ (hset_sub c hc))
      (fun p hp => List.mem_append_right _ hp)
      (hpair hhandler List.Pairwise.nil)
    refine ⟨Pairwise_not_AreEqual_get handler returned hpairwise, ?_⟩
    intro p hp hex
    obtain ⟨c, hc, hpc⟩ := hex
    obtain ⟨element, helement, hce⟩ := hcover c hc
    exact hcovered p hp ⟨element, helement,
      htrans p (List.mem_append_right _ hp) c (List.mem_append_left _ hc) element
        (List.mem_append_left _ (hset_sub element helement)) hpc hce⟩

theorem IntersectFunction_intersects_witness :
    ∃ returned,
      IntersectFunction.Evaluate ExampleHashLibrary R4PrimitiveHandler
          (ConstantNode [.Integer 1, .String "a", .Integer 2])
          (WorkSpace.ofMessage (.Boolean true)) [.Integer 2, .UnsignedInt 1, .Integer 1] []
        = some (.ok ([] ++ returned)) ∧
      returned.Sublist [Message.Integer 2, .UnsignedInt 1, .Integer 1] ∧
      (∀ r ∈ returned, ∃ c ∈ [Message.Integer 1, .String "a", .Integer 2],
        EqualsOperator.AreEqual R4PrimitiveHandler r c = true) ∧
      (∀ i j : Fin returned.length, i ≠ j →
        EqualsOperator.AreEqual R4PrimitiveHandler (returned.get i) (returned.get j)
          = false) ∧
      (∀ p ∈ [Message.Integer 2, .UnsignedInt 1, .Integer 1],
        (∃ c ∈ [Message.Integer 1, .String "a", .Integer 2],
          EqualsOperator.AreEqual R4PrimitiveHandler p c = true) →
        ∃ r ∈ returned, EqualsOperator.AreEqual R4PrimitiveHandler p r = true) := by
  obtain ⟨returned, heval, hsub, hfrom, hrest⟩ :=
    IntersectFunction_intersects ExampleHashLibrary R4PrimitiveHandler
      (ConstantNode [.Integer 1, .String "a", .Integer 2])
      (WorkSpace.ofMessage (.Boolean true)) [.Integer 1, .String "a", .Integer 2]
      [.Integer 2, .UnsignedInt 1, .Integer 1] [] rfl
      R4PrimitiveHandler_not_primitive
      (by
        intro message hmem _
        simp only [List.cons_append, List.nil_append, List.mem_cons, List.not_mem_nil,
          or_false] at hmem
        rcases hmem with rfl | rfl | rfl | rfl | rfl | rfl <;> exact ⟨_, rfl⟩)
  have htrans : TransitiveOn R4PrimitiveHandler
      ([Message.Integer 1, .String "a", .Integer 2] ++
        [Message.Integer 2, .UnsignedInt 1, .Integer 1]) := by
    unfold TransitiveOn
    decide
  exact ⟨returned, heval, hsub, hfrom, (hrest htrans).1, (hrest htrans).2⟩

/-! ## Polarity -/

theorem PolarityOperator.NegateDecimal_minus (text : String) :
    PolarityOperator.NegateDecimal ("-" ++ text) = text := by
  cases text with
  | mk data => rfl

theorem PolarityOperator.NegateDecimal_no_minus (text : String)
    (h : text.data.head? ≠ some '-') :
    PolarityOperator.NegateDecimal text = "-" ++ text := by
  cases text with
  | mk data =>
      cases data with
      | nil => rfl
      | cons c rest =>
          have hc : c ≠ '-' := by
            intro hc
            apply h
            simp [hc]
          unfold PolarityOperator.NegateDecimal
          split
          · rename_i rest2 heq
            simp at heq
            exact absurd heq.1 hc
          · rfl

theorem PolarityOperator.NegateDecimal_twice (text : String)
    (h : ∀ rest, text.data ≠ '-' :: '-' :: rest) :
    PolarityOperator.NegateDecimal (PolarityOperator.NegateDecimal text) = text := by
  by_cases hminus : text.data.head? = some '-'
  · cases text with
    | mk data =>
        cases data with
        | nil => simp at hminus
        | cons c rest =>
            simp at hminus
            subst hminus
            have hrest : (String.mk rest).data.head? ≠ some '-' := by
              intro hr
              cases rest with
              | nil => simp at hr
              | cons d rest2 =>
                  simp at hr
                  subst hr
                  exact h rest2 rfl
            have h1 : PolarityOperator.NegateDecimal (String.mk ('-' :: rest)) = String.mk rest :=
              rfl
            rw [h1, PolarityOperator.NegateDecimal_no_minus _ hrest]
            rfl
  · rw [PolarityOperator.NegateDecimal_no_minus _ hminus,
      PolarityOperator.NegateDecimal_minus]

theorem PolarityOperator.Evaluate_Integer (operand_ : ExpressionNode) (work_space : WorkSpace)
    (results : List Message) (n : Int) (hlow : -(2 ^ 31) < n) (hhigh : n < 2 ^ 31)
    (hoperand : operand_ work_space [] = .ok [.Integer n]) :
    PolarityOperator.Evaluate .kNegative operand_ work_space results
      = .ok (results ++ [.Integer (-n)]) := by
  have hneg : Int32Wrap (n * -1) = -n := by
    rw [Int32Wrap_of_range] <;> omega
  have hneg2 : Int32Wrap (-n) = -n := by
    rw [Int32Wrap_of_range] <;> omega
  simp [PolarityOperator.Evaluate, hoperand, bind, Except.bind, AsDecimal, AsInteger, hneg,
    hneg2]

theorem PolarityOperator.Evaluate_Decimal (operand_ : ExpressionNode) (work_space : WorkSpace)
    (results : List Message) (text : String)
    (hoperand : operand_ work_space [] = .ok [.Decimal text]) :
    PolarityOperator.Evaluate .kNegative operand_ work_space results
      = .ok (results ++ [.Decimal (PolarityOperator.NegateDecimal text)]) := by
  simp [PolarityOperator.Evaluate, hoperand, bind, Except.bind, AsDecimal]

/-- C21, as the claim states it: unary `-` on the least 32-bit Integer yields that
Integer again, not its negation. -/
theorem PolarityOperator_least_integer_counterexample :
    PolarityOperator.Evaluate .kNegative (Literal.Evaluate Message.Integer (-2147483648))
        (WorkSpace.ofMessage (.Boolean true)) []
      = .ok [.Integer (-2147483648)] ∧
    (-(-2147483648 : Int)) ≠ -2147483648 :=
  ⟨rfl, by decide⟩

/-- C21, amended: unary `-` on a single Integer `n` other than the least 32-bit
value appends the Integer `-n`; on a single Decimal it appends the Decimal whose text is the
operand's without a leading `-`, or with a `-` put before it when there is none;
applied twice to such an Integer, or to a Decimal whose text does not start with
two `-` (as no well-formed Decimal does), it appends the operand's value again;
on a single message of another type it fails, and on an empty operand it
appends nothing. -/
theorem PolarityOperator_negates (operand_ : ExpressionNode) (work_space : WorkSpace)
    (results : List Message) :
    (∀ n : Int, -(2 ^ 31) < n → n < 2 ^ 31 → operand_ work_space [] = .ok [.Integer n] →
      PolarityOperator.Evaluate .kNegative operand_ work_space results
        = .ok (results ++ [.Integer (-n)])) ∧
    (∀ text : String, operand_ work_space [] = .ok [.Decimal ("-" ++ text)] →
      PolarityOperator.Evaluate .kNegative operand_ work_space results
        = .ok (results ++ [.Decimal text])) ∧
    (∀ text : String, text.data.head? ≠ some '-' →
      operand_ work_space [] = .ok [.Decimal text] →
      PolarityOperator.Evaluate .kNegative operand_ work_space results
        = .ok (results ++ [.Decimal ("-" ++ text)])) ∧
    (∀ n : Int, -(2 ^ 31) < n → n < 2 ^ 31 → operand_ work_space [] = .ok [.Integer n] →
      PolarityOperator.Evaluate .kNegative (PolarityOperator.Evaluate .kNegative operand_)
          work_space results
        = .ok (results ++ [.Integer n])) ∧
    (∀ text : String, (∀ rest, text.data ≠ '-' :: '-' :: rest) →
      operand_ work_space [] = .ok [.Decimal text] →
      PolarityOperator.Evaluate .kNegative (PolarityOperator.Evaluate .kNegative operand_)
          work_space results
        = .ok (results ++ [.Decimal text])) ∧
    (∀ message : Message, AsInteger message = none → AsDecimal message = none →
      operand_ work_space [] = .ok [message] →
      ∃ status,
        PolarityOperator.Evaluate .kNegative operand_ work_space results = .error status) ∧
    (operand_ work_space [] = .ok [] →
      PolarityOperator.Evaluate .kNegative operand_ work_space results = .ok results) := by
  refine ⟨fun n hlow hhigh h =>
    PolarityOperator.Evaluate_Integer operand_ work_space results n hlow hhigh h,
    ?_, ?_, ?_, ?_, ?_, ?_⟩
  · intro text hoperand
    rw [PolarityOperator.Evaluate_Decimal _ _ _ _ hoperand,
      PolarityOperator.NegateDecimal_minus]
  · intro text htext hoperand
    rw [PolarityOperator.Evaluate_Decimal _ _ _ _ hoperand,
      PolarityOperator.NegateDecimal_no_minus text htext]
  · intro n hlow hhigh hoperand
    have hinner := PolarityOperator.Evaluate_Integer operand_ work_space [] n hlow hhigh hoperand
    have houter := PolarityOperator.Evaluate_Integer
      (PolarityOperator.Evaluate .kNegative operand_) work_space results (-n)
      (by omega) (by omega) hinner
    simpa using houter
  · intro text htext hoperand
    have hinner := PolarityOperator.Evaluate_Decimal operand_ work_space [] text hoperand
    have houter := PolarityOperator.Evaluate_Decimal
      (PolarityOperator.Evaluate .kNegative operand_) work_space results _ hinner
    rw [houter, PolarityOperator.NegateDecimal_twice text htext]
  · intro message hinteger_none hdecimal_none hoperand
    exact ⟨.InvalidArgument "Polarity operators must operate on a decimal or integer type.", by
      simp [PolarityOperator.Evaluate, hoperand, bind, Except.bind, hinteger_none,
        hdecimal_none]⟩
  · intro hoperand
    simp [PolarityOperator.Evaluate, hoperand, bind, Except.bind]

theorem PolarityOperator_negates_witness :
    PolarityOperator.Evaluate .kNegative (Literal.Evaluate Message.Integer 5)
        (WorkSpace.ofMessage (.Boolean true)) [] = .ok [.Integer (-5)] ∧
    PolarityOperator.Evaluate .kNegative
        (PolarityOperator.Evaluate .kNegative (Literal.Evaluate Message.Integer 5))
        (WorkSpace.ofMessage (.Boolean true)) [] = .ok [.Integer 5] ∧
    PolarityOperator.Evaluate .kNegative
        (PolarityOperator.Evaluate .kNegative (Literal.Evaluate Message.Decimal "-1.50"))
        (WorkSpace.ofMessage (.Boolean true)) [] = .ok [.Decimal "-1.50"] ∧
    (∃ status,
      PolarityOperator.Evaluate .kNegative (Literal.Evaluate Message.String "a")
        (WorkSpace.ofMessage (.Boolean true)) [] = .error status) :=
  ⟨(PolarityOperator_negates (Literal.Evaluate Message.Integer 5)
      (WorkSpace.ofMessage (.Boolean true)) []).1 5 (by decide) (by decide) rfl,
   (PolarityOperator_negates (Literal.Evaluate Message.Integer 5)
      (WorkSpace.ofMessage (.Boolean true)) []).2.2.2.1 5 (by decide) (by decide) rfl,
   (PolarityOperator_negates (Literal.Evaluate Message.Decimal "-1.50")
      (WorkSpace.ofMessage (.Boolean true)) []).2.2.2.2.1 "-1.50"
      (by intro rest h; cases h) rfl,
   (PolarityOperator_negates (Literal.Evaluate Message.String "a")
      (WorkSpace.ofMessage (.Boolean true)) []).2.2.2.2.2.1 (.String "a") rfl rfl rfl⟩

/-! ## Membership -/

/-- C23: when `b` evaluates to a single Boolean `v`, `b.not().not()` appends
the Boolean `v`; when `b` evaluates to empty, `b.not().not()` appends nothing;
and when `b` evaluates to a collection that is not a single Boolean, `b.not()`
returns normally and appends nothing. -/
theorem NotFunction_not_not (b : ExpressionNode) (work_space : WorkSpace)
    (results : List Message) :
    (∀ v : Bool, b work_space [] = .ok [.Boolean v] →
      NotFunction.Evaluate (NotFunction.Evaluate b) work_space results
        = .ok (results ++ [.Boolean v])) ∧
    (b work_space [] = .ok [] →
      NotFunction.Evaluate (NotFunction.Evaluate b) work_space results = .ok results) ∧
    (∀ messages : List Message, IsSingleBoolean messages = false →
      b work_space [] = .ok messages →
      NotFunction.Evaluate b work_space results = .ok results) := by
  refine ⟨?_, ?_, ?_⟩
  · intro v hb
    simp [NotFunction.Evaluate, hb, bind, Except.bind, IsSingleBoolean, IsMessageType,
      AsBoolean, MessagesToBoolean]
  · intro hb
    simp [NotFunction.Evaluate, hb, bind, Except.bind]
  · intro messages hsingle hb
    simp [NotFunction.Evaluate, hb, bind, Except.bind, hsingle]

theorem NotFunction_not_not_witness :
    NotFunction.Evaluate (NotFunction.Evaluate (Literal.Evaluate Message.Boolean false))
        (WorkSpace.ofMessage (.Boolean true)) [] = .ok [.Boolean false] ∧
    NotFunction.Evaluate (ConstantNode [.Integer 1, .Boolean true])
        (WorkSpace.ofMessage (.Boolean true)) [] = .ok [] :=
  ⟨(NotFunction_not_not (Literal.Evaluate Message.Boolean false)
      (WorkSpace.ofMessage (.Boolean true)) []).1 false rfl,
   (NotFunction_not_not (ConstantNode [.Integer 1, .Boolean true])
      (WorkSpace.ofMessage (.Boolean true)) []).2.2 [.Integer 1, .Boolean true] rfl rfl⟩

/-- C24: when `xs` evaluates to a collection, `xs.first().combine(xs.tail())`
appends that collection, element for element and in order; `first()` gives its
first element (nothing when it is empty) and `tail()` the others (nothing when
it has at most one element). -/
theorem FirstFunction_combine_tail (xs_ : ExpressionNode) (work_space : WorkSpace)
    (results xs : List Message) (hxs : xs_ work_space [] = .ok xs) :
    SingleParameterFunctionNode.Evaluate (CombineFunction.Evaluate (FirstFunction.Evaluate xs_))
        [TailFunction.Evaluate xs_] work_space results
      = .ok (results ++ xs) ∧
    FirstFunction.Evaluate xs_ work_space [] = .ok xs.head?.toList ∧
    TailFunction.Evaluate xs_ work_space [] = .ok xs.tail ∧
    xs.head?.toList ++ xs.tail = xs ∧
    (xs = [] → FirstFunction.Evaluate xs_ work_space results = .ok results) ∧
    (xs.length ≤ 1 → TailFunction.Evaluate xs_ work_space results = .ok results) := by
  have hfirst : FirstFunction.Evaluate xs_ work_space [] = .ok xs.head?.toList := by
    cases xs <;> simp [FirstFunction.Evaluate, hxs, bind, Except.bind]
  have htail : TailFunction.Evaluate xs_ work_space [] = .ok xs.tail := by
    rcases xs with _ | ⟨first, _ | ⟨second, rest⟩⟩ <;>
      simp [TailFunction.Evaluate, hxs, bind, Except.bind]
  have hsplit : xs.head?.toList ++ xs.tail = xs := by
    cases xs <;> simp
  refine ⟨?_, hfirst, htail, hsplit, ?_, ?_⟩
  · simp only [SingleParameterFunctionNode.Evaluate, CombineFunction.Evaluate, hfirst, htail,
      bind, Except.bind, List.append_assoc, hsplit]
  · intro hempty
    subst hempty
    simp [FirstFunction.Evaluate, hxs, bind, Except.bind]
  · intro hlen
    have hnot : ¬ 1 < xs.length := by omega
    simp [TailFunction.Evaluate, hxs, bind, Except.bind, hnot]

theorem FirstFunction_combine_tail_witness :
    SingleParameterFunctionNode.Evaluate
        (CombineFunction.Evaluate
          (FirstFunction.Evaluate (ConstantNode [.Integer 1, .Integer 2, .Integer 3])))
        [TailFunction.Evaluate (ConstantNode [.Integer 1, .Integer 2, .Integer 3])]
        (WorkSpace.ofMessage (.Boolean true)) [.String "a"]
      = .ok ([.String "a"] ++ [.Integer 1, .Integer 2, .Integer 3]) :=
  (FirstFunction_combine_tail (ConstantNode [.Integer 1, .Integer 2, .Integer 3])
    (WorkSpace.ofMessage (.Boolean true)) [.String "a"] [.Integer 1, .Integer 2, .Integer 3]
    rfl).1

theorem ToStringFunction.Evaluate_String (handler : PrimitiveHandler) (child_ : ExpressionNode)
    (work_space : WorkSpace) (results : List Message) (text : String)
    (hchild : child_ work_space [] = .ok [.String text]) :
    ToStringFunction.Evaluate handler child_ work_space results
      = .ok (results ++ [.String text]) := by
  simp [ToStringFunction.Evaluate, hchild, bind, Except.bind, IsMessageType, AsString]

theorem ToStringFunction.Evaluate_is_String (handler : PrimitiveHandler)
    (child_ : ExpressionNode) (work_space : WorkSpace) (v out : Message)
    (hchild : child_ work_space [] = .ok [v])
    (hout : ToStringFunction.Evaluate handler child_ work_space [] = .ok [out]) :
    ∃ text, out = .String text := by
  simp only [ToStringFunction.Evaluate, hchild, bind, Except.bind, List.length_singleton,
    gt_iff_lt, lt_self_iff_false, if_false, List.nil_append] at hout
  cases hs : AsString v with
  | some text =>
      have hv : v = .String text := by
        cases v <;> simp [AsString] at hs
        rw [hs]
      refine ⟨text, ?_⟩
      simp [IsMessageType, hs] at hout
      rw [← hout, hv]
  | none =>
      simp only [IsMessageType, hs, Option.isSome_none, Bool.false_eq_true, if_false] at hout
      by_cases hp : IsPrimitive (GetDescriptor v) = true
      · simp only [hp, Bool.not_true, Bool.false_eq_true, if_false] at hout
        cases hw : handler.WrapPrimitiveProto v with
        | error status => simp [hw] at hout
        | ok json =>
            simp only [hw] at hout
            injection hout with hout
            injection hout with hout _
            exact ⟨_, hout.symm⟩
      · simp [hp] at hout

/-- C25: `toString()` of a single String appends that String; of a single
primitive of another type with a JSON form it appends the String that holds the
form without its first and last character when the form is quoted, the form
itself when it does not start with a quote; and when `toString()` of a single
message gives one message, `toString()` of that result gives the same message. -/
theorem ToStringFunction_idempotent (handler : PrimitiveHandler) (child_ : ExpressionNode)
    (work_space : WorkSpace) (results : List Message) :
    (∀ text : String, child_ work_space [] = .ok [.String text] →
      ToStringFunction.Evaluate handler child_ work_space results
        = .ok (results ++ [.String text])) ∧
    (∀ (v : Message) (json_primitive : JsonPrimitive),
      AsString v = none → IsPrimitive (GetDescriptor v) = true →
      child_ work_space [] = .ok [v] →
      handler.WrapPrimitiveProto v = .ok json_primitive →
      (∀ text : String, json_primitive.value = "\"" ++ text ++ "\"" →
        ToStringFunction.Evaluate handler child_ work_space results
          = .ok (results ++ [.String text])) ∧
      (json_primitive.value.data.head? ≠ some '"' →
        ToStringFunction.Evaluate handler child_ work_space results
          = .ok (results ++ [.String json_primitive.value]))) ∧
    (∀ v out : Message, child_ work_space [] = .ok [v] →
      ToStringFunction.Evaluate handler child_ work_space [] = .ok [out] →
      ToStringFunction.Evaluate handler (ToStringFunction.Evaluate handler child_)
          work_space results
        = .ok (results ++ [out])) := by
  refine ⟨ToStringFunction.Evaluate_String handler child_ work_space results, ?_, ?_⟩
  · intro v json_primitive hstring hprimitive hchild hwrap
    constructor
    · intro text hjson
      have hdata : json_primitive.value.data = '"' :: (text.data ++ ['"']) := by
        rw [hjson]
        rfl
      simp [ToStringFunction.Evaluate, hchild, bind, Except.bind, IsMessageType, hstring,
        hprimitive, hwrap, hdata]
    · intro hquote
      have hne : (json_primitive.value.data.head? == some '"') = false := by
        simpa using hquote
      simp only [ToStringFunction.Evaluate, hchild, bind, Except.bind, IsMessageType, hstring,
        hprimitive, hwrap, hne]
      simp
  · intro v out hchild hout
    obtain ⟨text, rfl⟩ :=
      ToStringFunction.Evaluate_is_String handler child_ work_space v out hchild hout
    exact ToStringFunction.Evaluate_String handler _ work_space results text hout

theorem ToStringFunction_idempotent_witness :
    ToStringFunction.Evaluate R4PrimitiveHandler
        (ConstantNode [.primitive (PrimitiveDescriptor "Code") "\"phone\""])
        (WorkSpace.ofMessage (.Boolean true)) [] = .ok ([] ++ [.String "phone"]) ∧
    ToStringFunction.Evaluate R4PrimitiveHandler (Literal.Evaluate Message.Integer 12)
        (WorkSpace.ofMessage (.Boolean true)) [] = .ok ([] ++ [.String "12"]) ∧
    ToStringFunction.Evaluate R4PrimitiveHandler
        (ToStringFunction.Evaluate R4PrimitiveHandler (Literal.Evaluate Message.Integer 12))
        (WorkSpace.ofMessage (.Boolean true)) [] = .ok ([] ++ [.String "12"]) :=
  ⟨((ToStringFunction_idempotent R4PrimitiveHandler
      (ConstantNode [.primitive (PrimitiveDescriptor "Code") "\"phone\""])
      (WorkSpace.ofMessage (.Boolean true)) []).2.1
      (.primitive (PrimitiveDescriptor "Code") "\"phone\"") { value := "\"phone\"" }
      rfl rfl rfl rfl).1 "phone" rfl,
   ((ToStringFunction_idempotent R4PrimitiveHandler (Literal.Evaluate Message.Integer 12)
      (WorkSpace.ofMessage (.Boolean true)) []).2.1 (.Integer 12) { value := "12" }
      rfl rfl rfl rfl).2 (by decide),
   (ToStringFunction_idempotent R4PrimitiveHandler (Literal.Evaluate Message.Integer 12)
      (WorkSpace.ofMessage (.Boolean true)) []).2.2 (.Integer 12) (.String "12") rfl rfl⟩

/-! ## Idempotence of where -/

theorem WhereFunction.loop_kept (param : ExpressionNode) (work_space : WorkSpace) :
    ∀ (child_results results out : List Message),
      WhereFunction.loop param work_space child_results results = .ok out →
      ∃ kept, out = results ++ kept ∧
        ∀ other : List Message,
          WhereFunction.loop param work_space child_results other = .ok (other ++ kept) ∧
          WhereFunction.loop param work_space kept other = .ok (other ++ kept) := by
  intro child_results
  induction child_results with
  | nil =>
      intro results out h
      simp only [WhereFunction.loop] at h
      injection h with h
      exact ⟨[], by simp [h], fun other => by simp [WhereFunction.loop]⟩
  | cons message rest ih =>
      intro results out h
      simp only [WhereFunction.loop, bind, Except.bind] at h
      cases hparam : param (WorkSpace.ofStack work_space.MessageContextStack message) [] with
      | error status => simp [hparam] at h
      | ok param_results =>
          simp only [hparam] at h
          cases hallowed : PrimitiveOrEmpty AsBoolean param_results with
          | error status => simp [hallowed] at h
          | ok allowed =>
              simp only [hallowed] at h
              by_cases hkeep : allowed.getD false = true
              · simp only [hkeep, if_true] at h
                obtain ⟨kept, hout, hkept⟩ := ih _ _ h
                refine ⟨message :: kept, by simp [hout], ?_⟩
                intro other
                have hother := hkept (other ++ [message])
                simp only [List.append_assoc, List.singleton_append] at hother
                constructor
                · simp only [WhereFunction.loop, bind, Except.bind, hparam, hallowed, hkeep,
                    if_true]
                  exact hother.1
                · simp only [WhereFunction.loop, bind, Except.bind, hparam, hallowed, hkeep,
                    if_true]
                  exact hother.2
              · simp only [hkeep, if_false] at h
                obtain ⟨kept, hout, hkept⟩ := ih _ _ h
                refine ⟨kept, hout, ?_⟩
                intro other
                constructor
                · simp only [WhereFunction.loop, bind, Except.bind, hparam, hallowed, hkeep,
                    if_false]
                  exact (hkept other).1
                · exact (hkept other).2

/-- C26: when `xs.where(pred)` evaluates to a collection, `where(pred)` applied
to it evaluates to the same collection: `xs.where(pred).where(pred)` appends the
elements that `xs.where(pred)` appends, in the same order. -/
theorem WhereFunction_idempotent (child_ param : ExpressionNode) (work_space : WorkSpace)
    (results kept : List Message)
    (hwhere : WhereFunction.Evaluate child_ param work_space [] = .ok kept) :
    WhereFunction.Evaluate (WhereFunction.Evaluate child_ param) param work_space results
      = .ok (results ++ kept) ∧
    WhereFunction.Evaluate child_ param work_space results = .ok (results ++ kept) := by
  have hwhere2 := hwhere
  simp only [WhereFunction.Evaluate, bind, Except.bind] at hwhere2
  cases hchild : child_ work_space [] with
  | error status => simp [hchild] at hwhere2
  | ok child_results =>
      simp only [hchild] at hwhere2
      obtain ⟨kept2, hout, hkept⟩ := WhereFunction.loop_kept param work_space _ _ _ hwhere2
      simp only [List.nil_append] at hout
      subst hout
      constructor
      · have h1 : WhereFunction.Evaluate (WhereFunction.Evaluate child_ param) param work_space
            results = WhereFunction.loop param work_space kept results := by
          simp only [WhereFunction.Evaluate, bind, Except.bind] at hwhere ⊢
          rw [hwhere]
        rw [h1]
        exact (hkept results).2
      · simp only [WhereFunction.Evaluate, bind, Except.bind, hchild]
        exact (hkept results).1

theorem WhereFunction_idempotent_witness :
    WhereFunction.Evaluate
        (WhereFunction.Evaluate (ConstantNode [.Boolean true, .Boolean false, .Boolean true])
          ThisReference.Evaluate)
        ThisReference.Evaluate (WorkSpace.ofMessage (.Integer 0)) []
      = .ok ([] ++ [.Boolean true, .Boolean true]) :=
  (WhereFunction_idempotent (ConstantNode [.Boolean true, .Boolean false, .Boolean true])
    ThisReference.Evaluate (WorkSpace.ofMessage (.Integer 0)) []
    [.Boolean true, .Boolean true] rfl).1

/-! ## all and iif -/

theorem PrimitiveOrEmpty_AsBoolean_true (param_results : List Message) :
    PrimitiveOrEmpty AsBoolean param_results = .ok (some true) ↔
      param_results = [.Boolean true] := by
  constructor
  · intro h
    rcases param_results with _ | ⟨message, _ | ⟨second, rest⟩⟩
    · simp [PrimitiveOrEmpty] at h
    · cases message <;> simp [PrimitiveOrEmpty, AsBoolean] at h
      · split at h
        · simp at h
        · simp at h
          rw [h]
      all_goals (split at h <;> simp at h)
    · simp [PrimitiveOrEmpty] at h
  · intro h
    rw [h]
    exact PrimitiveOrEmpty_AsBoolean_single true

theorem AllFunction.loop_true (param : ExpressionNode) (work_space : WorkSpace) :
    ∀ child_results : List Message,
      (∀ message ∈ child_results,
        param (work_space.PushMessageContext message) [] = .ok [.Boolean true]) →
      AllFunction.loop param work_space child_results = .ok true := by
  intro child_results
  induction child_results with
  | nil => intro _; rfl
  | cons message rest ih =>
      intro h
      have hm := h message (List.mem_cons_self _ _)
      simp only [AllFunction.loop, WorkSpace.ofStack_MessageContextStack, hm, bind, Except.bind,
        PrimitiveOrEmpty_AsBoolean_single]
      simpa using ih (fun m hmem => h m (List.mem_cons_of_mem _ hmem))

theorem AllFunction.loop_false (param : ExpressionNode) (work_space : WorkSpace)
    (message : Message) (after : List Message)
    (hmessage : param (work_space.PushMessageContext message) [] = .ok [.Boolean false] ∨
      param (work_space.PushMessageContext message) [] = .ok []) :
    ∀ before : List Message,
      (∀ earlier ∈ before,
        param (work_space.PushMessageContext earlier) [] = .ok [.Boolean true]) →
      AllFunction.loop param work_space (before ++ message :: after) = .ok false := by
  intro before
  induction before with
  | nil =>
      intro _
      rcases hmessage with h | h
      · simp [AllFunction.loop, WorkSpace.ofStack_MessageContextStack, h, bind, Except.bind,
          PrimitiveOrEmpty_AsBoolean_single]
      · simp [AllFunction.loop, WorkSpace.ofStack_MessageContextStack, h, bind, Except.bind,
          PrimitiveOrEmpty]
  | cons earlier rest ih =>
      intro h
      have he := h earlier (List.mem_cons_self _ _)
      simp only [List.cons_append, AllFunction.loop, WorkSpace.ofStack_MessageContextStack, he,
        bind, Except.bind, PrimitiveOrEmpty_AsBoolean_single]
      simpa using ih (fun m hmem => h m (List.mem_cons_of_mem _ hmem))

theorem AllFunction.loop_sound (param : ExpressionNode) (work_space : WorkSpace) :
    ∀ (child_results : List Message) (result : Bool),
      AllFunction.loop param work_space child_results = .ok result →
      (result = true ↔ ∀ message ∈ child_results,
        param (work_space.PushMessageContext message) [] = .ok [.Boolean true]) := by
  intro child_results
  induction child_results with
  | nil =>
      intro result h
      simp only [AllFunction.loop] at h
      injection h with h
      simp [← h]
  | cons message rest ih =>
      intro result h
      simp only [AllFunction.loop, WorkSpace.ofStack_MessageContextStack, bind, Except.bind]
        at h
      cases hparam : param (work_space.PushMessageContext message) [] with
      | error status => simp [hparam] at h
      | ok param_results =>
          simp only [hparam] at h
          cases hmet : PrimitiveOrEmpty AsBoolean param_results with
          | error status => simp [hmet] at h
          | ok criteria_met =>
              simp only [hmet] at h
              by_cases hkeep : criteria_met.getD false = true
              · have hsome : criteria_met = some true := by
                  cases criteria_met with
                  | none => simp at hkeep
                  | some value => simp at hkeep; rw [hkeep]
                rw [hsome] at hmet
                have hresults := (PrimitiveOrEmpty_AsBoolean_true param_results).1 hmet
                simp only [hkeep, Bool.not_true, Bool.false_eq_true, if_false] at h
                rw [ih result h]
                simp [hparam, hresults]
              · have hfalse : result = false := by
                  simp only [hkeep, Bool.not_eq_true] at h
                  cases hg : criteria_met.getD false
                  · simp [hg] at h
                    exact h
                  · exact absurd hg hkeep
                subst hfalse
                constructor
                · intro h2
                  cases h2
                · intro hall
                  have hm := hall message (List.mem_cons_self _ _)
                  rw [hparam] at hm
                  injection hm with hm
                  rw [hm, PrimitiveOrEmpty_AsBoolean_single] at hmet
                  injection hmet with hmet
                  rw [← hmet] at hkeep
                  simp at hkeep

/-- C27: when the child evaluates to a collection, `all(pred)` appends, whenever
it returns normally, exactly one Boolean, which is true if and only if `pred`,
evaluated with each element on top of the context stack (as `$this`), gives a
single true for every element.  It appends true when every element gives a
single true, so for the empty collection, and false when some element gives
false or empty and every element before it gives a single true, whatever `pred`
does on the elements after it. -/
theorem AllFunction_every_element (child_ param : ExpressionNode) (work_space : WorkSpace)
    (results child_results : List Message)
    (hchild : child_ work_space [] = .ok child_results) :
    (∀ out : List Message, AllFunction.Evaluate child_ param work_space results = .ok out →
      ∃ result : Bool, out = results ++ [.Boolean result] ∧
        (result = true ↔ ∀ message ∈ child_results,
          param (work_space.PushMessageContext message) [] = .ok [.Boolean true])) ∧
    ((∀ message ∈ child_results,
        param (work_space.PushMessageContext message) [] = .ok [.Boolean true]) →
      AllFunction.Evaluate child_ param work_space results
        = .ok (results ++ [.Boolean true])) ∧
    (child_results = [] →
      AllFunction.Evaluate child_ param work_space results
        = .ok (results ++ [.Boolean true])) ∧
    (∀ (before after : List Message) (message : Message),
      child_results = before ++ message :: after →
      (∀ earlier ∈ before,
        param (work_space.PushMessageContext earlier) [] = .ok [.Boolean true]) →
      (param (work_space.PushMessageContext message) [] = .ok [.Boolean false] ∨
        param (work_space.PushMessageContext message) [] = .ok []) →
      AllFunction.Evaluate child_ param work_space results
        = .ok (results ++ [.Boolean false])) := by
  have htrue : (∀ message ∈ child_results,
        param (work_space.PushMessageContext message) [] = .ok [.Boolean true]) →
      AllFunction.Evaluate child_ param work_space results
        = .ok (results ++ [.Boolean true]) := by
    intro hall
    simp only [AllFunction.Evaluate, hchild, bind, Except.bind,
      AllFunction.loop_true param work_space child_results hall]
  refine ⟨?_, htrue, ?_, ?_⟩
  · intro out hout
    simp only [AllFunction.Evaluate, hchild, bind, Except.bind] at hout
    cases hloop : AllFunction.loop param work_space child_results with
    | error status => simp [hloop] at hout
    | ok result =>
        simp only [hloop] at hout
        injection hout with hout
        exact ⟨result, hout.symm, AllFunction.loop_sound param work_space _ _ hloop⟩
  · intro hempty
    apply htrue
    intro message hmem
    rw [hempty] at hmem
    cases hmem
  · intro before after message hsplit hbefore hmessage
    simp only [AllFunction.Evaluate, hchild, bind, Except.bind, hsplit,
      AllFunction.loop_false param work_space message after hmessage before hbefore]

theorem AllFunction_every_element_witness :
    AllFunction.Evaluate (ConstantNode [.Boolean true, .Boolean false, .Integer 3])
        ThisReference.Evaluate (WorkSpace.ofMessage (.Integer 0)) []
      = .ok ([] ++ [.Boolean false]) ∧
    AllFunction.Evaluate (ConstantNode [.Boolean true, .Boolean true])
        ThisReference.Evaluate (WorkSpace.ofMessage (.Integer 0)) []
      = .ok ([] ++ [.Boolean true]) :=
  ⟨(AllFunction_every_element (ConstantNode [.Boolean true, .Boolean false, .Integer 3])
      ThisReference.Evaluate (WorkSpace.ofMessage (.Integer 0)) []
      [.Boolean true, .Boolean false, .Integer 3] rfl).2.2.2
      [.Boolean true] [.Integer 3] (.Boolean false) rfl
      (by
        intro earlier hmem
        simp only [List.mem_cons, List.not_mem_nil, or_false] at hmem
        subst hmem
        rfl)
      (Or.inl rfl),
   (AllFunction_every_element (ConstantNode [.Boolean true, .Boolean true])
      ThisReference.Evaluate (WorkSpace.ofMessage (.Integer 0)) []
      [.Boolean true, .Boolean true] rfl).2.1
      (by
        intro message hmem
        simp only [List.mem_cons, List.not_mem_nil, or_false] at hmem
        rcases hmem with rfl | rfl <;> rfl)⟩

/-- C28: on a child that evaluates to a single element `x`, `iif` evaluates the
criterion with `x` on top of the context stack.  When it gives a single true the
outcome is that of the second parameter in the outer work space, whatever the
third parameter is; when it gives false or empty the outcome is that of the
third parameter in the outer work space when there is one, whatever the second
parameter is, and nothing is appended when there is none.  When the criterion
gives anything else, or the child has more than one element, `iif` fails. -/
theorem IifFunction_branches (child_ criterion true_result : ExpressionNode)
    (otherwise_result : Option ExpressionNode) (work_space : WorkSpace)
    (results : List Message) :
    (∀ x : Message, child_ work_space [] = .ok [x] →
      (criterion (work_space.PushMessageContext x) [] = .ok [.Boolean true] →
        IifFunction.Evaluate child_ criterion true_result otherwise_result work_space results
          = true_result work_space results) ∧
      (criterion (work_space.PushMessageContext x) [] = .ok [.Boolean false] ∨
          criterion (work_space.PushMessageContext x) [] = .ok [] →
        IifFunction.Evaluate child_ criterion true_result otherwise_result work_space results
          = match otherwise_result with
            | some otherwise => otherwise work_space results
            | none => .ok results) ∧
      (∀ param_results : List Message,
        criterion (work_space.PushMessageContext x) [] = .ok param_results →
        param_results ≠ [] → (∀ value : Bool, param_results ≠ [.Boolean value]) →
        ∃ status,
          IifFunction.Evaluate child_ criterion true_result otherwise_result work_space results
            = .error status)) ∧
    (∀ child_results : List Message, child_results.length > 1 →
      child_ work_space [] = .ok child_results →
      ∃ status,
        IifFunction.Evaluate child_ criterion true_result otherwise_result work_space results
          = .error status) := by
  constructor
  · intro x hchild
    refine ⟨?_, ?_, ?_⟩
    · intro hcriterion
      simp [IifFunction.Evaluate, hchild, bind, Except.bind,
        WorkSpace.ofStack_MessageContextStack, hcriterion, PrimitiveOrEmpty_AsBoolean_single]
    · intro hcriterion
      rcases hcriterion with h | h <;> cases otherwise_result
      · simp [IifFunction.Evaluate, hchild, bind, Except.bind,
          WorkSpace.ofStack_MessageContextStack, h, PrimitiveOrEmpty_AsBoolean_single]
      · simp [IifFunction.Evaluate, hchild, bind, Except.bind,
          WorkSpace.ofStack_MessageContextStack, h, PrimitiveOrEmpty_AsBoolean_single]
      · simp [IifFunction.Evaluate, hchild, bind, Except.bind,
          WorkSpace.ofStack_MessageContextStack, h, PrimitiveOrEmpty]
      · simp [IifFunction.Evaluate, hchild, bind, Except.bind,
          WorkSpace.ofStack_MessageContextStack, h, PrimitiveOrEmpty]
    · intro param_results hcriterion hne hbool
      have herror : ∃ status, PrimitiveOrEmpty AsBoolean param_results = .error status := by
        rcases param_results with _ | ⟨message, _ | ⟨second, rest⟩⟩
        · exact absurd rfl hne
        · cases message with
          | Boolean value => exact absurd rfl (hbool value)
          | _ =>
            simp only [PrimitiveOrEmpty, AsBoolean]
            split <;> exact ⟨_, rfl⟩
        · exact ⟨.InvalidArgument
            "Expression must be empty or represent a single primitive value.", by
            simp [PrimitiveOrEmpty]⟩
      obtain ⟨status, hstatus⟩ := herror
      exact ⟨status, by
        simp [IifFunction.Evaluate, hchild, bind, Except.bind,
          WorkSpace.ofStack_MessageContextStack, hcriterion, hstatus]⟩
  · intro child_results hlen hchild
    exact ⟨.InvalidArgument "iif() requires a collection with no more than 1 item.", by
      simp [IifFunction.Evaluate, hchild, bind, Except.bind, hlen]⟩

theorem IifFunction_branches_witness :
    IifFunction.Evaluate (Literal.Evaluate Message.Boolean true) ThisReference.Evaluate
        (Literal.Evaluate Message.String "yes") (some FailingNode)
        (WorkSpace.ofMessage (.Integer 0)) []
      = Literal.Evaluate Message.String "yes" (WorkSpace.ofMessage (.Integer 0)) [] ∧
    IifFunction.Evaluate (Literal.Evaluate Message.Boolean false) ThisReference.Evaluate
        FailingNode (some (Literal.Evaluate Message.String "no"))
        (WorkSpace.ofMessage (.Integer 0)) []
      = Literal.Evaluate Message.String "no" (WorkSpace.ofMessage (.Integer 0)) [] ∧
    (∃ status,
      IifFunction.Evaluate (Literal.Evaluate Message.Integer 7) ThisReference.Evaluate
          (Literal.Evaluate Message.String "yes") none (WorkSpace.ofMessage (.Integer 0)) []
        = .error status) :=
  ⟨((IifFunction_branches (Literal.Evaluate Message.Boolean true) ThisReference.Evaluate
      (Literal.Evaluate Message.String "yes") (some FailingNode)
      (WorkSpace.ofMessage (.Integer 0)) []).1 (.Boolean true) rfl).1 rfl,
   ((IifFunction_branches (Literal.Evaluate Message.Boolean false) ThisReference.Evaluate
      FailingNode (some (Literal.Evaluate Message.String "no"))
      (WorkSpace.ofMessage (.Integer 0)) []).1 (.Boolean false) rfl).2.1 (Or.inl rfl),
   ((IifFunction_branches (Literal.Evaluate Message.Integer 7) ThisReference.Evaluate
      (Literal.Evaluate Message.String "yes") none
      (WorkSpace.ofMessage (.Integer 0)) []).1 (.Integer 7) rfl).2.2 [.Integer 7] rfl
      (by simp) (by simp)⟩

/-! ## Context stack -/

theorem WorkSpace.BottomMessageContext_PushMessageContext (work_space : WorkSpace)
    (message : Message) :
    (work_space.PushMessageContext message).BottomMessageContext
      = work_space.BottomMessageContext :=
  rfl

theorem FindFieldByJsonName_eq_none (descriptor : Descriptor) (json_name : String) :
    FindFieldByJsonName descriptor json_name = none ↔
      ∀ field ∈ descriptor.fields, field.json_name ≠ json_name := by
  simp only [FindFieldByJsonName, List.find?_eq_none, beq_iff_eq]
  constructor
  · intro h field hmem heq
    exact h field hmem heq.symm
  · intro h field hmem heq
    exact h field hmem heq.symm

theorem FhirPathCompilerVisitor.visitInvocationTerm_member {ExpressionContext : Type}
    (createFunction : FhirPathCompilerVisitor → String → CompiledNode →
      List ExpressionContext → FhirPathCompilerVisitor × Option CompiledNode)
    (message_type : FieldDescriptor → Option Descriptor)
    (visitor : FhirPathCompilerVisitor) (X : String) (params : List ExpressionContext)
    (hok : visitor.CheckOk = true) :
    FhirPathCompilerVisitor.visitInvocationTerm createFunction message_type visitor
        (.definition { name := X, is_function := false, params := params })
      = match visitor.back with
        | some descriptor =>
            match FindFieldByJsonName descriptor X with
            | some field =>
                (visitor, .of (some (InvokeTermNode.node message_type (some field) X)))
            | none => (visitor.SetError ("Unable to find field " ++ X), .null)
        | none => (visitor, .of (some (InvokeTermNode.node message_type none X))) := by
  cases hback : visitor.back with
  | none => simp [FhirPathCompilerVisitor.visitInvocationTerm, hok, hback]
  | some descriptor =>
      cases hfield : FindFieldByJsonName descriptor X <;>
        simp [FhirPathCompilerVisitor.visitInvocationTerm, hok, hback, hfield]

theorem FhirPathCompilerVisitor.visitInvocationExpression_member {ExpressionContext : Type}
    (createFunction : FhirPathCompilerVisitor → String → CompiledNode →
      List ExpressionContext → FhirPathCompilerVisitor × Option CompiledNode)
    (message_type : FieldDescriptor → Option Descriptor)
    (visitor : FhirPathCompilerVisitor) (expression : CompiledNode) (X : String)
    (params : List ExpressionContext) (hok : visitor.CheckOk = true) :
    FhirPathCompilerVisitor.visitInvocationExpression createFunction message_type visitor
        expression { name := X, is_function := false, params := params }
      = match expression.ReturnType with
        | some descriptor =>
            match FindFieldByJsonName descriptor X with
            | some field =>
                (visitor,
                  .of (some (InvokeExpressionNode.node message_type expression (some field) X)))
            | none => (visitor.SetError ("Unable to find field " ++ X), .null)
        | none =>
            (visitor,
              .of (some (InvokeExpressionNode.node message_type expression none X))) := by
  cases htype : expression.ReturnType with
  | none => simp [FhirPathCompilerVisitor.visitInvocationExpression, hok, htype]
  | some descriptor =>
      cases hfield : FindFieldByJsonName descriptor X <;>
        simp [FhirPathCompilerVisitor.visitInvocationExpression, hok, htype, hfield]

theorem FindFieldByJsonName_some (descriptor : Descriptor) (json_name : String)
    (field : FieldDescriptor) (h : FindFieldByJsonName descriptor json_name = some field) :
    field ∈ descriptor.fields ∧ field.json_name = json_name := by
  unfold FindFieldByJsonName at h
  refine ⟨List.mem_of_find?_eq_some h, ?_⟩
  have := List.find?_some h
  exact (by simpa using this : json_name = field.json_name).symm

/-- C30: compiling the member access `X`, as a term or on a receiver that
compiled, with a visitor that holds no error.  When the context type is known
(the last descriptor of the stack, or the return type of the receiver), the
visit sets the error `Unable to find field X` and gives no node if and only if
no field of the type has the JSON name `X`, and `Compile` then fails with that
message; otherwise the node holds the first field of that name.  When the
context type is unknown the visit gives a node whose field is left unresolved,
and `Compile` succeeds with it. -/
theorem FhirPathCompilerVisitor_member_access {ExpressionContext : Type}
    (createFunction : FhirPathCompilerVisitor → String → CompiledNode →
      List ExpressionContext → FhirPathCompilerVisitor × Option CompiledNode)
    (message_type : FieldDescriptor → Option Descriptor)
    (X : String) (params : List ExpressionContext) :
    (∀ (visitor : FhirPathCompilerVisitor) (descriptor : Descriptor),
      visitor.CheckOk = true → visitor.back = some descriptor →
      (FhirPathCompilerVisitor.visitInvocationTerm createFunction message_type visitor
            (.definition { name := X, is_function := false, params := params })
          = (visitor.SetError ("Unable to find field " ++ X), .null) ↔
        ∀ field ∈ descriptor.fields, field.json_name ≠ X) ∧
      (∀ field, FindFieldByJsonName descriptor X = some field →
        field ∈ descriptor.fields ∧ field.json_name = X ∧
        FhirPathCompilerVisitor.visitInvocationTerm createFunction message_type visitor
            (.definition { name := X, is_function := false, params := params })
          = (visitor, .of (some (InvokeTermNode.node message_type (some field) X))))) ∧
    (∀ visitor : FhirPathCompilerVisitor, visitor.CheckOk = true → visitor.back = none →
      FhirPathCompilerVisitor.visitInvocationTerm createFunction message_type visitor
          (.definition { name := X, is_function := false, params := params })
        = (visitor, .of (some (InvokeTermNode.node message_type none X)))) ∧
    (∀ (visitor : FhirPathCompilerVisitor) (receiver : CompiledNode) (descriptor : Descriptor),
      visitor.CheckOk = true → receiver.ReturnType = some descriptor →
      (FhirPathCompilerVisitor.visitInvocationExpression createFunction message_type visitor
            receiver { name := X, is_function := false, params := params }
          = (visitor.SetError ("Unable to find field " ++ X), .null) ↔
        ∀ field ∈ descriptor.fields, field.json_name ≠ X) ∧
      (∀ field, FindFieldByJsonName descriptor X = some field →
        field ∈ descriptor.fields ∧ field.json_name = X ∧
        FhirPathCompilerVisitor.visitInvocationExpression createFunction message_type visitor
            receiver { name := X, is_function := false, params := params }
          = (visitor,
              .of (some (InvokeExpressionNode.node message_type receiver (some field) X))))) ∧
    (∀ (visitor : FhirPathCompilerVisitor) (receiver : CompiledNode),
      visitor.CheckOk = true → receiver.ReturnType = none →
      FhirPathCompilerVisitor.visitInvocationExpression createFunction message_type visitor
          receiver { name := X, is_function := false, params := params }
        = (visitor, .of (some (InvokeExpressionNode.node message_type receiver none X)))) ∧
    (∀ descriptor : Descriptor,
      CompiledExpression.Compile
          (fun visitor =>
            FhirPathCompilerVisitor.visitInvocationTerm createFunction message_type visitor
              (.definition { name := X, is_function := false, params := params }))
          (some descriptor)
        = .error (.InvalidArgument ("Unable to find field " ++ X)) ↔
      ∀ field ∈ descriptor.fields, field.json_name ≠ X) ∧
    CompiledExpression.Compile
        (fun visitor =>
          FhirPathCompilerVisitor.visitInvocationTerm createFunction message_type visitor
            (.definition { name := X, is_function := false, params := params }))
        none
      = .ok (InvokeTermNode.node message_type none X) := by
  refine ⟨?_, ?_, ?_, ?_, ?_, ?_⟩
  · intro visitor descriptor hok hback
    rw [FhirPathCompilerVisitor.visitInvocationTerm_member createFunction message_type visitor
      X params hok, hback, ← FindFieldByJsonName_eq_none]
    constructor
    · cases hfield : FindFieldByJsonName descriptor X with
      | none => simp [hfield]
      | some field => simp [hfield]
    · intro field hfield
      obtain ⟨hmem, hname⟩ := FindFieldByJsonName_some descriptor X field hfield
      exact ⟨hmem, hname, by simp [hfield]⟩
  · intro visitor hok hback
    rw [FhirPathCompilerVisitor.visitInvocationTerm_member createFunction message_type visitor
      X params hok, hback]
  · intro visitor receiver descriptor hok htype
    rw [FhirPathCompilerVisitor.visitInvocationExpression_member createFunction message_type
      visitor receiver X params hok, htype, ← FindFieldByJsonName_eq_none]
    constructor
    · cases hfield : FindFieldByJsonName descriptor X with
      | none => simp [hfield]
      | some field => simp [hfield]
    · intro field hfield
      obtain ⟨hmem, hname⟩ := FindFieldByJsonName_some descriptor X field hfield
      exact ⟨hmem, hname, by simp [hfield]⟩
  · intro visitor receiver hok htype
    rw [FhirPathCompilerVisitor.visitInvocationExpression_member createFunction message_type
      visitor receiver X params hok, htype]
  · intro descriptor
    have hvisit := FhirPathCompilerVisitor.visitInvocationTerm_member createFunction
      message_type (FhirPathCompilerVisitor.ofDescriptor (some descriptor)) X params rfl
    have hback : (FhirPathCompilerVisitor.ofDescriptor (some descriptor)).back
        = some descriptor := rfl
    rw [← FindFieldByJsonName_eq_none]
    cases hfield : FindFieldByJsonName descriptor X with
    | none =>
        simp only [hback, hfield] at hvisit
        simp [CompiledExpression.Compile, hvisit, FhirPathCompilerVisitor.SetError,
          FhirPathCompilerVisitor.GetError]
    | some field =>
        simp only [hback, hfield] at hvisit
        simp only [CompiledExpression.Compile, hvisit]
        simp [FhirPathCompilerVisitor.ofDescriptor, FhirPathCompilerVisitor.GetError]
  · have hvisit := FhirPathCompilerVisitor.visitInvocationTerm_member createFunction
      message_type (FhirPathCompilerVisitor.ofDescriptor none) X params rfl
    have hback : (FhirPathCompilerVisitor.ofDescriptor none).back = none := rfl
    simp only [hback] at hvisit
    simp only [CompiledExpression.Compile, hvisit]
    simp [FhirPathCompilerVisitor.ofDescriptor, FhirPathCompilerVisitor.GetError]

theorem FhirPathCompilerVisitor_member_access_witness :
    CompiledExpression.Compile
        (fun visitor =>
          FhirPathCompilerVisitor.visitInvocationTerm
            (fun visitor _ _ (_ : List Unit) => (visitor, none)) (fun _ => none) visitor
            (.definition { name := "birth_date", is_function := false, params := [] }))
        (some Patient.descriptor)
      = .error (.InvalidArgument ("Unable to find field " ++ "birth_date")) ∧
    FhirPathCompilerVisitor.visitInvocationExpression
        (fun visitor _ _ (_ : List Unit) => (visitor, none)) (fun _ => none)
        (FhirPathCompilerVisitor.ofDescriptor (some Patient.descriptor))
        { Evaluate := ThisReference.Evaluate, ReturnType := none }
        { name := "birth_date", is_function := false, params := [] }
      = (FhirPathCompilerVisitor.ofDescriptor (some Patient.descriptor),
          .of (some (InvokeExpressionNode.node (fun _ => none)
            { Evaluate := ThisReference.Evaluate, ReturnType := none } none "birth_date"))) :=
  ⟨((FhirPathCompilerVisitor_member_access
      (fun visitor _ _ (_ : List Unit) => (visitor, none)) (fun _ => none) "birth_date"
      []).2.2.2.2.1 Patient.descriptor).2 (by decide),
   (FhirPathCompilerVisitor_member_access
      (fun visitor _ _ (_ : List Unit) => (visitor, none)) (fun _ => none) "birth_date"
      []).2.2.2.1 (FhirPathCompilerVisitor.ofDescriptor (some Patient.descriptor))
      { Evaluate := ThisReference.Evaluate, ReturnType := none } rfl rfl⟩

/-! ## Negative indexes and instants before the epoch -/

theorem SizeOfInt_of_neg (i : Int) (hneg : i < 0) (hlow : -(2 ^ 31) ≤ i) :
    2 ^ 63 ≤ SizeOfInt i := by
  unfold SizeOfInt
  have h : i % 2 ^ 64 = i + 2 ^ 64 := by
    rw [← Int.add_emod_self]
    exact Int.emod_eq_of_lt (by omega) (by omega)
  rw [h]
  omega

/-- C40: for an index that is a single negative Integer `i` (not below the
least 32-bit value, as no Integer is) and a collection of fewer than `2 ^ 63`
elements (as every vector in memory is), the indexer returns normally and
appends nothing: as a `size_t` the index is at least `2 ^ 63`, so the size of
the collection is not above it. -/
theorem IndexerExpression_negative_index (left_results results : List Message) (i : Int)
    (hneg : i < 0) (hlow : -(2 ^ 31) ≤ i) (hsize : left_results.length < 2 ^ 63) :
    IndexerExpression.EvaluateOperator left_results [.Integer i] results = .ok results := by
  have hindex := SizeOfInt_of_neg i hneg hlow
  have hle : left_results.length ≤ SizeOfInt i := by omega
  simp [IndexerExpression.EvaluateOperator, PrimitiveOrEmpty_AsInteger_single, bind,
    Except.bind, hle]

theorem IndexerExpression_negative_index_witness :
    IndexerExpression.EvaluateOperator [.String "a", .String "b"] [.Integer (-1)] []
      = .ok [] :=
  IndexerExpression_negative_index [.String "a", .String "b"] [] (-1) (by decide) (by decide)
    (by decide)

/-- C38, at the two microsecond-precision instants `-1` and `-1000000` in UTC,
which lie in one civil second: `-1` is the later one, and `<` gives true for
it on the left, `>` gives false, because the remainder of `-1000000` is `0` and
that of `-1` is `-1`. -/
theorem ComparisonOperator_subsecond_before_epoch :
    ComparisonOperator.EvaluateOperator
        (ComparisonOperator.Compare ExampleComparisonLibrary .kLessThan)
        [.DateTime { value_us := -1, timezone := "Z", precision := .MICROSECOND }]
        [.DateTime { value_us := -1000000, timezone := "Z", precision := .MICROSECOND }] []
      = .ok [.Boolean true] ∧
    ComparisonOperator.EvaluateOperator
        (ComparisonOperator.Compare ExampleComparisonLibrary .kGreaterThan)
        [.DateTime { value_us := -1, timezone := "Z", precision := .MICROSECOND }]
        [.DateTime { value_us := -1000000, timezone := "Z", precision := .MICROSECOND }] []
      = .ok [.Boolean false] ∧
    ¬ ((-1 : Int) < -1000000) ∧
    ToCivilSecond (-1) UTCTimeZone = ToCivilSecond (-1000000) UTCTimeZone := by
  refine ⟨rfl, rfl, by decide, by decide⟩

/-! ## Compile errors -/

theorem FhirPathCompilerVisitor.visitAndExpression_error (left_context right_context : Visit)
    (visitor : FhirPathCompilerVisitor) :
    (FhirPathCompilerVisitor.visitAndExpression left_context right_context visitor).1
      = (right_context (left_context visitor).1).1 := by
  simp only [FhirPathCompilerVisitor.visitAndExpression]
  split
  · rfl
  · split <;> rfl

/-- C31, on `2147483648 and 2147483649`, two numbers that are not 32-bit
integers: the left operand alone fails with `Malformed integer 2147483648`, and
the expression fails with the message of the right operand, the failure met
last.  On `x and y` against a type without such fields, where the visit of a
member checks for an error before it sets one, the message is the one of the
left operand. -/
theorem CompiledExpression_reports_last_terminal_error :
    CompiledExpression.Compile (ExampleTree.terminal .NUMBER "2147483648").accept
        (some Patient.descriptor)
      = .error (.InvalidArgument "Malformed integer 2147483648") ∧
    CompiledExpression.Compile
        (ExampleTree.andExpression (.terminal .NUMBER "2147483648")
          (.terminal .NUMBER "2147483649")).accept
        (some Patient.descriptor)
      = .error (.InvalidArgument "Malformed integer 2147483649") ∧
    CompiledExpression.Compile
        (ExampleTree.andExpression (.memberInvocation "x") (.memberInvocation "y")).accept
        (some Patient.descriptor)
      = .error (.InvalidArgument "Unable to find field x") := by
  refine ⟨rfl, rfl, rfl⟩

/-! ## Arity of function calls -/

theorem FunctionNode.CompileParams_length (params : List ExpressionContext) :
    ∀ (visitor after : FhirPathCompilerVisitor) (compiled_params : List (Option CompiledNode)),
      FunctionNode.CompileParams params visitor = (after, .ok compiled_params) →
      compiled_params.length = params.length := by
  induction params with
  | nil =>
      intro visitor after compiled_params h
      simp [FunctionNode.CompileParams] at h
      simp [← h.2]
  | cons param rest ih =>
      intro visitor after compiled_params h
      simp only [FunctionNode.CompileParams] at h
      rcases hparam : param.accept visitor with ⟨visitor1, _ | param_any⟩
      · simp [hparam] at h
      · simp only [hparam] at h
        rcases hrest : FunctionNode.CompileParams rest visitor1 with ⟨visitor2, status | compiled⟩
        · simp [hrest] at h
        · simp only [hrest] at h
          have hlen := ih visitor1 visitor2 compiled hrest
          simp only [Prod.mk.injEq, Except.ok.injEq] at h
          rw [← h.2]
          simp [hlen]

theorem FunctionNode.CompileParams_compilable (params : List ExpressionContext)
    (hparams : ∀ param ∈ params, ∀ visitor, (param.accept visitor).2 ≠ .null) :
    ∀ visitor : FhirPathCompilerVisitor,
      ∃ after compiled_params,
        FunctionNode.CompileParams params visitor = (after, .ok compiled_params) := by
  induction params with
  | nil => intro visitor; exact ⟨visitor, [], rfl⟩
  | cons param rest ih =>
      intro visitor
      rcases hparam : param.accept visitor with ⟨visitor1, _ | param_any⟩
      · have := hparams param (List.mem_cons_self _ _) visitor
        rw [hparam] at this
        exact absurd rfl this
      · obtain ⟨after, compiled, hrest⟩ :=
          ih (fun p hp => hparams p (List.mem_cons_of_mem _ hp)) visitor1
        exact ⟨after, param_any :: compiled, by simp [FunctionNode.CompileParams, hparam, hrest]⟩

theorem FunctionNode.Create_arity_error (T : FunctionClass) (child_expression : CompiledNode)
    (params : List ExpressionContext) (base child : FhirPathCompilerVisitor)
    (hcompile : ∀ after_base after_child compiled_params,
      T.CompileParams params base child = (after_base, after_child, .ok compiled_params) →
      ∃ status, T.ValidateParams compiled_params = .error status) :
    ∃ after_base after_child status,
      FunctionNode.Create T child_expression params base child
        = (after_base, after_child, .error status) := by
  rcases hparams : T.CompileParams params base child with
    ⟨after_base, after_child, status | compiled_params⟩
  · exact ⟨after_base, after_child, status, by simp [FunctionNode.Create, hparams]⟩
  · obtain ⟨status, hstatus⟩ := hcompile _ _ _ hparams
    exact ⟨after_base, after_child, status, by simp [FunctionNode.Create, hparams, hstatus]⟩

theorem FhirPathCompilerVisitor.createFunction_error (nodes : FunctionNodes)
    (visitor : FhirPathCompilerVisitor) (function_name : String)
    (child_expression : CompiledNode) (params : List ExpressionContext)
    (function_factory : FunctionFactory)
    (hfind : (FhirPathCompilerVisitor.function_map nodes).lookup function_name
      = some function_factory)
    (herror : ∀ base child, ∃ after_base after_child status,
      function_factory child_expression params base child
        = (after_base, after_child, .error status)) :
    (FhirPathCompilerVisitor.createFunction nodes visitor function_name child_expression
        params).2 = none ∧
    (FhirPathCompilerVisitor.createFunction nodes visitor function_name child_expression
        params).1.CheckOk = false := by
  obtain ⟨after_base, after_child, status, hfactory⟩ :=
    herror visitor
      (FhirPathCompilerVisitor.ofHistory visitor.descriptor_stack_ child_expression.ReturnType)
  simp only [FhirPathCompilerVisitor.createFunction, hfind, hfactory]
  refine ⟨trivial, ?_⟩
  simp only [FhirPathCompilerVisitor.CheckOk, FhirPathCompilerVisitor.SetError,
    decide_eq_false_iff_not]
  intro h
  have hlen := congrArg String.length h
  simp only [String.length_append] at hlen
  have h26 : "Failed to compile call to ".length = 26 := by decide
  rw [h26] at hlen
  simp at hlen

theorem ZeroParameterFunctionNode.Create_zero_error
    (construct : CompiledNode → List (Option CompiledNode) → CompiledNode)
    (child_expression : CompiledNode)
    (params : List ExpressionContext) (hparams : params ≠ [])
    (base child : FhirPathCompilerVisitor) :
    ∃ after_base after_child status,
      FunctionNode.Create (ZeroParameterFunctionNode.Class construct) child_expression params
          base child
        = (after_base, after_child, .error status) := by
  apply FunctionNode.Create_arity_error
  intro after_base after_child compiled_params hcompile
  simp only [ZeroParameterFunctionNode.Class, FunctionNode.CompileParamsInBaseContext] at hcompile
  rcases hc : FunctionNode.CompileParams params base with ⟨after, result⟩
  rw [hc] at hcompile
  simp only [Prod.mk.injEq] at hcompile
  obtain ⟨_, _, hresult⟩ := hcompile
  subst hresult
  have hlen := FunctionNode.CompileParams_length params base after compiled_params hc
  have hne : compiled_params ≠ [] := by
    intro h
    rw [h] at hlen
    exact hparams (List.length_eq_zero.1 hlen.symm)
  cases compiled_params with
  | nil => exact absurd rfl hne
  | cons first rest =>
      exact ⟨.InvalidArgument "Function does not accept any arguments.", rfl⟩

theorem SingleParameterFunctionNode.Create_single_error (T : FunctionClass)
    (hvalidate : T.ValidateParams = SingleParameterFunctionNode.ValidateParams)
    (hcompile : T.CompileParams = FunctionNode.CompileParamsInBaseContext ∨
      T.CompileParams = FunctionNode.CompileParamsInChildContext)
    (child_expression : CompiledNode)
    (params : List ExpressionContext) (hparams : params.length ≠ 1)
    (base child : FhirPathCompilerVisitor) :
    ∃ after_base after_child status,
      FunctionNode.Create T child_expression params base child
        = (after_base, after_child, .error status) := by
  apply FunctionNode.Create_arity_error
  intro after_base after_child compiled_params hc
  have hlen : compiled_params.length = params.length := by
    rcases hcompile with h | h
    · rw [h] at hc
      simp only [FunctionNode.CompileParamsInBaseContext] at hc
      rcases hp : FunctionNode.CompileParams params base with ⟨after, result⟩
      rw [hp] at hc
      simp only [Prod.mk.injEq] at hc
      obtain ⟨_, _, hresult⟩ := hc
      subst hresult
      exact FunctionNode.CompileParams_length params base after compiled_params hp
    · rw [h] at hc
      simp only [FunctionNode.CompileParamsInChildContext] at hc
      rcases hp : FunctionNode.CompileParams params child with ⟨after, result⟩
      rw [hp] at hc
      simp only [Prod.mk.injEq] at hc
      obtain ⟨_, _, hresult⟩ := hc
      subst hresult
      exact FunctionNode.CompileParams_length params child after compiled_params hp
  refine ⟨.InvalidArgument "Function requires exactly one argument.", ?_⟩
  rw [hvalidate]
  simp [SingleParameterFunctionNode.ValidateParams, hlen, hparams]

theorem IifFunction.Create_iif_error
    (construct : CompiledNode → List (Option CompiledNode) → CompiledNode)
    (child_expression : CompiledNode)
    (params : List ExpressionContext) (hparams : params.length < 2 ∨ 3 < params.length)
    (base child : FhirPathCompilerVisitor) :
    ∃ after_base after_child status,
      FunctionNode.Create (IifFunction.Class construct) child_expression params base child
        = (after_base, after_child, .error status) := by
  refine ⟨base, child, .InvalidArgument "iif() requires 2 or 3 arugments.", ?_⟩
  have h : (decide (params.length < 2) || decide (params.length > 3)) = true := by
    simpa using hparams
  simp [FunctionNode.Create, IifFunction.Class, IifFunction.CompileParams, h]

theorem TypeFunction.Create_type_error (function_name : String)
    (construct : CompiledNode → String → CompiledNode) (child_expression : CompiledNode)
    (params : List ExpressionContext) (hparams : params.length ≠ 1)
    (base child : FhirPathCompilerVisitor) :
    ∃ after_base after_child status,
      TypeFunction.Create function_name construct child_expression params base child
        = (after_base, after_child, .error status) := by
  refine ⟨base, child, .InvalidArgument (function_name ++ "() requires a single argument."), ?_⟩
  rcases params with _ | ⟨first, _ | ⟨second, rest⟩⟩
  · rfl
  · simp at hparams
  · rfl

theorem FhirPathCompilerVisitor.createFunction_node (nodes : FunctionNodes)
    (visitor : FhirPathCompilerVisitor) (function_name : String)
    (child_expression : CompiledNode) (params : List ExpressionContext)
    (function_factory : FunctionFactory)
    (hfind : (FhirPathCompilerVisitor.function_map nodes).lookup function_name
      = some function_factory)
    (hnode : ∀ base child, ∃ after_base after_child node,
      function_factory child_expression params base child
        = (after_base, after_child, .ok node)) :
    ∃ node,
      (FhirPathCompilerVisitor.createFunction nodes visitor function_name child_expression
        params).2 = some node := by
  obtain ⟨after_base, after_child, node, hfactory⟩ :=
    hnode visitor
      (FhirPathCompilerVisitor.ofHistory visitor.descriptor_stack_ child_expression.ReturnType)
  exact ⟨node, by simp only [FhirPathCompilerVisitor.createFunction, hfind, hfactory]⟩

theorem SingleParameterFunctionNode.Create_single_node (T : FunctionClass)
    (hvalidate : T.ValidateParams = SingleParameterFunctionNode.ValidateParams)
    (hcompile : T.CompileParams = FunctionNode.CompileParamsInBaseContext ∨
      T.CompileParams = FunctionNode.CompileParamsInChildContext)
    (child_expression : CompiledNode) (param : ExpressionContext)
    (hparam : ∀ visitor, (param.accept visitor).2 ≠ .null)
    (base child : FhirPathCompilerVisitor) :
    ∃ after_base after_child node,
      FunctionNode.Create T child_expression [param] base child
        = (after_base, after_child, .ok node) := by
  have hone : ∀ visitor, ∃ after param_any,
      FunctionNode.CompileParams [param] visitor = (after, .ok [param_any]) := by
    intro visitor
    rcases hp : param.accept visitor with ⟨after, _ | param_any⟩
    · have := hparam visitor
      rw [hp] at this
      exact absurd rfl this
    · exact ⟨after, param_any, by simp [FunctionNode.CompileParams, hp]⟩
  rcases hcompile with h | h
  · obtain ⟨after, param_any, hc⟩ := hone base
    exact ⟨after, child, T.construct child_expression [param_any], by
      simp [FunctionNode.Create, h, hvalidate, FunctionNode.CompileParamsInBaseContext, hc,
        SingleParameterFunctionNode.ValidateParams]⟩
  · obtain ⟨after, param_any, hc⟩ := hone child
    exact ⟨base, after, T.construct child_expression [param_any], by
      simp [FunctionNode.Create, h, hvalidate, FunctionNode.CompileParamsInChildContext, hc,
        SingleParameterFunctionNode.ValidateParams]⟩

theorem TypeFunction.Create_type_node (function_name : String)
    (construct : CompiledNode → String → CompiledNode) (child_expression : CompiledNode)
    (param : ExpressionContext) (base child : FhirPathCompilerVisitor) :
    ∃ after_base after_child node,
      TypeFunction.Create function_name construct child_expression [param] base child
        = (after_base, after_child, .ok node) :=
  ⟨base, child, construct child_expression param.getText, rfl⟩

theorem IifFunction.Create_iif_node
    (construct : CompiledNode → List (Option CompiledNode) → CompiledNode)
    (child_expression : CompiledNode)
    (params : List ExpressionContext) (hlength : params.length = 2 ∨ params.length = 3)
    (hparams : ∀ param ∈ params, ∀ visitor, (param.accept visitor).2 ≠ .null)
    (base child : FhirPathCompilerVisitor) :
    ∃ after_base after_child node,
      FunctionNode.Create (IifFunction.Class construct) child_expression params base child
        = (after_base, after_child, .ok node) := by
  have haccept : ∀ param ∈ params, ∀ visitor, ∃ after node,
      param.accept visitor = (after, .of node) := by
    intro param hmem visitor
    rcases hp : param.accept visitor with ⟨after, _ | node⟩
    · have := hparams param hmem visitor
      rw [hp] at this
      exact absurd rfl this
    · exact ⟨after, node, rfl⟩
  rcases params with _ | ⟨criterion, _ | ⟨true_context, _ | ⟨otherwise, _ | ⟨extra, rest⟩⟩⟩⟩
  · simp at hlength
  · simp at hlength
  · obtain ⟨child1, criterion_node, h1⟩ := haccept criterion (by simp) child
    obtain ⟨base1, true_node, h2⟩ := haccept true_context (by simp) base
    exact ⟨base1, child1, construct child_expression [criterion_node, true_node], by
      simp [FunctionNode.Create, IifFunction.Class, IifFunction.CompileParams, h1, h2,
        FunctionNode.ValidateParams]⟩
  · obtain ⟨child1, criterion_node, h1⟩ := haccept criterion (by simp) child
    obtain ⟨base1, true_node, h2⟩ := haccept true_context (by simp) base
    obtain ⟨base2, otherwise_node, h3⟩ := haccept otherwise (by simp) base1
    exact ⟨base2, child1, construct child_expression [criterion_node, true_node, otherwise_node],
      by
      simp [FunctionNode.Create, IifFunction.Class, IifFunction.CompileParams, h1, h2, h3,
        FunctionNode.ValidateParams]⟩
  · simp at hlength

/-- The arity that `createFunction` checks: the function table holds the thirteen
functions without parameter, the eleven with one parameter and `iif`.  A call of
a function without parameter with at least one argument, of a function with one
parameter with another number of arguments than one, and of `iif` with fewer
than 2 or more than 3 arguments gives no node and sets an error, so that
`Compile` of such a call at the root fails.  A call with no argument, with one
argument whose visit does not return the null value, or of `iif` with 2 or 3
such arguments, gives a node. -/
theorem FhirPathCompilerVisitor.createFunction_checks_arity (nodes : FunctionNodes)
    (visitor : FhirPathCompilerVisitor) (child_expression : CompiledNode) :
    (∀ function_name ∈ (FhirPathCompilerVisitor.function_map nodes).map Prod.fst,
      function_name ∈ ZeroParameterFunctions ∨ function_name ∈ SingleParameterFunctions ∨
        function_name = "iif") ∧
    (∀ function_name ∈ ZeroParameterFunctions, ∀ params : List ExpressionContext,
      params ≠ [] →
      (FhirPathCompilerVisitor.createFunction nodes visitor function_name child_expression
          params).2 = none ∧
      (FhirPathCompilerVisitor.createFunction nodes visitor function_name child_expression
          params).1.CheckOk = false) ∧
    (∀ function_name ∈ SingleParameterFunctions, ∀ params : List ExpressionContext,
      params.length ≠ 1 →
      (FhirPathCompilerVisitor.createFunction nodes visitor function_name child_expression
          params).2 = none ∧
      (FhirPathCompilerVisitor.createFunction nodes visitor function_name child_expression
          params).1.CheckOk = false) ∧
    (∀ params : List ExpressionContext, params.length < 2 ∨ 3 < params.length →
      (FhirPathCompilerVisitor.createFunction nodes visitor "iif" child_expression
          params).2 = none ∧
      (FhirPathCompilerVisitor.createFunction nodes visitor "iif" child_expression
          params).1.CheckOk = false) ∧
    (∀ (function_name : String) (params : List ExpressionContext)
        (message_type : FieldDescriptor → Option Descriptor) (descriptor : Option Descriptor),
      (FhirPathCompilerVisitor.createFunction nodes
          (FhirPathCompilerVisitor.ofDescriptor descriptor) function_name
          (ThisReference.node descriptor) params).2 = none →
      ∃ status,
        CompiledExpression.Compile
            (fun visitor =>
              FhirPathCompilerVisitor.visitInvocationTerm
                (FhirPathCompilerVisitor.createFunction nodes) message_type visitor
                (.definition { name := function_name, is_function := true, params := params }))
            descriptor
          = .error status) ∧
    (∀ function_name ∈ ZeroParameterFunctions,
      ∃ node,
        (FhirPathCompilerVisitor.createFunction nodes visitor function_name child_expression
          []).2 = some node) ∧
    (∀ function_name ∈ SingleParameterFunctions, ∀ param : ExpressionContext,
      (∀ before, (param.accept before).2 ≠ .null) →
      ∃ node,
        (FhirPathCompilerVisitor.createFunction nodes visitor function_name child_expression
          [param]).2 = some node) ∧
    (∀ params : List ExpressionContext, params.length = 2 ∨ params.length = 3 →
      (∀ param ∈ params, ∀ before, (param.accept before).2 ≠ .null) →
      ∃ node,
        (FhirPathCompilerVisitor.createFunction nodes visitor "iif" child_expression
          params).2 = some node) := by
  refine ⟨?_, ?_, ?_, ?_, ?_, ?_, ?_, ?_⟩
  · intro function_name hmem
    simp only [FhirPathCompilerVisitor.function_map, List.map_cons, List.map_nil] at hmem
    revert function_name
    decide
  · intro function_name hmem params hparams
    simp only [ZeroParameterFunctions, List.mem_cons, List.not_mem_nil, or_false] at hmem
    rcases hmem with rfl | rfl | rfl | rfl | rfl | rfl | rfl | rfl | rfl | rfl | rfl | rfl | rfl <;>
      exact FhirPathCompilerVisitor.createFunction_error nodes visitor _ child_expression params
        _ rfl (ZeroParameterFunctionNode.Create_zero_error _ child_expression params hparams)
  · intro function_name hmem params hparams
    simp only [SingleParameterFunctions, List.mem_cons, List.not_mem_nil, or_false] at hmem
    rcases hmem with rfl | rfl | rfl | rfl | rfl | rfl | rfl | rfl | rfl | rfl | rfl
    · exact FhirPathCompilerVisitor.createFunction_error nodes visitor _ child_expression params
        _ rfl (SingleParameterFunctionNode.Create_single_error _ rfl (Or.inl rfl) child_expression
          params hparams)
    · exact FhirPathCompilerVisitor.createFunction_error nodes visitor _ child_expression params
        _ rfl (SingleParameterFunctionNode.Create_single_error _ rfl (Or.inl rfl) child_expression
          params hparams)
    · exact FhirPathCompilerVisitor.createFunction_error nodes visitor _ child_expression params
        _ rfl (SingleParameterFunctionNode.Create_single_error _ rfl (Or.inl rfl) child_expression
          params hparams)
    · exact FhirPathCompilerVisitor.createFunction_error nodes visitor _ child_expression params
        _ rfl (SingleParameterFunctionNode.Create_single_error _ rfl (Or.inl rfl) child_expression
          params hparams)
    · exact FhirPathCompilerVisitor.createFunction_error nodes visitor _ child_expression params
        _ rfl (SingleParameterFunctionNode.Create_single_error _ rfl (Or.inl rfl) child_expression
          params hparams)
    · exact FhirPathCompilerVisitor.createFunction_error nodes visitor _ child_expression params
        _ rfl (SingleParameterFunctionNode.Create_single_error _ rfl (Or.inl rfl) child_expression
          params hparams)
    · exact FhirPathCompilerVisitor.createFunction_error nodes visitor _ child_expression params
        _ rfl (SingleParameterFunctionNode.Create_single_error _ rfl (Or.inr rfl) child_expression
          params hparams)
    · exact FhirPathCompilerVisitor.createFunction_error nodes visitor _ child_expression params
        _ rfl (SingleParameterFunctionNode.Create_single_error _ rfl (Or.inr rfl) child_expression
          params hparams)
    · exact FhirPathCompilerVisitor.createFunction_error nodes visitor _ child_expression params
        _ rfl (SingleParameterFunctionNode.Create_single_error _ rfl (Or.inr rfl) child_expression
          params hparams)
    · exact FhirPathCompilerVisitor.createFunction_error nodes visitor _ child_expression params
        _ rfl (TypeFunction.Create_type_error _ _ child_expression params hparams)
    · exact FhirPathCompilerVisitor.createFunction_error nodes visitor _ child_expression params
        _ rfl (TypeFunction.Create_type_error _ _ child_expression params hparams)
  · intro params hparams
    exact FhirPathCompilerVisitor.createFunction_error nodes visitor _ child_expression params
      _ rfl (IifFunction.Create_iif_error _ child_expression params hparams)
  · intro function_name params message_type descriptor hnone
    refine ⟨.InvalidArgument (FhirPathCompilerVisitor.createFunction nodes
      (FhirPathCompilerVisitor.ofDescriptor descriptor) function_name
      (ThisReference.node descriptor) params).1.GetError, ?_⟩
    have hback : (FhirPathCompilerVisitor.ofDescriptor descriptor).back = descriptor := by
      cases descriptor <;> rfl
    have hok : (FhirPathCompilerVisitor.ofDescriptor descriptor).CheckOk = true := rfl
    simp only [CompiledExpression.Compile, FhirPathCompilerVisitor.visitInvocationTerm, hok,
      hback, hnone]
    simp
  · intro function_name hmem
    simp only [ZeroParameterFunctions, List.mem_cons, List.not_mem_nil, or_false] at hmem
    rcases hmem with rfl | rfl | rfl | rfl | rfl | rfl | rfl | rfl | rfl | rfl | rfl | rfl | rfl <;>
      exact ⟨_, rfl⟩
  · intro function_name hmem param hparam
    simp only [SingleParameterFunctions, List.mem_cons, List.not_mem_nil, or_false] at hmem
    rcases hmem with rfl | rfl | rfl | rfl | rfl | rfl | rfl | rfl | rfl | rfl | rfl
    · exact FhirPathCompilerVisitor.createFunction_node nodes visitor _ child_expression _ _
        rfl (SingleParameterFunctionNode.Create_single_node _ rfl (Or.inl rfl) child_expression param
          hparam)
    · exact FhirPathCompilerVisitor.createFunction_node nodes visitor _ child_expression _ _
        rfl (SingleParameterFunctionNode.Create_single_node _ rfl (Or.inl rfl) child_expression param
          hparam)
    · exact FhirPathCompilerVisitor.createFunction_node nodes visitor _ child_expression _ _
        rfl (SingleParameterFunctionNode.Create_single_node _ rfl (Or.inl rfl) child_expression param
          hparam)
    · exact FhirPathCompilerVisitor.createFunction_node nodes visitor _ child_expression _ _
        rfl (SingleParameterFunctionNode.Create_single_node _ rfl (Or.inl rfl) child_expression param
          hparam)
    · exact FhirPathCompilerVisitor.createFunction_node nodes visitor _ child_expression _ _
        rfl (SingleParameterFunctionNode.Create_single_node _ rfl (Or.inl rfl) child_expression param
          hparam)
    · exact FhirPathCompilerVisitor.createFunction_node nodes visitor _ child_expression _ _
        rfl (SingleParameterFunctionNode.Create_single_node _ rfl (Or.inl rfl) child_expression param
          hparam)
    · exact FhirPathCompilerVisitor.createFunction_node nodes visitor _ child_expression _ _
        rfl (SingleParameterFunctionNode.Create_single_node _ rfl (Or.inr rfl) child_expression param
          hparam)
    · exact FhirPathCompilerVisitor.createFunction_node nodes visitor _ child_expression _ _
        rfl (SingleParameterFunctionNode.Create_single_node _ rfl (Or.inr rfl) child_expression param
          hparam)
    · exact FhirPathCompilerVisitor.createFunction_node nodes visitor _ child_expression _ _
        rfl (SingleParameterFunctionNode.Create_single_node _ rfl (Or.inr rfl) child_expression param
          hparam)
    · exact FhirPathCompilerVisitor.createFunction_node nodes visitor _ child_expression _ _
        rfl (TypeFunction.Create_type_node _ _ child_expression param)
    · exact FhirPathCompilerVisitor.createFunction_node nodes visitor _ child_expression _ _
        rfl (TypeFunction.Create_type_node _ _ child_expression param)
  · intro params hlength hparams
    exact FhirPathCompilerVisitor.createFunction_node nodes visitor _ child_expression _ _
      rfl (IifFunction.Create_iif_node _ child_expression params hlength hparams)

theorem FhirPathCompilerVisitor.createFunction_checks_arity_witness :
    "where" ∈ SingleParameterFunctions ∧
    ([] : List ExpressionContext).length ≠ 1 ∧
    (FhirPathCompilerVisitor.createFunction ExampleFunctionNodes
        (FhirPathCompilerVisitor.ofDescriptor (some Patient.descriptor)) "where"
        (ThisReference.node (some Patient.descriptor)) []).2 = none ∧
    (FhirPathCompilerVisitor.createFunction ExampleFunctionNodes
        (FhirPathCompilerVisitor.ofDescriptor (some Patient.descriptor)) "where"
        (ThisReference.node (some Patient.descriptor)) []).1.CheckOk = false :=
  ⟨by decide, by decide,
    (FhirPathCompilerVisitor.createFunction_checks_arity ExampleFunctionNodes
      (FhirPathCompilerVisitor.ofDescriptor (some Patient.descriptor))
      (ThisReference.node (some Patient.descriptor))).2.2.1 "where" (by decide) []
      (by decide)⟩

theorem FhirPathCompilerVisitor.createFunction_null_sets_error (nodes : FunctionNodes)
    (visitor : FhirPathCompilerVisitor) (function_name : String)
    (child_expression : CompiledNode) (params : List ExpressionContext)
    (hnull : (FhirPathCompilerVisitor.createFunction nodes visitor function_name
      child_expression params).2 = none) :
    (FhirPathCompilerVisitor.createFunction nodes visitor function_name child_expression
      params).1.CheckOk = false := by
  unfold FhirPathCompilerVisitor.createFunction at hnull ⊢
  cases hfind : (FhirPathCompilerVisitor.function_map nodes).lookup function_name with
  | none =>
      simp only [FhirPathCompilerVisitor.CheckOk, FhirPathCompilerVisitor.SetError,
        decide_eq_false_iff_not]
      intro h
      have hlen := congrArg String.length h
      simp only [String.length_append] at hlen
      have h13 : "The function ".length = 13 := by decide
      rw [h13] at hlen
      simp at hlen
  | some function_factory =>
      simp only [hfind] at hnull ⊢
      rcases hfactory : function_factory child_expression params visitor
          (FhirPathCompilerVisitor.ofHistory visitor.descriptor_stack_
            child_expression.ReturnType) with ⟨after, after_child, status | node⟩
      · simp only [FhirPathCompilerVisitor.CheckOk, FhirPathCompilerVisitor.SetError,
          decide_eq_false_iff_not]
        intro h
        have hlen := congrArg String.length h
        simp only [String.length_append] at hlen
        have h26 : "Failed to compile call to ".length = 26 := by decide
        rw [h26] at hlen
        simp at hlen
      · simp [hfactory] at hnull

theorem FhirPathCompilerVisitor.visitInvocationTerm_null_pointer (nodes : FunctionNodes)
    (message_type : FieldDescriptor → Option Descriptor) (visitor : FhirPathCompilerVisitor)
    (invocation : VisitedInvocation ExpressionContext)
    (hnull : (FhirPathCompilerVisitor.visitInvocationTerm
      (FhirPathCompilerVisitor.createFunction nodes) message_type visitor invocation).2 =
        .of none) :
    (FhirPathCompilerVisitor.visitInvocationTerm
      (FhirPathCompilerVisitor.createFunction nodes) message_type visitor invocation).1.CheckOk =
        false := by
  unfold FhirPathCompilerVisitor.visitInvocationTerm at hnull ⊢
  cases hok : visitor.CheckOk with
  | false => simp [hok]
  | true =>
      simp only [hok, Bool.not_true, Bool.false_eq_true, if_false] at hnull ⊢
      cases invocation with
      | node expression => simp at hnull
      | definition definition =>
          simp only at hnull ⊢
          cases hfunction : definition.is_function with
          | true =>
              simp only [hfunction, if_true] at hnull ⊢
              cases hcreate : (FhirPathCompilerVisitor.createFunction nodes visitor
                  definition.name (ThisReference.node visitor.back) definition.params).2 with
              | none =>
                  exact FhirPathCompilerVisitor.createFunction_null_sets_error nodes visitor _ _
                    _ hcreate
              | some node =>
                  cases hafter : (FhirPathCompilerVisitor.createFunction nodes visitor
                      definition.name (ThisReference.node visitor.back)
                      definition.params).1.CheckOk with
                  | false => rfl
                  | true => simp [hcreate, hafter] at hnull
          | false =>
              simp only [hfunction, Bool.false_eq_true, if_false] at hnull
              split at hnull <;> simp at hnull

/-- C32: the arity of a call that is the parameter of `where` is not checked by
`Compile`.  On the patient `exists(1)`, a call of a function without parameter
with one argument, fails to compile, and so does `combine(exists(1))`; the
visit of `exists(1)` sets the error and returns a value that holds the null
pointer and is not null.  `where(exists(1))` compiles: `CompileParams` takes the
null pointer as the compiled parameter, and the error stays in the visitor of
the child context. -/
theorem CompiledExpression_accepts_arity_error_in_where :
    CompiledExpression.Compile
        (ExampleCall "exists" [ExampleTree.context (.terminal .NUMBER "1") "1"]
          "exists(1)").accept (some Patient.descriptor) =
      .error (.InvalidArgument
        "Failed to compile call to exists(): Function does not accept any arguments.") ∧
    ((ExampleCall "exists" [ExampleTree.context (.terminal .NUMBER "1") "1"]
        "exists(1)").accept (FhirPathCompilerVisitor.ofDescriptor (some Patient.descriptor))).2 =
      .of none ∧
    CompiledExpression.Compile
        (ExampleCall "combine"
          [ExampleCall "exists" [ExampleTree.context (.terminal .NUMBER "1") "1"] "exists(1)"]
          "combine(exists(1))").accept (some Patient.descriptor) =
      .error (.InvalidArgument
        "Failed to compile call to exists(): Function does not accept any arguments.") ∧
    CompiledExpression.Compile
        (ExampleCall "where"
          [ExampleCall "exists" [ExampleTree.context (.terminal .NUMBER "1") "1"] "exists(1)"]
          "where(exists(1))").accept (some Patient.descriptor) =
      .ok (ExampleFunctionNodes.node "WhereFunction"
        (ThisReference.node (some Patient.descriptor)) [none]) :=
  ⟨rfl, rfl, rfl, rfl⟩

/-! ## Validation: the events of a run -/

theorem UpdateStatus_error (failure : Status) (current_status : StatusOr Unit) :
    UpdateStatus (.error failure) current_status = .error failure := by
  cases current_status <;> rfl

theorem UpdateStatus_ok_left (current_status : StatusOr Unit) :
    UpdateStatus (.ok ()) current_status = current_status := by
  cases current_status <;> rfl

theorem UpdateStatus_ok_right (accumulative_status : StatusOr Unit) :
    UpdateStatus accumulative_status (.ok ()) = accumulative_status := by
  cases accumulative_status <;> rfl

theorem UpdateStatus_assoc (a b c : StatusOr Unit) :
    UpdateStatus (UpdateStatus a b) c = UpdateStatus a (UpdateStatus b c) := by
  cases a <;> cases b <;> cases c <;> rfl

theorem UpdateStatus_of_error (accumulative_status : StatusOr Unit) (failure : Status) :
    ∃ first, UpdateStatus accumulative_status (.error failure) = .error first := by
  cases accumulative_status with
  | error first => exact ⟨first, rfl⟩
  | ok _ => exact ⟨failure, rfl⟩

theorem FirstFailure_append (events after : List ValidationEvent) :
    FirstFailure (events ++ after) = UpdateStatus (FirstFailure events) (FirstFailure after) := by
  induction events with
  | nil => simp [FirstFailure, UpdateStatus_ok_left]
  | cons event rest ih =>
      cases event with
      | handler message field constraint halt => simpa [FirstFailure] using ih
      | constraint message fhir_path status =>
          cases status with
          | none => simpa [FirstFailure] using ih
          | some status =>
              cases status with
              | ok value => simpa [FirstFailure] using ih
              | error failure => simp [FirstFailure, UpdateStatus_error]

theorem NoHalt_nil : NoHalt [] := by
  intro message field constraint h
  cases h

theorem NoHalt_append {events after : List ValidationEvent} (hevents : NoHalt events)
    (hafter : NoHalt after) : NoHalt (events ++ after) := by
  intro message field constraint h
  rcases List.mem_append.1 h with h | h
  · exact hevents _ _ _ h
  · exact hafter _ _ _ h

theorem NoAbort_nil : NoAbort [] := by
  intro message fhir_path h
  cases h

theorem NoAbort_append {events after : List ValidationEvent} (hevents : NoAbort events)
    (hafter : NoAbort after) : NoAbort (events ++ after) := by
  intro message fhir_path h
  rcases List.mem_append.1 h with h | h
  · exact hevents _ _ h
  · exact hafter _ _ h

theorem HaltIsLast_of_NoHalt {events : List ValidationEvent} (hevents : NoHalt events) :
    HaltIsLast events := by
  intro before after message field constraint h
  exact absurd (h ▸ List.mem_append_right before (List.mem_cons_self _ _))
    (hevents message field constraint)

theorem HaltIsLast_append {events after : List ValidationEvent} (hevents : NoHalt events)
    (hafter : HaltIsLast after) : HaltIsLast (events ++ after) := by
  intro before rest message field constraint h
  rcases List.append_eq_append_iff.1 h with ⟨middle, rfl, hrest⟩ | ⟨middle, rfl, hrest⟩
  · exact hafter _ _ _ _ _ hrest
  · cases middle with
    | nil =>
        simp only [List.nil_append] at hrest
        exact hafter [] _ _ _ _ hrest.symm
    | cons event middle =>
        simp only [List.cons_append, List.cons.injEq] at hrest
        refine absurd ?_ (hevents message field constraint)
        rw [← hrest.1]
        exact List.mem_append_right before (List.mem_cons_self _ _)

theorem Advances.same {σ : Type} (handler : ViolationHandlerFunc σ)
    (accumulative_status : StatusOr Unit) (halt : Bool) :
    Advances handler accumulative_status halt accumulative_status halt [] where
  stays := fun h => ⟨rfl, rfl, h⟩
  last := HaltIsLast_of_NoHalt NoHalt_nil
  quiet := fun _ => NoHalt_nil
  failed := fun h hnot => by rw [h] at hnot; cases hnot
  first := (UpdateStatus_ok_right accumulative_status).symm
  returns := NoAbort_nil
  handled := fun _ _ _ _ h => by cases h

theorem Advances.followed {σ : Type} {handler : ViolationHandlerFunc σ}
    {accumulative_status status final : StatusOr Unit} {halt halted stopped : Bool}
    {events after : List ValidationEvent}
    (hevents : Advances handler accumulative_status halt status halted events)
    (hafter : Advances handler status halted final stopped after) :
    Advances handler accumulative_status halt final stopped (events ++ after) where
  stays := fun h => by
    obtain ⟨hnil, hstatus, hhalted⟩ := hevents.stays h
    obtain ⟨hnil2, hfinal, hstopped⟩ := hafter.stays hhalted
    exact ⟨by rw [hnil, hnil2]; rfl, hfinal.trans hstatus, hstopped⟩
  last := by
    cases hhalted : halted with
    | false => exact HaltIsLast_append (hevents.quiet hhalted) hafter.last
    | true =>
        rw [(hafter.stays hhalted).1, List.append_nil]
        exact hevents.last
  quiet := fun hstopped => by
    cases hhalted : halted with
    | false => exact NoHalt_append (hevents.quiet hhalted) (hafter.quiet hstopped)
    | true =>
        rw [(hafter.stays hhalted).2.2] at hstopped
        cases hstopped
  failed := fun hstopped hhalt => by
    cases hhalted : halted with
    | false => exact hafter.failed hstopped hhalted
    | true =>
        rw [(hafter.stays hhalted).2.1]
        exact hevents.failed hhalted hhalt
  first := by
    rw [hafter.first, hevents.first, FirstFailure_append, UpdateStatus_assoc]
  returns := NoAbort_append hevents.returns hafter.returns
  handled := fun message field constraint halt h => by
    rcases List.mem_append.1 h with h | h
    · exact hevents.handled _ _ _ _ h
    · exact hafter.handled _ _ _ _ h

theorem Advances.rebase {σ : Type} {handler : ViolationHandlerFunc σ}
    {status : StatusOr Unit} {halted : Bool} {events : List ValidationEvent}
    (hevents : Advances handler (.ok ()) false status halted events)
    (accumulative_status : StatusOr Unit) :
    Advances handler accumulative_status false (UpdateStatus accumulative_status status)
      halted events where
  stays := fun h => by cases h
  last := hevents.last
  quiet := hevents.quiet
  failed := fun hhalted _ => by
    obtain ⟨failure, hfailure⟩ := hevents.failed hhalted rfl
    rw [hfailure]
    exact UpdateStatus_of_error _ _
  first := by
    rw [hevents.first, UpdateStatus_ok_left]
  returns := hevents.returns
  handled := hevents.handled

theorem Aborts.after {σ : Type} {handler : ViolationHandlerFunc σ}
    {accumulative_status status : StatusOr Unit} {halt : Bool}
    {events after : List ValidationEvent}
    (hevents : Advances handler accumulative_status halt status false events)
    (hafter : Aborts handler after) : Aborts handler (events ++ after) where
  last := by
    obtain ⟨before, message, fhir_path, hlast, hquiet, hreturns⟩ := hafter.last
    refine ⟨events ++ before, message, fhir_path, ?_, ?_, ?_⟩
    · rw [hlast, List.append_assoc]
    · exact NoHalt_append (hevents.quiet rfl) hquiet
    · exact NoAbort_append hevents.returns hreturns
  handled := fun message field constraint halt h => by
    rcases List.mem_append.1 h with h | h
    · exact hevents.handled _ _ _ _ h
    · exact hafter.handled _ _ _ _ h

theorem Lands.start {σ : Type} (handler : ViolationHandlerFunc σ)
    (captured : StatusOr Unit × ValidationState σ) :
    Lands handler captured (some captured.1, captured.2) :=
  ⟨[], by simp, Advances.same handler _ _⟩

theorem Lands.continued {σ : Type} {handler : ViolationHandlerFunc σ}
    {captured middle : StatusOr Unit × ValidationState σ} {result : ValidateResult σ}
    (hmiddle : Lands handler captured (some middle.1, middle.2))
    (hresult : Lands handler middle result) : Lands handler captured result := by
  obtain ⟨events, hlog, hevents⟩ := hmiddle
  obtain ⟨after, hlog2, hafter⟩ := hresult
  refine ⟨events ++ after, ?_, ?_⟩
  · rw [hlog2, hlog, List.append_assoc]
  · cases hstatus : result.1 with
    | some status =>
        simp only [hstatus] at hafter ⊢
        exact Advances.followed hevents hafter
    | none =>
        simp only [hstatus] at hafter ⊢
        simp only at hevents
        obtain ⟨hhalt, haborts⟩ := hafter
        rw [hhalt] at hevents
        cases hstart : captured.2.halt_validation with
        | false =>
            rw [hstart] at hevents
            exact ⟨rfl, Aborts.after hevents haborts⟩
        | true =>
            rw [hstart] at hevents
            have := (hevents.stays rfl).2.2
            cases this

theorem Advances.of_constraint {σ : Type} (handler : ViolationHandlerFunc σ)
    (accumulative_status : StatusOr Unit) (message : Message) (fhir_path : String)
    (status : StatusOr Unit) :
    Advances handler accumulative_status false (UpdateStatus accumulative_status status) false
      [.constraint message fhir_path (some status)] where
  stays := fun h => by cases h
  last := HaltIsLast_of_NoHalt (by
    intro _ _ _ h
    simp at h)
  quiet := fun _ => by
    intro _ _ _ h
    simp at h
  failed := fun h => by cases h
  first := by
    cases status <;> rfl
  returns := by
    intro _ _ h
    simp at h
  handled := fun _ _ _ _ h => by simp at h

theorem Advances.of_halt {σ : Type} (handler : ViolationHandlerFunc σ)
    (accumulative_status : StatusOr Unit) (message : Message) (fhir_path : String)
    (failure : Status) :
    Advances handler accumulative_status false
      (UpdateStatus accumulative_status (.error failure)) true
      [.constraint message fhir_path (some (.error failure))] where
  stays := fun h => by cases h
  last := HaltIsLast_of_NoHalt (by
    intro _ _ _ h
    simp at h)
  quiet := fun h => by cases h
  failed := fun _ _ => UpdateStatus_of_error _ _
  first := rfl
  returns := by
    intro _ _ h
    simp at h
  handled := fun _ _ _ _ h => by simp at h

theorem Advances.of_handler {σ : Type} (handler : ViolationHandlerFunc σ)
    (accumulative_status : StatusOr Unit) (message : Message) (fhir_path : String)
    (failure : Status) (handler_state : σ) (parent : Message) (field : Option FieldDescriptor)
    (constraint : String) :
    Advances handler accumulative_status false
      (UpdateStatus accumulative_status (.error failure))
      (handler handler_state parent field constraint).1
      [.constraint message fhir_path (some (.error failure)),
        .handler parent field constraint (handler handler_state parent field constraint).1] where
  stays := fun h => by cases h
  last := by
    intro before after _ _ _ h
    have hlength := congrArg List.length h
    rcases before with _ | ⟨_, _ | ⟨_, before⟩⟩
    · simp at h
    · simp only [List.cons_append, List.nil_append, List.cons.injEq] at h
      exact h.2.2.symm
    · simp at hlength
  quiet := fun hhalted => by
    intro _ _ _ h
    simp only [List.mem_cons, List.mem_singleton, List.not_mem_nil, or_false] at h
    rcases h with h | h
    · cases h
    · injection h with _ _ _ h
      rw [hhalted] at h
      cases h
  failed := fun _ _ => UpdateStatus_of_error _ _
  first := rfl
  returns := by
    intro _ _ h
    simp at h
  handled := fun _ _ _ _ h => by
    simp only [List.mem_cons, List.mem_singleton, List.not_mem_nil, or_false] at h
    rcases h with h | h
    · cases h
    · injection h with h1 h2 h3 h4
      subst h1 h2 h3
      exact ⟨handler_state, h4.symm⟩

theorem ValidateMessageConstraint_of_error {σ : Type} (message : Message)
    (expression : CompiledExpression) (handler : ViolationHandlerFunc σ)
    (state : ValidationState σ) (failure : Status)
    (hresult : CompiledExpression.Evaluate expression.root_expression_ message =
      .error failure) :
    ValidateMessageConstraint message expression handler state =
      (.error failure,
        state.record (.constraint message expression.fhir_path_ (some (.error failure)))) := by
  simp only [ValidateMessageConstraint, hresult]

theorem ValidateMessageConstraint_of_not_boolean {σ : Type} (message : Message)
    (expression : CompiledExpression) (handler : ViolationHandlerFunc σ)
    (state : ValidationState σ) (expr_result : List Message) (failure : Status)
    (hresult : CompiledExpression.Evaluate expression.root_expression_ message =
      .ok expr_result)
    (hboolean : EvaluationResult.GetBoolean expr_result = .error failure) :
    ValidateMessageConstraint message expression handler state =
      (.error (.InvalidArgument
          ("Constraint did not evaluate to boolean: " ++ (GetDescriptor message).name ++
            ": \"" ++ expression.fhir_path_ ++ "\"")),
        { state.record (.constraint message expression.fhir_path_
            (some (.error (.InvalidArgument
              ("Constraint did not evaluate to boolean: " ++ (GetDescriptor message).name ++
                ": \"" ++ expression.fhir_path_ ++ "\"")))))
          with halt_validation := true }) := by
  simp only [ValidateMessageConstraint, hresult, hboolean]

theorem ValidateMessageConstraint_of_false {σ : Type} (message : Message)
    (expression : CompiledExpression) (handler : ViolationHandlerFunc σ)
    (state : ValidationState σ) (expr_result : List Message)
    (hresult : CompiledExpression.Evaluate expression.root_expression_ message =
      .ok expr_result)
    (hboolean : EvaluationResult.GetBoolean expr_result = .ok false) :
    ValidateMessageConstraint message expression handler state =
      (.error (.FailedPrecondition
          ("fhirpath-constraint-violation-" ++ (GetDescriptor message).name ++ ": \"" ++
            expression.fhir_path_ ++ "\"")),
        (state.record (.constraint message expression.fhir_path_
            (some (.error (.FailedPrecondition
              ("fhirpath-constraint-violation-" ++ (GetDescriptor message).name ++ ": \"" ++
                expression.fhir_path_ ++ "\"")))))).call
          handler message none expression.fhir_path_) := by
  simp only [ValidateMessageConstraint, hresult, hboolean]

theorem ValidateMessageConstraint_of_true {σ : Type} (message : Message)
    (expression : CompiledExpression) (handler : ViolationHandlerFunc σ)
    (state : ValidationState σ) (expr_result : List Message)
    (hresult : CompiledExpression.Evaluate expression.root_expression_ message =
      .ok expr_result)
    (hboolean : EvaluationResult.GetBoolean expr_result = .ok true) :
    ValidateMessageConstraint message expression handler state =
      (.ok (), state.record (.constraint message expression.fhir_path_ (some (.ok ())))) := by
  simp only [ValidateMessageConstraint, hresult, hboolean]

theorem ValidateMessageConstraint_lands {σ : Type} (message : Message)
    (expression : CompiledExpression) (handler : ViolationHandlerFunc σ)
    (accumulative_status : StatusOr Unit) (state : ValidationState σ)
    (hhalt : state.halt_validation = false) :
    Lands handler (accumulative_status, state)
      (some (UpdateStatus accumulative_status
          (ValidateMessageConstraint message expression handler state).1),
        (ValidateMessageConstraint message expression handler state).2) := by
  cases hresult : CompiledExpression.Evaluate expression.root_expression_ message with
  | error failure =>
      rw [ValidateMessageConstraint_of_error _ _ _ _ _ hresult]
      refine ⟨_, rfl, ?_⟩
      simpa [ValidationState.record, hhalt] using
        Advances.of_constraint handler accumulative_status message expression.fhir_path_
          (.error failure)
  | ok expr_result =>
      cases hboolean : EvaluationResult.GetBoolean expr_result with
      | error failure =>
          rw [ValidateMessageConstraint_of_not_boolean _ _ _ _ _ _ hresult hboolean]
          refine ⟨_, rfl, ?_⟩
          simpa [ValidationState.record, hhalt] using
            Advances.of_halt handler accumulative_status message expression.fhir_path_ _
      | ok value =>
          cases value with
          | true =>
              rw [ValidateMessageConstraint_of_true _ _ _ _ _ hresult hboolean]
              refine ⟨_, rfl, ?_⟩
              simpa [ValidationState.record, hhalt] using
                Advances.of_constraint handler accumulative_status message
                  expression.fhir_path_ (.ok ())
          | false =>
              rw [ValidateMessageConstraint_of_false _ _ _ _ _ hresult hboolean]
              generalize "fhirpath-constraint-violation-" ++ (GetDescriptor message).name ++
                ": \"" ++ expression.fhir_path_ ++ "\"" = err_msg
              refine ⟨[.constraint message expression.fhir_path_
                  (some (.error (.FailedPrecondition err_msg))),
                .handler message none expression.fhir_path_
                  (handler state.handler_state message none expression.fhir_path_).1], ?_, ?_⟩
              · simp [ValidationState.record, ValidationState.call]
              · simpa [ValidationState.record, ValidationState.call, hhalt] using
                  Advances.of_handler handler accumulative_status message
                    expression.fhir_path_ _ state.handler_state message none
                    expression.fhir_path_

theorem ValidateFieldConstraint_of_error {σ : Type} (schema : Schema) (parent : Message)
    (field : FieldDescriptor) (field_value : Message) (expression : CompiledExpression)
    (handler : ViolationHandlerFunc σ) (state : ValidationState σ) (failure : Status)
    (hresult : CompiledExpression.Evaluate expression.root_expression_ field_value =
      .error failure) :
    ValidateFieldConstraint schema parent field field_value expression handler state =
      (some (.error failure),
        state.record
          (.constraint field_value expression.fhir_path_ (some (.error failure)))) := by
  simp only [ValidateFieldConstraint, hresult]

theorem ValidateFieldConstraint_of_not_boolean {σ : Type} (schema : Schema) (parent : Message)
    (field : FieldDescriptor) (field_value : Message) (expression : CompiledExpression)
    (handler : ViolationHandlerFunc σ) (state : ValidationState σ)
    (expr_result : List Message) (failure : Status)
    (hresult : CompiledExpression.Evaluate expression.root_expression_ field_value =
      .ok expr_result)
    (hboolean : EvaluationResult.GetBoolean expr_result = .error failure) :
    ValidateFieldConstraint schema parent field field_value expression handler state =
      (none, state.record (.constraint field_value expression.fhir_path_ none)) := by
  simp only [ValidateFieldConstraint, hresult, hboolean]

theorem ValidateFieldConstraint_of_false {σ : Type} (schema : Schema) (parent : Message)
    (field : FieldDescriptor) (field_value : Message) (expression : CompiledExpression)
    (handler : ViolationHandlerFunc σ) (state : ValidationState σ)
    (expr_result : List Message)
    (hresult : CompiledExpression.Evaluate expression.root_expression_ field_value =
      .ok expr_result)
    (hboolean : EvaluationResult.GetBoolean expr_result = .ok false) :
    ValidateFieldConstraint schema parent field field_value expression handler state =
      (some (.error (.FailedPrecondition
          ("fhirpath-constraint-violation-" ++ (schema.containing_type field).name ++ "." ++
            field.json_name ++ ": \"" ++ expression.fhir_path_ ++ "\""))),
        (state.record (.constraint field_value expression.fhir_path_
            (some (.error (.FailedPrecondition
              ("fhirpath-constraint-violation-" ++ (schema.containing_type field).name ++
                "." ++ field.json_name ++ ": \"" ++ expression.fhir_path_ ++ "\"")))))).call
          handler parent (some field) expression.fhir_path_) := by
  simp only [ValidateFieldConstraint, hresult, hboolean]

theorem ValidateFieldConstraint_of_true {σ : Type} (schema : Schema) (parent : Message)
    (field : FieldDescriptor) (field_value : Message) (expression : CompiledExpression)
    (handler : ViolationHandlerFunc σ) (state : ValidationState σ)
    (expr_result : List Message)
    (hresult : CompiledExpression.Evaluate expression.root_expression_ field_value =
      .ok expr_result)
    (hboolean : EvaluationResult.GetBoolean expr_result = .ok true) :
    ValidateFieldConstraint schema parent field field_value expression handler state =
      (some (.ok ()),
        state.record (.constraint field_value expression.fhir_path_ (some (.ok ())))) := by
  simp only [ValidateFieldConstraint, hresult, hboolean]

theorem ValidateFieldConstraint_lands {σ : Type} (schema : Schema) (parent : Message)
    (field : FieldDescriptor) (field_value : Message) (expression : CompiledExpression)
    (handler : ViolationHandlerFunc σ) (accumulative_status : StatusOr Unit)
    (state : ValidationState σ) (hhalt : state.halt_validation = false) :
    Lands handler (accumulative_status, state)
      ((ValidateFieldConstraint schema parent field field_value expression handler
          state).1.map (UpdateStatus accumulative_status),
        (ValidateFieldConstraint schema parent field field_value expression handler
          state).2) := by
  cases hresult : CompiledExpression.Evaluate expression.root_expression_ field_value with
  | error failure =>
      rw [ValidateFieldConstraint_of_error _ _ _ _ _ _ _ _ hresult]
      refine ⟨_, rfl, ?_⟩
      simpa [ValidationState.record, hhalt] using
        Advances.of_constraint handler accumulative_status field_value expression.fhir_path_
          (.error failure)
  | ok expr_result =>
      cases hboolean : EvaluationResult.GetBoolean expr_result with
      | error failure =>
          rw [ValidateFieldConstraint_of_not_boolean _ _ _ _ _ _ _ _ _ hresult hboolean]
          refine ⟨[.constraint field_value expression.fhir_path_ none], rfl, ?_⟩
          refine ⟨hhalt, ⟨[], field_value, expression.fhir_path_, rfl, NoHalt_nil,
            NoAbort_nil⟩, ?_⟩
          intro _ _ _ _ h
          simp at h
      | ok value =>
          cases value with
          | true =>
              rw [ValidateFieldConstraint_of_true _ _ _ _ _ _ _ _ hresult hboolean]
              refine ⟨_, rfl, ?_⟩
              simpa [ValidationState.record, hhalt] using
                Advances.of_constraint handler accumulative_status field_value
                  expression.fhir_path_ (.ok ())
          | false =>
              rw [ValidateFieldConstraint_of_false _ _ _ _ _ _ _ _ hresult hboolean]
              generalize "fhirpath-constraint-violation-" ++
                (schema.containing_type field).name ++ "." ++ field.json_name ++ ": \"" ++
                expression.fhir_path_ ++ "\"" = err_msg
              refine ⟨[.constraint field_value expression.fhir_path_
                  (some (.error (.FailedPrecondition err_msg))),
                .handler parent (some field) expression.fhir_path_
                  (handler state.handler_state parent (some field)
                    expression.fhir_path_).1], ?_, ?_⟩
              · simp [ValidationState.record, ValidationState.call]
              · simpa [ValidationState.record, ValidationState.call, hhalt] using
                  Advances.of_handler handler accumulative_status field_value
                    expression.fhir_path_ _ state.handler_state parent (some field)
                    expression.fhir_path_

theorem ForEachMessageHalting.loop_lands {σ E : Type} (handler : ViolationHandlerFunc σ)
    (exits : E → Option (ValidateResult σ))
    (func : Message → StatusOr Unit × ValidationState σ →
      Except E (Bool × (StatusOr Unit × ValidationState σ)))
    (children : List Message)
    (hfunc : ∀ child ∈ children, ∀ captured : StatusOr Unit × ValidationState σ,
      captured.2.halt_validation = false →
      CallLands handler exits captured (func child captured))
    (captured : StatusOr Unit × ValidationState σ)
    (hhalt : captured.2.halt_validation = false) :
    LoopLands handler exits captured (ForEachMessageHalting.loop func children captured) := by
  induction children generalizing captured with
  | nil => exact Lands.start handler captured
  | cons child rest ih =>
      have hchild := hfunc child (List.mem_cons_self _ _) captured hhalt
      have hrest := fun after hafter =>
        ih (fun child hmem => hfunc child (List.mem_cons_of_mem _ hmem)) after hafter
      unfold ForEachMessageHalting.loop
      cases hcall : func child captured with
      | error exit =>
          rw [hcall] at hchild
          exact hchild
      | ok returned =>
          obtain ⟨halt, after⟩ := returned
          rw [hcall] at hchild
          obtain ⟨hreturned, hlands⟩ := hchild
          cases halt with
          | true => exact hlands
          | false =>
              have hnext := hrest after hreturned.symm
              simp only
              cases hloop : ForEachMessageHalting.loop func rest after with
              | error exit =>
                  rw [hloop] at hnext
                  obtain ⟨result, hexit, hresult⟩ := hnext
                  exact ⟨result, hexit, Lands.continued hlands hresult⟩
              | ok final =>
                  rw [hloop] at hnext
                  exact Lands.continued hlands hnext

theorem MessageValidator.Validate.message_expressions_lands {σ : Type} (message : Message)
    (handler : ViolationHandlerFunc σ) (expressions : List CompiledExpression)
    (captured : StatusOr Unit × ValidationState σ)
    (hhalt : captured.2.halt_validation = false) :
    LoopLands handler some captured
      (MessageValidator.Validate.message_expressions message handler expressions captured) := by
  induction expressions generalizing captured with
  | nil => exact Lands.start handler captured
  | cons expr rest ih =>
      obtain ⟨accumulative_status, state⟩ := captured
      have hstep := ValidateMessageConstraint_lands message expr handler accumulative_status
        state hhalt
      unfold MessageValidator.Validate.message_expressions
      simp only
      cases hhalted :
          (ValidateMessageConstraint message expr handler state).2.halt_validation with
      | true =>
          simp only [if_true]
          exact ⟨_, rfl, hstep⟩
      | false =>
          simp only [Bool.false_eq_true, if_false]
          have hnext := ih (UpdateStatus accumulative_status
            (ValidateMessageConstraint message expr handler state).1,
            (ValidateMessageConstraint message expr handler state).2) hhalted
          cases hloop : MessageValidator.Validate.message_expressions message handler rest
              (UpdateStatus accumulative_status
                (ValidateMessageConstraint message expr handler state).1,
                (ValidateMessageConstraint message expr handler state).2) with
          | error exit =>
              rw [hloop] at hnext
              obtain ⟨result, hexit, hresult⟩ := hnext
              exact ⟨result, hexit, Lands.continued hstep hresult⟩
          | ok after =>
              rw [hloop] at hnext
              exact Lands.continued hstep hnext

theorem MessageValidator.Validate.field_expression_lands {σ : Type} (schema : Schema)
    (message : Message) (handler : ViolationHandlerFunc σ) (field : FieldDescriptor)
    (expr : CompiledExpression) (child : Message)
    (captured : StatusOr Unit × ValidationState σ)
    (hhalt : captured.2.halt_validation = false) :
    CallLands handler some captured
      (MessageValidator.Validate.field_expression schema message handler field expr child
        captured) := by
  have hstep := ValidateFieldConstraint_lands schema message field child expr handler
    captured.1 captured.2 hhalt
  unfold MessageValidator.Validate.field_expression
  cases hcall : ValidateFieldConstraint schema message field child expr handler captured.2 with
  | mk status after =>
      rw [hcall] at hstep
      cases status with
      | none => exact ⟨_, rfl, hstep⟩
      | some status => exact ⟨rfl, hstep⟩

theorem MessageValidator.Validate.field_expressions_lands {σ : Type} (schema : Schema)
    (message : Message) (handler : ViolationHandlerFunc σ)
    (expressions : List (FieldDescriptor × CompiledExpression))
    (captured : StatusOr Unit × ValidationState σ) :
    LoopLands handler some captured
      (MessageValidator.Validate.field_expressions schema message handler expressions
        captured) := by
  induction expressions generalizing captured with
  | nil => exact Lands.start handler captured
  | cons expression rest ih =>
      obtain ⟨accumulative_status, state⟩ := captured
      unfold MessageValidator.Validate.field_expressions
      cases hhalt : state.halt_validation with
      | true =>
          simp only [if_true]
          exact ⟨_, rfl, Lands.start handler (accumulative_status, state)⟩
      | false =>
          simp only [Bool.false_eq_true, if_false]
          have heach := ForEachMessageHalting.loop_lands handler some
            (MessageValidator.Validate.field_expression schema message handler expression.1
              expression.2)
            (FieldValues message expression.1)
            (fun child _ captured hcaptured =>
              MessageValidator.Validate.field_expression_lands schema message handler
                expression.1 expression.2 child captured hcaptured)
            (accumulative_status, state) hhalt
          unfold ForEachMessageHalting
          cases hloop : ForEachMessageHalting.loop
              (MessageValidator.Validate.field_expression schema message handler expression.1
                expression.2)
              (FieldValues message expression.1) (accumulative_status, state) with
          | error exit =>
              rw [hloop] at heach
              exact heach
          | ok after =>
              rw [hloop] at heach
              simp only
              have hnext := ih after
              cases hrest : MessageValidator.Validate.field_expressions schema message handler
                  rest after with
              | error exit =>
                  rw [hrest] at hnext
                  obtain ⟨result, hexit, hresult⟩ := hnext
                  exact ⟨result, hexit, Lands.continued heach hresult⟩
              | ok final =>
                  rw [hrest] at hnext
                  exact Lands.continued heach hnext

theorem MessageValidator.Validate.nested_message_lands {σ : Type}
    (handler : ViolationHandlerFunc σ)
    (Validate : Message → ValidationState σ → Option (ValidateResult σ)) (child : Message)
    (hValidate : ∀ state : ValidationState σ, state.halt_validation = false →
      ∃ result, Validate child state = some result ∧ Lands handler (.ok (), state) result)
    (captured : StatusOr Unit × ValidationState σ)
    (hhalt : captured.2.halt_validation = false) :
    CallLands handler id captured
      (MessageValidator.Validate.nested_message Validate child captured) := by
  obtain ⟨result, hcall, hlands⟩ := hValidate captured.2 hhalt
  obtain ⟨status, after⟩ := result
  obtain ⟨events, hlog, hevents⟩ := hlands
  unfold MessageValidator.Validate.nested_message
  rw [hcall]
  cases status with
  | none => exact ⟨_, rfl, events, hlog, hevents⟩
  | some status =>
      refine ⟨rfl, events, hlog, ?_⟩
      simp only at hevents ⊢
      rw [hhalt] at hevents ⊢
      exact Advances.rebase hevents captured.1

theorem MessageValidator.Validate.nested_with_constraints_lands {σ : Type}
    (handler : ViolationHandlerFunc σ)
    (Validate : Message → ValidationState σ → Option (ValidateResult σ)) (message : Message)
    (fields : List FieldDescriptor)
    (hValidate : ∀ field ∈ fields, ∀ child ∈ FieldValues message field,
      ∀ state : ValidationState σ, state.halt_validation = false →
      ∃ result, Validate child state = some result ∧ Lands handler (.ok (), state) result)
    (captured : StatusOr Unit × ValidationState σ) :
    LoopLands handler id captured
      (MessageValidator.Validate.nested_with_constraints Validate message fields
        captured) := by
  induction fields generalizing captured with
  | nil => exact Lands.start handler captured
  | cons field rest ih =>
      obtain ⟨accumulative_status, state⟩ := captured
      have hrest := ih (fun field hmem => hValidate field (List.mem_cons_of_mem _ hmem))
      unfold MessageValidator.Validate.nested_with_constraints
      cases hhalt : state.halt_validation with
      | true =>
          simp only [if_true]
          exact ⟨_, rfl, Lands.start handler (accumulative_status, state)⟩
      | false =>
          simp only [Bool.false_eq_true, if_false]
          have heach := ForEachMessageHalting.loop_lands handler id
            (MessageValidator.Validate.nested_message Validate)
            (FieldValues message field)
            (fun child hchild captured hcaptured =>
              MessageValidator.Validate.nested_message_lands handler Validate child
                (hValidate field (List.mem_cons_self _ _) child hchild) captured hcaptured)
            (accumulative_status, state) hhalt
          unfold ForEachMessageHalting
          cases hloop : ForEachMessageHalting.loop
              (MessageValidator.Validate.nested_message Validate)
              (FieldValues message field) (accumulative_status, state) with
          | error exit =>
              rw [hloop] at heach
              exact heach
          | ok after =>
              rw [hloop] at heach
              simp only
              have hnext := hrest after
              cases hrest2 : MessageValidator.Validate.nested_with_constraints Validate message
                  rest after with
              | error exit =>
                  rw [hrest2] at hnext
                  obtain ⟨result, hexit, hresult⟩ := hnext
                  exact ⟨result, hexit, Lands.continued heach hresult⟩
              | ok final =>
                  rw [hrest2] at hnext
                  exact Lands.continued heach hnext

theorem MessageDepth.values_le (values : List Message) (message : Message)
    (hmem : message ∈ values) : MessageDepth message ≤ MessageDepth.values values := by
  induction values with
  | nil => cases hmem
  | cons first rest ih =>
      rw [MessageDepth.values]
      rcases List.mem_cons.1 hmem with rfl | hmem
      · exact Nat.le_max_left _ _
      · exact Nat.le_trans (ih hmem) (Nat.le_max_right _ _)

theorem MessageDepth.fields_le (fields : List (String × List Message)) (name : String)
    (values : List Message) (hlookup : fields.lookup name = some values) :
    MessageDepth.values values ≤ MessageDepth.fields fields := by
  induction fields with
  | nil => simp at hlookup
  | cons first rest ih =>
      obtain ⟨key, held⟩ := first
      rw [MessageDepth.fields]
      rw [List.lookup_cons] at hlookup
      cases hkey : name == key with
      | true =>
          rw [hkey] at hlookup
          cases hlookup
          exact Nat.le_max_left _ _
      | false =>
          rw [hkey] at hlookup
          exact Nat.le_trans (ih hlookup) (Nat.le_max_right _ _)

theorem MessageDepth.FieldValues_lt (message : Message) (field : FieldDescriptor)
    (child : Message) (hmem : child ∈ FieldValues message field) :
    MessageDepth child < MessageDepth message := by
  cases message with
  | composite descriptor fields =>
      simp only [FieldValues] at hmem
      cases hlookup : fields.lookup field.name with
      | none => simp [hlookup] at hmem
      | some values =>
          simp only [hlookup, Option.getD_some] at hmem
          rw [MessageDepth]
          exact Nat.lt_succ_of_le
            (Nat.le_trans (MessageDepth.values_le values child hmem)
              (MessageDepth.fields_le fields field.name values hlookup))
  | _ => simp [FieldValues] at hmem

theorem MessageValidator.Validate.go_lands {σ : Type} (schema : Schema)
    (constraints : Descriptor → MessageConstraints) (handler : ViolationHandlerFunc σ)
    (fuel : Nat) (message : Message) (state : ValidationState σ)
    (hfuel : MessageDepth message < fuel) (hhalt : state.halt_validation = false) :
    ∃ result,
      MessageValidator.Validate.go schema (fun descriptor => .ok (constraints descriptor))
        handler fuel message state = some result ∧
      Lands handler (.ok (), state) result := by
  induction fuel generalizing message state with
  | zero => cases hfuel
  | succ fuel ih =>
      unfold MessageValidator.Validate.go
      simp only
      have hfirst := MessageValidator.Validate.message_expressions_lands message handler
        (constraints (GetDescriptor message)).message_expressions_ (.ok (), state) hhalt
      cases hloop : MessageValidator.Validate.message_expressions message handler
          (constraints (GetDescriptor message)).message_expressions_ (.ok (), state) with
      | error exit =>
          rw [hloop] at hfirst
          obtain ⟨result, hexit, hresult⟩ := hfirst
          cases hexit
          exact ⟨_, rfl, hresult⟩
      | ok first =>
          rw [hloop] at hfirst
          simp only
          have hsecond := MessageValidator.Validate.field_expressions_lands schema message
            handler (constraints (GetDescriptor message)).field_expressions_ first
          cases hloop2 : MessageValidator.Validate.field_expressions schema message handler
              (constraints (GetDescriptor message)).field_expressions_ first with
          | error exit =>
              rw [hloop2] at hsecond
              obtain ⟨result, hexit, hresult⟩ := hsecond
              cases hexit
              exact ⟨_, rfl, Lands.continued hfirst hresult⟩
          | ok second =>
              rw [hloop2] at hsecond
              simp only
              have hthird := MessageValidator.Validate.nested_with_constraints_lands handler
                (MessageValidator.Validate.go schema
                  (fun descriptor => .ok (constraints descriptor)) handler fuel)
                message (constraints (GetDescriptor message)).nested_with_constraints_
                (fun field _ child hchild state hstate =>
                  ih child state
                    (Nat.lt_of_lt_of_le (MessageDepth.FieldValues_lt message field child hchild)
                      (Nat.le_of_lt_succ hfuel))
                    hstate)
                second
              cases hloop3 : MessageValidator.Validate.nested_with_constraints
                  (MessageValidator.Validate.go schema
                    (fun descriptor => .ok (constraints descriptor)) handler fuel)
                  message (constraints (GetDescriptor message)).nested_with_constraints_
                  second with
              | error exit =>
                  rw [hloop3] at hthird
                  obtain ⟨result, hexit, hresult⟩ := hthird
                  cases hexit
                  exact ⟨_, rfl, Lands.continued hfirst (Lands.continued hsecond hresult)⟩
              | ok third =>
                  rw [hloop3] at hthird
                  exact ⟨_, rfl, Lands.continued hfirst (Lands.continued hsecond hthird)⟩

/-! ## Validation: a field constraint that is not a Boolean -/

/-- C39: `ValidateFieldConstraint` is not total.  For the constraint with the
text of the empty literal on the field `name` of a patient, the evaluation on a
name succeeds with the empty collection, of which `GetBoolean` is a failure, and
`ValidateFieldConstraint` gives no status: `ValueOrDie` ends the process.
`ValidateMessageConstraint` returns a status for the same expression and
message. -/
theorem ValidateFieldConstraint_aborts_on_empty_result :
    CompiledExpression.CompileExpression ExampleParse HumanName.descriptor "\x7b\x7d" =
      .ok EmptyConstraint ∧
    CompiledExpression.Evaluate EmptyConstraint.root_expression_ (HumanName.ofFamily "Smith") =
      .ok [] ∧
    EvaluationResult.GetBoolean [] =
      .error (.InvalidArgument "Expression did not evaluate to boolean") ∧
    ValidateFieldConstraint ExampleSchema (Patient.ofNames [HumanName.ofFamily "Smith"])
        { name := "name", json_name := "name" } (HumanName.ofFamily "Smith") EmptyConstraint
        HaltOnErrorHandler (ValidationState.start ()) =
      (none,
        { halt_validation := false, handler_state := (),
          log := [.constraint (HumanName.ofFamily "Smith") "\x7b\x7d" none] }) ∧
    (ValidateMessageConstraint (HumanName.ofFamily "Smith") EmptyConstraint
        HaltOnErrorHandler (ValidationState.start ())).1 =
      .error (.InvalidArgument
        "Constraint did not evaluate to boolean: HumanName: \"\x7b\x7d\"") ∧
    MessageValidator.Validate ExampleSchema
        (fun _ =>
          .ok { message_expressions_ := [],
                field_expressions_ := [({ name := "name", json_name := "name" }, EmptyConstraint)],
                nested_with_constraints_ := [] })
        2 (Patient.ofNames [HumanName.ofFamily "Smith"]) HaltOnErrorHandler () =
      some (none,
        { halt_validation := false, handler_state := (),
          log := [.constraint (HumanName.ofFamily "Smith") "\x7b\x7d" none] }) :=
  ⟨rfl, rfl, rfl, rfl, rfl, rfl⟩

/-! ## Validation: halting -/

theorem HaltIsLast_tail {event : ValidationEvent} {events : List ValidationEvent}
    (hevents : HaltIsLast (event :: events)) : HaltIsLast events := by
  intro before after message field constraint h
  exact hevents (event :: before) after message field constraint (by rw [h]; rfl)

theorem HaltIsLast_count (events : List ValidationEvent) (hlast : HaltIsLast events)
    (hhalt : ∀ message field constraint halt,
      ValidationEvent.handler message field constraint halt ∈ events → halt = true) :
    (events.filter ValidationEvent.is_handler).length ≤ 1 := by
  induction events with
  | nil => simp
  | cons event rest ih =>
      have hrest := ih (HaltIsLast_tail hlast)
        (fun message field constraint halt h =>
          hhalt message field constraint halt (List.mem_cons_of_mem _ h))
      cases event with
      | constraint message fhir_path status =>
          simpa [List.filter, ValidationEvent.is_handler] using hrest
      | handler message field constraint halt =>
          have htrue := hhalt message field constraint halt (List.mem_cons_self _ _)
          subst htrue
          have hnil := hlast [] rest message field constraint rfl
          subst hnil
          simp [List.filter, ValidationEvent.is_handler]

theorem Aborts.NoHalt {σ : Type} {handler : ViolationHandlerFunc σ}
    {events : List ValidationEvent} (hevents : Aborts handler events) : NoHalt events := by
  obtain ⟨before, message, fhir_path, hlast, hquiet, _⟩ := hevents.last
  rw [hlast]
  refine NoHalt_append hquiet ?_
  intro _ _ _ h
  simp at h

/-- C34: a validation with fuel above the depth of the message ends, and no
event follows a call of the handler that returned true: no constraint is
evaluated and the handler is not called again, at any depth.  The validation
then returns (the process does not end) the first failure of the constraints
that it evaluated.  With `HaltOnErrorHandler` the handler is called at most
once. -/
theorem MessageValidator_stops_after_halt {σ : Type} (schema : Schema)
    (constraints : Descriptor → MessageConstraints) (handler : ViolationHandlerFunc σ)
    (handler_state : σ) (fuel : Nat) (message : Message)
    (hfuel : MessageDepth message < fuel) :
    (∃ result,
      MessageValidator.Validate schema (fun descriptor => .ok (constraints descriptor)) fuel
        message handler handler_state = some result ∧
      ∀ before after parent field constraint,
        result.2.log = before ++ ValidationEvent.handler parent field constraint true :: after →
        after = [] ∧ result.2.halt_validation = true ∧
          result.1 = some (FirstFailure result.2.log) ∧
          ∃ failure, FirstFailure result.2.log = .error failure) ∧
    (∃ result,
      MessageValidator.Validate schema (fun descriptor => .ok (constraints descriptor)) fuel
        message HaltOnErrorHandler handler_state = some result ∧
      (result.2.log.filter ValidationEvent.is_handler).length ≤ 1) := by
  constructor
  · obtain ⟨result, hresult, events, hlog, hevents⟩ :=
      MessageValidator.Validate.go_lands schema constraints handler fuel message
        (ValidationState.start handler_state) hfuel rfl
    refine ⟨result, hresult, ?_⟩
    simp only [ValidationState.start, List.nil_append] at hlog
    intro before after parent field constraint hsplit
    rw [hlog] at hsplit ⊢
    have hmem : ValidationEvent.handler parent field constraint true ∈ events := by
      rw [hsplit]
      exact List.mem_append_right _ (List.mem_cons_self _ _)
    cases hstatus : result.1 with
    | none =>
        simp only [hstatus] at hevents
        exact absurd hmem (hevents.2.NoHalt _ _ _)
    | some status =>
        simp only [hstatus] at hevents
        have hhalted : result.2.halt_validation = true := by
          cases hhalted : result.2.halt_validation with
          | true => rfl
          | false => exact absurd hmem (hevents.quiet hhalted _ _ _)
        have hfirst : status = FirstFailure events := by
          rw [hevents.first, UpdateStatus_ok_left]
        obtain ⟨failure, hfailure⟩ := hevents.failed hhalted rfl
        exact ⟨hevents.last _ _ _ _ _ hsplit, hhalted, by rw [hfirst],
          failure, by rw [← hfirst, hfailure]⟩
  · obtain ⟨result, hresult, events, hlog, hevents⟩ :=
      MessageValidator.Validate.go_lands schema constraints
        (HaltOnErrorHandler : ViolationHandlerFunc σ) fuel message
        (ValidationState.start handler_state) hfuel rfl
    refine ⟨result, hresult, ?_⟩
    simp only [ValidationState.start, List.nil_append] at hlog
    rw [hlog]
    cases hstatus : result.1 with
    | none =>
        simp only [hstatus] at hevents
        refine HaltIsLast_count events (HaltIsLast_of_NoHalt hevents.2.NoHalt) ?_
        intro parent field constraint halt hmem
        obtain ⟨_, hhandler⟩ := hevents.2.handled _ _ _ _ hmem
        exact hhandler.symm
    | some status =>
        simp only [hstatus] at hevents
        refine HaltIsLast_count events hevents.last ?_
        intro parent field constraint halt hmem
        obtain ⟨_, hhandler⟩ := hevents.handled _ _ _ _ hmem
        exact hhandler.symm

theorem MessageValidator_stops_after_halt_witness :
    MessageDepth (Patient.ofNames []) < 2 ∧
    ((∃ result,
      MessageValidator.Validate ExampleSchema
        (fun descriptor => .ok ((fun _ =>
          { message_expressions_ := [FalseConstraint, FalseConstraint],
            field_expressions_ := [], nested_with_constraints_ := [] }) descriptor)) 2
        (Patient.ofNames []) HaltOnErrorHandler () = some result ∧
      ∀ before after parent field constraint,
        result.2.log = before ++ ValidationEvent.handler parent field constraint true :: after →
        after = [] ∧ result.2.halt_validation = true ∧
          result.1 = some (FirstFailure result.2.log) ∧
          ∃ failure, FirstFailure result.2.log = .error failure) ∧
    (∃ result,
      MessageValidator.Validate ExampleSchema
        (fun descriptor => .ok ((fun _ =>
          { message_expressions_ := [FalseConstraint, FalseConstraint],
            field_expressions_ := [], nested_with_constraints_ := [] }) descriptor)) 2
        (Patient.ofNames []) HaltOnErrorHandler () = some result ∧
      (result.2.log.filter ValidationEvent.is_handler).length ≤ 1)) :=
  ⟨by decide,
    MessageValidator_stops_after_halt ExampleSchema
      (fun _ =>
        { message_expressions_ := [FalseConstraint, FalseConstraint],
          field_expressions_ := [], nested_with_constraints_ := [] })
      HaltOnErrorHandler () 2 (Patient.ofNames []) (by decide)⟩

/-! ## Validation: a message constraint that fails -/

theorem EvaluationResult.GetBoolean_ok_iff (messages : List Message) (value : Bool) :
    EvaluationResult.GetBoolean messages = .ok value ↔ messages = [.Boolean value] := by
  unfold EvaluationResult.GetBoolean IsSingleBoolean MessagesToBoolean
  constructor
  · intro h
    rcases messages with _ | ⟨message, _ | ⟨second, rest⟩⟩
    · simp at h
    · cases message <;> simp [IsMessageType, AsBoolean] at h
      rw [h]
    · simp at h
  · rintro rfl
    simp [IsMessageType, AsBoolean]

theorem ValidateMessageConstraint_fails {σ : Type} (message : Message)
    (expression : CompiledExpression) (handler : ViolationHandlerFunc σ)
    (state : ValidationState σ)
    (hnot : CompiledExpression.Evaluate expression.root_expression_ message ≠
      .ok [.Boolean true]) :
    ∃ failure, (ValidateMessageConstraint message expression handler state).1 =
      .error failure := by
  cases hresult : CompiledExpression.Evaluate expression.root_expression_ message with
  | error failure =>
      rw [ValidateMessageConstraint_of_error _ _ _ _ _ hresult]
      exact ⟨_, rfl⟩
  | ok expr_result =>
      cases hboolean : EvaluationResult.GetBoolean expr_result with
      | error failure =>
          rw [ValidateMessageConstraint_of_not_boolean _ _ _ _ _ _ hresult hboolean]
          exact ⟨_, rfl⟩
      | ok value =>
          cases value with
          | false =>
              rw [ValidateMessageConstraint_of_false _ _ _ _ _ hresult hboolean]
              exact ⟨_, rfl⟩
          | true =>
              rw [(EvaluationResult.GetBoolean_ok_iff _ _).1 hboolean] at hresult
              exact absurd hresult hnot

theorem Lands.error_stays {σ : Type} {handler : ViolationHandlerFunc σ}
    {failure : Status} {state : ValidationState σ} {result : ValidateResult σ}
    (hresult : Lands handler (.error failure, state) result) :
    result.1 ≠ some (.ok ()) := by
  obtain ⟨events, _, hevents⟩ := hresult
  cases hstatus : result.1 with
  | none => simp
  | some status =>
      simp only [hstatus] at hevents
      rw [hevents.first, UpdateStatus_error]
      simp

theorem Lands.halted_fails {σ : Type} {handler : ViolationHandlerFunc σ}
    {captured : StatusOr Unit × ValidationState σ} {result : ValidateResult σ}
    (hresult : Lands handler captured result)
    (hhalt : captured.2.halt_validation = false)
    (hhalted : result.2.halt_validation = true) : result.1 ≠ some (.ok ()) := by
  obtain ⟨events, _, hevents⟩ := hresult
  cases hstatus : result.1 with
  | none => simp
  | some status =>
      simp only [hstatus] at hevents
      obtain ⟨failure, hfailure⟩ := hevents.failed hhalted hhalt
      rw [hfailure]
      simp

theorem MessageValidator.Validate.message_expressions_fails {σ : Type} (message : Message)
    (handler : ViolationHandlerFunc σ) (expressions : List CompiledExpression)
    (expression : CompiledExpression) (hmem : expression ∈ expressions)
    (hnot : CompiledExpression.Evaluate expression.root_expression_ message ≠
      .ok [.Boolean true])
    (captured : StatusOr Unit × ValidationState σ)
    (hhalt : captured.2.halt_validation = false) :
    match MessageValidator.Validate.message_expressions message handler expressions
        captured with
    | .ok after => ∃ failure, after.1 = .error failure
    | .error exit => exit.1 ≠ some (.ok ()) := by
  induction expressions generalizing captured with
  | nil => cases hmem
  | cons expr rest ih =>
      obtain ⟨accumulative_status, state⟩ := captured
      have hstep := ValidateMessageConstraint_lands message expr handler accumulative_status
        state hhalt
      unfold MessageValidator.Validate.message_expressions
      simp only
      cases hhalted :
          (ValidateMessageConstraint message expr handler state).2.halt_validation with
      | true =>
          simp only [if_true]
          exact Lands.halted_fails hstep hhalt hhalted
      | false =>
          simp only [Bool.false_eq_true, if_false]
          rcases List.mem_cons.1 hmem with rfl | hrest
          · obtain ⟨failure, hfailure⟩ :=
              ValidateMessageConstraint_fails message expression handler state hnot
            obtain ⟨first, hfirst⟩ := UpdateStatus_of_error accumulative_status failure
            rw [hfailure, hfirst]
            have hloop := MessageValidator.Validate.message_expressions_lands message handler
              rest (.error first, (ValidateMessageConstraint message expression handler state).2)
              hhalted
            cases hcall : MessageValidator.Validate.message_expressions message handler rest
                (.error first,
                  (ValidateMessageConstraint message expression handler state).2) with
            | error exit =>
                rw [hcall] at hloop
                obtain ⟨result, hexit, hresult⟩ := hloop
                cases hexit
                exact Lands.error_stays hresult
            | ok after =>
                rw [hcall] at hloop
                obtain ⟨events, _, hevents⟩ := hloop
                exact ⟨first, by rw [hevents.first, UpdateStatus_error]⟩
          · exact ih hrest _ hhalted

theorem MessageValidator.Validate.go_fails {σ : Type} (schema : Schema)
    (constraints : Descriptor → MessageConstraints) (handler : ViolationHandlerFunc σ)
    (fuel : Nat) (message : Message) (state : ValidationState σ)
    (hfuel : MessageDepth message < fuel) (hhalt : state.halt_validation = false)
    (expression : CompiledExpression)
    (hmem : expression ∈ (constraints (GetDescriptor message)).message_expressions_)
    (hnot : CompiledExpression.Evaluate expression.root_expression_ message ≠
      .ok [.Boolean true]) :
    ∃ result,
      MessageValidator.Validate.go schema (fun descriptor => .ok (constraints descriptor))
        handler fuel message state = some result ∧
      result.1 ≠ some (.ok ()) := by
  cases fuel with
  | zero => cases hfuel
  | succ fuel =>
      unfold MessageValidator.Validate.go
      simp only
      have hfirst := MessageValidator.Validate.message_expressions_fails message handler
        (constraints (GetDescriptor message)).message_expressions_ expression hmem hnot
        (.ok (), state) hhalt
      cases hloop : MessageValidator.Validate.message_expressions message handler
          (constraints (GetDescriptor message)).message_expressions_ (.ok (), state) with
      | error exit =>
          rw [hloop] at hfirst
          exact ⟨_, rfl, hfirst⟩
      | ok first =>
          rw [hloop] at hfirst
          obtain ⟨failure, hfailure⟩ := hfirst
          obtain ⟨status, after⟩ := first
          simp only at hfailure
          subst hfailure
          simp only
          have hsecond := MessageValidator.Validate.field_expressions_lands schema message
            handler (constraints (GetDescriptor message)).field_expressions_
            (.error failure, after)
          cases hloop2 : MessageValidator.Validate.field_expressions schema message handler
              (constraints (GetDescriptor message)).field_expressions_
              (.error failure, after) with
          | error exit =>
              rw [hloop2] at hsecond
              obtain ⟨result, hexit, hresult⟩ := hsecond
              cases hexit
              exact ⟨_, rfl, Lands.error_stays hresult⟩
          | ok second =>
              rw [hloop2] at hsecond
              simp only
              have hthird := MessageValidator.Validate.nested_with_constraints_lands handler
                (MessageValidator.Validate.go schema
                  (fun descriptor => .ok (constraints descriptor)) handler fuel)
                message (constraints (GetDescriptor message)).nested_with_constraints_
                (fun field _ child hchild state hstate =>
                  MessageValidator.Validate.go_lands schema constraints handler fuel child
                    state
                    (Nat.lt_of_lt_of_le (MessageDepth.FieldValues_lt message field child hchild)
                      (Nat.le_of_lt_succ hfuel))
                    hstate)
                second
              cases hloop3 : MessageValidator.Validate.nested_with_constraints
                  (MessageValidator.Validate.go schema
                    (fun descriptor => .ok (constraints descriptor)) handler fuel)
                  message (constraints (GetDescriptor message)).nested_with_constraints_
                  second with
              | error exit =>
                  rw [hloop3] at hthird
                  obtain ⟨result, hexit, hresult⟩ := hthird
                  cases hexit
                  exact ⟨_, rfl, Lands.error_stays (Lands.continued hsecond hresult)⟩
              | ok third =>
                  rw [hloop3] at hthird
                  exact ⟨_, rfl, Lands.error_stays (Lands.continued hsecond hthird)⟩

/-- C37 (counterexample): a message-level constraint that evaluates to the empty
collection is not reported to the handler.  The validation of a patient whose
type has the constraint of the empty literal returns InvalidArgument and halts;
the handler, which counts its calls, was not called. -/
theorem MessageValidator_does_not_report_empty_result :
    CompiledExpression.Evaluate EmptyConstraint.root_expression_ (Patient.ofNames []) =
      .ok [] ∧
    MessageValidator.Validate ExampleSchema
        (fun _ =>
          .ok { message_expressions_ := [EmptyConstraint], field_expressions_ := [],
                nested_with_constraints_ := [] })
        2 (Patient.ofNames []) CountingHandler 0 =
      some (some (.error (.InvalidArgument
          "Constraint did not evaluate to boolean: Patient: \"\x7b\x7d\"")),
        { halt_validation := true, handler_state := 0,
          log := [.constraint (Patient.ofNames []) "\x7b\x7d"
            (some (.error (.InvalidArgument
              "Constraint did not evaluate to boolean: Patient: \"\x7b\x7d\"")))] }) :=
  ⟨rfl, rfl⟩

/-- C37 (amended): for a message-level constraint of the type of the message
whose evaluation succeeds with another result than a single Boolean true, the
validation with fuel above the depth of the message ends and does not return
OK.  When the result is a single Boolean false, `ValidateMessageConstraint`
calls the handler with the message, the null field and the text of the
expression, and returns FailedPrecondition.  When the result is the empty
collection, not a Boolean or more than one message, it returns InvalidArgument
and halts the validation, and the handler is not called. -/
theorem ValidateMessageConstraint_reports_false {σ : Type} (schema : Schema)
    (constraints : Descriptor → MessageConstraints) (handler : ViolationHandlerFunc σ)
    (handler_state : σ) (fuel : Nat) (message : Message) (expression : CompiledExpression)
    (expr_result : List Message) (hfuel : MessageDepth message < fuel)
    (hmem : expression ∈ (constraints (GetDescriptor message)).message_expressions_)
    (hresult : CompiledExpression.Evaluate expression.root_expression_ message =
      .ok expr_result)
    (hnot : expr_result ≠ [.Boolean true]) :
    (∃ result,
      MessageValidator.Validate schema (fun descriptor => .ok (constraints descriptor)) fuel
        message handler handler_state = some result ∧
      result.1 ≠ some (.ok ())) ∧
    (expr_result = [.Boolean false] →
      ∀ state : ValidationState σ,
        ValidateMessageConstraint message expression handler state =
          (.error (.FailedPrecondition
              ("fhirpath-constraint-violation-" ++ (GetDescriptor message).name ++ ": \"" ++
                expression.fhir_path_ ++ "\"")),
            (state.record (.constraint message expression.fhir_path_
                (some (.error (.FailedPrecondition
                  ("fhirpath-constraint-violation-" ++ (GetDescriptor message).name ++
                    ": \"" ++ expression.fhir_path_ ++ "\"")))))).call
              handler message none expression.fhir_path_)) ∧
    (expr_result ≠ [.Boolean false] →
      ∀ state : ValidationState σ,
        ValidateMessageConstraint message expression handler state =
          (.error (.InvalidArgument
              ("Constraint did not evaluate to boolean: " ++ (GetDescriptor message).name ++
                ": \"" ++ expression.fhir_path_ ++ "\"")),
            { halt_validation := true, handler_state := state.handler_state,
              log := state.log ++
                [.constraint message expression.fhir_path_
                  (some (.error (.InvalidArgument
                    ("Constraint did not evaluate to boolean: " ++
                      (GetDescriptor message).name ++ ": \"" ++ expression.fhir_path_ ++
                      "\""))))] })) := by
  refine ⟨?_, ?_, ?_⟩
  · exact MessageValidator.Validate.go_fails schema constraints handler fuel message
      (ValidationState.start handler_state) hfuel rfl expression hmem
      (by
        rw [hresult]
        intro h
        injection h with h
        exact hnot h)
  · rintro rfl state
    exact ValidateMessageConstraint_of_false message expression handler state _ hresult
      ((EvaluationResult.GetBoolean_ok_iff _ _).2 rfl)
  · intro hfalse state
    cases hboolean : EvaluationResult.GetBoolean expr_result with
    | error failure =>
        exact ValidateMessageConstraint_of_not_boolean message expression handler state _ _
          hresult hboolean
    | ok value =>
        have := (EvaluationResult.GetBoolean_ok_iff _ _).1 hboolean
        cases value with
        | true => exact absurd this hnot
        | false => exact absurd this hfalse

theorem ValidateMessageConstraint_reports_false_witness :
    MessageDepth (Patient.ofNames []) < 2 ∧
    FalseConstraint ∈ [TrueConstraint, FalseConstraint] ∧
    (∃ result,
      MessageValidator.Validate ExampleSchema
        (fun descriptor => .ok ((fun _ =>
          { message_expressions_ := [TrueConstraint, FalseConstraint],
            field_expressions_ := [], nested_with_constraints_ := [] }) descriptor)) 2
        (Patient.ofNames []) CountingHandler 0 = some result ∧
      result.1 ≠ some (.ok ())) :=
  ⟨by decide, List.mem_cons_of_mem _ (List.mem_cons_self _ _),
    (ValidateMessageConstraint_reports_false ExampleSchema
      (fun _ =>
        { message_expressions_ := [TrueConstraint, FalseConstraint],
          field_expressions_ := [], nested_with_constraints_ := [] })
      CountingHandler 0 2 (Patient.ofNames []) FalseConstraint [.Boolean false] (by decide)
      (List.mem_cons_of_mem _ (List.mem_cons_self _ _)) rfl (by decide)).1⟩

/-! ## Validation: the first failure and the traversal -/

theorem FirstFailure_ok_iff (events : List ValidationEvent) (hreturns : NoAbort events) :
    FirstFailure events = .ok () ↔
      ∀ message fhir_path status,
        ValidationEvent.constraint message fhir_path status ∈ events → status = some (.ok ()) := by
  induction events with
  | nil => simp [FirstFailure]
  | cons event rest ih =>
      have hrest := ih (fun message fhir_path h =>
        hreturns message fhir_path (List.mem_cons_of_mem _ h))
      cases event with
      | handler parent field constraint halt =>
          simp only [FirstFailure, hrest, List.mem_cons]
          constructor
          · rintro h _ _ _ (heq | hmem)
            · cases heq
            · exact h _ _ _ hmem
          · intro h _ _ _ hmem
            exact h _ _ _ (Or.inr hmem)
      | constraint message fhir_path status =>
          cases status with
          | none => exact absurd (List.mem_cons_self _ _) (hreturns message fhir_path)
          | some status =>
              cases status with
              | ok value =>
                  simp only [FirstFailure, hrest, List.mem_cons, ValidationEvent.constraint.injEq]
                  constructor
                  · rintro h _ _ _ (⟨_, _, rfl⟩ | hmem)
                    · rfl
                    · exact h _ _ _ hmem
                  · intro h _ _ _ hmem
                    exact h _ _ _ (Or.inr hmem)
              | error failure =>
                  simp only [FirstFailure, List.mem_cons]
                  constructor
                  · intro h
                    cases h
                  · intro h
                    have := h message fhir_path _ (Or.inl rfl)
                    simp at this

theorem FirstFailure_error (events : List ValidationEvent) (failure : Status)
    (hfailure : FirstFailure events = .error failure) :
    ∃ before message fhir_path after,
      events = before ++ ValidationEvent.constraint message fhir_path (some (.error failure)) ::
        after ∧
      FirstFailure before = .ok () := by
  induction events with
  | nil => simp [FirstFailure] at hfailure
  | cons event rest ih =>
      cases event with
      | handler parent field constraint halt =>
          simp only [FirstFailure] at hfailure
          obtain ⟨before, message, fhir_path, after, hsplit, hbefore⟩ := ih hfailure
          exact ⟨_ :: before, message, fhir_path, after, by rw [hsplit]; rfl,
            by simpa [FirstFailure] using hbefore⟩
      | constraint message fhir_path status =>
          cases status with
          | none =>
              simp only [FirstFailure] at hfailure
              obtain ⟨before, message, fhir_path, after, hsplit, hbefore⟩ := ih hfailure
              exact ⟨_ :: before, message, fhir_path, after, by rw [hsplit]; rfl,
                by simpa [FirstFailure] using hbefore⟩
          | some status =>
              cases status with
              | ok value =>
                  simp only [FirstFailure] at hfailure
                  obtain ⟨before, message, fhir_path, after, hsplit, hbefore⟩ := ih hfailure
                  exact ⟨_ :: before, message, fhir_path, after, by rw [hsplit]; rfl,
                    by simpa [FirstFailure] using hbefore⟩
              | error first =>
                  simp only [FirstFailure] at hfailure
                  injection hfailure with hfailure
                  subst hfailure
                  exact ⟨[], message, fhir_path, rest, rfl, rfl⟩

theorem EvaluationResult.GetBoolean_of_single (messages : List Message)
    (hsingle : IsSingleBoolean messages = true) :
    ∃ value, EvaluationResult.GetBoolean messages = .ok value := by
  rcases messages with _ | ⟨message, _ | ⟨second, rest⟩⟩
  · simp [IsSingleBoolean] at hsingle
  · cases message <;> simp [IsSingleBoolean, IsMessageType, AsBoolean] at hsingle
    exact ⟨_, (EvaluationResult.GetBoolean_ok_iff _ _).2 rfl⟩
  · simp [IsSingleBoolean] at hsingle

theorem ValidateMessageConstraint_traverses {σ : Type} (schema : Schema) (message : Message)
    (expression : CompiledExpression) (handler : ViolationHandlerFunc σ)
    (state : ValidationState σ)
    (hhandler : ∀ handler_state parent field constraint,
      (handler handler_state parent field constraint).1 = false)
    (hhalt : state.halt_validation = false)
    (hsingle : ∀ expr_result,
      CompiledExpression.Evaluate expression.root_expression_ message = .ok expr_result →
      IsSingleBoolean expr_result = true) :
    (ValidateMessageConstraint message expression handler state).2.halt_validation = false ∧
    (ValidateMessageConstraint message expression handler state).2.log =
      state.log ++ TraversalEntry.events schema
        { parent := message, field := none, message := message, expression := expression } := by
  simp only [TraversalEntry.events]
  cases hresult : CompiledExpression.Evaluate expression.root_expression_ message with
  | error failure =>
      rw [ValidateMessageConstraint_of_error _ _ _ _ _ hresult,
        ValidateMessageConstraint_of_error _ _ _ _ _ hresult]
      exact ⟨hhalt, rfl⟩
  | ok expr_result =>
      obtain ⟨value, hboolean⟩ :=
        EvaluationResult.GetBoolean_of_single expr_result (hsingle expr_result hresult)
      cases value with
      | true =>
          rw [ValidateMessageConstraint_of_true _ _ _ _ _ hresult hboolean,
            ValidateMessageConstraint_of_true _ _ _ _ _ hresult hboolean]
          exact ⟨hhalt, rfl⟩
      | false =>
          rw [ValidateMessageConstraint_of_false _ _ _ _ _ hresult hboolean,
            ValidateMessageConstraint_of_false _ _ _ _ _ hresult hboolean]
          simp [ValidationState.call, ValidationState.record, ValidationState.start, hhandler,
            ContinueHandler]

theorem ValidateFieldConstraint_traverses {σ : Type} (schema : Schema) (parent : Message)
    (field : FieldDescriptor) (field_value : Message) (expression : CompiledExpression)
    (handler : ViolationHandlerFunc σ) (state : ValidationState σ)
    (hhandler : ∀ handler_state parent field constraint,
      (handler handler_state parent field constraint).1 = false)
    (hhalt : state.halt_validation = false)
    (hsingle : ∀ expr_result,
      CompiledExpression.Evaluate expression.root_expression_ field_value = .ok expr_result →
      IsSingleBoolean expr_result = true) :
    ∃ status after,
      ValidateFieldConstraint schema parent field field_value expression handler state =
        (some status, after) ∧
      after.halt_validation = false ∧
      after.log = state.log ++ TraversalEntry.events schema
        { parent := parent, field := some field, message := field_value,
          expression := expression } := by
  simp only [TraversalEntry.events]
  cases hresult : CompiledExpression.Evaluate expression.root_expression_ field_value with
  | error failure =>
      rw [ValidateFieldConstraint_of_error _ _ _ _ _ _ _ _ hresult,
        ValidateFieldConstraint_of_error _ _ _ _ _ _ _ _ hresult]
      exact ⟨_, _, rfl, hhalt, rfl⟩
  | ok expr_result =>
      obtain ⟨value, hboolean⟩ :=
        EvaluationResult.GetBoolean_of_single expr_result (hsingle expr_result hresult)
      cases value with
      | true =>
          rw [ValidateFieldConstraint_of_true _ _ _ _ _ _ _ _ hresult hboolean,
            ValidateFieldConstraint_of_true _ _ _ _ _ _ _ _ hresult hboolean]
          exact ⟨_, _, rfl, hhalt, rfl⟩
      | false =>
          rw [ValidateFieldConstraint_of_false _ _ _ _ _ _ _ _ hresult hboolean,
            ValidateFieldConstraint_of_false _ _ _ _ _ _ _ _ hresult hboolean]
          refine ⟨_, _, rfl, ?_, ?_⟩
          · simp [ValidationState.call, hhandler]
          · simp [ValidationState.call, ValidationState.record, ValidationState.start, hhandler,
              ContinueHandler]

theorem ForEachMessageHalting.loop_traverses {σ E : Type}
    (func : Message → StatusOr Unit × ValidationState σ →
      Except E (Bool × (StatusOr Unit × ValidationState σ)))
    (events : Message → List ValidationEvent) (children : List Message)
    (hfunc : ∀ child ∈ children, ∀ captured : StatusOr Unit × ValidationState σ,
      captured.2.halt_validation = false →
      ∃ after, func child captured = .ok (false, after) ∧
        after.2.halt_validation = false ∧ after.2.log = captured.2.log ++ events child)
    (captured : StatusOr Unit × ValidationState σ)
    (hhalt : captured.2.halt_validation = false) :
    ∃ after, ForEachMessageHalting.loop func children captured = .ok after ∧
      after.2.halt_validation = false ∧
      after.2.log = captured.2.log ++ children.flatMap events := by
  induction children generalizing captured with
  | nil => exact ⟨captured, rfl, hhalt, by simp⟩
  | cons child rest ih =>
      obtain ⟨middle, hcall, hmiddle, hlog⟩ :=
        hfunc child (List.mem_cons_self _ _) captured hhalt
      obtain ⟨after, hloop, hafter, hlog2⟩ :=
        ih (fun child hmem => hfunc child (List.mem_cons_of_mem _ hmem)) middle hmiddle
      refine ⟨after, ?_, hafter, ?_⟩
      · rw [ForEachMessageHalting.loop, hcall]
        exact hloop
      · rw [hlog2, hlog, List.flatMap_cons, List.append_assoc]

theorem MessageValidator.Validate.message_expressions_traverses {σ : Type} (schema : Schema)
    (message : Message) (handler : ViolationHandlerFunc σ)
    (hhandler : ∀ handler_state parent field constraint,
      (handler handler_state parent field constraint).1 = false)
    (expressions : List CompiledExpression)
    (hsingle : ∀ expression ∈ expressions, ∀ expr_result,
      CompiledExpression.Evaluate expression.root_expression_ message = .ok expr_result →
      IsSingleBoolean expr_result = true)
    (captured : StatusOr Unit × ValidationState σ)
    (hhalt : captured.2.halt_validation = false) :
    ∃ after,
      MessageValidator.Validate.message_expressions message handler expressions captured =
        .ok after ∧
      after.2.halt_validation = false ∧
      after.2.log = captured.2.log ++
        (expressions.map fun expression =>
          ({ parent := message, field := none, message := message,
             expression := expression } : TraversalEntry)).flatMap
          (TraversalEntry.events schema) := by
  induction expressions generalizing captured with
  | nil => exact ⟨captured, rfl, hhalt, by simp⟩
  | cons expr rest ih =>
      obtain ⟨accumulative_status, state⟩ := captured
      obtain ⟨hmiddle, hlog⟩ := ValidateMessageConstraint_traverses schema message expr
        handler state hhandler hhalt (hsingle expr (List.mem_cons_self _ _))
      obtain ⟨after, hloop, hafter, hlog2⟩ :=
        ih (fun expression hmem => hsingle expression (List.mem_cons_of_mem _ hmem))
          (UpdateStatus accumulative_status
            (ValidateMessageConstraint message expr handler state).1,
            (ValidateMessageConstraint message expr handler state).2) hmiddle
      refine ⟨after, ?_, hafter, ?_⟩
      · rw [MessageValidator.Validate.message_expressions]
        simp only [hmiddle, Bool.false_eq_true, if_false]
        exact hloop
      · rw [hlog2, hlog, List.map_cons, List.flatMap_cons, List.append_assoc]

theorem MessageValidator.Validate.field_expressions_traverses {σ : Type} (schema : Schema)
    (message : Message) (handler : ViolationHandlerFunc σ)
    (hhandler : ∀ handler_state parent field constraint,
      (handler handler_state parent field constraint).1 = false)
    (expressions : List (FieldDescriptor × CompiledExpression))
    (hsingle : ∀ expression ∈ expressions, ∀ child ∈ FieldValues message expression.1,
      ∀ expr_result,
      CompiledExpression.Evaluate expression.2.root_expression_ child = .ok expr_result →
      IsSingleBoolean expr_result = true)
    (captured : StatusOr Unit × ValidationState σ)
    (hhalt : captured.2.halt_validation = false) :
    ∃ after,
      MessageValidator.Validate.field_expressions schema message handler expressions
        captured = .ok after ∧
      after.2.halt_validation = false ∧
      after.2.log = captured.2.log ++
        (expressions.flatMap fun expression =>
          (FieldValues message expression.1).map fun child =>
            ({ parent := message, field := some expression.1, message := child,
               expression := expression.2 } : TraversalEntry)).flatMap
          (TraversalEntry.events schema) := by
  induction expressions generalizing captured with
  | nil => exact ⟨captured, rfl, hhalt, by simp⟩
  | cons expression rest ih =>
      obtain ⟨accumulative_status, state⟩ := captured
      obtain ⟨middle, heach, hmiddle, hlog⟩ := ForEachMessageHalting.loop_traverses
        (MessageValidator.Validate.field_expression schema message handler expression.1
          expression.2)
        (fun child => TraversalEntry.events schema
          { parent := message, field := some expression.1, message := child,
            expression := expression.2 })
        (FieldValues message expression.1)
        (by
          intro child hchild captured hcaptured
          obtain ⟨status, after, hcall, hafter, hlog⟩ :=
            ValidateFieldConstraint_traverses schema message expression.1 child expression.2
              handler captured.2 hhandler hcaptured
              (hsingle expression (List.mem_cons_self _ _) child hchild)
          refine ⟨(UpdateStatus captured.1 status, after), ?_, hafter, hlog⟩
          rw [MessageValidator.Validate.field_expression, hcall]
          simp only [hafter])
        (accumulative_status, state) hhalt
      obtain ⟨after, hloop, hafter, hlog2⟩ :=
        ih (fun expression hmem => hsingle expression (List.mem_cons_of_mem _ hmem)) middle
          hmiddle
      refine ⟨after, ?_, hafter, ?_⟩
      · rw [MessageValidator.Validate.field_expressions]
        simp only at hhalt
        simp only [hhalt, Bool.false_eq_true, if_false, ForEachMessageHalting, heach]
        exact hloop
      · rw [hlog2, hlog, List.flatMap_cons, List.flatMap_append, List.append_assoc]
        simp [List.flatMap_def, List.map_map, Function.comp_def]

theorem MessageValidator.Validate.nested_with_constraints_traverses {σ : Type}
    (schema : Schema)
    (Validate : Message → ValidationState σ → Option (ValidateResult σ))
    (traversal : Message → List TraversalEntry) (message : Message)
    (fields : List FieldDescriptor)
    (hValidate : ∀ field ∈ fields, ∀ child ∈ FieldValues message field,
      ∀ state : ValidationState σ, state.halt_validation = false →
      ∃ status after, Validate child state = some (some status, after) ∧
        after.halt_validation = false ∧
        after.log = state.log ++ (traversal child).flatMap (TraversalEntry.events schema))
    (captured : StatusOr Unit × ValidationState σ)
    (hhalt : captured.2.halt_validation = false) :
    ∃ after,
      MessageValidator.Validate.nested_with_constraints Validate message fields captured =
        .ok after ∧
      after.2.halt_validation = false ∧
      after.2.log = captured.2.log ++
        (fields.flatMap fun field => (FieldValues message field).flatMap traversal).flatMap
          (TraversalEntry.events schema) := by
  induction fields generalizing captured with
  | nil => exact ⟨captured, rfl, hhalt, by simp⟩
  | cons field rest ih =>
      obtain ⟨accumulative_status, state⟩ := captured
      obtain ⟨middle, heach, hmiddle, hlog⟩ := ForEachMessageHalting.loop_traverses
        (MessageValidator.Validate.nested_message Validate)
        (fun child => (traversal child).flatMap (TraversalEntry.events schema))
        (FieldValues message field)
        (by
          intro child hchild captured hcaptured
          obtain ⟨status, after, hcall, hafter, hlog⟩ :=
            hValidate field (List.mem_cons_self _ _) child hchild captured.2 hcaptured
          refine ⟨(UpdateStatus captured.1 status, after), ?_, hafter, hlog⟩
          rw [MessageValidator.Validate.nested_message, hcall]
          simp only [hafter])
        (accumulative_status, state) hhalt
      obtain ⟨after, hloop, hafter, hlog2⟩ :=
        ih (fun field hmem => hValidate field (List.mem_cons_of_mem _ hmem)) middle hmiddle
      refine ⟨after, ?_, hafter, ?_⟩
      · rw [MessageValidator.Validate.nested_with_constraints]
        simp only at hhalt
        simp only [hhalt, Bool.false_eq_true, if_false, ForEachMessageHalting, heach]
        exact hloop
      · rw [hlog2, hlog]
        simp only [List.flatMap_cons, List.flatMap_append, List.append_assoc,
          List.flatMap_assoc]

theorem MessageValidator.Validate.go_traverses {σ : Type} (schema : Schema)
    (constraints : Descriptor → MessageConstraints) (handler : ViolationHandlerFunc σ)
    (hhandler : ∀ handler_state parent field constraint,
      (handler handler_state parent field constraint).1 = false)
    (fuel : Nat) (message : Message) (state : ValidationState σ)
    (hfuel : MessageDepth message < fuel) (hhalt : state.halt_validation = false)
    (hsingle : ∀ entry ∈ Traversal constraints fuel message, ∀ expr_result,
      CompiledExpression.Evaluate entry.expression.root_expression_ entry.message =
        .ok expr_result →
      IsSingleBoolean expr_result = true) :
    ∃ status after,
      MessageValidator.Validate.go schema (fun descriptor => .ok (constraints descriptor))
        handler fuel message state = some (some status, after) ∧
      after.halt_validation = false ∧
      after.log = state.log ++
        (Traversal constraints fuel message).flatMap (TraversalEntry.events schema) := by
  induction fuel generalizing message state with
  | zero => cases hfuel
  | succ fuel ih =>
      rw [Traversal] at hsingle
      obtain ⟨first, hloop, hfirst, hlog⟩ :=
        MessageValidator.Validate.message_expressions_traverses schema message handler
          hhandler (constraints (GetDescriptor message)).message_expressions_
          (fun expression hmem expr_result hresult =>
            hsingle _ (List.mem_append_left _ (List.mem_append_left _
              (List.mem_map_of_mem _ hmem))) expr_result hresult)
          (.ok (), state) hhalt
      obtain ⟨second, hloop2, hsecond, hlog2⟩ :=
        MessageValidator.Validate.field_expressions_traverses schema message handler
          hhandler (constraints (GetDescriptor message)).field_expressions_
          (fun expression hmem child hchild expr_result hresult =>
            hsingle
              { parent := message, field := some expression.1, message := child,
                expression := expression.2 }
              (List.mem_append_left _ (List.mem_append_right _
                (List.mem_flatMap.2 ⟨expression, hmem, List.mem_map_of_mem _ hchild⟩)))
              expr_result hresult)
          first hfirst
      obtain ⟨third, hloop3, hthird, hlog3⟩ :=
        MessageValidator.Validate.nested_with_constraints_traverses schema
          (MessageValidator.Validate.go schema
            (fun descriptor => .ok (constraints descriptor)) handler fuel)
          (Traversal constraints fuel) message
          (constraints (GetDescriptor message)).nested_with_constraints_
          (fun field hfield child hchild state hstate =>
            ih child state
              (Nat.lt_of_lt_of_le (MessageDepth.FieldValues_lt message field child hchild)
                (Nat.le_of_lt_succ hfuel))
              hstate
              (fun entry hentry =>
                hsingle entry (List.mem_append_right _
                  (List.mem_flatMap.2 ⟨field, hfield,
                    List.mem_flatMap.2 ⟨child, hchild, hentry⟩⟩))))
          second hsecond
      refine ⟨third.1, third.2, ?_, hthird, ?_⟩
      · rw [MessageValidator.Validate.go]
        simp only [hloop, hloop2, hloop3]
      · rw [hlog3, hlog2, hlog, Traversal]
        simp only [List.flatMap_append, List.append_assoc]

theorem Traversal_parent (constraints : Descriptor → MessageConstraints) (fuel : Nat)
    (message : Message) (entry : TraversalEntry)
    (hentry : entry ∈ Traversal constraints fuel message) (hfield : entry.field = none) :
    entry.parent = entry.message := by
  induction fuel generalizing message with
  | zero => simp [Traversal] at hentry
  | succ fuel ih =>
      rw [Traversal] at hentry
      rcases List.mem_append.1 hentry with hentry | hentry
      · rcases List.mem_append.1 hentry with hentry | hentry
        · obtain ⟨expression, _, rfl⟩ := List.mem_map.1 hentry
          rfl
        · obtain ⟨expression, _, hentry⟩ := List.mem_flatMap.1 hentry
          obtain ⟨child, _, rfl⟩ := List.mem_map.1 hentry
          cases hfield
      · obtain ⟨field, _, hentry⟩ := List.mem_flatMap.1 hentry
        obtain ⟨child, _, hentry⟩ := List.mem_flatMap.1 hentry
        exact ih child hentry

theorem TraversalEntry.events_of_false (schema : Schema) (entry : TraversalEntry)
    (hparent : entry.field = none → entry.parent = entry.message)
    (hresult : CompiledExpression.Evaluate entry.expression.root_expression_ entry.message =
      .ok [.Boolean false]) :
    ValidationEvent.handler entry.parent entry.field entry.expression.fhir_path_ false ∈
      entry.events schema := by
  obtain ⟨parent, field, message, expression⟩ := entry
  have hboolean := (EvaluationResult.GetBoolean_ok_iff [.Boolean false] false).2 rfl
  cases field with
  | none =>
      have hparent : parent = message := hparent rfl
      subst hparent
      simp only [TraversalEntry.events]
      rw [ValidateMessageConstraint_of_false _ _ _ _ _ hresult hboolean]
      simp [ValidationState.call, ValidationState.record, ContinueHandler]
  | some field =>
      simp only [TraversalEntry.events]
      rw [ValidateFieldConstraint_of_false _ _ _ _ _ _ _ _ hresult hboolean]
      simp [ValidationState.call, ValidationState.record, ContinueHandler]

/-- C33 (counterexample): with a handler that never halts, a constraint of the
traversal is not evaluated and its violation is not reported.  The type of the
patient has the constraints of the empty literal and of `false`: the traversal
has both, the validation evaluates the first one only, halts and returns its
InvalidArgument, and the handler is not called for the second one, which
evaluates to a single false. -/
theorem MessageValidator_skips_constraints_without_halt :
    (Traversal
        (fun _ =>
          { message_expressions_ := [EmptyConstraint, FalseConstraint],
            field_expressions_ := [], nested_with_constraints_ := [] })
        2 (Patient.ofNames [])).map (fun entry => entry.expression.fhir_path_) =
      ["\x7b\x7d", "false"] ∧
    CompiledExpression.Evaluate FalseConstraint.root_expression_ (Patient.ofNames []) =
      .ok [.Boolean false] ∧
    MessageValidator.Validate ExampleSchema
        (fun _ =>
          .ok { message_expressions_ := [EmptyConstraint, FalseConstraint],
                field_expressions_ := [], nested_with_constraints_ := [] })
        2 (Patient.ofNames []) ContinueHandler () =
      some (some (.error (.InvalidArgument
          "Constraint did not evaluate to boolean: Patient: \"\x7b\x7d\"")),
        { halt_validation := true, handler_state := (),
          log := [.constraint (Patient.ofNames []) "\x7b\x7d"
            (some (.error (.InvalidArgument
              "Constraint did not evaluate to boolean: Patient: \"\x7b\x7d\"")))] }) :=
  ⟨rfl, rfl, rfl⟩

/-- C33 (amended): a validation with fuel above the depth of the message ends.
When it returns a status, the status is the first failure among the statuses of
the constraints that it evaluated, in the order of the traversal: it is OK if
and only if every evaluated constraint returned OK, and a failure is the status
of a constraint before which every evaluated constraint returned OK.  When the
handler never halts and every constraint of the traversal whose evaluation
succeeds gives a single Boolean, the validation returns, every constraint of
the traversal is evaluated, in order, with the events that it has on its own,
and every constraint that gives false is reported to the handler. -/
theorem MessageValidator_returns_first_failure {σ : Type} (schema : Schema)
    (constraints : Descriptor → MessageConstraints) (handler : ViolationHandlerFunc σ)
    (handler_state : σ) (fuel : Nat) (message : Message)
    (hfuel : MessageDepth message < fuel) :
    ∃ result,
      MessageValidator.Validate schema (fun descriptor => .ok (constraints descriptor)) fuel
        message handler handler_state = some result ∧
      (∀ status, result.1 = some status →
        status = FirstFailure result.2.log ∧
        (status = .ok () ↔
          ∀ evaluated fhir_path returned,
            ValidationEvent.constraint evaluated fhir_path returned ∈ result.2.log →
            returned = some (.ok ())) ∧
        (∀ failure, status = .error failure →
          ∃ before evaluated fhir_path after,
            result.2.log =
              before ++ ValidationEvent.constraint evaluated fhir_path (some (.error failure)) ::
                after ∧
            ∀ earlier text returned,
              ValidationEvent.constraint earlier text returned ∈ before →
              returned = some (.ok ()))) ∧
      ((∀ held parent field constraint, (handler held parent field constraint).1 = false) →
        (∀ entry ∈ Traversal constraints fuel message, ∀ expr_result,
          CompiledExpression.Evaluate entry.expression.root_expression_ entry.message =
            .ok expr_result →
          IsSingleBoolean expr_result = true) →
        (∃ status, result.1 = some status) ∧
        result.2.halt_validation = false ∧
        result.2.log =
          (Traversal constraints fuel message).flatMap (TraversalEntry.events schema) ∧
        ∀ entry ∈ Traversal constraints fuel message,
          CompiledExpression.Evaluate entry.expression.root_expression_ entry.message =
            .ok [.Boolean false] →
          ValidationEvent.handler entry.parent entry.field entry.expression.fhir_path_ false ∈
            result.2.log) := by
  obtain ⟨result, hresult, events, hlog, hevents⟩ :=
    MessageValidator.Validate.go_lands schema constraints handler fuel message
      (ValidationState.start handler_state) hfuel rfl
  refine ⟨result, hresult, ?_, ?_⟩
  · simp only [ValidationState.start, List.nil_append] at hlog
    intro status hstatus
    simp only [hstatus] at hevents
    have hfirst : status = FirstFailure events := by
      rw [hevents.first, UpdateStatus_ok_left]
    have hreturns : NoAbort events := hevents.returns
    rw [hlog]
    refine ⟨hfirst, ?_, ?_⟩
    · rw [hfirst]
      exact FirstFailure_ok_iff events hreturns
    · intro failure hfailure
      rw [hfirst] at hfailure
      obtain ⟨before, evaluated, fhir_path, after, hsplit, hbefore⟩ :=
        FirstFailure_error events failure hfailure
      refine ⟨before, evaluated, fhir_path, after, hsplit, ?_⟩
      refine (FirstFailure_ok_iff before ?_).1 hbefore
      intro earlier text hmem
      exact hreturns earlier text (by rw [hsplit]; exact List.mem_append_left _ hmem)
  · intro hhandler hsingle
    obtain ⟨status, after, hgo, hhalted, hlog2⟩ :=
      MessageValidator.Validate.go_traverses schema constraints handler hhandler fuel message
        (ValidationState.start handler_state) hfuel rfl hsingle
    have hsame : result = (some status, after) := by
      have h := hresult.symm.trans hgo
      injection h
    subst hsame
    simp only [ValidationState.start, List.nil_append] at hlog2
    refine ⟨⟨status, rfl⟩, hhalted, hlog2, ?_⟩
    intro entry hentry hfalse
    simp only [hlog2]
    exact List.mem_flatMap.2 ⟨entry, hentry,
      TraversalEntry.events_of_false schema entry
        (Traversal_parent constraints fuel message entry hentry) hfalse⟩

theorem MessageValidator_returns_first_failure_witness :
    MessageDepth (Patient.ofNames [HumanName.ofFamily "Smith"]) < 3 ∧
    ∃ result,
      MessageValidator.Validate ExampleSchema
        (fun descriptor => .ok ((fun _ =>
          { message_expressions_ := [FalseConstraint, TrueConstraint],
            field_expressions_ := [({ name := "name", json_name := "name" }, FalseConstraint)],
            nested_with_constraints_ := [] }) descriptor)) 3
        (Patient.ofNames [HumanName.ofFamily "Smith"]) CountingHandler 0 = some result ∧
      (∀ status, result.1 = some status → status = FirstFailure result.2.log) ∧
      result.2.log =
        (Traversal
          (fun _ =>
            { message_expressions_ := [FalseConstraint, TrueConstraint],
              field_expressions_ :=
                [({ name := "name", json_name := "name" }, FalseConstraint)],
              nested_with_constraints_ := [] })
          3 (Patient.ofNames [HumanName.ofFamily "Smith"])).flatMap
          (TraversalEntry.events ExampleSchema) :=
  ⟨by decide,
    (MessageValidator_returns_first_failure ExampleSchema
      (fun _ =>
        { message_expressions_ := [FalseConstraint, TrueConstraint],
          field_expressions_ := [({ name := "name", json_name := "name" }, FalseConstraint)],
          nested_with_constraints_ := [] })
      CountingHandler 0 3 (Patient.ofNames [HumanName.ofFamily "Smith"]) (by decide)).imp
      fun _ h =>
        ⟨h.1, fun status hstatus => (h.2.1 status hstatus).1,
          (h.2.2 (fun _ _ _ _ => rfl) (by
            intro entry hentry expr_result hresult
            have htraversal : Traversal
                (fun _ =>
                  { message_expressions_ := [FalseConstraint, TrueConstraint],
                    field_expressions_ :=
                      [({ name := "name", json_name := "name" }, FalseConstraint)],
                    nested_with_constraints_ := [] })
                3 (Patient.ofNames [HumanName.ofFamily "Smith"]) =
                [{ parent := Patient.ofNames [HumanName.ofFamily "Smith"], field := none,
                   message := Patient.ofNames [HumanName.ofFamily "Smith"],
                   expression := FalseConstraint },
                 { parent := Patient.ofNames [HumanName.ofFamily "Smith"], field := none,
                   message := Patient.ofNames [HumanName.ofFamily "Smith"],
                   expression := TrueConstraint },
                 { parent := Patient.ofNames [HumanName.ofFamily "Smith"],
                   field := some { name := "name", json_name := "name" },
                   message := HumanName.ofFamily "Smith",
                   expression := FalseConstraint }] := rfl
            rw [htraversal] at hentry
            simp only [List.mem_cons, List.not_mem_nil, or_false] at hentry
            rcases hentry with rfl | rfl | rfl
            · have hvalue : Except.ok [Message.Boolean false] = Except.ok expr_result :=
                hresult
              injection hvalue with hvalue
              rw [← hvalue]
              rfl
            · have hvalue : Except.ok [Message.Boolean true] = Except.ok expr_result :=
                hresult
              injection hvalue with hvalue
              rw [← hvalue]
              rfl
            · have hvalue : Except.ok [Message.Boolean false] = Except.ok expr_result :=
                hresult
              injection hvalue with hvalue
              rw [← hvalue]
              rfl)).2.2.1⟩⟩

/-! ## Constraints of a message type: termination -/

theorem ConstraintsCache.lookup_eq_none_iff (constraints_cache_ : ConstraintsCache)
    (full_name : String) :
    constraints_cache_.lookup full_name = none ↔ full_name ∉ constraints_cache_.names := by
  induction constraints_cache_ with
  | nil => simp [ConstraintsCache.names]
  | cons entry rest ih =>
      obtain ⟨key, constraints⟩ := entry
      rw [List.lookup_cons]
      by_cases hkey : full_name = key
      · subst hkey
        simp [ConstraintsCache.names]
      · have hbeq : (full_name == key) = false := by simpa using hkey
        rw [hbeq]
        simp only [ConstraintsCache.names, List.map_cons, List.mem_cons, not_or] at ih ⊢
        rw [ih]
        exact ⟨fun h => ⟨hkey, h⟩, fun h => h.2⟩

theorem ConstraintsCache.names_push_back (constraints_cache_ : ConstraintsCache)
    (full_name : String) (field : FieldDescriptor) :
    (constraints_cache_.push_back full_name field).names = constraints_cache_.names := by
  unfold ConstraintsCache.push_back ConstraintsCache.names
  rw [List.map_map]
  apply List.map_congr_left
  intro entry _
  simp only [Function.comp]
  split <;> rfl

theorem ConstraintsCache.missing_mono (types : List Descriptor)
    (constraints_cache_ after : ConstraintsCache)
    (hnames : constraints_cache_.names ⊆ after.names) :
    after.missing types ≤ constraints_cache_.missing types := by
  unfold ConstraintsCache.missing
  apply Finset.card_le_card
  intro full_name hmem
  simp only [Finset.mem_filter] at hmem ⊢
  exact ⟨hmem.1, fun h => hmem.2 (hnames h)⟩

theorem ConstraintsCache.missing_cons (types : List Descriptor)
    (constraints_cache_ : ConstraintsCache) (descriptor : Descriptor)
    (constraints : MessageConstraints) (hmem : descriptor ∈ types)
    (hnew : descriptor.full_name ∉ constraints_cache_.names) :
    ConstraintsCache.missing types ((descriptor.full_name, constraints) :: constraints_cache_) <
      constraints_cache_.missing types := by
  unfold ConstraintsCache.missing
  apply Finset.card_lt_card
  rw [Finset.ssubset_iff_of_subset]
  · refine ⟨descriptor.full_name, ?_, ?_⟩
    · simp only [Finset.mem_filter, List.mem_toFinset, List.mem_map]
      exact ⟨⟨descriptor, hmem, rfl⟩, hnew⟩
    · simp [ConstraintsCache.names]
  · intro full_name h
    simp only [Finset.mem_filter, ConstraintsCache.names, List.map_cons, List.mem_cons,
      not_or] at h ⊢
    exact ⟨h.1, h.2.2⟩

theorem MessageValidator.ConstraintsFor.nested_with_constraints_ends (schema : Schema)
    (types : List Descriptor) (fuel : Nat)
    (ConstraintsFor : Descriptor → ConstraintsCache →
      Option (StatusOr String × ConstraintsCache))
    (hConstraintsFor : ∀ field_type ∈ types, ∀ constraints_cache_ : ConstraintsCache,
      constraints_cache_.missing types < fuel →
      ∃ after, ConstraintsFor field_type constraints_cache_ =
          some (.ok field_type.full_name, after) ∧
        constraints_cache_.names ⊆ after.names ∧ field_type.full_name ∈ after.names ∧
        (constraints_cache_.names.Nodup → after.names.Nodup))
    (full_name : String) (fields : List FieldDescriptor)
    (hfields : ∀ field ∈ fields, ∀ field_type,
      schema.message_type field = some field_type → field_type ∈ types)
    (constraints_cache_ : ConstraintsCache)
    (hfuel : constraints_cache_.missing types < fuel) :
    ∃ after,
      MessageValidator.ConstraintsFor.nested_with_constraints schema ConstraintsFor full_name
        fields constraints_cache_ = some (.ok full_name, after) ∧
      constraints_cache_.names ⊆ after.names ∧
      (constraints_cache_.names.Nodup → after.names.Nodup) := by
  induction fields generalizing constraints_cache_ with
  | nil => exact ⟨constraints_cache_, rfl, fun _ h => h, fun h => h⟩
  | cons field rest ih =>
      have hrest := ih (fun field hmem => hfields field (List.mem_cons_of_mem _ hmem))
      rw [MessageValidator.ConstraintsFor.nested_with_constraints]
      cases htype : schema.message_type field with
      | none => exact hrest constraints_cache_ hfuel
      | some field_type =>
          obtain ⟨middle, hcall, hnames, hcached, hnodup⟩ :=
            hConstraintsFor field_type
              (hfields field (List.mem_cons_self _ _) field_type htype) constraints_cache_
              hfuel
          have hmiddle : middle.missing types < fuel :=
            Nat.lt_of_le_of_lt (ConstraintsCache.missing_mono types _ _ hnames) hfuel
          simp only [hcall]
          cases hlookup : middle.lookup field_type.full_name with
          | none =>
              exact absurd hcached
                ((ConstraintsCache.lookup_eq_none_iff _ _).1 hlookup)
          | some child_constraints =>
              simp only
              split
              · obtain ⟨after, hloop, hnames2, hnodup2⟩ :=
                  hrest (middle.push_back full_name field)
                    (by
                      unfold ConstraintsCache.missing at hmiddle ⊢
                      rw [ConstraintsCache.names_push_back]
                      exact hmiddle)
                rw [ConstraintsCache.names_push_back] at hnames2 hnodup2
                exact ⟨after, hloop, fun _ h => hnames2 (hnames h),
                  fun h => hnodup2 (hnodup h)⟩
              · obtain ⟨after, hloop, hnames2, hnodup2⟩ := hrest middle hmiddle
                exact ⟨after, hloop, fun _ h => hnames2 (hnames h),
                  fun h => hnodup2 (hnodup h)⟩

theorem MessageValidator.ConstraintsFor_ends (schema : Schema) (parse : String → Visit)
    (types : List Descriptor) (hclosed : schema.Closed types) (fuel : Nat)
    (descriptor : Descriptor) (hmem : descriptor ∈ types)
    (constraints_cache_ : ConstraintsCache)
    (hfuel : constraints_cache_.missing types < fuel) :
    ∃ after,
      MessageValidator.ConstraintsFor schema parse fuel descriptor constraints_cache_ =
        some (.ok descriptor.full_name, after) ∧
      constraints_cache_.names ⊆ after.names ∧ descriptor.full_name ∈ after.names ∧
      (constraints_cache_.names.Nodup → after.names.Nodup) ∧
      (descriptor.full_name ∉ constraints_cache_.names →
        after.missing types < constraints_cache_.missing types) := by
  induction fuel generalizing descriptor constraints_cache_ with
  | zero => cases hfuel
  | succ fuel ih =>
      rw [MessageValidator.ConstraintsFor]
      cases hlookup : constraints_cache_.lookup descriptor.full_name with
      | some cached =>
          have hcached : descriptor.full_name ∈ constraints_cache_.names := by
            by_contra h
            rw [(ConstraintsCache.lookup_eq_none_iff _ _).2 h] at hlookup
            cases hlookup
          exact ⟨constraints_cache_, rfl, fun _ h => h, hcached, fun h => h,
            fun h => absurd hcached h⟩
      | none =>
          have hnew := (ConstraintsCache.lookup_eq_none_iff _ _).1 hlookup
          simp only
          have hbuilt : ∀ constraints : MessageConstraints,
              ∃ after,
                MessageValidator.ConstraintsFor.nested_with_constraints schema
                  (MessageValidator.ConstraintsFor schema parse fuel) descriptor.full_name
                  descriptor.fields ((descriptor.full_name, constraints) :: constraints_cache_) =
                  some (.ok descriptor.full_name, after) ∧
                constraints_cache_.names ⊆ after.names ∧ descriptor.full_name ∈ after.names ∧
                (constraints_cache_.names.Nodup → after.names.Nodup) ∧
                (descriptor.full_name ∉ constraints_cache_.names →
                  after.missing types < constraints_cache_.missing types) := by
            intro constraints
            have hless := ConstraintsCache.missing_cons types constraints_cache_ descriptor
              constraints hmem hnew
            obtain ⟨after, hloop, hnames, hnodup⟩ :=
              MessageValidator.ConstraintsFor.nested_with_constraints_ends schema types fuel
                (MessageValidator.ConstraintsFor schema parse fuel)
                (fun field_type htype cache hcache =>
                  let ⟨after, hcall, hnames, hcached, hnodup, _⟩ :=
                    ih field_type htype cache hcache
                  ⟨after, hcall, hnames, hcached, hnodup⟩)
                descriptor.full_name descriptor.fields
                (fun field hfield field_type htype => hclosed descriptor hmem field hfield
                  field_type htype)
                ((descriptor.full_name, constraints) :: constraints_cache_)
                (Nat.lt_of_lt_of_le hless (Nat.le_of_lt_succ hfuel))
            refine ⟨after, hloop, fun _ h => hnames (List.mem_cons_of_mem _ h),
              hnames (List.mem_cons_self _ _), ?_, ?_⟩
            · intro h
              exact hnodup (List.nodup_cons.2 ⟨hnew, h⟩)
            · intro _
              exact Nat.lt_of_le_of_lt (ConstraintsCache.missing_mono types _ _ hnames) hless
          exact hbuilt _

/-- C36: for a finite list of types that holds the type of every field of its
types, cycles included, `ConstraintsFor` of one of the types ends when the fuel
is above the number of the types that the cache does not hold: it returns the
entry of the type, without a failure.  The cache keeps its entries and gains
entries only, no name is entered twice (so the constraints of a type are built
at most once), and a call for a type that the cache does not hold leaves
strictly fewer types that it does not hold. -/
theorem MessageValidator_ConstraintsFor_terminates (schema : Schema)
    (parse : String → Visit) (types : List Descriptor) (hclosed : schema.Closed types)
    (descriptor : Descriptor) (hmem : descriptor ∈ types)
    (constraints_cache_ : ConstraintsCache) (fuel : Nat)
    (hfuel : constraints_cache_.missing types < fuel) :
    ∃ after,
      MessageValidator.ConstraintsFor schema parse fuel descriptor constraints_cache_ =
        some (.ok descriptor.full_name, after) ∧
      constraints_cache_.names ⊆ after.names ∧ descriptor.full_name ∈ after.names ∧
      (constraints_cache_.names.Nodup → after.names.Nodup) ∧
      (descriptor.full_name ∉ constraints_cache_.names →
        after.missing types < constraints_cache_.missing types) ∧
      (descriptor.full_name ∈ constraints_cache_.names → after = constraints_cache_) := by
  obtain ⟨after, hcall, hnames, hcached, hnodup, hless⟩ :=
    MessageValidator.ConstraintsFor_ends schema parse types hclosed fuel descriptor hmem
      constraints_cache_ hfuel
  refine ⟨after, hcall, hnames, hcached, hnodup, hless, ?_⟩
  intro hold
  cases fuel with
  | zero => cases hfuel
  | succ fuel =>
      rw [MessageValidator.ConstraintsFor] at hcall
      cases hlookup : constraints_cache_.lookup descriptor.full_name with
      | none => exact absurd hold ((ConstraintsCache.lookup_eq_none_iff _ _).1 hlookup)
      | some cached =>
          simp only [hlookup] at hcall
          injection hcall with hcall
          injection hcall with _ hcall
          exact hcall.symm

theorem SectionSchema_Closed :
    SectionSchema.Closed [Section.descriptor, Reference.descriptor] := by
  intro descriptor hdescriptor field hfield field_type htype
  simp only [List.mem_cons, List.not_mem_nil, or_false] at hdescriptor
  rcases hdescriptor with rfl | rfl
  · simp only [Section.descriptor, List.mem_cons, List.not_mem_nil, or_false] at hfield
    rcases hfield with rfl | rfl
    · have h : some Section.descriptor = some field_type := htype
      injection h with h
      rw [← h]
      exact List.mem_cons_self _ _
    · have h : some Reference.descriptor = some field_type := htype
      injection h with h
      rw [← h]
      exact List.mem_cons_of_mem _ (List.mem_cons_self _ _)
  · simp [Reference.descriptor] at hfield

theorem MessageValidator_ConstraintsFor_terminates_witness :
    SectionSchema.Closed [Section.descriptor, Reference.descriptor] ∧
    Section.descriptor ∈ [Section.descriptor, Reference.descriptor] ∧
    ConstraintsCache.missing [Section.descriptor, Reference.descriptor] [] < 3 ∧
    ∃ after,
      MessageValidator.ConstraintsFor SectionSchema ExampleParse 3 Section.descriptor [] =
        some (.ok Section.descriptor.full_name, after) ∧
      ConstraintsCache.names [] ⊆ after.names ∧ Section.descriptor.full_name ∈ after.names ∧
      ((ConstraintsCache.names []).Nodup → after.names.Nodup) ∧
      (Section.descriptor.full_name ∉ ConstraintsCache.names [] →
        after.missing [Section.descriptor, Reference.descriptor] <
          ConstraintsCache.missing [Section.descriptor, Reference.descriptor] []) ∧
      (Section.descriptor.full_name ∈ ConstraintsCache.names [] → after = []) :=
  ⟨SectionSchema_Closed, List.mem_cons_self _ _, by decide,
    MessageValidator_ConstraintsFor_terminates SectionSchema ExampleParse
      [Section.descriptor, Reference.descriptor] SectionSchema_Closed Section.descriptor
      (List.mem_cons_self _ _) [] 3 (by decide)⟩

/-! ## Constraints of a message type: cycles -/

/-- C35: `ConstraintsFor` does not list a field whose type has a constraint
through a cycle.  A section holds sections (field `section`) and then references
(field `entry`), and a reference has a message-level constraint that compiles.
`ConstraintsFor` of the section lists `entry` only: `section` is tested when the
entry of its type, the section itself, is still the empty placeholder.  With
the fields in the other order both are listed.  The validation of a section
that holds a section that holds a reference then returns OK without an
evaluation, while the validation of the inner section reports the violation of
the reference. -/
theorem ConstraintsFor_omits_field_of_cycle :
    ∃ constraints_cache_,
      MessageValidator.ConstraintsFor SectionSchema ExampleParse 3 Section.descriptor [] =
        some (.ok "example.Section", constraints_cache_) ∧
      (constraints_cache_.constraints Section.descriptor).nested_with_constraints_ =
        [{ name := "entry", json_name := "entry" }] ∧
      ((constraints_cache_.constraints Reference.descriptor).message_expressions_.map
        fun expression => expression.fhir_path_) = ["false"] ∧
      SectionSchema.message_type { name := "section", json_name := "section" } =
        some Section.descriptor ∧
      (MessageValidator.ConstraintsFor SectionSchema ExampleParse 3 Section.reordered []).map
          (fun returned =>
            (returned.2.constraints Section.reordered).nested_with_constraints_) =
        some [{ name := "entry", json_name := "entry" },
          { name := "section", json_name := "section" }] ∧
      MessageValidator.Validate SectionSchema
          (fun descriptor => .ok (constraints_cache_.constraints descriptor)) 4
          Section.ofSection CountingHandler 0 =
        some (some (.ok ()), { halt_validation := false, handler_state := 0, log := [] }) ∧
      MessageValidator.Validate SectionSchema
          (fun descriptor => .ok (constraints_cache_.constraints descriptor)) 4
          Section.ofReference CountingHandler 0 =
        some (some (.error (.FailedPrecondition
            "fhirpath-constraint-violation-Reference: \"false\"")),
          { halt_validation := false, handler_state := 1,
            log := [.constraint (.composite Reference.descriptor []) "false"
                (some (.error (.FailedPrecondition
                  "fhirpath-constraint-violation-Reference: \"false\""))),
              .handler (.composite Reference.descriptor []) none "false" false] }) :=
  ⟨_, rfl, rfl, rfl, rfl, rfl, rfl, rfl⟩

end fhir_path
